import Mathlib

/-!
# Morse-HID: the Morse timing / decoding / encoding core

A shallow embedding of `morse.c`, `morse_lut.c` and the constants of `morse.h`,
`morse_lut.h` and `init.h` (directory `usb_dev_CWKBD`).

Conventions of the embedding

* C unsigned integers are natural numbers; every assignment that can leave the
  range of its C type is written with an explicit `% 2^w`.
* `char` is the 8-bit unsigned character of the ARM tool chain the firmware is
  built with; character codes are natural numbers below 256.
* The file-scope registers of `morse.c` are the fields of one record, `State`,
  under their C names.  Arrays are functions from the index to the element.
* Loops are recursive functions over an iteration budget; running out of the
  budget yields `none`, and the theorems show that the budget used is enough.
-/

namespace Morse

/-! ## Constants of `morse.h`, `morse_lut.h`, `init.h` -/

/-- Word space definition (`SPACE_ELEM`). -/
def SPACE_ELEM : Nat := 0xfa5f
/-- Length code paired with the word-space pattern (`SPACE_COUNT`). -/
def SPACE_COUNT : Nat := 0xfe
/-- Max number of elements per character + 1 (`MAX_SPACE_COUNT`). -/
def MAX_SPACE_COUNT : Nat := 17
/-- CW buffer length (`CW_BUFF_END`). -/
def CW_BUFF_END : Nat := 40
/-- CW 70% index (`CW_BUFF_70`). -/
def CW_BUFF_70 : Nat := CW_BUFF_END * 70 / 100
/-- CW text buffer length (`CWT_BUFF_END`). -/
def CWT_BUFF_END : Nat := 128
/-- CW text 70% index (`CWT_BUFF_70`). -/
def CWT_BUFF_70 : Nat := CWT_BUFF_END * 70 / 100

/-- CW buffer overrun error bit of `cw_stat`. -/
def CW_OR : Nat := 0x80
/-- CW buffer fifo (70%) full bit. -/
def CW_FF : Nat := 0x40
/-- Word space boundary met bit. -/
def CW_WF : Nat := 0x20
/-- Auto space toggle command encountered bit. -/
def CW_STC : Nat := 0x10
/-- CW auto space mode flag. -/
def CW_ST : Nat := 0x08
/-- CW got status. -/
def CW_GS : Nat := 0x04
/-- CW request status. -/
def CW_RS : Nat := 0x02
/-- CW auto space beep. -/
def CW_STB : Nat := 0x01

/-- Port B bit of the DAH paddle (`NDAH`, init.h). -/
def NDAH : Nat := 0x01
/-- Port B bit of the DIT paddle (`NDIT`, init.h). -/
def NDIT : Nat := 0x02
/-- Port D bit of the paddle / straight-key strap (`PADL_KEY`, init.h). -/
def PADL_KEY : Nat := 0x04

/-- Straight-key state: idle. -/
def P_IDLE : Nat := 0
/-- Straight-key state: key up. -/
def P_KEYUP : Nat := 0x40
/-- Straight-key state: key up, letter space reached. -/
def P_KEYUP_LETTER : Nat := 0x20
/-- Straight-key state: key down. -/
def P_KEYDN : Nat := NDIT
/-- Tag bit of a mark in the timing buffer (`KEY_HIBIT`). -/
def KEY_HIBIT : Nat := 0x80000000
/-- Mask of the duration bits of a timing sample (`KEY_HIBIT_M`). -/
def KEY_HIBIT_M : Nat := 0x7fffffff

/-- DDS sample rate. -/
def FSAMP : Nat := 10000
/-- Debounce delay in sample ticks (`DEBOUNCE_DLY`). -/
def DEBOUNCE_DLY : Nat := 200
/-- DIT time formula constant: DIT(ms) = 1200 / WPM. -/
def WPM_CONST : Nat := 1200
/-- Power-on code speed. -/
def WPM : Nat := 20
/-- Power-on dit time. -/
def DIT_TIME : Nat := (FSAMP * WPM_CONST) / (1000 * WPM)
/-- Power-on dah time. -/
def DAH_TIME : Nat := DIT_TIME * 3
/-- Initial straight key speed. -/
def WPM_SK_INIT : Nat := 10
/-- Longest valid straight-key dit. -/
def DIT_SK_MAX : Nat := (FSAMP * WPM_CONST) / (1000 * 3)
/-- Shortest valid straight-key dit. -/
def DIT_SK_MIN : Nat := (FSAMP * WPM_CONST) / (1000 * 55)
/-- Longest valid straight-key dah. -/
def DAH_SK_MAX : Nat := 3 * (FSAMP * WPM_CONST) / (1000 * 3)
/-- Shortest valid straight-key dah. -/
def DAH_SK_MIN : Nat := 3 * (FSAMP * WPM_CONST) / (1000 * 55)
/-- Power-on straight-key dit average. -/
def DIT_SK : Nat := (FSAMP * WPM_CONST) / (1000 * WPM_SK_INIT)
/-- Letter space in dits (straight key). -/
def LETTER_SK : Nat := 3
/-- Word space in dits (straight key). -/
def WORD_SK : Nat := 14
/-- Min WPM for spacing. -/
def WPM_MIN_SK : Nat := 10
/-- Max WPM for spacing. -/
def WPM_MAX_SK : Nat := 20
/-- Dit time at the minimum spacing speed. -/
def DIT_MIN : Nat := (FSAMP * WPM_CONST) / (1000 * WPM_MIN_SK)
/-- Dit time at the maximum spacing speed. -/
def DIT_MAX : Nat := (FSAMP * WPM_CONST) / (1000 * WPM_MAX_SK)
/-- Letter space at the minimum spacing speed. -/
def LETTER_MIN : Nat := LETTER_SK * DIT_MIN
/-- Letter space at the maximum spacing speed. -/
def LETTER_MAX : Nat := LETTER_SK * DIT_MAX
/-- Word space at the minimum spacing speed. -/
def WORD_MIN : Nat := WORD_SK * DIT_MIN
/-- Word space at the maximum spacing speed. -/
def WORD_MAX : Nat := WORD_SK * DIT_MAX
/-- Dit time of the reply (aux) tone output, 25 WPM. -/
def DITB_TIME : Nat := (FSAMP * WPM_CONST) / (1000 * 25)
/-- Dah time of the reply tone output. -/
def DAHB_TIME : Nat := DITB_TIME * 3
/-- Word space time of the reply tone output. -/
def WSPACEB_TIME : Nat := DITB_TIME * 7
/-- Number of dits of silence that delimit a character. -/
def LETTER_SPACE : Nat := 2
/-- Number of dits of silence that delimit a word. -/
def WORD_SPACE : Nat := 14
/-- Number of bit shifts of the rise/fall ramp. -/
def RAMP_MAX : Nat := 6
/-- Ramp time (attack) in ms. -/
def RAMP_TIME : Nat := 5
/-- Number of sample cycles for each amplitude shift. -/
def RAMP_RATE1 : Nat := (FSAMP * RAMP_TIME) / (RAMP_MAX * 1000)
/-- Correction to account for rise/fall time. -/
def BASE_WEIGHT : Nat := (FSAMP * RAMP_TIME) / 1000
/-- Bus clock (`SYSCLK`, external crystal build of init.h). -/
def SYSCLK : Nat := 50000000
/-- Mid-range PWM compare value (`DDS_MID_DAC`). -/
def DDS_MID_DAC : Nat := SYSCLK / (2 * FSAMP * (0 + 1))
/-- Phase mask. -/
def PHMASK : Nat := 0x1fff
/-- Number of effective slots in the sine look-up table. -/
def N_SIN : Nat := 8192
/-- Bits to downshift the phase accumulator. -/
def RSHIFT : Nat := 2
/-- Two to the power `RSHIFT`. -/
def RADIX : Nat := 4
/-- Fixed 600 Hz tone. -/
def TONE_600 : Nat := (600 * (RADIX * N_SIN) / FSAMP) % 65536
/-- Fixed 800 Hz tone. -/
def TONE_800 : Nat := (800 * (RADIX * N_SIN) / FSAMP) % 65536
/-- Fixed 1000 Hz tone. -/
def TONE_1000 : Nat := (1000 * (RADIX * N_SIN) / FSAMP) % 65536

/-- SK/PDL override: off. -/
def FORCE_OFF : Nat := 0x00
/-- SK/PDL override: paddle. -/
def FORCE_PDL : Nat := 0x81
/-- SK/PDL override: straight key. -/
def FORCE_SKS : Nat := 0x80

/-- Auto-space mode toggle, element pattern. -/
def CWSTT_E : Nat := 0x0052
/-- Auto-space mode toggle, element count. -/
def CWSTT_L : Nat := 7
/-- Character code of the auto-space toggle pro-sign. -/
def CWSTT : Nat := 128
/-- Explicit space character `(' ' | 0x80)`. -/
def CWSPC : Nat := 32 ||| 0x80

/-- Timer 3 interrupt mask bit of the A capture event (`TIMER_IMR_CAEIM` of the
device header `tm4c123gh6pm.h`). -/
def TIMER_IMR_CAEIM : Nat := 0x00000004
/-- Timer 3 interrupt mask bit of the B capture event (`TIMER_IMR_CBEIM` of the
device header). -/
def TIMER_IMR_CBEIM : Nat := 0x00000400
/-- Mask that clears the timer A bits of `TIMER3_IMR_R`. -/
def TIMER3_IMR_AMASK : Nat := 0xffffffe0
/-- Mask that clears the timer B bits of `TIMER3_IMR_R`. -/
def TIMER3_IMR_BMASK : Nat := 0xfffff0ff

/-! ## The look-up table of `morse_lut.c` -/

/-- Character element pattern data: "1" bits are DAHs, "0" bits are DITs, the
least significant bit is the last element of the character. -/
def cw_elem_map : List Nat := [ 0xfa5f,
  0x0003,0x002B, 0x0012, 0x0047, 0x0019,0x0062, 0x0008,0x001E, 0x0016,   0x002D,  0x0005, 0x000A,  0x0033, 0x0021, 0x0015, 0x0012,
  0x001F,0x000F, 0x0007, 0x0003, 0x0001,0x0000, 0x0010,0x0018, 0x001C,   0x001E,  0x0038, 0x002A,  0x0090, 0x000D, 0x00D0, 0x000C,
  0x001A,0x0001, 0x0008, 0x000A, 0x0004,0x0000, 0x0002,0x0006, 0x0000,   0x0000,  0x0007, 0x0005,  0x0004, 0x0003, 0x0002, 0x0007,
  0x0006,0x000D, 0x0002, 0x0000, 0x0001,0x0001, 0x0001,0x0003, 0x0009,   0x000B,  0x000C, 0x005A,  0x0011, 0x005B, 0x0029, 0x000D,
  0x003C,0x002C, 0x0018, 0x0059, 0x0044,0x0001, 0x0001,0x0001, 0x0052,   0x0005,  0x00A4, 0x01B1,  0x01B4, 0x0029, 0x0154, 0x0034,
  0x0032,0x004F, 0x0047, 0x0043, 0x0041,0x0040, 0x0050,0x0058, 0x005C,   0x005E,  0x008F, 0x0087,  0x0083, 0x002A, 0x006A, 0x008A,
  0x004A,0x0000, 0x0000, 0x0000, 0x0058,0x0011, 0x000A,0x013D, 0x0012,   0x00D4,  0x006B, 0x0004,  0x0056, 0x015C, 0x000A, 0x0005,
  0x0028,0x00db ]

/-- Number of elements in each character. -/
def cw_len_map : List Nat := [ 254,
  4,     6,      6,      7,      8,     8,      5,     6,      5,        6,       6,      5,       6,      6,      6,      5,
  5,     5,      5,      5,      5,     5,      5,     5,      5,        5,       6,      6,       9,      5,      8,      6,
  6,     2,      4,      4,      3,     1,      4,     3,      4,        2,       4,      3,       4,      2,      2,      3,
  4,     4,      3,      3,      1,     3,      4,     3,      4,        4,       4,      7,       9,      7,      6,      6,
  7,     6,      6,      7,      7,     7,      8,     9,      7,        7,       8,      10,      10,     7,      9,      7,
  7,     9,      9,      9,      9,     9,      9,     9,      9,        9,       10,     10,      10,     8,      8,      9,
  8,     6,      7,      8,      7,     5,      8,     10,     8,        9,       8,      7,       7,      9,      7,      4,
  9,     9 ]

/-- ASCII code corresponding to each character entry. -/
def cw_text_map : List Nat := [ 32,
  32,33,34,35,36,37,38,39,40,41,42,43,44,45,46,47,
  48,49,50,51,52,53,54,55,56,57,58,59,60,61,62,63,
  64,65,66,67,68,69,70,71,72,73,74,75,76,77,78,79,
  80,81,82,83,84,85,86,87,88,89,90,91,92,93,94,95,
  96,123,124,125,126,  127,127,127,  128,    129,     130,     131,    132,    133,   134,    135,
  136,  137, 138, 139, 140, 141, 142, 143, 144, 145, 146,  147,  148,  149,   150,   151,
  152,    153,    153,    153,    154,  155,    156,  157,    158,      159,     160,    161,     162,    163,    164,    165,
  166,    167 ]

/-- Size of the length array, `sizeof(cw_len_map)`: one byte per entry. -/
def sizeof_len_map : Nat := cw_len_map.length

/-- Read of `cw_elem_map[i]`.  The scans of `decode_elem` and `lookup_elem`
evaluate the table one slot past its end before they test `i < s`; the value
read there (here 0) is discarded by that test. -/
def elem_at (i : Nat) : Nat := cw_elem_map.getD i 0
/-- Read of `cw_len_map[i]`. -/
def len_at (i : Nat) : Nat := cw_len_map.getD i 0
/-- Read of `cw_text_map[i]`. -/
def text_at (i : Nat) : Nat := cw_text_map.getD i 0

/-! ## Table look-ups of `morse.c` -/

/-- The `while` loop of `lookup_elem`: advance the 8-bit index `i` while
`(cw_text_map[i] != c) && (i < s)`. -/
def lookup_scan (c : Nat) : Nat → Nat → Option Nat
  | 0, _ => none
  | fuel + 1, i =>
    if text_at i ≠ c ∧ i < sizeof_len_map then lookup_scan c fuel ((i + 1) % 256)
    else some i

/-- Table lookup of an ASCII code, `lookup_elem`: the index of the character,
or `0xff` when the scan reaches the end of the table. -/
def lookup_elem (c : Nat) : Option Nat :=
  match lookup_scan c 256 0 with
  | none => none
  | some i => some (if i = sizeof_len_map then 0xff else i)

/-- The `while` loop of `decode_elem`: advance the 8-bit index `i` while
`((cw_elem_map[i] != elem) || (cw_len_map[i] != len)) && (i < s)`. -/
def decode_scan (elem len : Nat) : Nat → Nat → Option Nat
  | 0, _ => none
  | fuel + 1, i =>
    if (elem_at i ≠ elem ∨ len_at i ≠ len) ∧ i < sizeof_len_map then
      decode_scan elem len fuel ((i + 1) % 256)
    else some i

/-- Table lookup of element/len, `decode_elem`: the character of the first
matching entry; null (0) if the scan reaches the end of the table. -/
def decode_elem (elem len : Nat) : Option Nat :=
  match decode_scan elem len 256 0 with
  | none => none
  | some i => some (if i = sizeof_len_map then 0 else text_at i)

/-! ## Registers -/

/-- Write of one array element. -/
def wr (a : Nat → Nat) (i v : Nat) : Nat → Nat := fun k => if k = i then v else a k

/-- The file-scope registers of `morse.c` and the peripheral registers the
module writes.  A peripheral register holds the value last written to it. -/
structure State where
  /-- key activity timer (straight-key mode), U32 -/
  key_timer : Nat
  /-- letter register (straight-key mode), U32 -/
  letter_space : Nat
  /-- word register (straight-key mode), U32 -/
  word_space : Nat
  /-- cw timing buffer (straight-key mode), U32[CW_BUFF_END] -/
  cw_timing_buf : Nat → Nat
  /-- element buffer index, U8 -/
  cwelem_idx : Nat
  /-- letter complete flag, U8 -/
  letter_complete : Nat
  /-- averaging register, U32 -/
  dit_ave : Nat
  /-- averaging register, U32 -/
  dah_ave : Nat
  /-- averaging register, U32 -/
  spc_ave : Nat
  /-- straight key autospace detected flag, U8 -/
  aspace : Nat
  /-- user override of the paddle mode strap, U8 -/
  paddle_force_mode : Nat
  /-- non-zero: paddle mode; zero: straight key, U8 -/
  paddle_key_mode : Nat
  /-- dit timing register, U16 -/
  dit_time_reg : Nat
  /-- dit inter-element space, U16 -/
  ditie_time_reg : Nat
  /-- dah timing register, U16 -/
  dah_time_reg : Nat
  /-- signed (two's complement) weight offset of the inter-element space, U16 -/
  weight_reg : Nat
  /-- dit port pin ID, U8 -/
  dit_port : Nat
  /-- dah port pin ID, U8 -/
  dah_port : Nat
  /-- tone holding register, U16 -/
  tone_reg : Nat
  /-- tone 1 delta phase, U16 -/
  delph1 : Nat
  /-- tone 1 phase accumulator, U16 -/
  phaccum1 : Nat
  /-- tone timer, U16 -/
  tone_timer : Nat
  /-- keyer mode, the character A or B, U8 -/
  keyer_mode : Nat
  /-- first paddle edge after idle, U8 -/
  initial : Nat
  /-- CW element capture register, U16 -/
  trap_word : Nat
  /-- CW element counter, U8 -/
  trap_count : Nat
  /-- CW element register, U8 -/
  trap_bit : Nat
  /-- silence counter, U8 -/
  silence_count : Nat
  /-- paddle edge state, U8 -/
  pstate : Nat
  /-- autospace suppress, U8 -/
  suppress_s : Nat
  /-- debounce timer, U16 -/
  debounce_timer : Nat
  /-- cw element buffer, U16[CW_BUFF_END] -/
  cw_elem_buf : Nat → Nat
  /-- cw length buffer, U8[CW_BUFF_END] -/
  cw_len_buf : Nat → Nat
  /-- element buffer head, U8 -/
  cw_head : Nat
  /-- element buffer tail, U8 -/
  cw_tail : Nat
  /-- status register, U8 -/
  cw_stat : Nat
  /-- application status register, U8 -/
  cw_astat : Nat
  /-- attack tracking register, U8 -/
  rampup : Nat
  /-- decay tracking register, U8 -/
  rampdn : Nat
  /-- ramp rate counter, U8 -/
  rampcyc : Nat
  /-- ramp rate register, U8 -/
  ramp_rate_reg : Nat
  /-- last sampled key state (straight key), U8 -/
  gpiob_mem : Nat
  /-- Morse input text buffer, char[CWT_BUFF_END] -/
  cw_text_buf : Nat → Nat
  /-- text buffer head, U8 -/
  cwt_head : Nat
  /-- text buffer tail, U8 -/
  cwt_tail : Nat
  /-- text buffer status register, U8 -/
  cwt_stat : Nat
  /-- reply tone holding register, U16 -/
  tone2_reg : Nat
  /-- beep tone holding register, U16 -/
  tone3_reg : Nat
  /-- tone 2 delta phase, U16 -/
  delph2 : Nat
  /-- tone 2 phase accumulator, U16 -/
  phaccum2 : Nat
  /-- reply tone timer, U16 -/
  toneb_timer : Nat
  /-- staged output request: 1 letter, 2 word space, 4 beep, U8 -/
  initialb : Nat
  /-- non-zero while a letter is being keyed, U8 -/
  sendingb : Nat
  /-- output element register, U16 -/
  trapb_word : Nat
  /-- output element counter, U8 -/
  trapb_count : Nat
  /-- attack tracking register of the reply tone, U8 -/
  rampupb : Nat
  /-- decay tracking register of the reply tone, U8 -/
  rampdnb : Nat
  /-- ramp rate counter of the reply tone, U8 -/
  rampcycb : Nat
  /-- ramp rate register of the reply tone, U8 -/
  ramp_rateb_reg : Nat
  /-- timer 3 interrupt mask register -/
  TIMER3_IMR_R : Nat
  /-- port B interrupt mask register -/
  GPIO_PORTB_IM_R : Nat
  /-- port B interrupt clear register (last value written) -/
  GPIO_PORTB_ICR_R : Nat
  /-- timer 3A match register, the PWM DAC of tone 1 -/
  TIMER3_TAMATCHR_R : Nat
  /-- timer 3B match register, the PWM DAC of tone 2 -/
  TIMER3_TBMATCHR_R : Nat

/-- All registers zero: the contents of the file-scope objects when the
program starts (C zero-initialises them). -/
def zero_regs : State :=
  {
    key_timer := 0,
    letter_space := 0,
    word_space := 0,
    cw_timing_buf := fun _ => 0,
    cwelem_idx := 0,
    letter_complete := 0,
    dit_ave := 0,
    dah_ave := 0,
    spc_ave := 0,
    aspace := 0,
    paddle_force_mode := 0,
    paddle_key_mode := 0,
    dit_time_reg := 0,
    ditie_time_reg := 0,
    dah_time_reg := 0,
    weight_reg := 0,
    dit_port := 0,
    dah_port := 0,
    tone_reg := 0,
    delph1 := 0,
    phaccum1 := 0,
    tone_timer := 0,
    keyer_mode := 0,
    initial := 0,
    trap_word := 0,
    trap_count := 0,
    trap_bit := 0,
    silence_count := 0,
    pstate := 0,
    suppress_s := 0,
    debounce_timer := 0,
    cw_elem_buf := fun _ => 0,
    cw_len_buf := fun _ => 0,
    cw_head := 0,
    cw_tail := 0,
    cw_stat := 0,
    cw_astat := 0,
    rampup := 0,
    rampdn := 0,
    rampcyc := 0,
    ramp_rate_reg := 0,
    gpiob_mem := 0,
    cw_text_buf := fun _ => 0,
    cwt_head := 0,
    cwt_tail := 0,
    cwt_stat := 0,
    tone2_reg := 0,
    tone3_reg := 0,
    delph2 := 0,
    phaccum2 := 0,
    toneb_timer := 0,
    initialb := 0,
    sendingb := 0,
    trapb_word := 0,
    trapb_count := 0,
    rampupb := 0,
    rampdnb := 0,
    rampcycb := 0,
    ramp_rateb_reg := 0,
    TIMER3_IMR_R := 0,
    GPIO_PORTB_IM_R := 0,
    GPIO_PORTB_ICR_R := 0,
    TIMER3_TAMATCHR_R := 0,
    TIMER3_TBMATCHR_R := 0 }

/-- The port B registers the periodic interrupt reads in one tick. -/
structure PortB where
  /-- value of `GPIO_PORTB_DATA_R` (paddle inputs are active low) -/
  DATA_R : Nat
  /-- value of `GPIO_PORTB_RIS_R` (latched falling edges) -/
  RIS_R : Nat

/-! ## Timing configuration -/

/-- Sets the tone-shaping ramp rate, `set_ramp_rate`. -/
def set_ramp_rate (s : State) : State :=
  { s with ramp_rate_reg := RAMP_RATE1, ramp_rateb_reg := RAMP_RATE1 }

/-- Fault recovery init of the speed/tone/weight settings, `init_stw`. -/
def init_stw (s : State) : State :=
  let s : State := { s with weight_reg := 0 }
  let s : State := { s with dit_time_reg := DIT_TIME }
  let s : State := { s with ditie_time_reg := (DIT_TIME + BASE_WEIGHT + s.weight_reg) % 65536 }
  let s : State := { s with dah_time_reg := (3 * s.dit_time_reg) % 65536 }
  let s : State := set_ramp_rate s
  let s : State := { s with tone_reg := TONE_600 }
  { s with delph1 := 0 }

/-- Sets the side-tone frequency, `set_tone`; returns the new `tone_reg`.  The
product is formed in 32-bit unsigned arithmetic. -/
def set_tone (toneadc : Nat) (s : State) : Nat × State :=
  let i := ((toneadc * 352) / 100 + 300) % 4294967296
  let s : State := { s with tone_reg := (((i * (RADIX * N_SIN)) % 4294967296) / FSAMP) % 65536 }
  (s.tone_reg, s)

/-- Sets the Morse code speed, `set_speed`; `speedadc` = WPM - 5. -/
def set_speed (speedadc : Nat) (s : State) : State :=
  let s : State := { s with dit_time_reg := ((FSAMP * WPM_CONST) / (1000 * (speedadc + 5))) % 65536 }
  let s : State := { s with ditie_time_reg := (s.dit_time_reg + BASE_WEIGHT + s.weight_reg) % 65536 }
  let s : State := { s with dah_time_reg := (s.dit_time_reg * 3) % 65536 }
  set_ramp_rate s

/-- Sets the Morse code weight from the user adjustment, `set_weight`. -/
def set_weight (weightadc : Nat) (s : State) : State :=
  let w := if weightadc ≥ 256 then weightadc - 256 else 256 - weightadc
  let neg := if weightadc ≥ 256 then 0 else 1
  let w := ((w * s.dit_time_reg) / 1000) % 65536
  let s : State := if neg ≠ 0 then { s with weight_reg := ((0xffff - w) + 1) % 65536 }
    else { s with weight_reg := w }
  { s with ditie_time_reg := (s.dit_time_reg + BASE_WEIGHT + s.weight_reg) % 65536 }

/-! ## Text to Morse: staging a character -/

/-- The bit-reverse loop of `put_cw`, `for(j=0;j<trapb_count;j++)`: the first
argument is the number of iterations left, `word` is `trapb_word` and `jj` the
copy of the LUT pattern. -/
def put_cw_reverse : Nat → Nat → Nat → Nat
  | 0, word, _ => word
  | n + 1, word, jj =>
    let word := (word <<< 1) % 65536
    let word := if jj &&& 0x01 ≠ 0 then word ||| 0x01 else word
    put_cw_reverse n word (jj >>> 1)

/-- Outputs Morse code for the character `c`, `put_cw`: the statements between
the two busy-waits of the C function.  The first wait, `while(sendingb)`, is
the precondition `sendingb = 0` of the theorems; the second,
`while(!sendingb)`, ends with the first tick of `Timer3B_ISR`. -/
def put_cw (c : Nat) (s : State) : Option State :=
  match lookup_elem c with
  | none => none
  | some i =>
    if i ≠ 0xff then
      let s : State :=
        if c = 32 ∨ c = CWSPC then
          { s with trapb_word := 0, trapb_count := 0, initialb := 0x02 }
        else
          let s : State := { s with trapb_count := len_at i }
          let s : State := { s with trapb_word := 0 }
          let s : State := { s with trapb_word := put_cw_reverse s.trapb_count s.trapb_word (elem_at i) }
          { s with initialb := 1 }
      some { s with TIMER3_IMR_R := (s.TIMER3_IMR_R &&& TIMER3_IMR_BMASK) ||| TIMER_IMR_CBEIM }
    else some s

/-! ## DDS tone generation -/

/-- Quadrant folding of the 13-bit table phase: index into the quarter-sine
table and sign.  The four tests are those of the interrupt routines; for a
phase below 8192 exactly one applies. -/
def dds_fold (pac : Nat) : Nat × Int :=
  let r : Nat × Int := (0, 1)
  let r := if pac < 2048 then (pac, 1) else r
  let r := if pac > 2047 ∧ pac < 4096 then (4095 - pac, 1) else r
  let r := if pac > 4095 ∧ pac < 6144 then (pac - 4096, -1) else r
  let r := if pac > 6143 then (8191 - pac, -1) else r
  r

/-- Conversion of an integer to the signed 16-bit range. -/
def toS16 (x : Int) : Int := (x + 32768) % 65536 - 32768

/-- The value written to the PWM match register for table phase `pac`: table
sample, attack shift by `rampup`, decay shift by `(RAMP_MAX + 1) - rampdn`, sign,
mid-range offset.  `SINE` is the quarter-sine table of `sine_c.h`. -/
def dds_sample (SINE : Nat → Int) (pac rampup rampdn : Nat) : Nat :=
  let fold := dds_fold pac
  let pdac := toS16 (SINE fold.1)
  let pdac := if rampup ≠ 0 then toS16 (pdac >>> rampup) else pdac
  let pdac := if rampdn ≠ 0 then toS16 (pdac >>> ((RAMP_MAX + 1) - rampdn)) else pdac
  let pdac := toS16 (pdac * fold.2)
  let pdac := toS16 (pdac + DDS_MID_DAC)
  (pdac % 4294967296).toNat

/-! ## Text to Morse: the timer 3B interrupt -/

/-- The block `if(initialb){...}` of `Timer3B_ISR`. -/
def b_initial (s : State) : State :=
  let s : State := { s with sendingb := 1 }
  let s : State :=
    if s.initialb = 0x02 then
      { s with toneb_timer := WSPACEB_TIME, delph2 := 0 }
    else if s.initialb = 0x04 then
      { s with rampupb := RAMP_MAX, rampcycb := s.ramp_rateb_reg, delph2 := s.tone3_reg,
               toneb_timer := DITB_TIME / 2, sendingb := 2 }
    else
      let s : State := { s with rampupb := RAMP_MAX, rampcycb := s.ramp_rateb_reg, delph2 := s.tone2_reg }
      if s.trapb_word &&& 0x01 ≠ 0 then { s with toneb_timer := DAHB_TIME }
      else { s with toneb_timer := DITB_TIME }
  { s with initialb := 0 }

/-- The block `if(delph2){...}` of `Timer3B_ISR`: element timer, DDS, attack
and decay shaping. -/
def b_tone (SINE : Nat → Int) (s : State) : State :=
  let s : State :=
    if s.toneb_timer = 0 then
      { s with rampdnb := RAMP_MAX, rampcycb := s.ramp_rateb_reg, toneb_timer := DITB_TIME }
    else s
  let s : State := { s with phaccum2 := (s.phaccum2 + s.delph2) % 65536 }
  let pac := (s.phaccum2 >>> RSHIFT) &&& PHMASK
  let s : State := { s with TIMER3_TBMATCHR_R := dds_sample SINE pac s.rampupb s.rampdnb }
  let s : State :=
    if s.rampupb ≠ 0 then
      let s : State := { s with rampcycb := (s.rampcycb + 255) % 256 }
      if s.rampcycb = 0 then { s with rampupb := s.rampupb - 1, rampcycb := s.ramp_rateb_reg }
      else s
    else s
  if s.rampdnb ≠ 0 then
    let s : State := { s with rampcycb := (s.rampcycb + 255) % 256 }
    if s.rampcycb = 0 then
      let s : State := { s with rampdnb := s.rampdnb - 1, rampcycb := s.ramp_rateb_reg }
      if s.rampdnb = 0 then { s with delph2 := 0, toneb_timer := DITB_TIME } else s
    else s
  else s

/-- Advancing the output element register in `Timer3B_ISR`:
`trapb_word >>= 1; trapb_count--;`.  The element keyed is always the low bit of
`trapb_word`. -/
def b_shift (s : State) : State :=
  let s : State := { s with trapb_word := s.trapb_word >>> 1 }
  { s with trapb_count := s.trapb_count - 1 }

/-- The `else` block of `if(delph2)` in `Timer3B_ISR`: end of a beep, or the
space after an element. -/
def b_space (s : State) : State :=
  if s.sendingb = 0x02 then
    { s with TIMER3_IMR_R := (s.TIMER3_IMR_R &&& TIMER3_IMR_BMASK) &&& (0xffffffff ^^^ TIMER_IMR_CBEIM),
             sendingb := 0 }
  else if s.toneb_timer = 0 then
    if s.trapb_count = 0 then
      { s with TIMER3_IMR_R := (s.TIMER3_IMR_R &&& TIMER3_IMR_BMASK) &&& (0xffffffff ^^^ TIMER_IMR_CBEIM),
               sendingb := 0 }
    else
      let s := b_shift s
      if s.trapb_count ≠ 0 then
        let s : State := { s with rampupb := RAMP_MAX, rampcycb := s.ramp_rateb_reg, delph2 := s.tone2_reg }
        if s.trapb_word &&& 0x01 ≠ 0 then { s with toneb_timer := DAHB_TIME }
        else { s with toneb_timer := DITB_TIME }
      else { s with toneb_timer := DAHB_TIME }
  else s

/-- One run of the timer 3B interrupt, `Timer3B_ISR` (text to CW).  The
interrupt-flag acknowledge and the unused local `tengo` have no effect on the
registers of the module. -/
def Timer3B_ISR (SINE : Nat → Int) (s : State) : State :=
  let s : State := if s.toneb_timer ≠ 0 then { s with toneb_timer := s.toneb_timer - 1 } else s
  let s : State := if s.initialb ≠ 0 then b_initial s else s
  if s.delph2 ≠ 0 then b_tone SINE s else b_space s

/-- The timer 3B interrupt is unmasked. -/
def t3b_enabled (s : State) : Bool := s.TIMER3_IMR_R &&& TIMER_IMR_CBEIM ≠ 0

/-- The tone element keyed by a tick of `Timer3B_ISR` that takes the registers
from `s` to `t`: the tone goes from off to on, with the tone timer just loaded. -/
def keyedB (s t : State) : List Nat :=
  if s.delph2 = 0 ∧ t.delph2 ≠ 0 then [t.toneb_timer] else []

/-- Runs `Timer3B_ISR` on every sample tick for as long as the interrupt is
unmasked; yields the durations of the tone elements keyed and the final
registers, or `none` when the budget of ticks runs out first. -/
def runB (SINE : Nat → Int) : Nat → State → Option (List Nat × State)
  | 0, s => if t3b_enabled s then none else some ([], s)
  | fuel + 1, s =>
    if t3b_enabled s then
      match runB SINE fuel (Timer3B_ISR SINE s) with
      | none => none
      | some (l, t) => some (keyedB s (Timer3B_ISR SINE s) ++ l, t)
    else some ([], s)

/-! ## Morse input: the timer 3A interrupt -/

/-- The port read `~GPIO_PORTB_DATA_R & mask` (32-bit complement). -/
def inv_in (data mask : Nat) : Nat := (0xffffffff ^^^ (data % 4294967296)) &&& mask

/-- Clearing the bits `m` of an 8-bit register, `x &= ~m`. -/
def bic8 (x m : Nat) : Nat := x &&& (0xff ^^^ m)

/-- Status handshake at the end of `Timer3A_ISR`: if the application status
equals the request code, post the status and clear it (keeping `CW_ST`). -/
def status_handshake (s : State) : State :=
  if s.cw_astat = CW_RS then
    let s : State := { s with cw_astat := s.cw_stat ||| CW_GS }
    { s with cw_stat := s.cw_stat &&& CW_ST }
  else s

/-- Feeding the element ring buffer: store the pair at `cw_head`, advance and
wrap the head, flag an overrun when the head meets the tail.  This is the
sequence used for a letter and for the word-space marker in `Timer3A_ISR`. -/
def cw_push (elem len : Nat) (s : State) : State :=
  let s : State := { s with cw_elem_buf := wr s.cw_elem_buf s.cw_head elem }
  let s : State := { s with cw_len_buf := wr s.cw_len_buf s.cw_head len,
                            cw_head := (s.cw_head + 1) % 256 }
  let s : State := if s.cw_head ≥ CW_BUFF_END then { s with cw_head := 0 } else s
  if s.cw_head = s.cw_tail then { s with cw_stat := s.cw_stat ||| CW_OR } else s

/-- Attack shaping counter of tone 1: the block `if(rampup){...}`. -/
def a_rampup (s : State) : State :=
  if s.rampup ≠ 0 then
    let s : State := { s with rampcyc := (s.rampcyc + 255) % 256 }
    if s.rampcyc = 0 then { s with rampup := s.rampup - 1, rampcyc := s.ramp_rate_reg }
    else s
  else s

/-- Phase accumulator and PWM update of tone 1. -/
def a_dds (SINE : Nat → Int) (s : State) : State :=
  let s : State := { s with phaccum1 := (s.phaccum1 + s.delph1) % 65536 }
  let pac := (s.phaccum1 >>> RSHIFT) &&& PHMASK
  { s with TIMER3_TAMATCHR_R := dds_sample SINE pac s.rampup s.rampdn }

/-- Straight-key mode: the block `if(initial){...}`. -/
def sk_initial (s : State) : State :=
  if s.initial ≠ 0 then
    { s with initial := 0, key_timer := 0, pstate := P_KEYDN, rampup := RAMP_MAX, rampdn := 0,
             rampcyc := s.ramp_rate_reg, delph1 := s.tone_reg, gpiob_mem := NDIT,
             debounce_timer := DEBOUNCE_DLY }
  else s

/-- Straight-key mode: key edge capture into the timing buffer. -/
def sk_edge (hw : PortB) (s : State) : State :=
  if s.debounce_timer = 0 ∨ s.letter_complete ≠ 0 then
    let i := inv_in hw.DATA_R NDIT
    if i ≠ s.gpiob_mem then
      let s : State := { s with gpiob_mem := i, debounce_timer := DEBOUNCE_DLY }
      if i ≠ 0 then
        let s : State :=
          if s.cwelem_idx < CW_BUFF_END then
            { s with cw_timing_buf := wr s.cw_timing_buf s.cwelem_idx s.key_timer,
                     cwelem_idx := (s.cwelem_idx + 1) % 256 }
          else s
        { s with key_timer := 0, rampup := RAMP_MAX, rampcyc := s.ramp_rate_reg,
                 delph1 := s.tone_reg, pstate := P_KEYDN }
      else
        let s : State :=
          if s.cwelem_idx < CW_BUFF_END then
            { s with cw_timing_buf := wr s.cw_timing_buf s.cwelem_idx (s.key_timer ||| KEY_HIBIT),
                     cwelem_idx := (s.cwelem_idx + 1) % 256 }
          else s
        { s with key_timer := 0, rampdn := RAMP_MAX, rampcyc := s.ramp_rate_reg,
                 pstate := P_KEYUP }
    else s
  else s

/-- Straight-key mode: the block `if(delph1){...}` (tone on). -/
def sk_tone (SINE : Nat → Int) (s : State) : State :=
  let s := a_dds SINE s
  let s := a_rampup s
  if s.rampdn ≠ 0 then
    let s : State := { s with rampcyc := (s.rampcyc + 255) % 256 }
    if s.rampcyc = 0 then
      let s : State := { s with rampdn := s.rampdn - 1, rampcyc := s.ramp_rate_reg }
      if s.rampdn = 0 then { s with delph1 := 0 } else s
    else s
  else s

/-- Straight-key mode: the `else` block of `if(delph1)` (letter and word space
detection). -/
def sk_space (s : State) : State :=
  let s : State :=
    if s.key_timer ≥ s.letter_space ∧ s.pstate = P_KEYUP then
      { s with letter_complete := 1, pstate := P_KEYUP_LETTER }
    else s
  if s.key_timer > s.word_space ∧ s.pstate = P_KEYUP_LETTER then
    let s : State :=
      if s.cw_stat &&& CW_ST ≠ 0 then { s with aspace := 1, letter_complete := 1 } else s
    { s with TIMER3_IMR_R := s.TIMER3_IMR_R &&& (0xffffffff ^^^ TIMER_IMR_CAEIM),
             GPIO_PORTB_ICR_R := NDIT, GPIO_PORTB_IM_R := NDIT }
  else s

/-- Paddle mode: the block `if(initial){...}`. -/
def pdl_initial (s : State) : State :=
  if s.initial ≠ 0 then
    let s : State := { s with rampup := RAMP_MAX, rampcyc := s.ramp_rate_reg,
                              delph1 := s.tone_reg, pstate := 0 }
    let s : State :=
      if s.initial &&& s.dit_port ≠ 0 then { s with tone_timer := s.dit_time_reg, trap_bit := 0x00 }
      else { s with tone_timer := s.dah_time_reg, trap_bit := 0x01 }
    { s with initial := 0, debounce_timer := DEBOUNCE_DLY }
  else s

/-- Trapping a finished element in `Timer3A_ISR`: shift `trap_bit` into
`trap_word` and count it, `trap_word <<= 1; trap_word |= trap_bit & 0x01;
if(trap_count < MAX_SPACE_COUNT) trap_count++;`. -/
def trap_element (s : State) : State :=
  let s : State := { s with trap_word := (s.trap_word <<< 1) % 65536 }
  let s : State := { s with trap_word := s.trap_word ||| (s.trap_bit &&& 0x01) }
  if s.trap_count < MAX_SPACE_COUNT then { s with trap_count := s.trap_count + 1 } else s

/-- Paddle mode, tone on: latch the paddle state once the debounce timer has
expired, `pstate |= ~GPIO_PORTB_DATA_R & (dah_port | dit_port)`, and clear the
edge flags. -/
def pdl_latch (hw : PortB) (s : State) : State :=
  if s.debounce_timer = 0 then
    { s with pstate := (s.pstate ||| inv_in hw.DATA_R (s.dah_port ||| s.dit_port)) % 256,
             GPIO_PORTB_ICR_R := s.dah_port ||| s.dit_port }
  else s

/-- Paddle mode, tone on: when the element timer has expired, set up the decay
and the inter-element space. -/
def pdl_expire (s : State) : State :=
  if s.tone_timer = 0 then
    { s with silence_count := 0, rampdn := RAMP_MAX, rampcyc := s.ramp_rate_reg,
             tone_timer := s.ditie_time_reg }
  else s

/-- Paddle mode, tone on: decay shaping counter; at the end of the decay the
tone is turned off, the element is trapped and the dit-silence delay is set. -/
def pdl_decay (s : State) : State :=
  if s.rampdn ≠ 0 then
    let s : State := { s with rampcyc := (s.rampcyc + 255) % 256 }
    if s.rampcyc = 0 then
      let s : State := { s with rampdn := s.rampdn - 1, rampcyc := s.ramp_rate_reg }
      if s.rampdn = 0 then
        let s : State := { s with delph1 := 0 }
        let s := trap_element s
        { s with tone_timer := s.ditie_time_reg, GPIO_PORTB_ICR_R := s.dah_port ||| s.dit_port }
      else s
    else s
  else s

/-- Paddle mode: the block `if(delph1){...}` (tone on): paddle latch, element
timer, DDS, attack shaping, decay shaping and element trap, in program order. -/
def pdl_tone (SINE : Nat → Int) (hw : PortB) (s : State) : State :=
  pdl_decay (a_rampup (a_dds SINE (pdl_expire (pdl_latch hw s))))

/-- Paddle mode, word space reached (`silence_count++ >= WORD_SPACE`): put the
space marker into the buffer if auto-space is on, update the 70% flag, set the
word delimit flag, turn off the timer 3A interrupt and unmask the paddle edge
interrupt. -/
def pdl_word_space (s : State) : State :=
  let s : State := if s.cw_stat &&& CW_ST ≠ 0 then cw_push SPACE_ELEM SPACE_COUNT s else s
  let i :=
    if s.cw_head ≥ s.cw_tail then (s.cw_head - s.cw_tail) % 256
    else (CW_BUFF_END + 256 - (s.cw_tail - s.cw_head)) % 256
  let s : State := if i > CW_BUFF_70 then { s with cw_stat := s.cw_stat ||| CW_FF } else s
  let s : State := { s with cw_stat := s.cw_stat ||| CW_WF }
  let s : State :=
    { s with TIMER3_IMR_R := s.TIMER3_IMR_R &&& (0xffffffff ^^^ TIMER_IMR_CAEIM) }
  { s with GPIO_PORTB_IM_R := s.dah_port ||| s.dit_port }

/-- Paddle mode, letter space reached (`silence_count == LETTER_SPACE`): the
trapped character goes to the element buffer (or toggles auto-space), and the
trap registers are cleared. -/
def pdl_letter_space (s : State) : State :=
  let s : State :=
    if s.trap_count < MAX_SPACE_COUNT then
      if s.trap_word = CWSTT_E ∧ s.trap_count = CWSTT_L then
        let s : State :=
          if s.cw_stat &&& CW_ST ≠ 0 then { s with cw_stat := bic8 s.cw_stat CW_ST }
          else { s with cw_stat := s.cw_stat ||| CW_ST }
        { s with cw_stat := s.cw_stat ||| CW_STC }
      else
        let s := cw_push s.trap_word s.trap_count s
        let i :=
          if s.cw_head > s.cw_tail then (s.cw_head - s.cw_tail) % 256
          else (CW_BUFF_END + 256 - (s.cw_tail - s.cw_head)) % 256
        if i > CW_BUFF_70 then { s with cw_stat := s.cw_stat ||| CW_FF } else s
    else s
  { s with trap_word := 0, trap_count := 0, trap_bit := 0 }

/-- Paddle mode, no paddle active at the end of a gap (`!state_trap`): count
dit times of silence until the letter and the word space are reached. -/
def pdl_silence (s : State) : State :=
  let s : State := { s with tone_timer := s.dit_time_reg }
  let old := s.silence_count
  let s : State := { s with silence_count := (s.silence_count + 1) % 256 }
  let s : State := if old ≥ WORD_SPACE then pdl_word_space s else s
  if s.silence_count = LETTER_SPACE then pdl_letter_space s else s

/-- Paddle mode, gap expired: sample the paddles.  Mode A captures the current
paddle state; mode B carries a latched squeeze (`pstate` = both paddles) over,
and otherwise captures the current state plus any latched edge. -/
def pdl_sample (hw : PortB) (s : State) : State :=
  if s.keyer_mode = 65 then
    { s with pstate := inv_in hw.DATA_R (s.dah_port ||| s.dit_port) % 256 }
  else if s.pstate ≠ (s.dah_port ||| s.dit_port) then
    let s : State := { s with pstate := inv_in hw.DATA_R (s.dah_port ||| s.dit_port) % 256 }
    { s with pstate := (s.pstate ||| (hw.RIS_R &&& (s.dah_port ||| s.dit_port))) % 256 }
  else s

/-- Paddle mode, gap expired: `GPIO_PORTB_ICR_R = (dah_port | dit_port);`. -/
def pdl_clear_edges (s : State) : State :=
  { s with GPIO_PORTB_ICR_R := s.dah_port ||| s.dit_port }

/-- Paddle mode, gap expired, both paddles sensed: flip to the opposite
element and start its tone. -/
def pdl_start_opposite (s : State) : State :=
  let s : State := { s with trap_bit := (s.trap_bit ^^^ 0x01) % 256 }
  let s : State := { s with rampup := RAMP_MAX, rampcyc := s.ramp_rate_reg,
                            delph1 := s.tone_reg }
  if s.trap_bit ≠ 0 then { s with tone_timer := s.dah_time_reg }
  else { s with tone_timer := s.dit_time_reg }

/-- Paddle mode, gap expired: start the element the sensed paddle state asks
for, or count silence when no paddle is active.  The local `state_trap` of the
C code is 1 exactly in the three branches that start an element. -/
def pdl_start (s : State) : State :=
  if s.pstate = (s.dit_port ||| s.dah_port) then pdl_start_opposite s
  else if s.pstate = s.dit_port then
    { s with rampup := RAMP_MAX, rampcyc := s.ramp_rate_reg, delph1 := s.tone_reg,
             trap_bit := 0x00, tone_timer := s.dit_time_reg }
  else if s.pstate = s.dah_port then
    { s with rampup := RAMP_MAX, rampcyc := s.ramp_rate_reg, delph1 := s.tone_reg,
             trap_bit := 0x01, tone_timer := s.dah_time_reg }
  else pdl_silence s

/-- Paddle mode, gap expired: `pstate = 0;` (clear edge detects). -/
def pdl_clear_pstate (s : State) : State := { s with pstate := 0 }

/-- Paddle mode, the gap timer has expired with the tone off
(`if(tone_timer == 0){...}`): sample the paddles, clear the edge flags, start
the next element or count silence, clear `pstate`. -/
def pdl_gap (hw : PortB) (s : State) : State :=
  pdl_clear_pstate (pdl_start (pdl_clear_edges (pdl_sample hw s)))

/-- Paddle mode, tone off, between letter and word space
(`silence_count >= LETTER_SPACE`): trap a paddle press instantly. -/
def pdl_edge (hw : PortB) (s : State) : State :=
  if s.silence_count ≥ LETTER_SPACE then
    let s : State := { s with initial := (hw.RIS_R &&& (s.dah_port ||| s.dit_port)) % 256 }
    if s.initial ≠ 0 then
      { s with GPIO_PORTB_ICR_R := s.dah_port ||| s.dit_port, tone_timer := 1 }
    else s
  else s

/-- Paddle mode, tone off: process the gap when its timer has expired. -/
def pdl_gap_check (hw : PortB) (s : State) : State :=
  if s.tone_timer = 0 then pdl_gap hw s else s

/-- Paddle mode: the `else` block of `if(delph1)` (tone off). -/
def pdl_space (hw : PortB) (s : State) : State :=
  pdl_gap_check hw (pdl_edge hw s)

/-- Update of the tone timer at the head of the paddle-mode code:
`if(tone_timer != 0) tone_timer--;`. -/
def tone_timer_tick (s : State) : State :=
  if s.tone_timer ≠ 0 then { s with tone_timer := s.tone_timer - 1 } else s

/-- Update of the debounce timer, a count-down-from-N-and-halt:
`if(debounce_timer) debounce_timer -= 1;`. -/
def debounce_tick (s : State) : State :=
  if s.debounce_timer ≠ 0 then { s with debounce_timer := s.debounce_timer - 1 } else s

/-- Update of the key timer in straight-key mode, `key_timer += 1;`. -/
def key_timer_tick (s : State) : State :=
  { s with key_timer := (s.key_timer + 1) % 4294967296 }

/-- Straight-key mode: tone on or tone off processing, `if(delph1){...}else{...}`. -/
def sk_tick (SINE : Nat → Int) (s : State) : State :=
  if s.delph1 ≠ 0 then sk_tone SINE s else sk_space s

/-- Paddle mode: tone on or tone off processing, `if(delph1){...}else{...}`. -/
def pdl_tick (SINE : Nat → Int) (hw : PortB) (s : State) : State :=
  if s.delph1 ≠ 0 then pdl_tone SINE hw s else pdl_space hw s

/-- One run of the timer 3A interrupt, `Timer3A_ISR`: DDS tone 1 and key or
paddle capture, the statements of each mode in program order.  `hw` holds the
port B values read during the tick.  The interrupt-flag acknowledge has no
effect on the registers of the module. -/
def Timer3A_ISR (SINE : Nat → Int) (hw : PortB) (s : State) : State :=
  if s.paddle_key_mode = 0 then
    debounce_tick (key_timer_tick (status_handshake (sk_tick SINE (sk_edge hw (sk_initial s)))))
  else
    debounce_tick (status_handshake (pdl_tick SINE hw (pdl_initial (tone_timer_tick s))))

/-- Runs `Timer3A_ISR` over a sequence of port B readings, one per tick. -/
def runA (SINE : Nat → Int) : List PortB → State → State
  | [], s => s
  | hw :: rest, s => runA SINE rest (Timer3A_ISR SINE hw s)

/-! ## Morse input: from captured data to characters -/

/-- Locals of the first straight-key loop of `get_cw_asc`: start index `s`,
space count `j`, max space `ii`, space sum `aa`, min mark `mm`, max mark `xx`. -/
structure SkScan where
  /-- start of buffer index -/
  s : Nat
  /-- number of spaces summed -/
  j : Nat
  /-- max space -/
  ii : Nat
  /-- sum of spaces -/
  aa : Nat
  /-- min mark -/
  mm : Nat
  /-- max mark -/
  xx : Nat

/-- Body of the first loop (space statistics, min/max mark) at index `i`. -/
def sk_scan_body (buf : Nat → Nat) (i : Nat) (a : SkScan) : SkScan :=
  if buf i &&& KEY_HIBIT = 0 then
    if i ≠ 0 then
      let a : SkScan := if buf i > a.ii then { a with ii := buf i } else a
      { a with aa := (a.aa + buf i) % 4294967296, j := (a.j + 1) % 256 }
    else { a with s := 1 }
  else
    let jj := buf i &&& KEY_HIBIT_M
    let a : SkScan := if jj < a.mm then { a with mm := jj } else a
    if jj > a.xx then { a with xx := jj } else a

/-- The first loop, `do{...}while(++i < e)`, with 8-bit index `i`. -/
def sk_scan (buf : Nat → Nat) (e : Nat) : Nat → Nat → SkScan → Option SkScan
  | 0, _, _ => none
  | fuel + 1, i, a =>
    let a := sk_scan_body buf i a
    let i := (i + 1) % 256
    if i < e then sk_scan buf e fuel i a else some a

/-- Locals of the second loop: dit count `k`, dah count `l`, dit-mark sum `di`,
dah-mark sum `da`. -/
structure SkSum where
  /-- number of dit marks -/
  k : Nat
  /-- number of dah marks -/
  l : Nat
  /-- sum of dit marks -/
  di : Nat
  /-- sum of dah marks -/
  da : Nat

/-- Body of the second loop at index `i`: a mark is summed as a dit when
`xx / jj >= 2`, else as a dah.  A division by a zero duration is undefined in C;
it is 0 here, which is also what the Cortex-M4 divider returns. -/
def sk_sum_body (buf : Nat → Nat) (xx i : Nat) (b : SkSum) : SkSum :=
  if buf i &&& KEY_HIBIT ≠ 0 then
    let jj := buf i &&& KEY_HIBIT_M
    if xx / jj ≥ 2 then { b with di := (b.di + jj) % 4294967296, k := (b.k + 1) % 256 }
    else { b with da := (b.da + jj) % 4294967296, l := (b.l + 1) % 256 }
  else b

/-- The second loop, `do{...}while(++i < e)`. -/
def sk_sum (buf : Nat → Nat) (xx e : Nat) : Nat → Nat → SkSum → Option SkSum
  | 0, _, _ => none
  | fuel + 1, i, b =>
    let b := sk_sum_body buf xx i b
    let i := (i + 1) % 256
    if i < e then sk_sum buf xx e fuel i b else some b

/-- The third loop, `do{...}while(++i < e)`: builds the element word `ee` and the
length `j` from the marks and the threshold `ii`. -/
def sk_build (buf : Nat → Nat) (ii e : Nat) : Nat → Nat → Nat × Nat → Option (Nat × Nat)
  | 0, _, _ => none
  | fuel + 1, i, (ee, j) =>
    let r : Nat × Nat :=
      if buf i &&& KEY_HIBIT ≠ 0 then
        let ee := (ee <<< 1) % 65536
        let j := (j + 1) % 256
        if (buf i &&& KEY_HIBIT_M) ≥ ii then (ee ||| 0x01, j) else (ee, j)
      else (ee, j)
    let i := (i + 1) % 256
    if i < e then sk_build buf ii e fuel i r else some r

/-- Result of the timing analysis of a straight-key letter. -/
structure SkTiming where
  /-- registers after the update of the running averages -/
  regs : State
  /-- start of buffer index -/
  s : Nat
  /-- end of data index -/
  e : Nat
  /-- min mark -/
  mm : Nat
  /-- max mark -/
  xx : Nat
  /-- average dit mark of this letter (0 if none) -/
  di : Nat
  /-- average dah mark of this letter (0 if none) -/
  da : Nat

/-- Straight-key letter, first part of `get_cw_asc`: the two statistics loops and
the update of the running space, dit and dah averages. -/
def sk_timing (st : State) (e : Nat) : Option SkTiming :=
  match sk_scan st.cw_timing_buf e 256 0 ⟨0, 0, 0, 0, 0xffffffff, 0⟩ with
  | none => none
  | some a =>
    let e := if a.s = 1 ∧ e = 2 then 1 else e
    match sk_sum st.cw_timing_buf a.xx e 256 a.s ⟨0, 0, 0, 0⟩ with
    | none => none
    | some b =>
      let st : State :=
        if a.aa ≠ 0 then { st with spc_ave := ((st.spc_ave + a.aa / a.j) % 4294967296) / 2 }
        else st
      let di := if b.di ≠ 0 then b.di / b.k else b.di
      let st : State :=
        if b.di ≠ 0 then { st with dit_ave := ((st.dit_ave + di) % 4294967296) / 2 } else st
      let da := if b.da ≠ 0 then b.da / b.l else b.da
      let st : State :=
        if b.da ≠ 0 then { st with dah_ave := ((st.dah_ave + da) % 4294967296) / 2 } else st
      some ⟨st, a.s, e, a.mm, a.xx, di, da⟩

/-- Straight-key letter, second part: the dit/dah timing threshold `ii`, or
`none` when the mark timings are outside the valid range (the C function then
returns null at once); a mark above twice `DAH_SK_MAX` resets the averages. -/
def sk_threshold (t : SkTiming) : Option (Nat × State) :=
  if t.xx < DAH_SK_MAX ∧ t.mm > DIT_SK_MIN then
    let ii :=
      if t.e > 1 then
        if t.di = 0 then (2 * t.regs.dit_ave) % 4294967296
        else ((t.di + t.da) % 4294967296) / 2
      else (t.regs.dit_ave * 2) % 4294967296
    if t.xx > DAH_SK_MAX <<< 1 then
      let st : State := { t.regs with dit_ave := DIT_SK, dah_ave := DIT_SK * 3, spc_ave := DIT_SK }
      some ((st.dit_ave * 2) % 4294967296, st)
    else some (ii, t.regs)
  else none

/-- Straight-key letter: timing analysis, threshold, letter/word space update,
element word and decode. -/
def sk_letter (st : State) (e : Nat) : Option (Nat × State) :=
  match sk_timing st e with
  | none => none
  | some t =>
    match sk_threshold t with
    | none => some (0, t.regs)
    | some (ii, st) =>
      let st : State :=
        if ii < DIT_MAX then { st with letter_space := LETTER_MAX, word_space := WORD_MAX }
        else if ii > DIT_MIN then { st with letter_space := LETTER_MIN, word_space := WORD_MIN }
        else { st with letter_space := (LETTER_SK * ii) % 4294967296,
                       word_space := (WORD_SK * ii) % 4294967296 }
      match sk_build st.cw_timing_buf ii t.e 256 t.s (0, 0) with
      | none => none
      | some (ee, j) =>
        if ee = CWSTT_E ∧ j = CWSTT_L then
          let st : State :=
            if st.cw_stat &&& CW_ST ≠ 0 then { st with cw_stat := bic8 st.cw_stat CW_ST }
            else { st with cw_stat := st.cw_stat ||| CW_ST }
          let st : State := { st with cw_stat := st.cw_stat ||| CW_STC }
          some (CWSTT, { st with suppress_s := 1, cwelem_idx := 0, letter_complete := 0 })
        else
          match decode_elem ee j with
          | none => none
          | some c => some (c, { st with suppress_s := 0, cwelem_idx := 0, letter_complete := 0 })

/-- Paddle branch of `get_cw_asc`, the entry at the tail: nothing for a
suppressed auto-space marker; otherwise the beep flag for a space marker and
the decoded character. -/
def paddle_char (st : State) : Option (Nat × State) :=
  if st.suppress_s ≠ 0 ∧ st.cw_elem_buf st.cw_tail = SPACE_ELEM then some (0, st)
  else
    let st : State :=
      if st.cw_elem_buf st.cw_tail = SPACE_ELEM then { st with cw_stat := st.cw_stat ||| CW_STB }
      else st
    if ¬ (st.suppress_s ≠ 0 ∧ st.cw_elem_buf st.cw_tail = SPACE_ELEM) then
      match decode_elem (st.cw_elem_buf st.cw_tail) (st.cw_len_buf st.cw_tail) with
      | none => none
      | some c => some (c, st)
    else some (0, st)

/-- Paddle branch of `get_cw_asc`, after the entry is processed:
`suppress_s = 0; cw_tail += 1; if(cw_tail >= CW_BUFF_END) cw_tail = 0;`. -/
def advance_tail (st : State) : State :=
  let st : State := { st with suppress_s := 0 }
  let st : State := { st with cw_tail := (st.cw_tail + 1) % 256 }
  if st.cw_tail ≥ CW_BUFF_END then { st with cw_tail := 0 } else st

/-- Converts the captured data to ASCII, `get_cw_asc`: returns the character
(null for none) and the registers after the call. -/
def get_cw_asc (st : State) : Option (Nat × State) :=
  if st.paddle_key_mode = 0 then
    if st.suppress_s ≠ 0 ∧ st.aspace ≠ 0 then
      some (0, { st with aspace := 0, suppress_s := 0, letter_complete := 0, cwelem_idx := 0 })
    else if st.aspace ≠ 0 then
      some (32, { st with cw_stat := st.cw_stat ||| CW_STB, cwelem_idx := 0, letter_complete := 0,
                          aspace := 0, suppress_s := 0 })
    else if st.cwelem_idx < CW_BUFF_END ∧ st.cwelem_idx > 0 then sk_letter st st.cwelem_idx
    else if st.cwelem_idx ≥ CW_BUFF_END then
      some (0, { st with cwelem_idx := 0, letter_complete := 0, suppress_s := 0 })
    else some (0, st)
  else
    if st.cw_tail ≠ st.cw_head then
      match paddle_char st with
      | none => none
      | some (c, st) => some (c, advance_tail st)
    else some (0, st)

/-- Data ready status, `get_cwdr`: TRUE (1) or FALSE (0). -/
def get_cwdr (st : State) : Nat :=
  if st.paddle_key_mode = 0 then
    if st.letter_complete ≠ 0 then 1 else 0
  else
    if st.cw_head = st.cw_tail then 0 else 1

/-- Repeated calls of `get_cw_asc`: the characters returned, in order, and the
registers after the last call. -/
def drain : Nat → State → Option (List Nat × State)
  | 0, st => some ([], st)
  | n + 1, st =>
    match get_cw_asc st with
    | none => none
    | some (c, st) =>
      match drain n st with
      | none => none
      | some (cs, st) => some (c :: cs, st)

/-! ## Loop-back of the keyed output into the element trap -/

/-- The reply channel keyed into the paddle decoder, element by element: the
element the output register presents (its low bit, dah = 1) is trapped with
`trap_element` as `Timer3A_ISR` does at the end of each element, then the output
register advances with `b_shift` as `Timer3B_ISR` does after each element. -/
def cw_loopback : Nat → State → State
  | 0, s => s
  | n + 1, s =>
    let s : State := { s with trap_bit := if s.trapb_word &&& 0x01 ≠ 0 then 0x01 else 0x00 }
    let s := trap_element s
    cw_loopback n (b_shift s)

/-- The registers `(trap_word, trap_count)` of `cw_loopback` as a function of
the output word alone. -/
def loopback_regs : Nat → Nat → Nat × Nat → Nat × Nat
  | 0, _, r => r
  | n + 1, bw, (tw, tc) =>
    loopback_regs n (bw >>> 1)
      (((tw <<< 1) % 65536) ||| ((if bw &&& 0x01 ≠ 0 then 0x01 else 0x00) &&& 0x01),
       if tc < MAX_SPACE_COUNT then tc + 1 else tc)

/-- Table check used for the round trip of a character `c` through `put_cw`,
the loop-back and `decode_elem`. -/
def roundtrip_check (c : Nat) : Bool :=
  match lookup_elem c with
  | none => false
  | some i =>
    let n := len_at i
    let w := put_cw_reverse n 0 (elem_at i)
    decide (i < sizeof_len_map ∧ i ≠ 0xff ∧ text_at i = c ∧ w < 2 ^ n ∧
      (∀ k, k < n → w.testBit k = (elem_at i).testBit (n - 1 - k)) ∧
      loopback_regs n w (0, 0) = (elem_at i, n) ∧
      decode_elem (elem_at i) n = some c)

/-! ## Keying a text through the reply channel -/

/-- Tone time of the element the output word `w` presents: a dah when its low
bit is set, else a dit (the test `trapb_word & 0x01` of `Timer3B_ISR`). -/
def elemB_time (w : Nat) : Nat := if w &&& 0x01 ≠ 0 then DAHB_TIME else DITB_TIME

/-- Tone times of the elements still to be keyed after the one the word `w`
presents, when the element counter is `n`. -/
def keyed_rest : Nat → Nat → List Nat
  | 0, _ => []
  | n + 1, w => if n = 0 then [] else elemB_time (w >>> 1) :: keyed_rest n (w >>> 1)

/-- The reply channel is idle: nothing is being sent, the tone is off and fully
decayed, and the ramp rate and reply tone are set up. -/
def SendIdle (s : State) : Prop :=
  s.sendingb = 0 ∧ s.delph2 = 0 ∧ s.rampdnb = 0 ∧ s.ramp_rateb_reg = RAMP_RATE1 ∧ s.tone2_reg ≠ 0

/-- The registers that steer `Timer3B_ISR`. -/
def bview (s : State) : Nat × Nat × Nat × Nat × Nat × Nat × Nat × Nat × Nat × Nat × Nat × Nat :=
  (s.toneb_timer, s.initialb, s.sendingb, s.trapb_word, s.trapb_count, s.delph2, s.rampupb,
    s.rampdnb, s.rampcycb, s.ramp_rateb_reg, s.tone2_reg, s.TIMER3_IMR_R)

/-- Some number of ticks of `Timer3B_ISR`, all with the interrupt unmasked, take
the registers from `s` to `t` and key the elements `l`. -/
def RunB (SINE : Nat → Int) (s : State) (l : List Nat) (t : State) : Prop :=
  ∃ n, ∀ fuel, runB SINE (n + fuel) s = (runB SINE fuel t).map (fun p => (l ++ p.1, p.2))

/-- Sends a text as `put_cw_text` does, character by character: stage the
character with `put_cw`, then let `Timer3B_ISR` run until it masks itself (the
busy-waits of the next `put_cw`).  Yields the elements keyed for each
character. -/
def send_text (SINE : Nat → Int) (fuel : Nat) : List Nat → State → Option (List (List Nat) × State)
  | [], s => some ([], s)
  | c :: cs, s =>
    match put_cw c s with
    | none => none
    | some s' =>
      match runB SINE fuel s' with
      | none => none
      | some (l, t) =>
        match send_text SINE fuel cs t with
        | none => none
        | some (ls, u) => some (l :: ls, u)

/-- Tone times of the elements of table entry `i`, first element first: element
`k` is a dah when bit `len - 1 - k` of the pattern is 1, a dit when it is 0. -/
def lut_times (i : Nat) : List Nat :=
  (List.range (len_at i)).map
    (fun k => if (elem_at i).testBit (len_at i - 1 - k) then DAHB_TIME else DITB_TIME)

/-- Registers with the reply channel set up as `morse_init` leaves it: all
zero, except the ramp rates (from `set_ramp_rate`) and the reply tone. -/
def idle_regs : State :=
  { set_ramp_rate zero_regs with tone2_reg := TONE_800, tone3_reg := TONE_1000 }

/-- Table check: the elements keyed for the character at index `i` are those of
its pattern, first element first. -/
def keyed_check (i : Nat) : Bool :=
  let n := len_at i
  let w := put_cw_reverse n 0 (elem_at i)
  decide (1 ≤ n ∧ n < 256 ∧ elemB_time w :: keyed_rest n w = lut_times i)

/-! ## Paddle readings -/

/-- A port B reading with both paddles released and no paddle edge latched,
for the paddle pins `mask`: `~DATA & mask` and `RIS & mask` are both zero. -/
def Released (mask : Nat) (hw : PortB) : Prop :=
  inv_in hw.DATA_R mask = 0 ∧ hw.RIS_R &&& mask = 0

/-- The paddle pins are assigned as `morse_init` and `swap_paddle` assign them:
normal or reversed. -/
def PortsOk (s : State) : Prop :=
  (s.dit_port = NDIT ∧ s.dah_port = NDAH) ∨ (s.dit_port = NDAH ∧ s.dah_port = NDIT)

/-- The registers that decide whether `Timer3A_ISR` starts an element in
paddle mode. -/
def aview (s : State) : Nat × Nat × Nat × Nat × Nat × Nat :=
  (s.paddle_key_mode, s.pstate, s.initial, s.dit_port, s.dah_port, s.keyer_mode)

/-- The registers that show what a paddle-mode gap expiry did: element bit,
tone, attack, tone timer, latch and silence counter. -/
def eview (s : State) : Nat × Nat × Nat × Nat × Nat × Nat :=
  (s.trap_bit, s.delph1, s.rampup, s.tone_timer, s.pstate, s.silence_count)

/-- Registers of a paddle-mode decoder at the last tick of the gap after an
element that was keyed with both paddles latched: mode `mode`, normal paddle
orientation, power-on timing, tone off, gap timer at 1, previous element a dit. -/
def squeeze_regs (mode : Nat) : State :=
  { init_stw zero_regs with
    paddle_key_mode := PADL_KEY, dit_port := NDIT, dah_port := NDAH, keyer_mode := mode,
    tone_timer := 1, pstate := NDIT ||| NDAH, trap_bit := 0, trap_count := 1 }

/-- A port B reading with both paddle inputs high (released) and no edge
latched. -/
def released_hw : PortB := { DATA_R := NDIT ||| NDAH, RIS_R := 0 }

/-! ## Element ring buffer -/

/-- A sequence of pushes into the element ring buffer, with no read in
between. -/
def push_all : List (Nat × Nat) → State → State
  | [], s => s
  | (elem, len) :: rest, s => push_all rest (cw_push elem len s)

/-- Paddle-mode registers with five unread entries in the element ring buffer,
wrapped around its end: tail 38, head 3. -/
def ring_regs : State :=
  { zero_regs with paddle_key_mode := PADL_KEY, cw_head := 3, cw_tail := 38 }

/-! ## Sequences of timing configuration calls -/

/-- A call of one of the three timing configuration functions. -/
inductive StwOp where
  /-- the call `set_speed(code)` -/
  | speed (code : Nat)
  /-- the call `set_tone(code)` -/
  | tone (code : Nat)
  /-- the call `set_weight(code)` -/
  | weight (code : Nat)

/-- The registers after the call. -/
def StwOp.run : StwOp → State → State
  | StwOp.speed code, s => set_speed code s
  | StwOp.tone code, s => (set_tone code s).2
  | StwOp.weight code, s => set_weight code s

/-- The registers after a sequence of calls, first call first. -/
def stw_run : List StwOp → State → State
  | [], s => s
  | op :: rest, s => stw_run rest (op.run s)

/-! ## Straight-key letters with equal marks -/

/-- State of the first straight-key loop of `get_cw_asc` after the entries
below index `i`, in a buffer whose marks all last `M`: either no mark has been
seen and min/max are still at their initial values, or a mark has been seen and
both are `M`; the start index is 1 only when entry 0 is a space. -/
def ScanInv (buf : Nat → Nat) (M i : Nat) (a : SkScan) : Prop :=
  ((a.xx = 0 ∧ a.mm = 0xffffffff ∧ ∀ j, j < i → buf j &&& KEY_HIBIT = 0) ∨
    (a.xx = M ∧ a.mm = M ∧ ∃ j, j < i ∧ buf j &&& KEY_HIBIT ≠ 0)) ∧
  (a.s = 0 ∨ (a.s = 1 ∧ buf 0 &&& KEY_HIBIT = 0 ∧ 0 < i))

/-- Straight-key registers holding a letter of five equal marks of 700 ticks
separated by spaces of 650 ticks: key mode strap at straight key, power-on
averages. -/
def five_marks_regs : State :=
  { zero_regs with
    cwelem_idx := 9,
    cw_timing_buf := fun i => if i < 9 then (if i % 2 = 0 then 700 ||| KEY_HIBIT else 650) else 0,
    dit_ave := DIT_SK, dah_ave := DIT_SK * 3, spc_ave := DIT_SK,
    letter_space := LETTER_SK * DIT_SK, word_space := WORD_SK * DIT_SK }

/-! ## Weight of the inter-element gap -/

/-- The folded sample at table phase `p`: the sign of the quadrant times the
table entry at the folded index, as both DDS channels form it (before attack
and decay shaping). -/
def dds_folded (SINE : Nat → Int) (p : Nat) : Int :=
  (dds_fold p).2 * SINE (dds_fold p).1

/-- The number of quadrant tests of the interrupt routines that apply to the
table phase `pac`. -/
def dds_quadrants (pac : Nat) : Nat :=
  (if pac < 2048 then 1 else 0) + (if pac > 2047 ∧ pac < 4096 then 1 else 0) +
  (if pac > 4095 ∧ pac < 6144 then 1 else 0) + (if pac > 6143 then 1 else 0)

/-! ## The decoded text ring buffer -/

/-- Escape, `CWESC` of `morse.h`. -/
def CWESC : Nat := 27

/-- Gets a character from the decoded text buffer, `getchar_cw`: the character
(null if the buffer is empty) and the registers after the call. -/
def getchar_cw (s : State) : Nat × State :=
  if s.cwt_tail ≠ s.cwt_head then
    let c := s.cw_text_buf s.cwt_tail
    let s : State := { s with cwt_tail := (s.cwt_tail + 1) % 256 }
    let s : State := if s.cwt_tail ≥ CWT_BUFF_END then { s with cwt_tail := 0 } else s
    (c, s)
  else (0, s)

/-- Returns TRUE (1) if the text buffer has data, `gotchar_cw`, and the
registers after the call. -/
def gotchar_cw (s : State) : Nat × State :=
  if s.cwt_tail ≠ s.cwt_head then (1, s) else (0, s)

/-- The text buffer statements of the `default:` case of `Process_CW`, which
stores the character `c` obtained from `get_cw_asc`: write at the head, scrub
the buffer on an escape, advance and wrap the head, flag an overrun when the
head meets the tail. -/
def Process_CW_store (c : Nat) (s : State) : State :=
  let s : State := { s with cw_text_buf := wr s.cw_text_buf s.cwt_head c }
  let s : State := if c = CWESC then { s with cwt_tail := s.cwt_head } else s
  let s : State := { s with cwt_head := (s.cwt_head + 1) % 256 }
  let s : State := if s.cwt_head ≥ CWT_BUFF_END then { s with cwt_head := 0 } else s
  if s.cwt_head = s.cwt_tail then { s with cwt_stat := s.cwt_stat ||| CW_OR } else s

/-- Number of unread characters in the text ring buffer. -/
def cwt_count (s : State) : Nat :=
  (s.cwt_head + CWT_BUFF_END - s.cwt_tail) % CWT_BUFF_END

/-- The unread characters of the text ring buffer, oldest first. -/
def cwt_unread (s : State) : List Nat :=
  (List.range (cwt_count s)).map (fun k => s.cw_text_buf ((s.cwt_tail + k) % CWT_BUFF_END))

/-- Repeated reads: `n` calls of `getchar_cw`, the characters returned in
order and the registers after the last call. -/
def getchar_cw_n : Nat → State → List Nat × State
  | 0, s => ([], s)
  | n + 1, s =>
    let r := getchar_cw s
    let q := getchar_cw_n n r.2
    (r.1 :: q.1, q.2)

/-- Repeated stores of `Process_CW`, first character first. -/
def Process_CW_store_all : List Nat → State → State
  | [], s => s
  | c :: cs, s => Process_CW_store_all cs (Process_CW_store c s)

/-- Text buffer registers holding the two unread characters C and Q at the end
of the array, so that the tail wraps on the second read. -/
def text_regs : State :=
  { zero_regs with
    cw_text_buf := fun i => if i = 127 then 67 else if i = 0 then 81 else 0,
    cwt_tail := 127, cwt_head := 1 }

/-! ## Status handshake -/

/-- The registers of a `Timer3A_ISR` tick at the point where the status
handshake block is reached: all statements of the mode before
`if(cw_astat == CW_RS)` have run. -/
def handshake_entry (SINE : Nat → Int) (hw : PortB) (s : State) : State :=
  if s.paddle_key_mode = 0 then sk_tick SINE (sk_edge hw (sk_initial s))
  else pdl_tick SINE hw (pdl_initial (tone_timer_tick s))

/-- Every flag of the 8-bit status `a` other than `CW_ST` (bit 3) is still set
in `b`. -/
def StatKept (a b : Nat) : Prop :=
  ∀ k, k < 8 → k ≠ 3 → a.testBit k = true → b.testBit k = true

/-- Paddle registers at a letter space with the auto-space toggle pattern
trapped, auto-space on, an overrun flagged and a status request posted or not
(`astat`). -/
def toggle_regs (astat : Nat) : State :=
  { zero_regs with
    paddle_key_mode := PADL_KEY, dit_port := NDIT, dah_port := NDAH, keyer_mode := 66,
    dit_time_reg := DIT_TIME, ditie_time_reg := DIT_TIME + BASE_WEIGHT,
    dah_time_reg := DAH_TIME, tone_reg := TONE_600,
    ramp_rate_reg := RAMP_RATE1, trap_word := CWSTT_E, trap_count := CWSTT_L,
    silence_count := 1, tone_timer := 1, cw_stat := CW_ST ||| CW_OR, cw_astat := astat }

/-! ## Straight-key letters outside the sanity bounds -/

/-- Straight-key registers holding a letter with an over-long mark: a mark of
13000 ticks, a space of 500 ticks and a mark of 300 ticks, with the power-on
averages. -/
def reject_regs : State :=
  { zero_regs with
    cwelem_idx := 3, letter_complete := 1,
    cw_timing_buf := fun i =>
      if i = 0 then 13000 ||| KEY_HIBIT else if i = 1 then 500
      else if i = 2 then 300 ||| KEY_HIBIT else 0,
    dit_ave := DIT_SK, dah_ave := DIT_SK * 3, spc_ave := DIT_SK,
    letter_space := LETTER_SK * DIT_SK, word_space := WORD_SK * DIT_SK }

/-- Straight-key registers holding a single mark of 30000 ticks, a key-down of
three seconds, with running averages that have moved away from the power-on
defaults. -/
def long_key_regs : State :=
  { zero_regs with
    cwelem_idx := 1, letter_complete := 1,
    cw_timing_buf := fun i => if i = 0 then 30000 ||| KEY_HIBIT else 0,
    dit_ave := 700, dah_ave := 2100, spc_ave := 650,
    letter_space := LETTER_SK * 700, word_space := WORD_SK * 700 }

/-! ## The main-loop process -/

/-- Carriage return, `CW_CR` of `morse.h`. -/
def CW_CR : Nat := 0x0d
/-- Tab, `CWTAB` of `morse.h`. -/
def CWTAB : Nat := 0x09
/-- End of message, `CWEOM` of `morse.h`. -/
def CWEOM : Nat := 0x19

/-- Pseudo-ASCII codes of the add-on Morse key characters, `morse_lut.h`. -/
def MRSE_DEL : Nat := 127
/-- Shift. -/
def MRSE_SHIFT : Nat := 129
/-- Caps lock. -/
def MRSE_CAPLOCK : Nat := 130
/-- Page up. -/
def MRSE_PGUP : Nat := 131
/-- Page down. -/
def MRSE_PGDN : Nat := 132
/-- Alt. -/
def MRSE_ALT : Nat := 133
/-- Control. -/
def MRSE_CNTL : Nat := 134
/-- Left windows key. -/
def MRSE_WINL : Nat := 135
/-- Windows key. -/
def MRSE_WIN : Nat := 136
/-- Function key 1. -/
def MRSE_F1 : Nat := 137
/-- Function key 2. -/
def MRSE_F2 : Nat := 138
/-- Function key 3. -/
def MRSE_F3 : Nat := 139
/-- Function key 4. -/
def MRSE_F4 : Nat := 140
/-- Function key 5. -/
def MRSE_F5 : Nat := 141
/-- Function key 6. -/
def MRSE_F6 : Nat := 142
/-- Function key 7. -/
def MRSE_F7 : Nat := 143
/-- Function key 8. -/
def MRSE_F8 : Nat := 144
/-- Function key 9. -/
def MRSE_F9 : Nat := 145
/-- Function key 10. -/
def MRSE_F10 : Nat := 146
/-- Function key 11. -/
def MRSE_F11 : Nat := 147
/-- Function key 12. -/
def MRSE_F12 : Nat := 148
/-- Arrow up. -/
def MRSE_UP : Nat := 149
/-- Arrow down. -/
def MRSE_DN : Nat := 150
/-- Arrow left. -/
def MRSE_LEFT : Nat := 151
/-- Arrow right. -/
def MRSE_RIGHT : Nat := 152
/-- Backspace. -/
def MRSE_BACKCSP : Nat := 153
/-- Tab key. -/
def MRSE_TAB : Nat := 154
/-- Enter. -/
def MRSE_CR : Nat := 155
/-- Escape key, the end of the actionable characters. -/
def MRSE_ESC : Nat := 156
/-- CW lock, the first command character. -/
def MRSE_CWLOCK : Nat := 157
/-- Paddle reverse. -/
def MRSE_REVRS : Nat := 158
/-- Word delete. -/
def MRSE_WORDDEL : Nat := 159
/-- Word backspace. -/
def MRSE_WORDBS : Nat := 160
/-- Shift lock. -/
def MRSE_SHLK : Nat := 161
/-- Keypad swap. -/
def MRSE_KPSWP : Nat := 162
/-- Control-Z. -/
def MRSE_CTRLZ : Nat := 163
/-- Store EEPROM. -/
def MRSE_STOEE : Nat := 164
/-- User programmable pro-sign. -/
def MRSE_USRPS : Nat := 165
/-- Straight key / paddle swap pro-sign. -/
def MRSE_SKS : Nat := 166
/-- Speed display. -/
def MRSE_WPM : Nat := 167
/-- The last key code. -/
def LAST_KEY : Nat := 167

/-- The `case` labels that stand ahead of `default:` in the character switch of
`Process_CW`, in program order. -/
def suppress_cases : List Nat :=
  [MRSE_DEL, CWSTT, MRSE_SHIFT, MRSE_CAPLOCK, MRSE_PGUP, MRSE_PGDN, MRSE_ALT, MRSE_CNTL,
   MRSE_WINL, MRSE_WIN, MRSE_F1, MRSE_F2, MRSE_F3, MRSE_F4, MRSE_F5, MRSE_F6, MRSE_F7, MRSE_F8,
   MRSE_F9, MRSE_F10, MRSE_F11, MRSE_F12, MRSE_UP, MRSE_DN, MRSE_LEFT, MRSE_RIGHT,
   MRSE_BACKCSP, MRSE_TAB, MRSE_CR, MRSE_ESC, MRSE_CWLOCK, MRSE_REVRS, MRSE_WORDDEL,
   MRSE_WORDBS, MRSE_SHLK, MRSE_KPSWP, MRSE_CTRLZ]

/-- The locals and statics of `Process_CW`. -/
structure PcwLocals where
  /-- the status obtained from `get_cwstat`, U8 -/
  s : Nat
  /-- the return value, U8 -/
  rtn : Nat
  /-- static: the character to send as a reply, U8 -/
  cws_process_cmd : Nat
  /-- static: the captured status, U8 -/
  char_status : Nat

/-- The `switch(c)` of `Process_CW` on the character obtained from
`get_cw_asc`.  Null is ignored; the listed modifier and command characters set
`suppress_s` and fall through to `default:`, which stores the character in the
text buffer.  TRUE is 1. -/
def Process_CW_switch (c : Nat) (l : PcwLocals) (st : State) : PcwLocals × State :=
  if c = 0 then
    ({ l with char_status := 0, s := bic8 l.s CW_STB }, { st with suppress_s := 1 })
  else
    let r : PcwLocals × State :=
      if c ∈ suppress_cases then ({ l with s := bic8 l.s CW_STB }, { st with suppress_s := 1 })
      else (l, st)
    let l := r.1
    let l : PcwLocals := if c = CW_CR then { l with rtn := CW_CR, cws_process_cmd := CWEOM } else l
    let l : PcwLocals := if c = CWESC then { l with rtn := CW_CR } else l
    let l : PcwLocals := if c = CWTAB then { l with rtn := CW_CR } else l
    (l, Process_CW_store c r.2)

/-- The block `if(get_cwdr()){...}` of `Process_CW`: get the character, run the
switch, update the 70% flag of the text buffer. -/
def Process_CW_char (l : PcwLocals) (st : State) : Option (PcwLocals × State) :=
  if get_cwdr st ≠ 0 then
    match get_cw_asc st with
    | none => none
    | some (c, st) =>
      let r := Process_CW_switch c l st
      let st := r.2
      let i :=
        if st.cwt_head > st.cwt_tail then (st.cwt_head - st.cwt_tail) % 256
        else (CWT_BUFF_END + 256 - (st.cwt_tail - st.cwt_head)) % 256
      let st : State := if i > CWT_BUFF_70 then { st with cwt_stat := st.cwt_stat ||| CW_FF } else st
      some (r.1, st)
  else some (l, st)

/-- The block `if(!sendingb){...}` of `Process_CW`: trigger the auto-space beep,
or send the pending reply character with `put_cw`. -/
def Process_CW_send (l : PcwLocals) (st : State) : Option (PcwLocals × State) :=
  if st.sendingb = 0 then
    if l.s &&& CW_ST ≠ 0 ∧ l.s &&& CW_STB ≠ 0 then
      some (l, { st with
        trapb_word := 0, trapb_count := 0, initialb := 0x04,
        TIMER3_IMR_R := (st.TIMER3_IMR_R &&& TIMER3_IMR_BMASK) ||| TIMER_IMR_CBEIM,
        cw_stat := bic8 st.cw_stat CW_STB })
    else if l.cws_process_cmd ≠ 0 then
      match put_cw l.cws_process_cmd st with
      | none => none
      | some st => some ({ l with cws_process_cmd := 0 }, st)
    else some (l, st)
  else some (l, st)

/-- The periodic call `Process_CW(cmd)` with `cmd` other than `INIT_PROCESS`,
from the point where `get_cwstat` has returned `s`: `st` holds the registers at
that point and `l` the statics.  The keypad and LED calls ahead of it belong to
other modules and touch none of these registers.  The value returned is `rtn`. -/
def Process_CW (s : Nat) (l : PcwLocals) (st : State) : Option (PcwLocals × State) :=
  let l : PcwLocals := { l with rtn := 0, s := s }
  let l : PcwLocals := if s ≠ 0 then { l with char_status := (l.char_status ||| s) % 256 } else l
  match Process_CW_char l st with
  | none => none
  | some (l, st) => Process_CW_send l st

/-- Paddle-mode registers with one unread entry in the element buffer, the
pattern and length `(elem, len)`, and nothing else pending. -/
def one_entry_regs (elem len : Nat) : State :=
  { zero_regs with
    paddle_key_mode := PADL_KEY, dit_port := NDIT, dah_port := NDAH, keyer_mode := 66,
    cw_elem_buf := fun i => if i = 0 then elem else 0,
    cw_len_buf := fun i => if i = 0 then len else 0,
    cw_head := 1, cw_tail := 0 }

/-! ## Paddle decoder: the tick at which the gap timer expires -/

/-- A paddle-mode tick at which the gap timer expires with the tone off and no
first edge pending (`initial = 0`), the edge trap of the letter-space window
catching no edge: the block `if(tone_timer == 0){...}` of the tone-off code
runs. -/
def GapTick (hw : PortB) (s : State) : Prop :=
  s.paddle_key_mode ≠ 0 ∧ s.delph1 = 0 ∧ s.initial = 0 ∧ s.tone_timer ≤ 1 ∧
  (s.silence_count < LETTER_SPACE ∨ (hw.RIS_R &&& (s.dah_port ||| s.dit_port)) % 256 = 0)

/-- The paddle state sensed at a gap expiry: `pstate` as the sampling code
leaves it. -/
def sensed (hw : PortB) (s : State) : Nat := (pdl_sample hw s).pstate

/-- The registers at a gap expiry after the paddles are sampled and the edge
flags cleared, before an element is started or silence counted. -/
def gap_sampled (hw : PortB) (s : State) : State :=
  pdl_clear_edges (pdl_sample hw { s with tone_timer := 0 })

/-- A port B reading with the dit paddle pressed (input low) and its edge
latched, the dah paddle released. -/
def dit_pressed_hw : PortB := { DATA_R := NDAH, RIS_R := NDIT }

/-! ## Paddle decoder: letter space and word space -/

/-- The count `i` that `Timer3A_ISR` forms after a letter push to test the 70%
flag, from the head and tail of the element buffer: `cw_head - cw_tail` when the
head is above the tail, else `CW_BUFF_END - (cw_tail - cw_head)`, in 8 bits. -/
def letter_fill (head tail : Nat) : Nat :=
  if head > tail then (head - tail) % 256 else (CW_BUFF_END + 256 - (tail - head)) % 256

/-- Number of unread entries of the element ring buffer as the consumer sees
it. -/
def cw_unread (head tail : Nat) : Nat := (head + CW_BUFF_END - tail) % CW_BUFF_END

/-- Paddle-mode registers at the last tick of the gap that completes a letter:
the pattern `word` with `count` elements trapped, one dit of silence counted,
element buffer indices `head` and `tail`, status register `stat`. -/
def letter_regs (word count head tail stat : Nat) : State :=
  { init_stw zero_regs with
    paddle_key_mode := PADL_KEY, dit_port := NDIT, dah_port := NDAH, keyer_mode := 66,
    tone_timer := 1, silence_count := 1, trap_word := word, trap_count := count, trap_bit := 1,
    cw_head := head, cw_tail := tail, cw_stat := stat,
    TIMER3_IMR_R := TIMER_IMR_CAEIM }

/-- Paddle-mode registers at the last tick of the gap that completes a word:
fourteen dits of silence counted, nothing trapped, status register `stat`. -/
def word_regs (stat : Nat) : State :=
  { init_stw zero_regs with
    paddle_key_mode := PADL_KEY, dit_port := NDIT, dah_port := NDAH, keyer_mode := 66,
    tone_timer := 1, silence_count := 14, cw_head := 3, cw_tail := 3, cw_stat := stat,
    TIMER3_IMR_R := TIMER_IMR_CAEIM }

/-- Frequency in Hz assigned to tone code `t`: 300 Hz plus 3.52 Hz per count,
rounded down. -/
def tone_hz (t : Nat) : Nat := 300 + 352 * t / 100

/-- Delta-phase of a tone of `f` Hz, `f * (RADIX * N_SIN) / FSAMP` rounded down. -/
def tone_delta (f : Nat) : Nat := f * (RADIX * N_SIN) / FSAMP

/-! ## Start-up and the paddle edge interrupt -/

/-- Port C input: power-on paddle orientation, from init.h. -/
def PADDLE_ORIENT : Nat := 0x10
/-- Port C input: reset to factory defaults, from init.h. -/
def FACTORY_DEFAULT : Nat := 0x20
/-- Port B input: iambic mode B select, from init.h. -/
def IAMBIC_BSEL : Nat := 0x80
/-- Mid-range PWM compare value, from morse.h. -/
def DDSPWM_MID : Nat := DDS_MID_DAC

/-- The input port values `morse_init` reads. -/
structure InitPins where
  /-- Value of `GPIO_PORTB_DATA_R`. -/
  PORTB_DATA_R : Nat
  /-- Value of `GPIO_PORTC_DATA_R`. -/
  PORTC_DATA_R : Nat
  /-- Value of `GPIO_PORTD_AHB_DATA_R`. -/
  PORTD_DATA_R : Nat

/-- Paddle-mode strap status, `get_paddle_mode_strap`: non-zero selects paddle
mode; the force register overrides the strap. -/
def get_paddle_mode_strap (pins : InitPins) (s : State) : Nat :=
  if s.paddle_force_mode = FORCE_PDL then PADL_KEY
  else if s.paddle_force_mode = FORCE_SKS then 0
  else (pins.PORTD_DATA_R &&& PADL_KEY) % 256

/-- Sets the iambic mode from the strap, `set_iambic_mode`; returns the mode
character. -/
def set_iambic_mode (pins : InitPins) (s : State) : Nat × State :=
  let s : State :=
    if pins.PORTB_DATA_R &&& IAMBIC_BSEL ≠ 0 then { s with keyer_mode := 66 }
    else { s with keyer_mode := 65 }
  (s.keyer_mode, s)

/-- Timer 3A set-up, `timer3A_init`, as far as the registers of the module go:
the PWM compare value is set to mid-range and the timer 3A interrupt is
enabled. -/
def timer3A_init (s : State) : State :=
  let s : State := { s with TIMER3_TAMATCHR_R := DDSPWM_MID }
  { s with TIMER3_IMR_R := (s.TIMER3_IMR_R &&& TIMER3_IMR_AMASK) ||| TIMER_IMR_CAEIM }

/-- Timer 3B set-up, `timer3B_init`, as far as the registers of the module go:
the sender is idle, the PWM compare value is mid-range and the timer 3B
interrupt is masked. -/
def timer3B_init (s : State) : State :=
  let s : State := { s with sendingb := 0 }
  let s : State := { s with TIMER3_TBMATCHR_R := DDSPWM_MID }
  { s with TIMER3_IMR_R :=
      (s.TIMER3_IMR_R &&& TIMER3_IMR_BMASK) &&& (0xffffffff ^^^ TIMER_IMR_CBEIM) }

/-- Start-up of the Morse system, `morse_init`; returns the factory-reset flag.
The EEPROM writes of the factory reset touch no register of the module. -/
def morse_init (pins : InitPins) (s : State) : Nat × State :=
  let rtn := 0
  let s : State := { s with paddle_key_mode := get_paddle_mode_strap pins s }
  let s : State := { s with pstate := 0 }
  let s : State :=
    if pins.PORTC_DATA_R &&& PADDLE_ORIENT ≠ 0 then { s with dit_port := NDIT, dah_port := NDAH }
    else { s with dit_port := NDAH, dah_port := NDIT }
  let rtn := if inv_in pins.PORTC_DATA_R FACTORY_DEFAULT ≠ 0 then 1 else rtn
  let s := init_stw s
  let s : State := { s with GPIO_PORTB_IM_R := 0 }
  let s : State :=
    if s.paddle_key_mode = 0 then { s with GPIO_PORTB_ICR_R := NDIT, GPIO_PORTB_IM_R := NDIT }
    else { s with GPIO_PORTB_ICR_R := s.dah_port ||| s.dit_port,
                  GPIO_PORTB_IM_R := s.dah_port ||| s.dit_port }
  let s := (set_iambic_mode pins s).2
  let s : State := { s with rampcyc := 0, tone_timer := 0, initial := 0, trap_word := 0,
                            trap_count := 0, trap_bit := 0, silence_count := 0, cw_head := 0,
                            cw_tail := 0, cwt_head := 0, cwt_tail := 0, cw_stat := 0,
                            cwt_stat := 0, suppress_s := 0 }
  let s : State := { s with tone2_reg := TONE_800, tone3_reg := TONE_1000, delph2 := 0,
                            phaccum2 := 0, toneb_timer := 0, initialb := 0, sendingb := 0,
                            trapb_word := 0, trapb_count := 0, rampcycb := 0 }
  let s := timer3A_init s
  let s := timer3B_init s
  let s : State := { s with cwelem_idx := 0, letter_space := LETTER_SK * DIT_SK,
                            word_space := WORD_SK * DIT_SK, dit_ave := DIT_SK,
                            dah_ave := DIT_SK * 3, spc_ave := DIT_SK, letter_complete := 0,
                            aspace := 0 }
  let s : State := { s with gpiob_mem := inv_in pins.PORTB_DATA_R NDIT }
  (rtn, s)

/-- The paddle or key edge interrupt, `didah_isr`: captures the first edge,
masks itself and enables the timer 3A interrupt. -/
def didah_isr (hw : PortB) (s : State) : State :=
  if s.paddle_key_mode = 0 then
    { s with initial := NDIT, GPIO_PORTB_ICR_R := NDIT, GPIO_PORTB_IM_R := 0, gpiob_mem := 0,
             TIMER3_IMR_R := (s.TIMER3_IMR_R &&& TIMER3_IMR_AMASK) ||| TIMER_IMR_CAEIM }
  else
    let s : State := { s with initial := (hw.RIS_R &&& (s.dah_port ||| s.dit_port)) % 256 }
    { s with GPIO_PORTB_ICR_R := s.dah_port ||| s.dit_port, GPIO_PORTB_IM_R := 0,
             TIMER3_IMR_R := (s.TIMER3_IMR_R &&& TIMER3_IMR_AMASK) ||| TIMER_IMR_CAEIM }

/-- One interrupt of the capture side: a run of `Timer3A_ISR` or of
`didah_isr`, each with the port B values it reads. -/
inductive IsrEvent where
  | tick (hw : PortB)
  | edge (hw : PortB)

/-- The interrupt routine an event runs. -/
def IsrEvent.run (SINE : Nat → Int) : IsrEvent → State → State
  | IsrEvent.tick hw, s => Timer3A_ISR SINE hw s
  | IsrEvent.edge hw, s => didah_isr hw s

/-- Runs a sequence of capture interrupts in order.  Every interleaving is
covered: the interrupt masks are not consulted. -/
def isr_run (SINE : Nat → Int) : List IsrEvent → State → State
  | [], s => s
  | ev :: rest, s => isr_run SINE rest (ev.run SINE s)

/-- Paddle strap open, normal orientation, mode B, both paddles released. -/
def paddle_pins : InitPins :=
  { PORTB_DATA_R := IAMBIC_BSEL ||| NDIT ||| NDAH, PORTC_DATA_R := PADDLE_ORIENT ||| FACTORY_DEFAULT,
    PORTD_DATA_R := PADL_KEY }

/-- The registers of the element ring buffer and of the element trap. -/
def ring_view (s : State) : (Nat → Nat) × (Nat → Nat) × Nat × Nat × Nat × Nat :=
  (s.cw_elem_buf, s.cw_len_buf, s.cw_head, s.trap_word, s.trap_count, s.silence_count)

/-- Between `s` and `t` nothing was written to the element ring buffer. -/
def ring_kept (s t : State) : Prop :=
  t.cw_elem_buf = s.cw_elem_buf ∧ t.cw_len_buf = s.cw_len_buf ∧ t.cw_head = s.cw_head

/-- Between `s` and `t` the pair (`e`, `l`) was written at the head of the
element ring buffer and the head advanced. -/
def ring_pushed (s t : State) (e l : Nat) : Prop :=
  t.cw_elem_buf = wr s.cw_elem_buf s.cw_head e ∧ t.cw_len_buf = wr s.cw_len_buf s.cw_head l ∧
  t.cw_head = (s.cw_head + 1) % CW_BUFF_END

/-- What a step from `s` to `t` may do to the element ring buffer: nothing, one
word-space marker, or the trapped pair with a count below `MAX_SPACE_COUNT`. -/
def RingStep (s t : State) : Prop :=
  ring_kept s t ∨ ring_pushed s t SPACE_ELEM SPACE_COUNT ∨
  (s.trap_count < MAX_SPACE_COUNT ∧ ring_pushed s t s.trap_word s.trap_count)

/-- Ranges of the capture registers that every interrupt keeps. -/
def PdlInv (s : State) : Prop :=
  s.silence_count < 256 ∧ s.cw_head < CW_BUFF_END ∧ s.trap_count ≤ MAX_SPACE_COUNT

/-- The trap registers after a sequence of keyed elements: each element sets
`trap_bit` when it starts (0 for a dit, 1 for a dah) and is trapped by
`trap_element` when its decay ends. -/
def trap_elements : List Nat → State → State
  | [], s => s
  | b :: rest, s => trap_elements rest (trap_element { s with trap_bit := b })

/-- A sequence of element bits read as a binary numeral: the first element is
the most significant bit, the last element is bit 0. -/
def elements_value (bs : List Nat) : Nat := bs.foldl (fun w b => 2 * w + b) 0

/-- What a step from `s` to `t` may do to the trap registers: nothing, clear
them, or trap one element. -/
def TrapStep (s t : State) : Prop :=
  (t.trap_word = s.trap_word ∧ t.trap_count = s.trap_count) ∨
  (t.trap_word = 0 ∧ t.trap_count = 0) ∨
  (∃ b, t.trap_word = (trap_element { s with trap_bit := b }).trap_word ∧
    t.trap_count = (trap_element { s with trap_bit := b }).trap_count)

/-- The tick at which the decay of a paddle element ends: tone on, attack over,
last decay step, last cycle of that step. -/
def DecayEnd (u : State) : Prop :=
  u.paddle_key_mode ≠ 0 ∧ u.initial = 0 ∧ u.delph1 ≠ 0 ∧ 2 ≤ u.tone_timer ∧ u.rampup = 0 ∧
  u.rampdn = 1 ∧ u.rampcyc = 1

/-- Registers at the last decay tick of a dah that follows two trapped elements. -/
def decay_end_regs : State :=
  { init_stw zero_regs with
    paddle_key_mode := PADL_KEY, dit_port := NDIT, dah_port := NDAH, keyer_mode := 66,
    delph1 := TONE_600, tone_timer := 603, rampdn := 1, rampcyc := 1,
    trap_word := 2, trap_count := 2, trap_bit := 1 }

/-! ## Straight-key letters: marks, means and pattern -/

/-- Body of the third loop of `get_cw_asc` at index `i`: a mark shifts the
element word, counts, and sets the low bit when it lasts at least `ii`. -/
def sk_build_body (buf : Nat → Nat) (ii i : Nat) (r : Nat × Nat) : Nat × Nat :=
  if buf i &&& KEY_HIBIT ≠ 0 then
    if (buf i &&& KEY_HIBIT_M) ≥ ii then (((r.1 <<< 1) % 65536) ||| 0x01, (r.2 + 1) % 256)
    else ((r.1 <<< 1) % 65536, (r.2 + 1) % 256)
  else r

/-- The mark durations among the buffer entries with the indices `l`, in that
order: the entries with `KEY_HIBIT` set, the flag masked off. -/
def marks_of (buf : Nat → Nat) (l : List Nat) : List Nat :=
  (l.filter (fun i => buf i &&& KEY_HIBIT ≠ 0)).map (fun i => buf i &&& KEY_HIBIT_M)

/-- The mark durations of a straight-key letter of `e` buffer entries, in
buffer order. -/
def spec_marks (buf : Nat → Nat) (e : Nat) : List Nat := marks_of buf (List.range e)

/-- The longest mark of the letter. -/
def spec_max_mark (buf : Nat → Nat) (e : Nat) : Nat := (spec_marks buf e).foldl max 0

/-- The marks the ratio test takes for dits: `max_mark / m >= 2`. -/
def spec_dits (buf : Nat → Nat) (e : Nat) : List Nat :=
  (spec_marks buf e).filter (fun m => spec_max_mark buf e / m ≥ 2)

/-- The remaining marks. -/
def spec_dahs (buf : Nat → Nat) (e : Nat) : List Nat :=
  (spec_marks buf e).filter (fun m => ¬ (spec_max_mark buf e / m ≥ 2))

/-- Integer mean of a list of durations. -/
def spec_mean (l : List Nat) : Nat := l.sum / l.length

/-- The element bits of a letter for the threshold `T`, in buffer order: 1 for
a mark of at least `T`, else 0. -/
def spec_bits (buf : Nat → Nat) (e T : Nat) : List Nat :=
  (spec_marks buf e).map (fun m => if m ≥ T then 1 else 0)

/-- Straight-key registers holding the letter N keyed at 24 words per minute:
a mark of 1500 ticks, a space of 500, a mark of 500; power-on averages. -/
def mixed_marks_regs : State :=
  { zero_regs with
    cwelem_idx := 3,
    cw_timing_buf := fun i =>
      if i = 0 then 1500 ||| KEY_HIBIT else if i = 1 then 500 else if i = 2 then 500 ||| KEY_HIBIT
      else 0,
    dit_ave := DIT_SK, dah_ave := DIT_SK * 3, spc_ave := DIT_SK,
    letter_space := LETTER_SK * DIT_SK, word_space := WORD_SK * DIT_SK }

/-! ## DDS table phase -/

/-- The table phase of a 16-bit phase accumulator, `(phaccum >> RSHIFT) & PHMASK`,
as `Timer3A_ISR` and `Timer3B_ISR` form it. -/
def dds_phase (acc : Nat) : Nat := (acc >>> RSHIFT) &&& PHMASK

/-- Paddle-mode registers with the word-space marker as the one unread entry
of the element ring buffer and the suppress flag `sup`. -/
def marker_regs (sup : Nat) : State :=
  { one_entry_regs SPACE_ELEM SPACE_COUNT with suppress_s := sup }

/-- The values `get_cw_asc` can return: null, a space, the auto-space toggle
code, or a character of the text table. -/
def AscValue (c : Nat) : Prop := c = 0 ∨ c = 32 ∨ c = CWSTT ∨ c ∈ cw_text_map

/-- The toggle of the auto-space flag, as both decoders write it:
`if(cw_stat & CW_ST) cw_stat &= ~CW_ST; else cw_stat |= CW_ST;`. -/
def cw_st_toggle (x : Nat) : Nat :=
  if x &&& CW_ST ≠ 0 then bic8 x CW_ST else x ||| CW_ST

/-- The pair (element word, length) that the third loop of the straight-key
branch of `get_cw_asc` builds for a letter of `e` timing entries; `none` when
the marks are outside the sanity bounds. -/
def sk_pattern (st : State) (e : Nat) : Option (Nat × Nat) :=
  match sk_timing st e with
  | none => none
  | some t =>
    match sk_threshold t with
    | none => none
    | some (ii, st1) => sk_build st1.cw_timing_buf ii t.e 256 t.s (0, 0)

/-- Straight-key registers holding the auto-space toggle pro-sign: seven marks
(dah dit dah dit dit dah dit, 1500 and 500 ticks) separated by spaces of 500
ticks, with auto-space on. -/
def toggle_key_regs : State :=
  { zero_regs with
    cwelem_idx := 13, letter_complete := 1, cw_stat := CW_ST,
    cw_timing_buf := fun i =>
      if i % 2 = 1 then 500
      else if i = 0 ∨ i = 4 ∨ i = 10 then 1500 ||| KEY_HIBIT
      else 500 ||| KEY_HIBIT,
    dit_ave := DIT_SK, dah_ave := DIT_SK * 3, spc_ave := DIT_SK,
    letter_space := LETTER_SK * DIT_SK, word_space := WORD_SK * DIT_SK }

/-- A sequence of calls of `get_cw_asc`.  Ahead of each call the rest of the
program (the capture interrupt filling the timing buffer, the polling layer)
acts on the registers: `f` is that action.  The result is the registers after
the last call, `none` if a call does not return. -/
def asc_run : List (State → State) → State → Option State
  | [], s => some s
  | f :: rest, s =>
    match get_cw_asc (f s) with
    | none => none
    | some (_, s') => asc_run rest s'

/-- Straight-key strap closed, normal orientation, key up. -/
def key_pins : InitPins :=
  { PORTB_DATA_R := IAMBIC_BSEL ||| NDIT ||| NDAH,
    PORTC_DATA_R := PADDLE_ORIENT ||| FACTORY_DEFAULT,
    PORTD_DATA_R := 0 }

/-- The capture of a mixed letter: a mark of 1500 ticks, a space of 500 ticks
and a mark of 500 ticks in the timing buffer, end index 3, letter complete. -/
def mixed_capture (s : State) : State :=
  { s with
    cw_timing_buf := fun i =>
      if i = 0 then 1500 ||| KEY_HIBIT else if i = 1 then 500
      else if i = 2 then 500 ||| KEY_HIBIT else 0,
    cwelem_idx := 3, letter_complete := 1 }

/-! ## Straight-key branch of `get_cw_asc` with checked reads and divisions -/

/-- A read `cw_timing_buf[i]` with the index checked: `none` when the index is
not below `CW_BUFF_END`, the length of the array. -/
def rd_timing (buf : Nat → Nat) (i : Nat) : Option Nat :=
  if i < CW_BUFF_END then some (buf i) else none

/-- An unsigned division with the divisor checked: `none` for a zero divisor. -/
def div_ck (a b : Nat) : Option Nat := if b = 0 then none else some (a / b)

/-- The first loop of the straight-key branch, `do{...}while(++i < e)`, with
every read of the timing buffer checked. -/
def sk_scan_ck (buf : Nat → Nat) (e : Nat) : Nat → Nat → SkScan → Option SkScan
  | 0, _, _ => none
  | fuel + 1, i, a =>
    match rd_timing buf i with
    | none => none
    | some v =>
      let a : SkScan :=
        if v &&& KEY_HIBIT = 0 then
          if i ≠ 0 then
            let a : SkScan := if v > a.ii then { a with ii := v } else a
            { a with aa := (a.aa + v) % 4294967296, j := (a.j + 1) % 256 }
          else { a with s := 1 }
        else
          let jj := v &&& KEY_HIBIT_M
          let a : SkScan := if jj < a.mm then { a with mm := jj } else a
          if jj > a.xx then { a with xx := jj } else a
      let i := (i + 1) % 256
      if i < e then sk_scan_ck buf e fuel i a else some a

/-- The second loop, with every read of the timing buffer and the division
`xx / jj` checked. -/
def sk_sum_ck (buf : Nat → Nat) (xx e : Nat) : Nat → Nat → SkSum → Option SkSum
  | 0, _, _ => none
  | fuel + 1, i, b =>
    match rd_timing buf i with
    | none => none
    | some v =>
      let r : Option SkSum :=
        if v &&& KEY_HIBIT ≠ 0 then
          let jj := v &&& KEY_HIBIT_M
          match div_ck xx jj with
          | none => none
          | some q =>
            if q ≥ 2 then some { b with di := (b.di + jj) % 4294967296, k := (b.k + 1) % 256 }
            else some { b with da := (b.da + jj) % 4294967296, l := (b.l + 1) % 256 }
        else some b
      match r with
      | none => none
      | some b =>
        let i := (i + 1) % 256
        if i < e then sk_sum_ck buf xx e fuel i b else some b

/-- The third loop, with every read of the timing buffer checked. -/
def sk_build_ck (buf : Nat → Nat) (ii e : Nat) :
    Nat → Nat → Nat × Nat → Option (Nat × Nat)
  | 0, _, _ => none
  | fuel + 1, i, (ee, j) =>
    match rd_timing buf i with
    | none => none
    | some v =>
      let r : Nat × Nat :=
        if v &&& KEY_HIBIT ≠ 0 then
          let ee := (ee <<< 1) % 65536
          let j := (j + 1) % 256
          if (v &&& KEY_HIBIT_M) ≥ ii then (ee ||| 0x01, j) else (ee, j)
        else (ee, j)
      let i := (i + 1) % 256
      if i < e then sk_build_ck buf ii e fuel i r else some r

/-- The timing analysis with the checked loops and the three averaging
divisions `aa /= j`, `di /= k`, `da /= l` checked. -/
def sk_timing_ck (st : State) (e : Nat) : Option SkTiming :=
  match sk_scan_ck st.cw_timing_buf e 256 0 ⟨0, 0, 0, 0, 0xffffffff, 0⟩ with
  | none => none
  | some a =>
    let e := if a.s = 1 ∧ e = 2 then 1 else e
    match sk_sum_ck st.cw_timing_buf a.xx e 256 a.s ⟨0, 0, 0, 0⟩ with
    | none => none
    | some b =>
      let aa : Option Nat := if a.aa ≠ 0 then div_ck a.aa a.j else some a.aa
      let di : Option Nat := if b.di ≠ 0 then div_ck b.di b.k else some b.di
      let da : Option Nat := if b.da ≠ 0 then div_ck b.da b.l else some b.da
      match aa, di, da with
      | some aa, some di, some da =>
        let st : State :=
          if a.aa ≠ 0 then { st with spc_ave := ((st.spc_ave + aa) % 4294967296) / 2 }
          else st
        let st : State :=
          if b.di ≠ 0 then { st with dit_ave := ((st.dit_ave + di) % 4294967296) / 2 } else st
        let st : State :=
          if b.da ≠ 0 then { st with dah_ave := ((st.dah_ave + da) % 4294967296) / 2 } else st
        some ⟨st, a.s, e, a.mm, a.xx, di, da⟩
      | _, _, _ => none

/-- The straight-key letter with the checked timing analysis and the checked
pattern loop. -/
def sk_letter_ck (st : State) (e : Nat) : Option (Nat × State) :=
  match sk_timing_ck st e with
  | none => none
  | some t =>
    match sk_threshold t with
    | none => some (0, t.regs)
    | some (ii, st) =>
      let st : State :=
        if ii < DIT_MAX then { st with letter_space := LETTER_MAX, word_space := WORD_MAX }
        else if ii > DIT_MIN then { st with letter_space := LETTER_MIN, word_space := WORD_MIN }
        else { st with letter_space := (LETTER_SK * ii) % 4294967296,
                       word_space := (WORD_SK * ii) % 4294967296 }
      match sk_build_ck st.cw_timing_buf ii t.e 256 t.s (0, 0) with
      | none => none
      | some (ee, j) =>
        if ee = CWSTT_E ∧ j = CWSTT_L then
          let st : State :=
            if st.cw_stat &&& CW_ST ≠ 0 then { st with cw_stat := bic8 st.cw_stat CW_ST }
            else { st with cw_stat := st.cw_stat ||| CW_ST }
          let st : State := { st with cw_stat := st.cw_stat ||| CW_STC }
          some (CWSTT, { st with suppress_s := 1, cwelem_idx := 0, letter_complete := 0 })
        else
          match decode_elem ee j with
          | none => none
          | some c => some (c, { st with suppress_s := 0, cwelem_idx := 0, letter_complete := 0 })

/-- The straight-key branch of `get_cw_asc` (the block `if(!paddle_key_mode)`)
with every read of the timing buffer and every division checked: `none` when a
read is outside the array, a divisor is zero or a loop does not end. -/
def sk_branch_ck (st : State) : Option (Nat × State) :=
  if st.suppress_s ≠ 0 ∧ st.aspace ≠ 0 then
    some (0, { st with aspace := 0, suppress_s := 0, letter_complete := 0, cwelem_idx := 0 })
  else if st.aspace ≠ 0 then
    some (32, { st with cw_stat := st.cw_stat ||| CW_STB, cwelem_idx := 0, letter_complete := 0,
                        aspace := 0, suppress_s := 0 })
  else if st.cwelem_idx < CW_BUFF_END ∧ st.cwelem_idx > 0 then sk_letter_ck st st.cwelem_idx
  else if st.cwelem_idx ≥ CW_BUFF_END then
    some (0, { st with cwelem_idx := 0, letter_complete := 0, suppress_s := 0 })
  else some (0, st)

/-- Every mark entry of the timing buffer has a non-zero duration in its low
31 bits. -/
def MarksNonzero (buf : Nat → Nat) : Prop :=
  ∀ i, i < CW_BUFF_END → buf i &&& KEY_HIBIT ≠ 0 → buf i &&& KEY_HIBIT_M ≠ 0

/-- Straight-key registers with a single captured entry, a space at index 0,
and a stale mark at index 1: all three loops run their body once, the second
and third at index 1. -/
def lone_space_regs : State :=
  { zero_regs with
    cwelem_idx := 1, letter_complete := 1,
    cw_timing_buf := fun i => if i = 1 then 700 ||| KEY_HIBIT else 400,
    dit_ave := DIT_SK, dah_ave := DIT_SK * 3, spc_ave := DIT_SK,
    letter_space := LETTER_SK * DIT_SK, word_space := WORD_SK * DIT_SK }

/-! ## Buffer indices -/

/-- The index invariant of the four buffers: both indices of the element ring
buffer and both indices of the text ring buffer are inside their arrays, and
the end index of the timing buffer is at most its length. -/
def IdxInv (s : State) : Prop :=
  s.cw_head < CW_BUFF_END ∧ s.cw_tail < CW_BUFF_END ∧ s.cwt_head < CWT_BUFF_END ∧
  s.cwt_tail < CWT_BUFF_END ∧ s.cwelem_idx ≤ CW_BUFF_END

/-- The array `new` is the array `old`, or `old` with one element written at an
index below the length `n`. -/
def WriteAt (n : Nat) (old new : Nat → Nat) : Prop :=
  new = old ∨ ∃ i v, i < n ∧ new = wr old i v

/-- Between `s` and `t` each of the four buffers is unchanged or was written at
one index inside the array. -/
def WritesInside (s t : State) : Prop :=
  WriteAt CW_BUFF_END s.cw_elem_buf t.cw_elem_buf ∧
  WriteAt CW_BUFF_END s.cw_len_buf t.cw_len_buf ∧
  WriteAt CWT_BUFF_END s.cw_text_buf t.cw_text_buf ∧
  WriteAt CW_BUFF_END s.cw_timing_buf t.cw_timing_buf

/-- The registers of the buffers that no stage of the paddle decoder writes:
the element tail, the text buffer with its indices, and the timing buffer with
its end index. -/
def reader_view (s : State) : Nat × Nat × Nat × (Nat → Nat) × Nat × (Nat → Nat) :=
  (s.cw_tail, s.cwt_head, s.cwt_tail, s.cw_text_buf, s.cwelem_idx, s.cw_timing_buf)

/-- An operation on the buffers: an interrupt of the capture side or a call
from the polling layer. -/
inductive BufOp where
  /-- a run of `Timer3A_ISR` with the port B values it reads -/
  | tick (hw : PortB)
  /-- a run of `didah_isr` with the port B values it reads -/
  | edge (hw : PortB)
  /-- the statement `cw_astat = CW_RS` of `get_cwstat` -/
  | request
  /-- a call of `get_cw_asc` -/
  | get_asc
  /-- a call of `Process_CW` with a command other than `INIT_PROCESS`, from the
  point where `get_cwstat` has returned `stat` -/
  | process (stat : Nat)
  /-- a call of `getchar_cw` -/
  | getchar

/-- Runs one operation on the statics of `Process_CW` and the registers;
`none` if the call does not return. -/
def BufOp.run (SINE : Nat → Int) : BufOp → PcwLocals × State → Option (PcwLocals × State)
  | BufOp.tick hw, (l, s) => some (l, Timer3A_ISR SINE hw s)
  | BufOp.edge hw, (l, s) => some (l, didah_isr hw s)
  | BufOp.request, (l, s) => some (l, { s with cw_astat := CW_RS })
  | BufOp.get_asc, (l, s) =>
    match get_cw_asc s with
    | none => none
    | some (_, s') => some (l, s')
  | BufOp.process stat, (l, s) => Process_CW stat l s
  | BufOp.getchar, (l, s) => some (l, (getchar_cw s).2)

/-- Runs a sequence of operations in order. -/
def buf_run (SINE : Nat → Int) :
    List BufOp → PcwLocals × State → Option (PcwLocals × State)
  | [], r => some r
  | op :: rest, r =>
    match op.run SINE r with
    | none => none
    | some r' => buf_run SINE rest r'

/-- Every flag of the status `a`, `CW_ST` included, is still set in `b`. -/
def FlagsKept (a b : Nat) : Prop := ∀ k, a.testBit k = true → b.testBit k = true

/-! ## Keyed elements of the paddle decoder -/

/-- The log of the elements keyed in the current letter.  An element is a tone
burst: `done` holds the kinds of the bursts that have ended since the last
letter space, oldest first, and `cur` the kind of the burst started last.  The
kind is 0 for a dit and 1 for a dah. -/
structure KeyLog where
  /-- kinds of the completed elements of the letter, oldest first -/
  done : List Nat
  /-- kind of the element whose tone was started last -/
  cur : Nat

/-- The kind of the element whose tone has just been started: a dah (1) when
the element timer holds the dah time, a dit (0) otherwise. -/
def tone_kind (x : State) : Nat := if x.tone_timer = x.dah_time_reg then 1 else 0

/-- The keying log over one paddle-mode run of `Timer3A_ISR`, read from the tone
and the timers only, not from the trap registers.  `a` is the state after the
head of the tick (timer update and first-edge block), `t` the state after the
tick.  A first edge starts an element, of the kind its timer shows.  With the
tone on at `a`, the element is complete when the tick leaves the tone off.  With
the tone off at `a`, a tick that leaves the tone on has started an element at
the gap expiry, of the kind its timer shows; a tick in which the silence
counter reaches `LETTER_SPACE` ends the letter. -/
def key_log_tick (SINE : Nat → Int) (hw : PortB) (s : State) (g : KeyLog) : KeyLog :=
  let a := pdl_initial (tone_timer_tick s)
  let t := Timer3A_ISR SINE hw s
  let g : KeyLog := if s.initial ≠ 0 then { g with cur := tone_kind a } else g
  if a.delph1 ≠ 0 then
    if t.delph1 = 0 then { g with done := g.done ++ [g.cur] } else g
  else if t.delph1 ≠ 0 then { g with cur := tone_kind t }
  else if s.silence_count + 1 = LETTER_SPACE ∧ t.silence_count = LETTER_SPACE then
    { g with done := [] }
  else g

/-- The keying log over one capture interrupt: `didah_isr` keys nothing. -/
def IsrEvent.log (SINE : Nat → Int) : IsrEvent → State → KeyLog → KeyLog
  | IsrEvent.tick hw, s, g => key_log_tick SINE hw s g
  | IsrEvent.edge _, _, g => g

/-- The keying log over a sequence of capture interrupts run from `s`. -/
def key_log_run (SINE : Nat → Int) : List IsrEvent → State → KeyLog → KeyLog
  | [], _, g => g
  | ev :: rest, s, g => key_log_run SINE rest (ev.run SINE s) (ev.log SINE s g)

/-- The trap registers hold the keying log: the trap bit is a single bit and,
while the tone is on, the kind of the element in progress; the count is the
number of elements of the letter, saturated at `MAX_SPACE_COUNT`; and while at
most sixteen elements are logged the trap word is their binary numeral. -/
def KeyInv (s : State) (g : KeyLog) : Prop :=
  s.paddle_key_mode ≠ 0 ∧ PdlInv s ∧ s.dit_time_reg ≠ s.dah_time_reg ∧ s.trap_bit ≤ 1 ∧
  g.cur ≤ 1 ∧ (∀ b ∈ g.done, b ≤ 1) ∧ (s.delph1 ≠ 0 → s.trap_bit = g.cur) ∧
  s.trap_count = min g.done.length MAX_SPACE_COUNT ∧
  (g.done.length ≤ 16 → s.trap_word = elements_value g.done)

/-- The registers that tie the trap to the keying: tone, trap registers and the
dit and dah times. -/
def key_view (s : State) : Nat × Nat × Nat × Nat × Nat × Nat :=
  (s.delph1, s.trap_bit, s.trap_word, s.trap_count, s.dit_time_reg, s.dah_time_reg)

/-- The trap registers of `s` hold the elements `g.done` of the keying log:
every logged kind is 0 or 1, the count is the number of elements saturated at
`MAX_SPACE_COUNT`, and while at most sixteen elements are logged the count is
their number and the trap word their binary numeral, the most recent element at
bit 0. -/
def TrapLogged (s : State) (g : KeyLog) : Prop :=
  (∀ b ∈ g.done, b ≤ 1) ∧ s.trap_count = min g.done.length MAX_SPACE_COUNT ∧
  (g.done.length ≤ 16 →
    s.trap_count = g.done.length ∧ s.trap_word = elements_value g.done ∧
    ∀ i, i < g.done.length → s.trap_word.testBit i = decide (g.done.reverse.getD i 0 = 1))

/-! # Theorems -/

/-! ## Theorems: the look-up table -/

theorem sizeof_len_map_eq : sizeof_len_map = 115 := by decide

/-- The decode scan started at index `i` stops at the first entry at or after
`i` that matches the pair, or at the end of the table. -/
theorem decode_scan_spec (elem len : Nat) :
    ∀ fuel i, i ≤ sizeof_len_map → sizeof_len_map - i < fuel →
      ∃ k, decode_scan elem len fuel i = some k ∧ i ≤ k ∧ k ≤ sizeof_len_map ∧
        (k < sizeof_len_map → elem_at k = elem ∧ len_at k = len) ∧
        (∀ j, i ≤ j → j < k → ¬ (elem_at j = elem ∧ len_at j = len)) := by
  intro fuel
  induction fuel with
  | zero => intro i _ h; omega
  | succ n ih =>
    intro i hi hf
    have hs := sizeof_len_map_eq
    by_cases h : (elem_at i ≠ elem ∨ len_at i ≠ len) ∧ i < sizeof_len_map
    · have hmod : (i + 1) % 256 = i + 1 := by omega
      obtain ⟨k, hk, h1, h2, h3, h4⟩ := ih (i + 1) (by omega) (by omega)
      refine ⟨k, ?_, by omega, h2, h3, ?_⟩
      · simp only [decode_scan, if_pos h, hmod]; exact hk
      · intro j hj hjk
        rcases Nat.eq_or_lt_of_le hj with rfl | hlt
        · intro hm; rcases h.1 with h5 | h5
          · exact h5 hm.1
          · exact h5 hm.2
        · exact h4 j hlt hjk
    · refine ⟨i, ?_, le_refl _, hi, ?_, ?_⟩
      · simp only [decode_scan, if_neg h]
      · intro hlt
        by_contra hc
        apply h
        refine ⟨?_, hlt⟩
        by_contra hn
        push_neg at hn
        exact hc hn
      · intro j h1 h2; omega

/-- No entry of the text table is the null character. -/
theorem text_at_ne_zero : ∀ i, i < sizeof_len_map → text_at i ≠ 0 := by decide

/-- The value of `decode_elem` in terms of the index its scan stops at. -/
theorem decode_elem_of_scan (elem len k : Nat) (hk : decode_scan elem len 256 0 = some k) :
    decode_elem elem len = some (if k = sizeof_len_map then 0 else text_at k) := by
  simp only [decode_elem, hk]

/-- The function `decode_elem` returns a character for every pair. -/
theorem decode_elem_total (elem len : Nat) : ∃ c, decode_elem elem len = some c := by
  obtain ⟨k, hk, -⟩ := decode_scan_spec elem len 256 0 (Nat.zero_le _)
    (by rw [sizeof_len_map_eq]; omega)
  exact ⟨_, decode_elem_of_scan elem len k hk⟩

/-- C3: for every pattern and length, `decode_elem` returns a character `c`;
`c` is the text of the smallest table index that matches both pattern and
length, and `c` is null if and only if no index matches both. -/
theorem decode_elem_first_match (elem len : Nat) :
    ∃ c, decode_elem elem len = some c ∧
      (c = 0 ↔ ∀ i, i < sizeof_len_map → ¬ (elem_at i = elem ∧ len_at i = len)) ∧
      (∀ i, i < sizeof_len_map → elem_at i = elem → len_at i = len →
        (∀ j, j < i → ¬ (elem_at j = elem ∧ len_at j = len)) → c = text_at i) := by
  obtain ⟨k, hk, -, hle, hmatch, hmin⟩ := decode_scan_spec elem len 256 0 (Nat.zero_le _)
    (by rw [sizeof_len_map_eq]; omega)
  refine ⟨_, decode_elem_of_scan elem len k hk, ?_, ?_⟩
  · constructor
    · intro hc i hi hm
      by_cases hks : k = sizeof_len_map
      · exact hmin i (Nat.zero_le _) (by omega) hm
      · rw [if_neg hks] at hc
        exact text_at_ne_zero k (by omega) hc
    · intro hnone
      by_cases hks : k = sizeof_len_map
      · rw [if_pos hks]
      · exact absurd (hmatch (by omega)) (hnone k (by omega))
  · intro i hi he hl hfirst
    have hki : k ≤ i := by
      by_contra hlt
      exact hmin i (Nat.zero_le _) (by omega) ⟨he, hl⟩
    have hks : k ≠ sizeof_len_map := by omega
    rw [if_neg hks]
    rcases Nat.eq_or_lt_of_le hki with rfl | hlt
    · rfl
    · exact absurd (hmatch (by omega)) (hfirst k hlt)

/-- Witness of C3: the pair (0, 3) is first matched at index 52, the letter S,
and the pair (0, 11) is matched nowhere. -/
theorem decode_elem_first_match_witness :
    decode_elem 0 3 = some 83 ∧ decode_elem 0 11 = some 0 := by
  obtain ⟨c, hc, -, h⟩ := decode_elem_first_match 0 3
  obtain ⟨d, hd, hz, -⟩ := decode_elem_first_match 0 11
  refine ⟨?_, ?_⟩
  · rw [hc, h 52 (by decide) (by decide) (by decide) (by decide)]; decide
  · rw [hd, hz.2 (by decide)]

set_option maxRecDepth 100000 in
/-- C4: no two distinct indices of the table hold the same (pattern, length)
pair. -/
theorem lut_pairs_unique :
    ∀ i, i < sizeof_len_map → ∀ j, j < sizeof_len_map →
      elem_at i = elem_at j → len_at i = len_at j → i = j := by
  decide

/-- Witness of C4 at the three DEL entries (indices 70, 71, 72): the same
pattern, told apart by the length. -/
theorem lut_pairs_unique_witness :
    elem_at 70 = elem_at 71 ∧ len_at 70 ≠ len_at 71 ∧
      (elem_at 70 = elem_at 70 → len_at 70 = len_at 70 → 70 = 70) :=
  ⟨by decide, by decide, lut_pairs_unique 70 (by decide) 70 (by decide)⟩

set_option maxRecDepth 100000 in
/-- C1: for every index of the look-up table, decoding the entry's pattern and
length returns the entry's character. -/
theorem decode_elem_lut (i : Nat) (hi : i < sizeof_len_map) :
    decode_elem (elem_at i) (len_at i) = some (text_at i) := by
  revert i
  decide

/-- Witness of C1 at the word-space entry (index 0) . -/
theorem decode_elem_lut_witness :
    0 < sizeof_len_map ∧ decode_elem (elem_at 0) (len_at 0) = some (text_at 0) :=
  ⟨by decide, decode_elem_lut 0 (by decide)⟩

/-! ## Theorems: staging a character and looping it back -/

set_option maxRecDepth 100000 in
/-- Every character of the table other than the two spaces passes the round
trip check. -/
theorem roundtrip_table :
    ∀ c ∈ cw_text_map, c ≠ 32 → c ≠ CWSPC → roundtrip_check c = true := by
  decide

/-- The trap registers after `cw_loopback` are given by `loopback_regs`. -/
theorem cw_loopback_regs :
    ∀ n (s : State), ((cw_loopback n s).trap_word, (cw_loopback n s).trap_count) =
      loopback_regs n s.trapb_word (s.trap_word, s.trap_count) := by
  intro n
  induction n with
  | zero => intro s; rfl
  | succ n ih =>
    intro s
    simp only [cw_loopback, loopback_regs]
    rw [ih]
    simp only [b_shift, trap_element]
    split <;> rfl

/-- What `put_cw` stages for a character found in the table that is not a
space. -/
theorem put_cw_letter (c i : Nat) (s : State) (hl : lookup_elem c = some i) (hi : i ≠ 0xff)
    (h1 : c ≠ 32) (h2 : c ≠ CWSPC) :
    put_cw c s = some { s with
      trapb_count := len_at i,
      trapb_word := put_cw_reverse (len_at i) 0 (elem_at i),
      initialb := 1,
      TIMER3_IMR_R := (s.TIMER3_IMR_R &&& TIMER3_IMR_BMASK) ||| TIMER_IMR_CBEIM } := by
  have h12 : ¬ (c = 32 ∨ c = CWSPC) := by
    intro h; rcases h with h | h
    · exact h1 h
    · exact h2 h
  simp only [put_cw, hl, if_pos hi, if_neg h12]

/-- Staging, loop-back and decoding of a table character other than the spaces. -/
theorem put_cw_roundtrip_aux (c : Nat) (hc : c ∈ cw_text_map) (h1 : c ≠ 32) (h2 : c ≠ CWSPC)
    (s : State) :
    ∃ i s', lookup_elem c = some i ∧ i < sizeof_len_map ∧ text_at i = c ∧
      put_cw c s = some s' ∧ s'.initialb = 1 ∧ s'.trapb_count = len_at i ∧
      s'.trapb_word < 2 ^ len_at i ∧
      (∀ k, k < len_at i → s'.trapb_word.testBit k = (elem_at i).testBit (len_at i - 1 - k)) ∧
      (cw_loopback (len_at i) { s' with trap_word := 0, trap_count := 0 }).trap_word = elem_at i ∧
      (cw_loopback (len_at i) { s' with trap_word := 0, trap_count := 0 }).trap_count = len_at i ∧
      decode_elem (cw_loopback (len_at i) { s' with trap_word := 0, trap_count := 0 }).trap_word
        (cw_loopback (len_at i) { s' with trap_word := 0, trap_count := 0 }).trap_count = some c := by
  have ht := roundtrip_table c hc h1 h2
  unfold roundtrip_check at ht
  cases hl : lookup_elem c with
  | none => rw [hl] at ht; exact absurd ht (by simp)
  | some i =>
    rw [hl] at ht
    simp only [decide_eq_true_eq] at ht
    obtain ⟨hi, hff, htx, hlt, hbits, hloop, hdec⟩ := ht
    have hregs := cw_loopback_regs (len_at i)
      { ({ s with
          trapb_count := len_at i,
          trapb_word := put_cw_reverse (len_at i) 0 (elem_at i),
          initialb := 1,
          TIMER3_IMR_R := (s.TIMER3_IMR_R &&& TIMER3_IMR_BMASK) ||| TIMER_IMR_CBEIM } : State)
        with trap_word := 0, trap_count := 0 }
    simp only [hloop, Prod.mk.injEq] at hregs
    refine ⟨i, _, rfl, hi, htx, put_cw_letter c i s hl hff h1 h2, rfl, rfl, hlt, hbits,
      hregs.1, hregs.2, ?_⟩
    rw [hregs.1, hregs.2]
    exact hdec

/-- C2: for every character `c` of the text table other than the space and
CWSPC, with `i = lookup_elem c` and `n = cw_len_map[i]`: `put_cw` stages count
`n` and a word that is the low `n` bits of `cw_elem_map[i]` in reversed order;
keying that word out low bit first for `n` elements and trapping each element
into an empty register gives back `cw_elem_map[i]` with count `n`, and
`decode_elem` of that pair returns `c`. -/
theorem put_cw_roundtrip (c : Nat) (hc : c ∈ cw_text_map) (h1 : c ≠ 32) (h2 : c ≠ CWSPC)
    (s : State) :
    ∃ i s', lookup_elem c = some i ∧ i < sizeof_len_map ∧ text_at i = c ∧
      put_cw c s = some s' ∧ s'.initialb = 1 ∧ s'.trapb_count = len_at i ∧
      s'.trapb_word < 2 ^ len_at i ∧
      (∀ k, k < len_at i → s'.trapb_word.testBit k = (elem_at i).testBit (len_at i - 1 - k)) ∧
      (cw_loopback (len_at i) { s' with trap_word := 0, trap_count := 0 }).trap_word = elem_at i ∧
      (cw_loopback (len_at i) { s' with trap_word := 0, trap_count := 0 }).trap_count = len_at i ∧
      decode_elem (cw_loopback (len_at i) { s' with trap_word := 0, trap_count := 0 }).trap_word
        (cw_loopback (len_at i) { s' with trap_word := 0, trap_count := 0 }).trap_count = some c :=
  put_cw_roundtrip_aux c hc h1 h2 s

/-- Witness of C2 for the letter Q (pattern 1101, length 4), staged in the
registers as they are at reset. -/
theorem put_cw_roundtrip_witness :
    (81 ∈ cw_text_map ∧ 81 ≠ 32 ∧ 81 ≠ CWSPC) ∧
    ∃ i s', lookup_elem 81 = some i ∧ i < sizeof_len_map ∧ text_at i = 81 ∧
      put_cw 81 zero_regs = some s' ∧ s'.initialb = 1 ∧ s'.trapb_count = len_at i ∧
      s'.trapb_word < 2 ^ len_at i ∧
      (∀ k, k < len_at i → s'.trapb_word.testBit k = (elem_at i).testBit (len_at i - 1 - k)) ∧
      (cw_loopback (len_at i) { s' with trap_word := 0, trap_count := 0 }).trap_word = elem_at i ∧
      (cw_loopback (len_at i) { s' with trap_word := 0, trap_count := 0 }).trap_count = len_at i ∧
      decode_elem (cw_loopback (len_at i) { s' with trap_word := 0, trap_count := 0 }).trap_word
        (cw_loopback (len_at i) { s' with trap_word := 0, trap_count := 0 }).trap_count = some 81 :=
  ⟨⟨by decide, by decide, by decide⟩,
    put_cw_roundtrip 81 (by decide) (by decide) (by decide) zero_regs⟩


/-! ## Theorems: the reply channel interrupt -/

theorem RunB.refl (SINE : Nat → Int) (s : State) : RunB SINE s [] s := by
  refine ⟨0, fun fuel => ?_⟩
  rw [Nat.zero_add]
  cases runB SINE fuel s with
  | none => rfl
  | some p => simp

theorem RunB.step (SINE : Nat → Int) (s : State) (h : t3b_enabled s = true) :
    RunB SINE s (keyedB s (Timer3B_ISR SINE s)) (Timer3B_ISR SINE s) := by
  refine ⟨1, fun fuel => ?_⟩
  rw [Nat.add_comm]
  simp only [runB, h, if_true]
  cases runB SINE fuel (Timer3B_ISR SINE s) with
  | none => rfl
  | some p => rfl

theorem RunB.trans (SINE : Nat → Int) {s t u : State} {l1 l2 : List Nat}
    (h1 : RunB SINE s l1 t) (h2 : RunB SINE t l2 u) : RunB SINE s (l1 ++ l2) u := by
  obtain ⟨n, hn⟩ := h1
  obtain ⟨m, hm⟩ := h2
  refine ⟨n + m, fun fuel => ?_⟩
  rw [Nat.add_assoc, hn, hm]
  cases runB SINE fuel u with
  | none => rfl
  | some p => simp

/-- A run that ends with the interrupt masked is what `runB` computes, for every
large enough budget. -/
theorem RunB.final (SINE : Nat → Int) {s t : State} {l : List Nat}
    (h : RunB SINE s l t) (hd : t3b_enabled t = false) :
    ∃ n, ∀ fuel, n ≤ fuel → runB SINE fuel s = some (l, t) := by
  obtain ⟨n, hn⟩ := h
  refine ⟨n, fun fuel hf => ?_⟩
  have hstop : ∀ k, runB SINE k t = some ([], t) := by
    intro k
    cases k with
    | zero => simp [runB, hd]
    | succ k => simp [runB, hd]
  obtain ⟨k, rfl⟩ := Nat.exists_eq_add_of_le hf
  rw [hn, hstop]
  simp

theorem RAMP_RATE1_eq : RAMP_RATE1 = 8 := by decide
theorem DITB_TIME_eq : DITB_TIME = 480 := by decide
theorem DAHB_TIME_eq : DAHB_TIME = 1440 := by decide
theorem RAMP_MAX_eq : RAMP_MAX = 6 := by decide

/-- A quiet step: a tick with the tone on keys nothing. -/
theorem RunB.tone_step (SINE : Nat → Int) (s : State) (h : t3b_enabled s = true)
    (hd : s.delph2 ≠ 0) : RunB SINE s [] (Timer3B_ISR SINE s) := by
  have := RunB.step SINE s h
  simpa [keyedB, hd] using this

/-- A quiet step: a tick that leaves the tone off keys nothing. -/
theorem RunB.space_step (SINE : Nat → Int) (s : State) (h : t3b_enabled s = true)
    (hd : (Timer3B_ISR SINE s).delph2 = 0) : RunB SINE s [] (Timer3B_ISR SINE s) := by
  have := RunB.step SINE s h
  simpa [keyedB, hd] using this

/-- Tick with the tone on during the attack, not at a ramp step. -/
theorem tickB_attack_cnt (SINE : Nat → Int) (s : State) (T sb w n d u c r f imr : Nat)
    (hv : bview s = (T, 0, sb, w, n, d, u, 0, c, r, f, imr))
    (hd : d ≠ 0) (hT0 : T ≠ 0) (hT1 : T - 1 ≠ 0) (hu : u ≠ 0) (hc : (c + 255) % 256 ≠ 0) :
    bview (Timer3B_ISR SINE s) = (T - 1, 0, sb, w, n, d, u, 0, (c + 255) % 256, r, f, imr) := by
  simp only [bview, Prod.mk.injEq] at hv
  obtain ⟨h1, h2, h3, h4, h5, h6, h7, h8, h9, h10, h11, h12⟩ := hv
  simp only [bview, Timer3B_ISR, b_tone, h1, h2, h3, h4, h5, h6, h7, h8, h9, h10, h11, h12,
    hd, hT0, hT1, hu, hc, ne_eq, not_true_eq_false, not_false_eq_true, if_true, if_false,
    ite_true, ite_false]

/-- Tick with the tone on during the attack, at a ramp step. -/
theorem tickB_attack_wrap (SINE : Nat → Int) (s : State) (T sb w n d u c r f imr : Nat)
    (hv : bview s = (T, 0, sb, w, n, d, u, 0, c, r, f, imr))
    (hd : d ≠ 0) (hT0 : T ≠ 0) (hT1 : T - 1 ≠ 0) (hu : u ≠ 0) (hc : (c + 255) % 256 = 0) :
    bview (Timer3B_ISR SINE s) = (T - 1, 0, sb, w, n, d, u - 1, 0, r, r, f, imr) := by
  simp only [bview, Prod.mk.injEq] at hv
  obtain ⟨h1, h2, h3, h4, h5, h6, h7, h8, h9, h10, h11, h12⟩ := hv
  simp only [bview, Timer3B_ISR, b_tone, h1, h2, h3, h4, h5, h6, h7, h8, h9, h10, h11, h12,
    hd, hT0, hT1, hu, hc, ne_eq, not_true_eq_false, not_false_eq_true, if_true, if_false,
    ite_true, ite_false]

/-- Tick with the tone on and steady. -/
theorem tickB_sustain (SINE : Nat → Int) (s : State) (T sb w n d c r f imr : Nat)
    (hv : bview s = (T, 0, sb, w, n, d, 0, 0, c, r, f, imr))
    (hd : d ≠ 0) (hT0 : T ≠ 0) (hT1 : T - 1 ≠ 0) :
    bview (Timer3B_ISR SINE s) = (T - 1, 0, sb, w, n, d, 0, 0, c, r, f, imr) := by
  simp only [bview, Prod.mk.injEq] at hv
  obtain ⟨h1, h2, h3, h4, h5, h6, h7, h8, h9, h10, h11, h12⟩ := hv
  simp only [bview, Timer3B_ISR, b_tone, h1, h2, h3, h4, h5, h6, h7, h8, h9, h10, h11, h12,
    hd, hT0, hT1, ne_eq, not_true_eq_false, not_false_eq_true, if_true, if_false,
    ite_true, ite_false]

/-- Tick at which the tone timer expires: the decay starts. -/
theorem tickB_expire (SINE : Nat → Int) (s : State) (sb w n d c f imr : Nat)
    (hv : bview s = (1, 0, sb, w, n, d, 0, 0, c, 8, f, imr)) (hd : d ≠ 0) :
    bview (Timer3B_ISR SINE s) = (DITB_TIME, 0, sb, w, n, d, 0, RAMP_MAX, 7, 8, f, imr) := by
  simp only [bview, Prod.mk.injEq] at hv
  obtain ⟨h1, h2, h3, h4, h5, h6, h7, h8, h9, h10, h11, h12⟩ := hv
  have e1 : (1 : Nat) - 1 = 0 := rfl
  have e2 : (8 + 255) % 256 = 7 := rfl
  have e3 : RAMP_MAX ≠ 0 := by decide
  have e4 : (7 : Nat) ≠ 0 := by decide
  simp only [bview, Timer3B_ISR, b_tone, h1, h2, h3, h4, h5, h6, h7, h8, h9, h10, h11, h12,
    hd, e1, e2, e3, e4, ne_eq, not_true_eq_false, not_false_eq_true, if_true, if_false,
    ite_true, ite_false, one_ne_zero]

/-- Tick with the tone on during the decay, not at a ramp step. -/
theorem tickB_decay_cnt (SINE : Nat → Int) (s : State) (T sb w n d u c r f imr : Nat)
    (hv : bview s = (T, 0, sb, w, n, d, 0, u, c, r, f, imr))
    (hd : d ≠ 0) (hT0 : T ≠ 0) (hT1 : T - 1 ≠ 0) (hu : u ≠ 0) (hc : (c + 255) % 256 ≠ 0) :
    bview (Timer3B_ISR SINE s) = (T - 1, 0, sb, w, n, d, 0, u, (c + 255) % 256, r, f, imr) := by
  simp only [bview, Prod.mk.injEq] at hv
  obtain ⟨h1, h2, h3, h4, h5, h6, h7, h8, h9, h10, h11, h12⟩ := hv
  simp only [bview, Timer3B_ISR, b_tone, h1, h2, h3, h4, h5, h6, h7, h8, h9, h10, h11, h12,
    hd, hT0, hT1, hu, hc, ne_eq, not_true_eq_false, not_false_eq_true, if_true, if_false,
    ite_true, ite_false]

/-- Tick with the tone on during the decay, at a ramp step that is not the last. -/
theorem tickB_decay_wrap (SINE : Nat → Int) (s : State) (T sb w n d u c r f imr : Nat)
    (hv : bview s = (T, 0, sb, w, n, d, 0, u, c, r, f, imr))
    (hd : d ≠ 0) (hT0 : T ≠ 0) (hT1 : T - 1 ≠ 0) (hu : u ≠ 0) (hu1 : u - 1 ≠ 0)
    (hc : (c + 255) % 256 = 0) :
    bview (Timer3B_ISR SINE s) = (T - 1, 0, sb, w, n, d, 0, u - 1, r, r, f, imr) := by
  simp only [bview, Prod.mk.injEq] at hv
  obtain ⟨h1, h2, h3, h4, h5, h6, h7, h8, h9, h10, h11, h12⟩ := hv
  simp only [bview, Timer3B_ISR, b_tone, h1, h2, h3, h4, h5, h6, h7, h8, h9, h10, h11, h12,
    hd, hT0, hT1, hu, hu1, hc, ne_eq, not_true_eq_false, not_false_eq_true, if_true, if_false,
    ite_true, ite_false]

/-- Tick of the last ramp step of the decay: the tone goes off and the timer is
loaded with the inter-element gap. -/
theorem tickB_decay_end (SINE : Nat → Int) (s : State) (T sb w n d c r f imr : Nat)
    (hv : bview s = (T, 0, sb, w, n, d, 0, 1, c, r, f, imr))
    (hd : d ≠ 0) (hT0 : T ≠ 0) (hT1 : T - 1 ≠ 0) (hc : (c + 255) % 256 = 0) :
    bview (Timer3B_ISR SINE s) = (DITB_TIME, 0, sb, w, n, 0, 0, 0, r, r, f, imr) := by
  simp only [bview, Prod.mk.injEq] at hv
  obtain ⟨h1, h2, h3, h4, h5, h6, h7, h8, h9, h10, h11, h12⟩ := hv
  have e1 : (1 : Nat) - 1 = 0 := rfl
  simp only [bview, Timer3B_ISR, b_tone, h1, h2, h3, h4, h5, h6, h7, h8, h9, h10, h11, h12,
    hd, hT0, hT1, hc, e1, ne_eq, not_true_eq_false, not_false_eq_true, if_true, if_false,
    ite_true, ite_false, one_ne_zero]

/-- Tick with the tone off while the gap timer runs. -/
theorem tickB_gap (SINE : Nat → Int) (s : State) (T w n u v c r f imr : Nat)
    (hv : bview s = (T, 0, 1, w, n, 0, u, v, c, r, f, imr)) (hT0 : T ≠ 0) (hT1 : T - 1 ≠ 0) :
    bview (Timer3B_ISR SINE s) = (T - 1, 0, 1, w, n, 0, u, v, c, r, f, imr) := by
  simp only [bview, Prod.mk.injEq] at hv
  obtain ⟨h1, h2, h3, h4, h5, h6, h7, h8, h9, h10, h11, h12⟩ := hv
  have e1 : (1 : Nat) ≠ 2 := by decide
  simp only [bview, Timer3B_ISR, b_space, h1, h2, h3, h4, h5, h6, h7, h8, h9, h10, h11, h12,
    hT0, hT1, e1, ne_eq, not_true_eq_false, not_false_eq_true, if_true, if_false,
    ite_true, ite_false]

/-- Tick at the end of a gap with elements left: the next element is keyed. -/
theorem tickB_next (SINE : Nat → Int) (s : State) (w n u v c r f imr : Nat)
    (hv : bview s = (1, 0, 1, w, n, 0, u, v, c, r, f, imr)) (hn : n ≠ 0) (hn1 : n - 1 ≠ 0) :
    bview (Timer3B_ISR SINE s) =
      (elemB_time (w >>> 1), 0, 1, w >>> 1, n - 1, f, RAMP_MAX, v, r, r, f, imr) := by
  simp only [bview, Prod.mk.injEq] at hv
  obtain ⟨h1, h2, h3, h4, h5, h6, h7, h8, h9, h10, h11, h12⟩ := hv
  have e1 : (1 : Nat) ≠ 2 := by decide
  have e2 : (1 : Nat) - 1 = 0 := rfl
  by_cases hb : (w >>> 1) &&& 0x01 = 0
  · simp only [bview, Timer3B_ISR, b_space, b_shift, elemB_time, h1, h2, h3, h4, h5, h6, h7, h8,
      h9, h10, h11, h12, hn, hn1, hb, e1, e2, ne_eq, not_true_eq_false, not_false_eq_true,
      if_true, if_false, ite_true, ite_false, one_ne_zero]
  · simp only [bview, Timer3B_ISR, b_space, b_shift, elemB_time, h1, h2, h3, h4, h5, h6, h7, h8,
      h9, h10, h11, h12, hn, hn1, hb, e1, e2, ne_eq, not_true_eq_false, not_false_eq_true,
      if_true, if_false, ite_true, ite_false, one_ne_zero]

/-- Tick at the end of the gap after the last element: the character gap. -/
theorem tickB_last (SINE : Nat → Int) (s : State) (w u v c r f imr : Nat)
    (hv : bview s = (1, 0, 1, w, 1, 0, u, v, c, r, f, imr)) :
    bview (Timer3B_ISR SINE s) = (DAHB_TIME, 0, 1, w >>> 1, 0, 0, u, v, c, r, f, imr) := by
  simp only [bview, Prod.mk.injEq] at hv
  obtain ⟨h1, h2, h3, h4, h5, h6, h7, h8, h9, h10, h11, h12⟩ := hv
  have e1 : (1 : Nat) ≠ 2 := by decide
  have e2 : (1 : Nat) - 1 = 0 := rfl
  simp only [bview, Timer3B_ISR, b_space, b_shift, h1, h2, h3, h4, h5, h6, h7, h8,
    h9, h10, h11, h12, e1, e2, ne_eq, not_true_eq_false, not_false_eq_true,
    if_true, if_false, ite_true, ite_false, one_ne_zero]

/-- Tick at the end of the character gap: the interrupt masks itself and
`sendingb` returns to 0. -/
theorem tickB_done (SINE : Nat → Int) (s : State) (w u v c r f imr : Nat)
    (hv : bview s = (1, 0, 1, w, 0, 0, u, v, c, r, f, imr)) :
    bview (Timer3B_ISR SINE s) = (0, 0, 0, w, 0, 0, u, v, c, r, f,
      (imr &&& TIMER3_IMR_BMASK) &&& (0xffffffff ^^^ TIMER_IMR_CBEIM)) := by
  simp only [bview, Prod.mk.injEq] at hv
  obtain ⟨h1, h2, h3, h4, h5, h6, h7, h8, h9, h10, h11, h12⟩ := hv
  have e1 : (1 : Nat) ≠ 2 := by decide
  have e2 : (1 : Nat) - 1 = 0 := rfl
  simp only [bview, Timer3B_ISR, b_space, h1, h2, h3, h4, h5, h6, h7, h8,
    h9, h10, h11, h12, e1, e2, ne_eq, not_true_eq_false, not_false_eq_true,
    if_true, if_false, ite_true, ite_false, one_ne_zero]

/-- First tick after `put_cw` has staged a letter: the first element is keyed. -/
theorem tickB_first (SINE : Nat → Int) (s : State) (T sb w n d u c f imr : Nat)
    (hv : bview s = (T, 1, sb, w, n, d, u, 0, c, 8, f, imr)) (hf : f ≠ 0) :
    bview (Timer3B_ISR SINE s) = (elemB_time w, 0, 1, w, n, f, RAMP_MAX, 0, 7, 8, f, imr) := by
  simp only [bview, Prod.mk.injEq] at hv
  obtain ⟨h1, h2, h3, h4, h5, h6, h7, h8, h9, h10, h11, h12⟩ := hv
  have e1 : (1 : Nat) ≠ 2 := by decide
  have e2 : (1 : Nat) ≠ 4 := by decide
  have e3 : (8 + 255) % 256 = 7 := rfl
  have e4 : RAMP_MAX ≠ 0 := by decide
  have e5 : (7 : Nat) ≠ 0 := by decide
  have e6 : DAHB_TIME ≠ 0 := by decide
  have e7 : DITB_TIME ≠ 0 := by decide
  by_cases hT : T = 0 <;> by_cases hb : w &&& 0x01 = 0 <;>
  simp only [bview, Timer3B_ISR, b_tone, b_initial, elemB_time, h1, h2, h3, h4, h5, h6, h7, h8,
      h9, h10, h11, h12, hf, hb, hT, e1, e2, e3, e4, e5, e6, e7, ne_eq, not_true_eq_false,
      not_false_eq_true, if_true, if_false, ite_true, ite_false, one_ne_zero]

/-- The interrupt is unmasked when the mask register holds the B bit. -/
theorem t3b_enabled_of_bview (s : State) (T a b c d e f g h i j imr : Nat)
    (hv : bview s = (T, a, b, c, d, e, f, g, h, i, j, imr)) (hen : imr &&& TIMER_IMR_CBEIM ≠ 0) :
    t3b_enabled s = true := by
  simp only [bview, Prod.mk.injEq] at hv
  simp only [t3b_enabled, hv.2.2.2.2.2.2.2.2.2.2.2, ne_eq, hen, not_false_eq_true, decide_True]

/-- The tone is on when the view says so. -/
theorem delph2_of_bview (s : State) (T a b c d e f g h i j imr : Nat)
    (hv : bview s = (T, a, b, c, d, e, f, g, h, i, j, imr)) : s.delph2 = e := by
  simp only [bview, Prod.mk.injEq] at hv
  exact hv.2.2.2.2.2.1

/-- Attack phase: with the tone on, `rampupb = u` and `rampcycb = c`, the attack
ends after `(u - 1) * 8 + c` ticks, provided the tone timer does not expire. -/
theorem b_attack (SINE : Nat → Int) :
    ∀ m (s : State) (T sb w n d u c f imr : Nat),
      bview s = (T, 0, sb, w, n, d, u, 0, c, 8, f, imr) → d ≠ 0 →
      imr &&& TIMER_IMR_CBEIM ≠ 0 → 1 ≤ u → 1 ≤ c → c ≤ 8 → m = (u - 1) * 8 + c → m < T →
      ∃ t, RunB SINE s [] t ∧ bview t = (T - m, 0, sb, w, n, d, 0, 0, 8, 8, f, imr) := by
  intro m
  induction m with
  | zero => intro s T sb w n d u c f imr _ _ _ _ hc _ hm _; omega
  | succ m ih =>
    intro s T sb w n d u c f imr hv hd hen hu hc1 hc8 hm hT
    have hstep := RunB.tone_step SINE s (t3b_enabled_of_bview s _ _ _ _ _ _ _ _ _ _ _ _ hv hen)
      (by rw [delph2_of_bview s _ _ _ _ _ _ _ _ _ _ _ _ hv]; exact hd)
    by_cases hc : c = 1
    · have hv' := tickB_attack_wrap SINE s T sb w n d u c 8 f imr hv hd (by omega) (by omega)
        (by omega) (by omega)
      by_cases hu1 : u = 1
      · refine ⟨_, hstep, ?_⟩
        rw [hv']
        have h0 : m = 0 := by subst hu1; omega
        subst h0; subst hu1; rfl
      · obtain ⟨t, ht, hvt⟩ := ih (Timer3B_ISR SINE s) (T - 1) sb w n d (u - 1) 8 f imr hv' hd hen
          (by omega) (by omega) (by omega) (by omega) (by omega)
        refine ⟨t, ?_, ?_⟩
        · simpa using RunB.trans SINE hstep ht
        · rw [hvt, Nat.sub_sub, Nat.add_comm 1 m]
    · have hcyc : (c + 255) % 256 = c - 1 := by omega
      have hv' := tickB_attack_cnt SINE s T sb w n d u c 8 f imr hv hd (by omega) (by omega)
        (by omega) (by omega)
      rw [hcyc] at hv'
      obtain ⟨t, ht, hvt⟩ := ih (Timer3B_ISR SINE s) (T - 1) sb w n d u (c - 1) f imr hv' hd hen
        hu (by omega) (by omega) (by omega) (by omega)
      refine ⟨t, ?_, ?_⟩
      · simpa using RunB.trans SINE hstep ht
      · rw [hvt, Nat.sub_sub, Nat.add_comm 1 m]

/-- Sustain phase: with the tone on and steady, `k` ticks count the tone timer
down by `k`, as long as it does not expire. -/
theorem b_sustain (SINE : Nat → Int) :
    ∀ k (s : State) (T sb w n d c f imr : Nat),
      bview s = (T, 0, sb, w, n, d, 0, 0, c, 8, f, imr) → d ≠ 0 →
      imr &&& TIMER_IMR_CBEIM ≠ 0 → k < T →
      ∃ t, RunB SINE s [] t ∧ bview t = (T - k, 0, sb, w, n, d, 0, 0, c, 8, f, imr) := by
  intro k
  induction k with
  | zero => intro s T sb w n d c f imr hv _ _ _; exact ⟨s, RunB.refl SINE s, hv⟩
  | succ k ih =>
    intro s T sb w n d c f imr hv hd hen hT
    have hstep := RunB.tone_step SINE s (t3b_enabled_of_bview s _ _ _ _ _ _ _ _ _ _ _ _ hv hen)
      (by rw [delph2_of_bview s _ _ _ _ _ _ _ _ _ _ _ _ hv]; exact hd)
    have hv' := tickB_sustain SINE s T sb w n d c 8 f imr hv hd (by omega) (by omega)
    obtain ⟨t, ht, hvt⟩ := ih (Timer3B_ISR SINE s) (T - 1) sb w n d c f imr hv' hd hen (by omega)
    refine ⟨t, ?_, ?_⟩
    · simpa using RunB.trans SINE hstep ht
    · rw [hvt, Nat.sub_sub, Nat.add_comm 1 k]

/-- Decay phase: with `rampdnb = u` and `rampcycb = c`, the tone goes off after
`(u - 1) * 8 + c` ticks and the timer is loaded with the inter-element gap. -/
theorem b_decay (SINE : Nat → Int) :
    ∀ m (s : State) (T sb w n d u c f imr : Nat),
      bview s = (T, 0, sb, w, n, d, 0, u, c, 8, f, imr) → d ≠ 0 →
      imr &&& TIMER_IMR_CBEIM ≠ 0 → 1 ≤ u → 1 ≤ c → c ≤ 8 → m = (u - 1) * 8 + c → m < T →
      ∃ t, RunB SINE s [] t ∧ bview t = (DITB_TIME, 0, sb, w, n, 0, 0, 0, 8, 8, f, imr) := by
  intro m
  induction m with
  | zero => intro s T sb w n d u c f imr _ _ _ _ hc _ hm _; omega
  | succ m ih =>
    intro s T sb w n d u c f imr hv hd hen hu hc1 hc8 hm hT
    have hstep := RunB.tone_step SINE s (t3b_enabled_of_bview s _ _ _ _ _ _ _ _ _ _ _ _ hv hen)
      (by rw [delph2_of_bview s _ _ _ _ _ _ _ _ _ _ _ _ hv]; exact hd)
    by_cases hc : c = 1
    · by_cases hu1 : u = 1
      · subst hu1
        have hv' := tickB_decay_end SINE s T sb w n d c 8 f imr hv hd (by omega) (by omega)
          (by omega)
        exact ⟨_, hstep, hv'⟩
      · have hv' := tickB_decay_wrap SINE s T sb w n d u c 8 f imr hv hd (by omega) (by omega)
          (by omega) (by omega) (by omega)
        obtain ⟨t, ht, hvt⟩ := ih (Timer3B_ISR SINE s) (T - 1) sb w n d (u - 1) 8 f imr hv' hd hen
          (by omega) (by omega) (by omega) (by omega) (by omega)
        exact ⟨t, by simpa using RunB.trans SINE hstep ht, hvt⟩
    · have hcyc : (c + 255) % 256 = c - 1 := by omega
      have hv' := tickB_decay_cnt SINE s T sb w n d u c 8 f imr hv hd (by omega) (by omega)
        (by omega) (by omega)
      rw [hcyc] at hv'
      obtain ⟨t, ht, hvt⟩ := ih (Timer3B_ISR SINE s) (T - 1) sb w n d u (c - 1) f imr hv' hd hen
        hu (by omega) (by omega) (by omega) (by omega)
      exact ⟨t, by simpa using RunB.trans SINE hstep ht, hvt⟩

/-- Gap phase: with the tone off, `k` ticks count the gap timer down by `k`, as
long as it does not expire. -/
theorem b_gap (SINE : Nat → Int) :
    ∀ k (s : State) (T w n u v c f imr : Nat),
      bview s = (T, 0, 1, w, n, 0, u, v, c, 8, f, imr) →
      imr &&& TIMER_IMR_CBEIM ≠ 0 → k < T →
      ∃ t, RunB SINE s [] t ∧ bview t = (T - k, 0, 1, w, n, 0, u, v, c, 8, f, imr) := by
  intro k
  induction k with
  | zero => intro s T w n u v c f imr hv _ _; exact ⟨s, RunB.refl SINE s, hv⟩
  | succ k ih =>
    intro s T w n u v c f imr hv hen hT
    have hv' := tickB_gap SINE s T w n u v c 8 f imr hv (by omega) (by omega)
    have hstep := RunB.space_step SINE s (t3b_enabled_of_bview s _ _ _ _ _ _ _ _ _ _ _ _ hv hen)
      (delph2_of_bview _ _ _ _ _ _ _ _ _ _ _ _ _ hv')
    obtain ⟨t, ht, hvt⟩ := ih (Timer3B_ISR SINE s) (T - 1) w n u v c f imr hv' hen (by omega)
    refine ⟨t, ?_, ?_⟩
    · simpa using RunB.trans SINE hstep ht
    · rw [hvt, Nat.sub_sub, Nat.add_comm 1 k]

/-- One whole element: from the tick that keyed it (tone timer `T` loaded,
attack started) to the last tick of the gap that follows it. -/
theorem b_element (SINE : Nat → Int) (s : State) (T w n c f imr : Nat)
    (hv : bview s = (T, 0, 1, w, n, f, RAMP_MAX, 0, c, 8, f, imr)) (hf : f ≠ 0)
    (hen : imr &&& TIMER_IMR_CBEIM ≠ 0) (hc : c = 7 ∨ c = 8) (hT : 100 ≤ T) :
    ∃ t, RunB SINE s [] t ∧ bview t = (1, 0, 1, w, n, 0, 0, 0, 8, 8, f, imr) := by
  obtain ⟨t1, hr1, hv1⟩ := b_attack SINE (5 * 8 + c) s T 1 w n f RAMP_MAX c f imr hv hf hen
    (by decide) (by omega) (by omega) (by rw [RAMP_MAX_eq]) (by omega)
  obtain ⟨t2, hr2, hv2⟩ := b_sustain SINE (T - (5 * 8 + c) - 1) t1 _ 1 w n f 8 f imr hv1 hf hen
    (by omega)
  have e : T - (5 * 8 + c) - (T - (5 * 8 + c) - 1) = 1 := by omega
  rw [e] at hv2
  have hv3 := tickB_expire SINE t2 1 w n f 8 f imr hv2 hf
  have hr3 := RunB.tone_step SINE t2 (t3b_enabled_of_bview t2 _ _ _ _ _ _ _ _ _ _ _ _ hv2 hen)
    (by rw [delph2_of_bview t2 _ _ _ _ _ _ _ _ _ _ _ _ hv2]; exact hf)
  obtain ⟨t4, hr4, hv4⟩ := b_decay SINE (5 * 8 + 7) _ DITB_TIME 1 w n f RAMP_MAX 7 f imr hv3 hf
    hen (by decide) (by omega) (by omega) (by rw [RAMP_MAX_eq]) (by rw [DITB_TIME_eq]; omega)
  obtain ⟨t5, hr5, hv5⟩ := b_gap SINE (DITB_TIME - 1) t4 DITB_TIME w n 0 0 8 f imr hv4 hen
    (by rw [DITB_TIME_eq]; omega)
  have e5 : DITB_TIME - (DITB_TIME - 1) = 1 := by decide
  rw [e5] at hv5
  refine ⟨t5, ?_, hv5⟩
  simpa using RunB.trans SINE hr1 (RunB.trans SINE hr2 (RunB.trans SINE hr3
    (RunB.trans SINE hr4 hr5)))

/-- The element keyed by a tick that turns the tone on. -/
theorem keyedB_on (s t : State) (hs : s.delph2 = 0) (ht : t.delph2 ≠ 0) :
    keyedB s t = [t.toneb_timer] := by
  simp only [keyedB, hs, ht, ne_eq, not_false_eq_true, and_self, if_true]

theorem elemB_time_ge (w : Nat) : 100 ≤ elemB_time w := by
  unfold elemB_time
  split
  · rw [DAHB_TIME_eq]; omega
  · rw [DITB_TIME_eq]; omega

theorem imr_masked (imr : Nat) :
    ((imr &&& TIMER3_IMR_BMASK) &&& (0xffffffff ^^^ TIMER_IMR_CBEIM)) &&& TIMER_IMR_CBEIM = 0 := by
  rw [Nat.and_assoc, Nat.and_assoc]
  have : (0xffffffff ^^^ TIMER_IMR_CBEIM) &&& TIMER_IMR_CBEIM = 0 := by decide
  rw [this, Nat.and_zero, Nat.and_zero]

theorem imr_unmasked (imr : Nat) :
    ((imr &&& TIMER3_IMR_BMASK) ||| TIMER_IMR_CBEIM) &&& TIMER_IMR_CBEIM ≠ 0 := by
  have h : ((imr &&& TIMER3_IMR_BMASK) ||| TIMER_IMR_CBEIM) &&& TIMER_IMR_CBEIM
      = TIMER_IMR_CBEIM := by
    apply Nat.eq_of_testBit_eq
    intro i
    rw [Nat.testBit_and, Nat.testBit_or]
    cases (imr &&& TIMER3_IMR_BMASK).testBit i <;> cases TIMER_IMR_CBEIM.testBit i <;> rfl
  rw [h]
  decide

/-- From the last tick of the gap after an element, with `n` on the element
counter: the remaining `n - 1` elements are keyed, then the character gap runs
out and the interrupt masks itself. -/
theorem b_rest (SINE : Nat → Int) :
    ∀ n (s : State) (w f imr : Nat),
      bview s = (1, 0, 1, w, n, 0, 0, 0, 8, 8, f, imr) → f ≠ 0 →
      imr &&& TIMER_IMR_CBEIM ≠ 0 → 1 ≤ n →
      ∃ t w', RunB SINE s (keyed_rest n w) t ∧
        bview t = (0, 0, 0, w', 0, 0, 0, 0, 8, 8, f,
          (imr &&& TIMER3_IMR_BMASK) &&& (0xffffffff ^^^ TIMER_IMR_CBEIM)) := by
  intro n
  induction n with
  | zero => intro s w f imr _ _ _ h; omega
  | succ n ih =>
    intro s w f imr hv hf hen _
    have hs0 : s.delph2 = 0 := delph2_of_bview s _ _ _ _ _ _ _ _ _ _ _ _ hv
    have hse := t3b_enabled_of_bview s _ _ _ _ _ _ _ _ _ _ _ _ hv hen
    by_cases hn : n = 0
    · subst hn
      have hv1 := tickB_last SINE s w 0 0 8 8 f imr hv
      have hr1 := RunB.space_step SINE s hse (delph2_of_bview _ _ _ _ _ _ _ _ _ _ _ _ _ hv1)
      obtain ⟨t2, hr2, hv2⟩ := b_gap SINE (DAHB_TIME - 1) _ DAHB_TIME (w >>> 1) 0 0 0 8 f imr hv1
        hen (by rw [DAHB_TIME_eq]; omega)
      have e : DAHB_TIME - (DAHB_TIME - 1) = 1 := by decide
      rw [e] at hv2
      have hv3 := tickB_done SINE t2 (w >>> 1) 0 0 8 8 f imr hv2
      have hr3 := RunB.space_step SINE t2 (t3b_enabled_of_bview t2 _ _ _ _ _ _ _ _ _ _ _ _ hv2 hen)
        (delph2_of_bview _ _ _ _ _ _ _ _ _ _ _ _ _ hv3)
      refine ⟨_, w >>> 1, ?_, hv3⟩
      have hk : keyed_rest (0 + 1) w = [] := rfl
      rw [hk]
      simpa using RunB.trans SINE hr1 (RunB.trans SINE hr2 hr3)
    · have hv1 := tickB_next SINE s w (n + 1) 0 0 8 8 f imr hv (by omega) (by omega)
      rw [Nat.add_sub_cancel] at hv1
      have hd1 : (Timer3B_ISR SINE s).delph2 = f := delph2_of_bview _ _ _ _ _ _ _ _ _ _ _ _ _ hv1
      have ht1 : (Timer3B_ISR SINE s).toneb_timer = elemB_time (w >>> 1) := by
        simp only [bview, Prod.mk.injEq] at hv1
        exact hv1.1
      have hr1 := RunB.step SINE s hse
      rw [keyedB_on s _ hs0 (by rw [hd1]; exact hf), ht1] at hr1
      obtain ⟨t2, hr2, hv2⟩ := b_element SINE _ (elemB_time (w >>> 1)) (w >>> 1) n 8 f imr hv1 hf
        hen (Or.inr rfl) (elemB_time_ge _)
      obtain ⟨t3, w', hr3, hv3⟩ := ih t2 (w >>> 1) f imr hv2 hf hen (by omega)
      refine ⟨t3, w', ?_, hv3⟩
      have hk : keyed_rest (n + 1) w = elemB_time (w >>> 1) :: keyed_rest n (w >>> 1) := by
        simp only [keyed_rest, hn, if_false]
      rw [hk]
      simpa using RunB.trans SINE hr1 (RunB.trans SINE hr2 hr3)

/-- A staged letter is keyed out completely: from registers in which `put_cw`
has staged the word `w` with `n >= 1` elements, the run of `Timer3B_ISR` keys
the element of each of the `n` low bits of `w`, low bit first, and ends with the
interrupt masked and the channel idle. -/
theorem b_letter (SINE : Nat → Int) (s : State) (T sb w n u c f imr : Nat)
    (hv : bview s = (T, 1, sb, w, n, 0, u, 0, c, 8, f, imr)) (hf : f ≠ 0)
    (hen : imr &&& TIMER_IMR_CBEIM ≠ 0) (hn : 1 ≤ n) :
    ∃ N t, (∀ fuel, N ≤ fuel → runB SINE fuel s = some (elemB_time w :: keyed_rest n w, t)) ∧
      t.sendingb = 0 ∧ t.initialb = 0 ∧ SendIdle t ∧ t.tone2_reg = f := by
  have hv1 := tickB_first SINE s T sb w n 0 u c f imr hv hf
  have hd1 : (Timer3B_ISR SINE s).delph2 = f := delph2_of_bview _ _ _ _ _ _ _ _ _ _ _ _ _ hv1
  have ht1 : (Timer3B_ISR SINE s).toneb_timer = elemB_time w := by
    simp only [bview, Prod.mk.injEq] at hv1
    exact hv1.1
  have hr1 := RunB.step SINE s (t3b_enabled_of_bview s _ _ _ _ _ _ _ _ _ _ _ _ hv hen)
  rw [keyedB_on s _ (delph2_of_bview s _ _ _ _ _ _ _ _ _ _ _ _ hv) (by rw [hd1]; exact hf),
    ht1] at hr1
  obtain ⟨t2, hr2, hv2⟩ := b_element SINE _ (elemB_time w) w n 7 f imr hv1 hf hen (Or.inl rfl)
    (elemB_time_ge _)
  obtain ⟨t3, w', hr3, hv3⟩ := b_rest SINE n t2 w f imr hv2 hf hen hn
  have hrun : RunB SINE s (elemB_time w :: keyed_rest n w) t3 := by
    simpa using RunB.trans SINE hr1 (RunB.trans SINE hr2 hr3)
  have hv3' := hv3
  simp only [bview, Prod.mk.injEq] at hv3'
  obtain ⟨-, k2, k3, -, -, k6, -, k8, -, k10, k11, k12⟩ := hv3'
  have hdis : t3b_enabled t3 = false := by
    simp only [t3b_enabled, k12, imr_masked, ne_eq, not_true_eq_false, decide_False]
  obtain ⟨N, hN⟩ := RunB.final SINE hrun hdis
  refine ⟨N, t3, hN, k3, k2, ⟨k3, k6, k8, ?_, ?_⟩, k11⟩
  · rw [k10, RAMP_RATE1_eq]
  · rw [k11]; exact hf

set_option maxRecDepth 100000 in
/-- Every table entry but the word-space entry passes the keying check. -/
theorem keyed_table : ∀ i, i < sizeof_len_map → i ≠ 0 → keyed_check i = true := by
  decide

/-- One character through the reply channel: `put_cw` stages it and the run of
`Timer3B_ISR` keys the elements of its table entry. -/
theorem put_cw_keys_char (SINE : Nat → Int) (c : Nat) (hc : c ∈ cw_text_map) (h1 : c ≠ 32)
    (h2 : c ≠ CWSPC) (s : State) (hs : SendIdle s) :
    ∃ i s', lookup_elem c = some i ∧ i < sizeof_len_map ∧ put_cw c s = some s' ∧
      s'.initialb = 1 ∧
      ∃ N t, (∀ fuel, N ≤ fuel → runB SINE fuel s' = some (lut_times i, t)) ∧
        t.sendingb = 0 ∧ t.initialb = 0 ∧ SendIdle t := by
  obtain ⟨i, s', hl, hi, htx, hput, hini, -⟩ := put_cw_roundtrip_aux c hc h1 h2 s
  have hi0 : i ≠ 0 := by
    intro h0
    rw [h0] at htx
    exact h1 htx.symm
  have hk := keyed_table i hi hi0
  simp only [keyed_check, decide_eq_true_eq] at hk
  obtain ⟨hn1, -, hlist⟩ := hk
  have hff : i ≠ 0xff := by rw [sizeof_len_map_eq] at hi; omega
  have hput' := put_cw_letter c i s hl hff h1 h2
  obtain ⟨k1, k2, k3, k4, k5⟩ := hs
  obtain ⟨N, t, hN, ht1, ht2, ht3, -⟩ := b_letter SINE
    { s with
      trapb_count := len_at i,
      trapb_word := put_cw_reverse (len_at i) 0 (elem_at i),
      initialb := 1,
      TIMER3_IMR_R := (s.TIMER3_IMR_R &&& TIMER3_IMR_BMASK) ||| TIMER_IMR_CBEIM }
    s.toneb_timer s.sendingb
    (put_cw_reverse (len_at i) 0 (elem_at i)) (len_at i) s.rampupb s.rampcycb s.tone2_reg
    ((s.TIMER3_IMR_R &&& TIMER3_IMR_BMASK) ||| TIMER_IMR_CBEIM)
    (by simp only [bview, k2, k3, k4, RAMP_RATE1_eq]) k5 (imr_unmasked _) hn1
  rw [hlist] at hN
  exact ⟨i, _, hl, hi, hput', rfl, N, t, hN, ht1, ht2, ht3⟩


theorem idle_regs_idle : SendIdle idle_regs :=
  ⟨rfl, rfl, rfl, rfl, by decide⟩

/-- What `put_cw` stages for the space and for CWSPC: a word space. -/
theorem put_cw_space (c i : Nat) (s : State) (hl : lookup_elem c = some i) (hi : i ≠ 0xff)
    (hc : c = 32 ∨ c = CWSPC) :
    put_cw c s = some { s with
      trapb_word := 0, trapb_count := 0, initialb := 0x02,
      TIMER3_IMR_R := (s.TIMER3_IMR_R &&& TIMER3_IMR_BMASK) ||| TIMER_IMR_CBEIM } := by
  simp only [put_cw, hl, if_pos hi, if_pos hc]

/-- First tick after `put_cw` has staged a word space: the word delay is
loaded and the tone stays off. -/
theorem tickB_first_space (SINE : Nat → Int) (s : State) (T sb w n d u v c r f imr : Nat)
    (hv : bview s = (T, 2, sb, w, n, d, u, v, c, r, f, imr)) :
    bview (Timer3B_ISR SINE s) = (WSPACEB_TIME, 0, 1, w, n, 0, u, v, c, r, f, imr) := by
  simp only [bview, Prod.mk.injEq] at hv
  obtain ⟨h1, h2, h3, h4, h5, h6, h7, h8, h9, h10, h11, h12⟩ := hv
  have e1 : (1 : Nat) ≠ 2 := by decide
  have e2 : (2 : Nat) ≠ 0 := by decide
  have e3 : WSPACEB_TIME ≠ 0 := by decide
  by_cases hT : T = 0 <;>
  simp only [bview, Timer3B_ISR, b_initial, b_space, h1, h2, h3, h4, h5, h6, h7, h8, h9, h10,
    h11, h12, hT, e1, e2, e3, ne_eq, not_true_eq_false, not_false_eq_true, if_true, if_false]

/-- A staged word space runs out without keying any element. -/
theorem b_word_space (SINE : Nat → Int) (s : State) (T sb d u v c f imr : Nat)
    (hv : bview s = (T, 2, sb, 0, 0, d, u, v, c, 8, f, imr))
    (hen : imr &&& TIMER_IMR_CBEIM ≠ 0) :
    ∃ N t, (∀ fuel, N ≤ fuel → runB SINE fuel s = some ([], t)) ∧ t.sendingb = 0 := by
  have hv1 := tickB_first_space SINE s T sb 0 0 d u v c 8 f imr hv
  have hr1 := RunB.space_step SINE s (t3b_enabled_of_bview s _ _ _ _ _ _ _ _ _ _ _ _ hv hen)
    (delph2_of_bview _ _ _ _ _ _ _ _ _ _ _ _ _ hv1)
  obtain ⟨t2, hr2, hv2⟩ := b_gap SINE (WSPACEB_TIME - 1) _ WSPACEB_TIME 0 0 u v c f imr hv1 hen
    (by decide)
  have e : WSPACEB_TIME - (WSPACEB_TIME - 1) = 1 := by decide
  rw [e] at hv2
  have hv3 := tickB_done SINE t2 0 u v c 8 f imr hv2
  have hr3 := RunB.space_step SINE t2 (t3b_enabled_of_bview t2 _ _ _ _ _ _ _ _ _ _ _ _ hv2 hen)
    (delph2_of_bview _ _ _ _ _ _ _ _ _ _ _ _ _ hv3)
  have hrun : RunB SINE s [] (Timer3B_ISR SINE t2) := by
    simpa using RunB.trans SINE hr1 (RunB.trans SINE hr2 hr3)
  have hv3' := hv3
  simp only [bview, Prod.mk.injEq] at hv3'
  obtain ⟨-, -, k3, -, -, -, -, -, -, -, -, k12⟩ := hv3'
  have hdis : t3b_enabled (Timer3B_ISR SINE t2) = false := by
    simp only [t3b_enabled, k12, imr_masked, ne_eq, not_true_eq_false, decide_False]
  obtain ⟨N, hN⟩ := RunB.final SINE hrun hdis
  exact ⟨N, _, hN, k3⟩

/-- C5, amended: with the reply channel idle, for every character `c` of the table
other than the space and CWSPC (160, which `put_cw` also sends as a word space):
`put_cw` stages a letter (`initialb = 1`, not the word space
code 2), the run of `Timer3B_ISR` returns (for every large enough budget of
ticks), it keys exactly `cw_len_map[i]` tone elements, `i = lookup_elem c`,
element `k` with the tone timer loaded with `DAHB_TIME` when bit `len - 1 - k` of
`cw_elem_map[i]` is 1 and with `DITB_TIME` when it is 0, and it ends with
`sendingb = 0`.  For the text SOS (S from pattern 0 length 3, O from pattern 7
length 3) this is three dits, three dahs, three dits. -/
theorem put_cw_keys (SINE : Nat → Int) (s : State) (hs : SendIdle s) :
    (∀ c, c ∈ cw_text_map → c ≠ 32 → c ≠ CWSPC →
      ∃ i s', lookup_elem c = some i ∧ i < sizeof_len_map ∧ put_cw c s = some s' ∧
        s'.initialb = 1 ∧ (lut_times i).length = len_at i ∧
        ∃ N t, (∀ fuel, N ≤ fuel → runB SINE fuel s' = some (lut_times i, t)) ∧
          t.sendingb = 0 ∧ t.initialb = 0) ∧
    (lookup_elem 83 = some 52 ∧ elem_at 52 = 0 ∧ len_at 52 = 3 ∧
      lookup_elem 79 = some 48 ∧ elem_at 48 = 7 ∧ len_at 48 = 3) ∧
    (∃ N, ∀ fuel, N ≤ fuel → ∃ u,
      send_text SINE fuel [83, 79, 83] s =
        some ([[DITB_TIME, DITB_TIME, DITB_TIME], [DAHB_TIME, DAHB_TIME, DAHB_TIME],
          [DITB_TIME, DITB_TIME, DITB_TIME]], u) ∧ u.sendingb = 0) := by
  refine ⟨?_, ⟨by decide, by decide, by decide, by decide, by decide, by decide⟩, ?_⟩
  · intro c hc h1 h2
    obtain ⟨i, s', hl, hi, hput, hini, N, t, hN, ht1, ht2, -⟩ :=
      put_cw_keys_char SINE c hc h1 h2 s hs
    refine ⟨i, s', hl, hi, hput, hini, ?_, N, t, hN, ht1, ht2⟩
    simp only [lut_times, List.length_map, List.length_range]
  · obtain ⟨i1, s1, hl1, -, hp1, -, N1, t1, hN1, -, -, hi1⟩ :=
      put_cw_keys_char SINE 83 (by decide) (by decide) (by decide) s hs
    obtain ⟨i2, s2, hl2, -, hp2, -, N2, t2, hN2, -, -, hi2⟩ :=
      put_cw_keys_char SINE 79 (by decide) (by decide) (by decide) t1 hi1
    obtain ⟨i3, s3, hl3, -, hp3, -, N3, t3, hN3, ht3, -, -⟩ :=
      put_cw_keys_char SINE 83 (by decide) (by decide) (by decide) t2 hi2
    have e1 : i1 = 52 := by
      have : lookup_elem 83 = some 52 := by decide
      rw [this] at hl1; exact (Option.some.inj hl1).symm
    have e2 : i2 = 48 := by
      have : lookup_elem 79 = some 48 := by decide
      rw [this] at hl2; exact (Option.some.inj hl2).symm
    have e3 : i3 = 52 := by
      have : lookup_elem 83 = some 52 := by decide
      rw [this] at hl3; exact (Option.some.inj hl3).symm
    subst e1; subst e2; subst e3
    have hS : lut_times 52 = [DITB_TIME, DITB_TIME, DITB_TIME] := by decide
    have hO : lut_times 48 = [DAHB_TIME, DAHB_TIME, DAHB_TIME] := by decide
    rw [hS] at hN1 hN3
    rw [hO] at hN2
    refine ⟨N1 + N2 + N3, fun fuel hf => ⟨t3, ?_, ht3⟩⟩
    simp only [send_text, hp1, hN1 fuel (by omega), hp2, hN2 fuel (by omega), hp3,
      hN3 fuel (by omega)]

/-- Witness of C5: from the idle registers the channel has after initialisation
(any sine table, here the zero table), SOS is keyed as three dits, three dahs,
three dits. -/
theorem put_cw_keys_witness :
    SendIdle idle_regs ∧
    (∃ N, ∀ fuel, N ≤ fuel → ∃ u,
      send_text (fun _ => 0) fuel [83, 79, 83] idle_regs =
        some ([[DITB_TIME, DITB_TIME, DITB_TIME], [DAHB_TIME, DAHB_TIME, DAHB_TIME],
          [DITB_TIME, DITB_TIME, DITB_TIME]], u) ∧ u.sendingb = 0) :=
  ⟨idle_regs_idle, (put_cw_keys (fun _ => 0) idle_regs idle_regs_idle).2.2⟩

/-- Counterexample to C5 as stated (every table character other than the
space): CWSPC = 160 is a table character (index 107, length 8) and is not the
space, yet `put_cw` stages a word space for it (`initialb = 0x02`, element
counter 0), and the run of `Timer3B_ISR` keys no element instead of eight. -/
theorem put_cw_keys_counterexample :
    160 ∈ cw_text_map ∧ 160 ≠ 32 ∧ SendIdle idle_regs ∧
    lookup_elem 160 = some 107 ∧ len_at 107 = 8 ∧
    ∃ s', put_cw 160 idle_regs = some s' ∧ s'.initialb = 0x02 ∧ s'.trapb_count = 0 ∧
      ∃ N t, (∀ fuel, N ≤ fuel → runB (fun _ => 0) fuel s' = some ([], t)) ∧
        t.sendingb = 0 := by
  have hl : lookup_elem 160 = some 107 := by decide
  refine ⟨by decide, by decide, idle_regs_idle, hl, by decide, _,
    put_cw_space 160 107 idle_regs hl (by decide) (Or.inr (by decide)), rfl, rfl, ?_⟩
  exact b_word_space (fun _ => 0) _ 0 0 0 0 0 0 TONE_800
    ((idle_regs.TIMER3_IMR_R &&& TIMER3_IMR_BMASK) ||| TIMER_IMR_CBEIM) rfl (imr_unmasked _)

/-! ## Theorems: the iambic paddle decoder -/

/-- With valid pin assignments no paddle pin set is empty. -/
theorem PortsOk.ne (s : State) (h : PortsOk s) :
    ¬ (0 = s.dah_port ||| s.dit_port) ∧ ¬ (0 = s.dit_port ||| s.dah_port) ∧
      ¬ (0 = s.dit_port) ∧ ¬ (0 = s.dah_port) ∧
      s.dit_port ||| s.dah_port = s.dah_port ||| s.dit_port := by
  rcases h with ⟨h1, h2⟩ | ⟨h1, h2⟩ <;> rw [h1, h2] <;> decide

theorem tone_timer_tick_aview (s : State) :
    aview (tone_timer_tick s) = aview s ∧ (tone_timer_tick s).delph1 = s.delph1 := by
  simp only [tone_timer_tick, aview, apply_ite State.paddle_key_mode, apply_ite State.pstate,
    apply_ite State.initial, apply_ite State.dit_port, apply_ite State.dah_port,
    apply_ite State.keyer_mode, apply_ite State.delph1, ite_self, and_self]

theorem debounce_tick_aview (s : State) :
    aview (debounce_tick s) = aview s ∧ (debounce_tick s).delph1 = s.delph1 := by
  simp only [debounce_tick, aview, apply_ite State.paddle_key_mode, apply_ite State.pstate,
    apply_ite State.initial, apply_ite State.dit_port, apply_ite State.dah_port,
    apply_ite State.keyer_mode, apply_ite State.delph1, ite_self, and_self]

theorem status_handshake_aview (s : State) :
    aview (status_handshake s) = aview s ∧ (status_handshake s).delph1 = s.delph1 := by
  simp only [status_handshake, aview, apply_ite State.paddle_key_mode, apply_ite State.pstate,
    apply_ite State.initial, apply_ite State.dit_port, apply_ite State.dah_port,
    apply_ite State.keyer_mode, apply_ite State.delph1, ite_self, and_self]

theorem pdl_silence_aview (s : State) :
    aview (pdl_silence s) = aview s ∧ (pdl_silence s).delph1 = s.delph1 := by
  simp only [pdl_silence, pdl_word_space, pdl_letter_space, cw_push, aview,
    apply_ite State.paddle_key_mode, apply_ite State.pstate,
    apply_ite State.initial, apply_ite State.dit_port, apply_ite State.dah_port,
    apply_ite State.keyer_mode, apply_ite State.delph1, ite_self, and_self]

theorem pdl_initial_idle (s : State) (h : s.initial = 0) : pdl_initial s = s := by
  simp only [pdl_initial, h, ne_eq, not_true_eq_false, if_false]

/-- The fields of the view. -/
theorem aview_eq (s : State) (a b c d e f : Nat) (h : aview s = (a, b, c, d, e, f)) :
    s.paddle_key_mode = a ∧ s.pstate = b ∧ s.initial = c ∧ s.dit_port = d ∧ s.dah_port = e ∧
      s.keyer_mode = f := by
  simpa only [aview, Prod.mk.injEq] using h

/-- Tone-on processing with the paddles released latches nothing. -/
theorem pdl_tone_released (SINE : Nat → Int) (hw : PortB) (s : State)
    (hrel : Released (s.dah_port ||| s.dit_port) hw) (hps : s.pstate = 0) :
    aview (pdl_tone SINE hw s) = aview s := by
  obtain ⟨r1, r2⟩ := hrel
  have h1 : aview (pdl_latch hw s) = aview s := by
    simp only [pdl_latch, aview, hps, r1, apply_ite State.paddle_key_mode, apply_ite State.pstate,
      apply_ite State.initial, apply_ite State.dit_port, apply_ite State.dah_port,
      apply_ite State.keyer_mode, ite_self, Nat.zero_or, Nat.zero_mod]
  have h2 : ∀ t, aview (pdl_expire t) = aview t := by
    intro t
    simp only [pdl_expire, aview, apply_ite State.paddle_key_mode, apply_ite State.pstate,
      apply_ite State.initial, apply_ite State.dit_port, apply_ite State.dah_port,
      apply_ite State.keyer_mode, ite_self]
  have h3 : ∀ t, aview (a_dds SINE t) = aview t := fun t => rfl
  have h4 : ∀ t, aview (a_rampup t) = aview t := by
    intro t
    simp only [a_rampup, aview, apply_ite State.paddle_key_mode, apply_ite State.pstate,
      apply_ite State.initial, apply_ite State.dit_port, apply_ite State.dah_port,
      apply_ite State.keyer_mode, ite_self]
  have h5 : ∀ t, aview (pdl_decay t) = aview t := by
    intro t
    simp only [pdl_decay, trap_element, aview, apply_ite State.paddle_key_mode,
      apply_ite State.pstate, apply_ite State.initial, apply_ite State.dit_port,
      apply_ite State.dah_port, apply_ite State.keyer_mode, ite_self]
  rw [pdl_tone, h5, h4, h3, h2, h1]

/-- Tone-off processing with the paddles released and nothing latched starts no
element and latches nothing. -/
theorem pdl_space_released (hw : PortB) (s : State) (hports : PortsOk s)
    (hrel : Released (s.dah_port ||| s.dit_port) hw) (hps : s.pstate = 0)
    (hini : s.initial = 0) :
    aview (pdl_space hw s) = aview s ∧ (pdl_space hw s).delph1 = s.delph1 := by
  obtain ⟨r1, r2⟩ := hrel
  -- the edge trap sees no edge
  have he : pdl_edge hw s = s := by
    have e0 : ({ s with initial := 0 } : State) = s := by rw [← hini]
    simp only [pdl_edge, r2, Nat.zero_mod, ne_eq, not_true_eq_false, if_false, e0, ite_self]
  have hg : aview (pdl_gap hw s) = aview s ∧ (pdl_gap hw s).delph1 = s.delph1 := by
    obtain ⟨p1, p2, p3, p4, p5⟩ := PortsOk.ne s hports
    have h1 : aview (pdl_sample hw s) = aview s ∧ (pdl_sample hw s).delph1 = s.delph1 := by
      simp only [pdl_sample, aview, hps, r1, r2, apply_ite State.paddle_key_mode,
        apply_ite State.pstate, apply_ite State.initial, apply_ite State.dit_port,
        apply_ite State.dah_port, apply_ite State.keyer_mode, apply_ite State.delph1, ite_self,
        Nat.zero_or, Nat.zero_mod, and_self]
    have h2 : aview (pdl_clear_edges (pdl_sample hw s)) = aview s ∧
        (pdl_clear_edges (pdl_sample hw s)).delph1 = s.delph1 := h1
    obtain ⟨q1, q2, q3, q4, q5, q6⟩ := aview_eq _ _ _ _ _ _ _ h2.1
    have h3 : pdl_start (pdl_clear_edges (pdl_sample hw s)) =
        pdl_silence (pdl_clear_edges (pdl_sample hw s)) := by
      simp only [pdl_start, q2, q4, q5, hps, p1, p2, p3, p4, if_false]
    rw [pdl_gap, h3]
    obtain ⟨k1, k2⟩ := pdl_silence_aview (pdl_clear_edges (pdl_sample hw s))
    obtain ⟨m1, m2, m3, m4, m5, m6⟩ := aview_eq _ _ _ _ _ _ _ (k1.trans h2.1)
    refine ⟨?_, ?_⟩
    · simp only [aview, pdl_clear_pstate, m1, m3, m4, m5, m6, hps]
    · exact k2.trans h2.2
  rw [pdl_space, he, pdl_gap_check]
  split
  · exact hg
  · exact ⟨rfl, rfl⟩

/-- A paddle-mode tick with the paddles released and no edge latched, taken with
nothing latched in `pstate` and `initial`, latches nothing, changes neither the
mode nor the pin assignment, and does not turn the tone on. -/
theorem released_tick (SINE : Nat → Int) (hw : PortB) (s : State)
    (hpdl : s.paddle_key_mode ≠ 0) (hports : PortsOk s)
    (hrel : Released (s.dah_port ||| s.dit_port) hw) (hps : s.pstate = 0)
    (hini : s.initial = 0) :
    aview (Timer3A_ISR SINE hw s) = aview s ∧
      (s.delph1 = 0 → (Timer3A_ISR SINE hw s).delph1 = 0) := by
  obtain ⟨a1, a2⟩ := tone_timer_tick_aview s
  obtain ⟨b1, b2, b3, b4, b5, b6⟩ := aview_eq _ _ _ _ _ _ _ a1
  have hports' : PortsOk (tone_timer_tick s) := by
    unfold PortsOk; rw [b4, b5]; exact hports
  have hrel' : Released ((tone_timer_tick s).dah_port ||| (tone_timer_tick s).dit_port) hw := by
    rw [b4, b5]; exact hrel
  have hps' : (tone_timer_tick s).pstate = 0 := by rw [b2, hps]
  have hini' : (tone_timer_tick s).initial = 0 := by rw [b3, hini]
  simp only [Timer3A_ISR, hpdl, if_false]
  rw [(debounce_tick_aview _).1, (debounce_tick_aview _).2, (status_handshake_aview _).1,
    (status_handshake_aview _).2, pdl_initial_idle _ hini', pdl_tick]
  by_cases hd : (tone_timer_tick s).delph1 = 0
  · simp only [hd, ne_eq, not_true_eq_false, if_false]
    obtain ⟨c1, c2⟩ := pdl_space_released hw _ hports' hrel' hps' hini'
    exact ⟨c1.trans a1, fun _ => c2.trans hd⟩
  · simp only [hd, ne_eq, not_false_eq_true, if_true]
    refine ⟨(pdl_tone_released SINE hw _ hrel' hps').trans a1, fun h0 => ?_⟩
    rw [a2] at hd
    exact absurd h0 hd

/-- Any run of paddle-mode ticks with the paddles released, started with nothing
latched, keeps the latches empty. -/
theorem released_run (SINE : Nat → Int) :
    ∀ (hws : List PortB) (s : State), s.paddle_key_mode ≠ 0 → PortsOk s →
      (∀ h ∈ hws, Released (s.dah_port ||| s.dit_port) h) → s.pstate = 0 → s.initial = 0 →
      aview (runA SINE hws s) = aview s := by
  intro hws
  induction hws with
  | nil => intro s _ _ _ _ _; rfl
  | cons hw rest ih =>
    intro s hpdl hports hrel hps hini
    have h1 := (released_tick SINE hw s hpdl hports (hrel hw (List.mem_cons_self _ _)) hps hini).1
    obtain ⟨b1, b2, b3, b4, b5, b6⟩ := aview_eq _ _ _ _ _ _ _ h1
    have h2 := ih (Timer3A_ISR SINE hw s) (by rw [b1]; exact hpdl)
      (by unfold PortsOk; rw [b4, b5]; exact hports)
      (by rw [b4, b5]; exact fun h hh => hrel h (List.mem_cons_of_mem _ hh))
      (by rw [b2, hps]) (by rw [b3, hini])
    simp only [runA]
    exact h2.trans h1

theorem debounce_tick_eview (s : State) : eview (debounce_tick s) = eview s := by
  simp only [debounce_tick, eview, apply_ite State.trap_bit, apply_ite State.delph1,
    apply_ite State.rampup, apply_ite State.tone_timer, apply_ite State.pstate,
    apply_ite State.silence_count, ite_self]

theorem status_handshake_eview (s : State) : eview (status_handshake s) = eview s := by
  simp only [status_handshake, eview, apply_ite State.trap_bit, apply_ite State.delph1,
    apply_ite State.rampup, apply_ite State.tone_timer, apply_ite State.pstate,
    apply_ite State.silence_count, ite_self]

/-- The path of a paddle-mode tick at which the gap timer expires with the tone
off, no first edge pending and the silence counter at zero: the gap
processing runs on the registers with the tone timer at zero. -/
theorem gap_tick_path (SINE : Nat → Int) (hw : PortB) (s : State)
    (hpdl : s.paddle_key_mode ≠ 0) (htone : s.delph1 = 0) (hini : s.initial = 0)
    (htimer : s.tone_timer ≤ 1) (hsil : s.silence_count = 0) :
    Timer3A_ISR SINE hw s =
      debounce_tick (status_handshake (pdl_gap hw { s with tone_timer := 0 })) := by
  have h1 : tone_timer_tick s = { s with tone_timer := 0 } := by
    by_cases h0 : s.tone_timer = 0
    · simp only [tone_timer_tick, h0, ne_eq, not_true_eq_false, if_false]
      rw [← h0]
    · have h1 : s.tone_timer - 1 = 0 := by omega
      simp only [tone_timer_tick, h0, ne_eq, not_false_eq_true, if_true, h1]
  have h2 : ¬ (0 ≥ LETTER_SPACE) := by decide
  simp only [Timer3A_ISR, hpdl, if_false, h1, pdl_initial, hini, ne_eq, not_true_eq_false,
    pdl_tick, htone, pdl_space, pdl_edge, hsil, h2, pdl_gap_check, if_true]

/-- Mode B at the gap expiry after a squeeze, paddles released: the opposite
element is started. -/
theorem mode_b_tick (SINE : Nat → Int) (hw : PortB) (s : State)
    (hpdl : s.paddle_key_mode ≠ 0) (htone : s.delph1 = 0) (hini : s.initial = 0)
    (htimer : s.tone_timer ≤ 1) (hsil : s.silence_count = 0)
    (hps : s.pstate = s.dit_port ||| s.dah_port) (hports : PortsOk s) (hB : s.keyer_mode = 66) :
    eview (Timer3A_ISR SINE hw s) =
      ((s.trap_bit ^^^ 0x01) % 256, s.tone_reg, RAMP_MAX,
        if (s.trap_bit ^^^ 0x01) % 256 ≠ 0 then s.dah_time_reg else s.dit_time_reg, 0, 0) ∧
    aview (Timer3A_ISR SINE hw s) =
      (s.paddle_key_mode, 0, 0, s.dit_port, s.dah_port, s.keyer_mode) := by
  obtain ⟨p1, p2, p3, p4, p5⟩ := PortsOk.ne s hports
  have e1 : (66 : Nat) ≠ 65 := by decide
  rw [gap_tick_path SINE hw s hpdl htone hini htimer hsil, debounce_tick_eview,
    status_handshake_eview, (debounce_tick_aview _).1, (status_handshake_aview _).1]
  constructor
  · by_cases hb : (s.trap_bit ^^^ 0x01) % 256 = 0
    · simp only [pdl_gap, pdl_sample, pdl_clear_edges, pdl_start, pdl_start_opposite,
        pdl_clear_pstate, eview, hB, e1, hps, p5, hb, hsil, ne_eq, not_true_eq_false,
        not_false_eq_true, if_true, if_false]
    · simp only [pdl_gap, pdl_sample, pdl_clear_edges, pdl_start, pdl_start_opposite,
        pdl_clear_pstate, eview, hB, e1, hps, p5, hb, hsil, ne_eq, not_true_eq_false,
        not_false_eq_true, if_true, if_false]
  · by_cases hb : (s.trap_bit ^^^ 0x01) % 256 = 0
    · simp only [pdl_gap, pdl_sample, pdl_clear_edges, pdl_start, pdl_start_opposite,
        pdl_clear_pstate, aview, hB, e1, hps, p5, hb, hini, ne_eq, not_true_eq_false,
        not_false_eq_true, if_true, if_false]
    · simp only [pdl_gap, pdl_sample, pdl_clear_edges, pdl_start, pdl_start_opposite,
        pdl_clear_pstate, aview, hB, e1, hps, p5, hb, hini, ne_eq, not_true_eq_false,
        not_false_eq_true, if_true, if_false]

/-- Mode A at the gap expiry after a squeeze, paddles released: no element is
started, the silence count begins. -/
theorem mode_a_tick (SINE : Nat → Int) (hw : PortB) (s : State)
    (hpdl : s.paddle_key_mode ≠ 0) (htone : s.delph1 = 0) (hini : s.initial = 0)
    (htimer : s.tone_timer ≤ 1) (hsil : s.silence_count = 0)
    (hports : PortsOk s) (hrel : Released (s.dah_port ||| s.dit_port) hw)
    (hA : s.keyer_mode = 65) :
    eview (Timer3A_ISR SINE hw s) = (s.trap_bit, 0, s.rampup, s.dit_time_reg, 0, 1) := by
  obtain ⟨p1, p2, p3, p4, p5⟩ := PortsOk.ne s hports
  obtain ⟨r1, r2⟩ := hrel
  have e1 : ¬ (0 ≥ WORD_SPACE) := by decide
  have e2 : ¬ ((0 + 1) % 256 = LETTER_SPACE) := by decide
  have e3 : (0 + 1) % 256 = 1 := rfl
  rw [gap_tick_path SINE hw s hpdl htone hini htimer hsil, debounce_tick_eview,
    status_handshake_eview]
  simp only [pdl_gap, pdl_sample, pdl_clear_edges, pdl_start, pdl_silence,
    pdl_clear_pstate, eview, hA, r1, p1, p2, p3, p4, hsil, htone, e1, e2, e3, Nat.zero_mod,
    ne_eq, not_true_eq_false, not_false_eq_true, if_true, if_false]

/-- C6: paddle decoder at the tick where the inter-element gap timer expires
with the tone off, both paddles latched during the preceding element
(`pstate = dit_port | dah_port`), both paddles now released and no edge
pending.  In mode B the tick starts one further element, the opposite of the
previous one (`trap_bit` inverted, tone and attack started, tone timer loaded
with the dah or dit time of the new bit); as long as the paddles stay released
no later tick turns the tone on again, so no second extra element follows.
In mode A the same tick starts no element and begins counting silence
(`silence_count = 1`, timer loaded with one dit time). -/
theorem iambic_mode_a_b (SINE : Nat → Int) (hw : PortB) (s : State)
    (hpdl : s.paddle_key_mode ≠ 0) (hports : PortsOk s) (htone : s.delph1 = 0)
    (hini : s.initial = 0) (htimer : s.tone_timer ≤ 1) (hsil : s.silence_count = 0)
    (hps : s.pstate = s.dit_port ||| s.dah_port)
    (hrel : Released (s.dah_port ||| s.dit_port) hw) :
    (s.keyer_mode = 66 →
      eview (Timer3A_ISR SINE hw s) =
        ((s.trap_bit ^^^ 0x01) % 256, s.tone_reg, RAMP_MAX,
          if (s.trap_bit ^^^ 0x01) % 256 ≠ 0 then s.dah_time_reg else s.dit_time_reg, 0, 0) ∧
      (s.trap_bit = 0 → (Timer3A_ISR SINE hw s).trap_bit = 1 ∧
        (Timer3A_ISR SINE hw s).tone_timer = s.dah_time_reg) ∧
      (s.trap_bit = 1 → (Timer3A_ISR SINE hw s).trap_bit = 0 ∧
        (Timer3A_ISR SINE hw s).tone_timer = s.dit_time_reg) ∧
      ∀ (hws : List PortB) (hw' : PortB),
        (∀ h ∈ hws, Released (s.dah_port ||| s.dit_port) h) →
        Released (s.dah_port ||| s.dit_port) hw' →
        (runA SINE hws (Timer3A_ISR SINE hw s)).delph1 = 0 →
        (Timer3A_ISR SINE hw' (runA SINE hws (Timer3A_ISR SINE hw s))).delph1 = 0) ∧
    (s.keyer_mode = 65 →
      eview (Timer3A_ISR SINE hw s) = (s.trap_bit, 0, s.rampup, s.dit_time_reg, 0, 1)) := by
  constructor
  · intro hB
    obtain ⟨h1, h2⟩ := mode_b_tick SINE hw s hpdl htone hini htimer hsil hps hports hB
    have h1' := h1
    simp only [eview, Prod.mk.injEq] at h1'
    obtain ⟨e1, -, -, e4, -, -⟩ := h1'
    obtain ⟨b1, b2, b3, b4, b5, b6⟩ := aview_eq _ _ _ _ _ _ _ h2
    refine ⟨h1, ?_, ?_, ?_⟩
    · intro h0
      rw [e1, e4, h0]
      exact ⟨rfl, rfl⟩
    · intro h0
      rw [e1, e4, h0]
      exact ⟨rfl, rfl⟩
    · intro hws hw' hall hrel' hoff
      have hpdl1 : (Timer3A_ISR SINE hw s).paddle_key_mode ≠ 0 := by rw [b1]; exact hpdl
      have hports1 : PortsOk (Timer3A_ISR SINE hw s) := by
        unfold PortsOk; rw [b4, b5]; exact hports
      have hrun := released_run SINE hws (Timer3A_ISR SINE hw s) hpdl1 hports1
        (by rw [b4, b5]; exact hall) b2 b3
      obtain ⟨c1, c2, c3, c4, c5, c6⟩ := aview_eq _ _ _ _ _ _ _ (hrun.trans h2)
      exact (released_tick SINE hw' _ (by rw [c1]; exact hpdl)
        (by unfold PortsOk; rw [c4, c5]; exact hports)
        (by rw [c4, c5]; exact hrel') c2 c3).2 hoff
  · intro hA
    exact mode_a_tick SINE hw s hpdl htone hini htimer hsil hports hrel hA

/-- Witness of C6: the same squeeze registers and released paddles, in mode B
(a dah follows the dit) and in mode A (silence). -/
theorem iambic_mode_a_b_witness :
    Released (NDAH ||| NDIT) released_hw ∧
    eview (Timer3A_ISR (fun _ => 0) released_hw (squeeze_regs 66)) =
      (1, TONE_600, RAMP_MAX, 3 * DIT_TIME, 0, 0) ∧
    eview (Timer3A_ISR (fun _ => 0) released_hw (squeeze_regs 65)) =
      (0, 0, 0, DIT_TIME, 0, 1) := by
  have hr : Released (NDAH ||| NDIT) released_hw := by
    unfold Released; decide
  exact ⟨hr,
    ((iambic_mode_a_b (fun _ => 0) released_hw (squeeze_regs 66) (by decide)
      (Or.inl ⟨rfl, rfl⟩) rfl rfl (by decide) rfl rfl hr).1 rfl).1,
    (iambic_mode_a_b (fun _ => 0) released_hw (squeeze_regs 65) (by decide)
      (Or.inl ⟨rfl, rfl⟩) rfl rfl (by decide) rfl rfl hr).2 rfl⟩

/-! ## Theorems: the element ring buffer -/

theorem CW_BUFF_END_eq : CW_BUFF_END = 40 := rfl

/-- One push, for a head index inside the buffer: the pair is stored at the old
head, the head advances by one modulo the buffer length, the tail is kept, and
the overrun flag is set exactly when the new head equals the tail. -/
theorem cw_push_spec (elem len : Nat) (s : State) (hh : s.cw_head < CW_BUFF_END) :
    (cw_push elem len s).cw_elem_buf = wr s.cw_elem_buf s.cw_head elem ∧
    (cw_push elem len s).cw_len_buf = wr s.cw_len_buf s.cw_head len ∧
    (cw_push elem len s).cw_head = (s.cw_head + 1) % CW_BUFF_END ∧
    (cw_push elem len s).cw_tail = s.cw_tail ∧
    (cw_push elem len s).cw_stat =
      if (s.cw_head + 1) % CW_BUFF_END = s.cw_tail then s.cw_stat ||| CW_OR else s.cw_stat := by
  rw [CW_BUFF_END_eq] at hh ⊢
  have h256 : (s.cw_head + 1) % 256 = s.cw_head + 1 := by omega
  by_cases hw : s.cw_head + 1 ≥ 40
  · have h40 : (s.cw_head + 1) % 40 = 0 := by omega
    simp only [cw_push, h256, CW_BUFF_END_eq, hw, if_true, h40, apply_ite State.cw_elem_buf,
      apply_ite State.cw_len_buf, apply_ite State.cw_head, apply_ite State.cw_tail,
      apply_ite State.cw_stat, ite_self, and_self]
  · have h40 : (s.cw_head + 1) % 40 = s.cw_head + 1 := by omega
    simp only [cw_push, h256, CW_BUFF_END_eq, hw, if_false, h40, apply_ite State.cw_elem_buf,
      apply_ite State.cw_len_buf, apply_ite State.cw_head, apply_ite State.cw_tail,
      apply_ite State.cw_stat, ite_self, and_self]

theorem or_CW_OR (x : Nat) : (x ||| CW_OR) ||| CW_OR = x ||| CW_OR := by
  rw [Nat.or_assoc, Nat.or_self]

theorem and_CW_OR (x : Nat) : (x ||| CW_OR) &&& CW_OR ≠ 0 := by
  have h : (x ||| CW_OR) &&& CW_OR = CW_OR := by
    apply Nat.eq_of_testBit_eq
    intro i
    rw [Nat.testBit_and, Nat.testBit_or]
    cases x.testBit i <;> cases CW_OR.testBit i <;> rfl
  rw [h]
  decide

/-- The indices and the status after a sequence of pushes, when `k` pushes
into the empty buffer came before. -/
theorem push_all_spec :
    ∀ (es : List (Nat × Nat)) (s : State) (k h0 c0 : Nat), h0 < CW_BUFF_END →
      s.cw_tail = h0 → s.cw_head = (h0 + k) % CW_BUFF_END →
      s.cw_stat = (if k ≥ CW_BUFF_END then c0 ||| CW_OR else c0) →
      (push_all es s).cw_tail = h0 ∧
      (push_all es s).cw_head = (h0 + (k + es.length)) % CW_BUFF_END ∧
      (push_all es s).cw_stat = (if k + es.length ≥ CW_BUFF_END then c0 ||| CW_OR else c0) := by
  intro es
  induction es with
  | nil => intro s k h0 c0 _ ht hh hc; exact ⟨ht, hh, hc⟩
  | cons e rest ih =>
    intro s k h0 c0 hlt ht hh hc
    obtain ⟨elem, len⟩ := e
    have hhl : s.cw_head < CW_BUFF_END := by
      rw [hh]; exact Nat.mod_lt _ (by decide)
    obtain ⟨-, -, p3, p4, p5⟩ := cw_push_spec elem len s hhl
    have hhead : (cw_push elem len s).cw_head = (h0 + (k + 1)) % CW_BUFF_END := by
      rw [p3, hh, CW_BUFF_END_eq]; omega
    have hstat : (cw_push elem len s).cw_stat =
        (if k + 1 ≥ CW_BUFF_END then c0 ||| CW_OR else c0) := by
      rw [p5, ht, hc, hh]
      rw [CW_BUFF_END_eq] at hlt ⊢
      by_cases h1 : (h0 + k) % 40 + 1 = 40 ∨ ((h0 + k) % 40 + 1) % 40 = h0
      · by_cases hk : k ≥ 40
        · have hk1 : k + 1 ≥ 40 := by omega
          simp only [hk, hk1, if_true, or_CW_OR, ite_self]
        · by_cases hk1 : k + 1 ≥ 40
          · have he : ((h0 + k) % 40 + 1) % 40 = h0 := by omega
            simp only [hk, hk1, he, if_true, if_false]
          · have he : ¬ (((h0 + k) % 40 + 1) % 40 = h0) := by omega
            simp only [hk, hk1, he, if_false]
      · have he : ¬ (((h0 + k) % 40 + 1) % 40 = h0) := fun h => h1 (Or.inr h)
        have hk1 : (k + 1 ≥ 40) ↔ (k ≥ 40) := by omega
        simp only [he, if_false, hk1]
    obtain ⟨q1, q2, q3⟩ := ih (cw_push elem len s) (k + 1) h0 c0 hlt (p4.trans ht) hhead hstat
    simp only [push_all, List.length_cons]
    refine ⟨q1, ?_, ?_⟩
    · rw [q2]; congr 2; omega
    · rw [q3]
      have : k + 1 + rest.length = k + (rest.length + 1) := by omega
      rw [this]

/-- C8: a push into the element ring buffer (head index inside the buffer)
stores the pair at the old `cw_head`, advances `cw_head` by one modulo
`CW_BUFF_END` and sets `CW_OR` exactly when the new `cw_head` equals `cw_tail`.
Hence, from an empty buffer (`cw_tail = cw_head`) and with no read in between,
`N` pushes leave `CW_OR` set for every `N >= CW_BUFF_END`, and for every
`N < CW_BUFF_END` they leave the status register as it was, so `CW_OR` stays
clear if it was clear. -/
theorem cw_push_overrun (s : State) (hh : s.cw_head < CW_BUFF_END) :
    (∀ elem len,
      (cw_push elem len s).cw_elem_buf s.cw_head = elem ∧
      (cw_push elem len s).cw_len_buf s.cw_head = len ∧
      (cw_push elem len s).cw_head = (s.cw_head + 1) % CW_BUFF_END ∧
      (cw_push elem len s).cw_tail = s.cw_tail ∧
      (cw_push elem len s).cw_stat =
        if (cw_push elem len s).cw_head = (cw_push elem len s).cw_tail
        then s.cw_stat ||| CW_OR else s.cw_stat) ∧
    (s.cw_tail = s.cw_head → ∀ es : List (Nat × Nat),
      (es.length ≥ CW_BUFF_END → (push_all es s).cw_stat &&& CW_OR ≠ 0) ∧
      (es.length < CW_BUFF_END → (push_all es s).cw_stat = s.cw_stat) ∧
      (es.length < CW_BUFF_END → s.cw_stat &&& CW_OR = 0 →
        (push_all es s).cw_stat &&& CW_OR = 0)) := by
  constructor
  · intro elem len
    obtain ⟨p1, p2, p3, p4, p5⟩ := cw_push_spec elem len s hh
    refine ⟨?_, ?_, p3, p4, ?_⟩
    · rw [p1]; simp only [wr, if_true]
    · rw [p2]; simp only [wr, if_true]
    · rw [p5, p3, p4]
  · intro hempty es
    obtain ⟨-, -, q3⟩ := push_all_spec es s 0 s.cw_head s.cw_stat hh hempty
      (by rw [Nat.add_zero, Nat.mod_eq_of_lt hh])
      (by simp only [CW_BUFF_END_eq, ge_iff_le, Nat.reduceLeDiff, if_false])
    rw [Nat.zero_add] at q3
    refine ⟨?_, ?_, ?_⟩
    · intro hN
      rw [q3, if_pos hN]
      exact and_CW_OR _
    · intro hN
      rw [q3, if_neg (by omega)]
    · intro hN hclr
      rw [q3, if_neg (by omega)]
      exact hclr

/-- Witness of C8: forty pushes into the empty buffer of the reset registers
set the overrun flag, thirty-nine leave the status register zero. -/
theorem cw_push_overrun_witness :
    zero_regs.cw_head < CW_BUFF_END ∧
    (push_all (List.replicate 40 (5, 3)) zero_regs).cw_stat &&& CW_OR ≠ 0 ∧
    (push_all (List.replicate 39 (5, 3)) zero_regs).cw_stat = 0 :=
  ⟨by decide,
    ((cw_push_overrun zero_regs (by decide)).2 rfl (List.replicate 40 (5, 3))).1 (by decide),
    ((cw_push_overrun zero_regs (by decide)).2 rfl (List.replicate 39 (5, 3))).2.1 (by decide)⟩

/-! ## Theorems: reading the element ring buffer -/

/-- The entry at the tail always yields a result, and processing it changes
neither index nor the mode. -/
theorem paddle_char_spec (st : State) :
    ∃ c st', paddle_char st = some (c, st') ∧ st'.cw_tail = st.cw_tail ∧
      st'.cw_head = st.cw_head ∧ st'.paddle_key_mode = st.paddle_key_mode := by
  by_cases h1 : st.suppress_s ≠ 0 ∧ st.cw_elem_buf st.cw_tail = SPACE_ELEM
  · exact ⟨0, st, by rw [paddle_char, if_pos h1], rfl, rfl, rfl⟩
  · obtain ⟨c, hc⟩ := decode_elem_total (st.cw_elem_buf st.cw_tail) (st.cw_len_buf st.cw_tail)
    by_cases h2 : st.cw_elem_buf st.cw_tail = SPACE_ELEM
    · have h3 : st.suppress_s = 0 := by
        by_contra h; exact h1 ⟨h, h2⟩
      refine ⟨c, { st with cw_stat := st.cw_stat ||| CW_STB }, ?_, rfl, rfl, rfl⟩
      rw [h2] at hc
      simp only [paddle_char, h2, h3, ne_eq, not_true_eq_false, false_and, if_false, if_true,
        not_false_eq_true, hc]
    · refine ⟨c, st, ?_, rfl, rfl, rfl⟩
      simp only [paddle_char, h2, and_false, if_false, not_false_eq_true, if_true, hc]

/-- Advancing the tail from an index inside the buffer. -/
theorem advance_tail_spec (st : State) (ht : st.cw_tail < CW_BUFF_END) :
    (advance_tail st).cw_tail = (st.cw_tail + 1) % CW_BUFF_END ∧
      (advance_tail st).cw_head = st.cw_head ∧
      (advance_tail st).paddle_key_mode = st.paddle_key_mode := by
  rw [CW_BUFF_END_eq] at ht ⊢
  have h256 : (st.cw_tail + 1) % 256 = st.cw_tail + 1 := by omega
  by_cases hw : st.cw_tail + 1 ≥ 40
  · have h40 : (st.cw_tail + 1) % 40 = 0 := by omega
    simp only [advance_tail, h256, CW_BUFF_END_eq, hw, if_true, h40, and_self]
  · have h40 : (st.cw_tail + 1) % 40 = st.cw_tail + 1 := by omega
    simp only [advance_tail, h256, CW_BUFF_END_eq, hw, if_false, h40, and_self]

/-- A call of `get_cw_asc` in paddle mode on a non-empty buffer. -/
theorem get_cw_asc_paddle_step (st : State) (hpdl : st.paddle_key_mode ≠ 0)
    (ht : st.cw_tail < CW_BUFF_END) (hne : st.cw_tail ≠ st.cw_head) :
    ∃ c st', get_cw_asc st = some (c, st') ∧ st'.cw_tail = (st.cw_tail + 1) % CW_BUFF_END ∧
      st'.cw_head = st.cw_head ∧ st'.paddle_key_mode = st.paddle_key_mode := by
  obtain ⟨c, x, hx, x1, x2, x3⟩ := paddle_char_spec st
  obtain ⟨a1, a2, a3⟩ := advance_tail_spec x (by rw [x1]; exact ht)
  refine ⟨c, advance_tail x, ?_, by rw [a1, x1], by rw [a2, x2], by rw [a3, x3]⟩
  simp only [get_cw_asc, hpdl, if_false, hne, ne_eq, not_false_eq_true, if_true, hx]

/-- A call of `get_cw_asc` in paddle mode on an empty buffer. -/
theorem get_cw_asc_paddle_empty (st : State) (hpdl : st.paddle_key_mode ≠ 0)
    (he : st.cw_tail = st.cw_head) : get_cw_asc st = some (0, st) := by
  simp only [get_cw_asc, hpdl, if_false, he, ne_eq, not_true_eq_false]

/-- In paddle mode, `k` calls of `get_cw_asc` on a buffer that holds at least
`k` entries advance the tail by `k`. -/
theorem drain_spec :
    ∀ (k : Nat) (st : State), st.paddle_key_mode ≠ 0 → st.cw_head < CW_BUFF_END →
      st.cw_tail < CW_BUFF_END → k ≤ (st.cw_head + CW_BUFF_END - st.cw_tail) % CW_BUFF_END →
      ∃ cs st', drain k st = some (cs, st') ∧ cs.length = k ∧
        st'.cw_tail = (st.cw_tail + k) % CW_BUFF_END ∧ st'.cw_head = st.cw_head ∧
        st'.paddle_key_mode = st.paddle_key_mode := by
  intro k
  induction k with
  | zero =>
    intro st _ _ ht _
    exact ⟨[], st, rfl, rfl, by rw [Nat.add_zero, Nat.mod_eq_of_lt ht], rfl, rfl⟩
  | succ k ih =>
    intro st hpdl hh ht hk
    rw [CW_BUFF_END_eq] at hh ht hk
    have hne : st.cw_tail ≠ st.cw_head := by
      intro he; rw [he] at hk; omega
    obtain ⟨c, x, hx, x1, x2, x3⟩ := get_cw_asc_paddle_step st hpdl
      (by rw [CW_BUFF_END_eq]; exact ht) hne
    rw [CW_BUFF_END_eq] at x1
    obtain ⟨cs, y, hy, y0, y1, y2, y3⟩ := ih x (by rw [x3]; exact hpdl)
      (by rw [x2, CW_BUFF_END_eq]; exact hh)
      (by rw [x1, CW_BUFF_END_eq]; omega)
      (by rw [x1, x2, CW_BUFF_END_eq]; omega)
    refine ⟨c :: cs, y, ?_, by rw [List.length_cons, y0], ?_, by rw [y2, x2], by rw [y3, x3]⟩
    · simp only [drain, hx, hy]
    · rw [y1, x1, CW_BUFF_END_eq]; omega

theorem get_cwdr_paddle (st : State) (hpdl : st.paddle_key_mode ≠ 0) :
    get_cwdr st = if st.cw_head = st.cw_tail then 0 else 1 := by
  simp only [get_cwdr, hpdl, if_false]

/-- C9: in paddle mode, for head and tail indices inside the buffer: a call of
`get_cw_asc` on a non-empty buffer returns and advances `cw_tail` by exactly one
modulo `CW_BUFF_END`, whatever the entry and the suppress flag; a call on an
empty buffer returns null and changes nothing; after exactly
`(cw_head - cw_tail) mod CW_BUFF_END` calls `cw_tail = cw_head` and `get_cwdr`
returns FALSE, and after any smaller number of calls `get_cwdr` still returns
TRUE. -/
theorem get_cw_asc_drains (st : State) (hpdl : st.paddle_key_mode ≠ 0)
    (hh : st.cw_head < CW_BUFF_END) (ht : st.cw_tail < CW_BUFF_END) :
    (st.cw_tail ≠ st.cw_head →
      ∃ c st', get_cw_asc st = some (c, st') ∧
        st'.cw_tail = (st.cw_tail + 1) % CW_BUFF_END ∧ st'.cw_head = st.cw_head) ∧
    (st.cw_tail = st.cw_head → get_cw_asc st = some (0, st) ∧ get_cwdr st = 0) ∧
    (∃ cs st', drain ((st.cw_head + CW_BUFF_END - st.cw_tail) % CW_BUFF_END) st = some (cs, st') ∧
      st'.cw_tail = st.cw_head ∧ st'.cw_head = st.cw_head ∧ get_cwdr st' = 0) ∧
    (∀ k, k < (st.cw_head + CW_BUFF_END - st.cw_tail) % CW_BUFF_END →
      ∃ cs st', drain k st = some (cs, st') ∧ get_cwdr st' = 1) := by
  refine ⟨?_, ?_, ?_, ?_⟩
  · intro hne
    obtain ⟨c, x, hx, x1, x2, -⟩ := get_cw_asc_paddle_step st hpdl ht hne
    exact ⟨c, x, hx, x1, x2⟩
  · intro he
    refine ⟨get_cw_asc_paddle_empty st hpdl he, ?_⟩
    rw [get_cwdr_paddle st hpdl, if_pos he.symm]
  · obtain ⟨cs, y, hy, -, y1, y2, y3⟩ := drain_spec _ st hpdl hh ht (le_refl _)
    have e : y.cw_tail = st.cw_head := by
      rw [y1]; rw [CW_BUFF_END_eq] at hh ht ⊢; omega
    refine ⟨cs, y, hy, e, y2, ?_⟩
    rw [get_cwdr_paddle y (by rw [y3]; exact hpdl), if_pos (by rw [y2, e])]
  · intro k hk
    obtain ⟨cs, y, hy, -, y1, y2, y3⟩ := drain_spec k st hpdl hh ht (le_of_lt hk)
    refine ⟨cs, y, hy, ?_⟩
    have e : y.cw_head ≠ y.cw_tail := by
      rw [y1, y2]; rw [CW_BUFF_END_eq] at hh ht hk ⊢; omega
    rw [get_cwdr_paddle y (by rw [y3]; exact hpdl), if_neg e]

/-- Witness of C9: five calls empty a buffer with tail 38 and head 3. -/
theorem get_cw_asc_drains_witness :
    (ring_regs.paddle_key_mode ≠ 0 ∧ ring_regs.cw_head < CW_BUFF_END ∧
      ring_regs.cw_tail < CW_BUFF_END) ∧
    ∃ cs st', drain 5 ring_regs = some (cs, st') ∧ st'.cw_tail = 3 ∧ st'.cw_head = 3 ∧
      get_cwdr st' = 0 :=
  ⟨⟨by decide, by decide, by decide⟩,
    (get_cw_asc_drains ring_regs (by decide) (by decide) (by decide)).2.2.1⟩

/-! ## Theorems: timing configuration -/

/-- The dit and dah registers after `init_stw`. -/
theorem init_stw_timing (s : State) :
    (init_stw s).dit_time_reg = 600 ∧ (init_stw s).dah_time_reg = 1800 := by
  simp only [init_stw, set_ramp_rate]
  exact ⟨rfl, rfl⟩

/-- The dit and dah registers after `set_speed`: the dah is three dits, and a
dit is at most 2400 ticks. -/
theorem set_speed_timing (code : Nat) (s : State) :
    (set_speed code s).dah_time_reg = 3 * (set_speed code s).dit_time_reg ∧
      (set_speed code s).dit_time_reg ≤ 2400 := by
  have hle : (FSAMP * WPM_CONST) / (1000 * (code + 5)) ≤ 2400 := by
    have h1 : (FSAMP * WPM_CONST) / (1000 * (code + 5)) ≤ (FSAMP * WPM_CONST) / 5000 :=
      Nat.div_le_div_left (by omega) (by decide)
    have h2 : (FSAMP * WPM_CONST) / 5000 = 2400 := by decide
    omega
  have hd : (set_speed code s).dit_time_reg = (FSAMP * WPM_CONST) / (1000 * (code + 5)) := by
    simp only [set_speed, set_ramp_rate]
    exact Nat.mod_eq_of_lt (by omega)
  have hh : (set_speed code s).dah_time_reg =
      (((FSAMP * WPM_CONST) / (1000 * (code + 5))) % 65536 * 3) % 65536 := by
    simp only [set_speed, set_ramp_rate]
  rw [hh, hd]
  constructor
  · omega
  · exact hle

/-- The call `set_tone` changes neither the dit nor the dah register. -/
theorem set_tone_timing (code : Nat) (s : State) :
    (set_tone code s).2.dit_time_reg = s.dit_time_reg ∧
      (set_tone code s).2.dah_time_reg = s.dah_time_reg := by
  simp only [set_tone, and_self]

/-- The call `set_weight` changes neither the dit nor the dah register. -/
theorem set_weight_timing (code : Nat) (s : State) :
    (set_weight code s).dit_time_reg = s.dit_time_reg ∧
      (set_weight code s).dah_time_reg = s.dah_time_reg := by
  simp only [set_weight, apply_ite State.dit_time_reg, apply_ite State.dah_time_reg, ite_self,
    and_self]

/-- The dah register is three times the dit register, and a dit is at most 2400
ticks, along every sequence of configuration calls. -/
theorem stw_run_timing :
    ∀ (ops : List StwOp) (s : State),
      s.dah_time_reg = 3 * s.dit_time_reg ∧ s.dit_time_reg ≤ 2400 →
      (stw_run ops s).dah_time_reg = 3 * (stw_run ops s).dit_time_reg ∧
        (stw_run ops s).dit_time_reg ≤ 2400 := by
  intro ops
  induction ops with
  | nil => intro s h; exact h
  | cons op rest ih =>
    intro s h
    simp only [stw_run]
    apply ih
    cases op with
    | speed code => exact set_speed_timing code s
    | tone code =>
      obtain ⟨h1, h2⟩ := set_tone_timing code s
      simp only [StwOp.run, h1, h2, h, and_self]
    | weight code =>
      obtain ⟨h1, h2⟩ := set_weight_timing code s
      simp only [StwOp.run, h1, h2, h, and_self]

/-- C10: in every timing state reached from `init_stw` by any sequence of
`set_speed`, `set_tone` and `set_weight` calls (with any arguments, so in
particular speed codes 0..64), `dah_time_reg` equals `3 * dit_time_reg` as
natural numbers; the product is at most 7200 and so is not truncated by the
16-bit register. -/
theorem dah_is_three_dits (ops : List StwOp) (s : State) :
    (stw_run ops (init_stw s)).dah_time_reg = 3 * (stw_run ops (init_stw s)).dit_time_reg ∧
    3 * (stw_run ops (init_stw s)).dit_time_reg ≤ 7200 := by
  obtain ⟨h1, h2⟩ := stw_run_timing ops (init_stw s)
    (by rw [(init_stw_timing s).1, (init_stw_timing s).2]; exact ⟨rfl, by omega⟩)
  exact ⟨h1, by omega⟩

/-! ## Theorems: the straight-key threshold -/

/-- The registers of the first loop after one pass of its body at a space. -/
theorem sk_scan_body_space (buf : Nat → Nat) (i : Nat) (a : SkScan)
    (hsp : buf i &&& KEY_HIBIT = 0) :
    (sk_scan_body buf i a).xx = a.xx ∧ (sk_scan_body buf i a).mm = a.mm ∧
      (sk_scan_body buf i a).s = if i ≠ 0 then a.s else 1 := by
  by_cases hi : i = 0
  · subst hi
    simp only [sk_scan_body, hsp, if_true, ne_eq, not_true_eq_false, if_false, and_self]
  · by_cases hg : buf i > a.ii
    · simp only [sk_scan_body, hsp, hi, hg, if_true, ne_eq, not_false_eq_true, and_self]
    · simp only [sk_scan_body, hsp, hi, hg, if_true, if_false, ne_eq, not_false_eq_true, and_self]

/-- The registers of the first loop after one pass of its body at a mark. -/
theorem sk_scan_body_mark (buf : Nat → Nat) (i : Nat) (a : SkScan)
    (hmk : buf i &&& KEY_HIBIT ≠ 0) :
    (sk_scan_body buf i a).xx =
        (if buf i &&& KEY_HIBIT_M > a.xx then buf i &&& KEY_HIBIT_M else a.xx) ∧
      (sk_scan_body buf i a).mm =
        (if buf i &&& KEY_HIBIT_M < a.mm then buf i &&& KEY_HIBIT_M else a.mm) ∧
      (sk_scan_body buf i a).s = a.s := by
  by_cases h1 : buf i &&& KEY_HIBIT_M < a.mm <;> by_cases h2 : buf i &&& KEY_HIBIT_M > a.xx <;>
    simp only [sk_scan_body, hmk, h1, h2, if_true, if_false, and_self]

/-- One pass of the body of the first loop keeps the scan invariant. -/
theorem sk_scan_body_inv (buf : Nat → Nat) (M i : Nat) (a : SkScan)
    (hM0 : 0 < M) (hMlt : M < 0xffffffff)
    (hmark : buf i &&& KEY_HIBIT ≠ 0 → buf i &&& KEY_HIBIT_M = M)
    (h : ScanInv buf M i a) : ScanInv buf M (i + 1) (sk_scan_body buf i a) := by
  obtain ⟨h1, h2⟩ := h
  by_cases hsp : buf i &&& KEY_HIBIT = 0
  · -- a space
    obtain ⟨e1, e2, e3⟩ := sk_scan_body_space buf i a hsp
    refine ⟨?_, ?_⟩
    · rw [e1, e2]
      rcases h1 with ⟨k1, k2, k3⟩ | ⟨k1, k2, j, hj, hm⟩
      · refine Or.inl ⟨k1, k2, fun j hj => ?_⟩
        rcases Nat.lt_succ_iff_lt_or_eq.mp hj with hlt | rfl
        · exact k3 j hlt
        · exact hsp
      · exact Or.inr ⟨k1, k2, j, Nat.lt_succ_of_lt hj, hm⟩
    · rw [e3]
      by_cases hi : i = 0
      · subst hi
        rw [if_neg (fun h => h rfl)]
        exact Or.inr ⟨rfl, hsp, Nat.zero_lt_one⟩
      · rw [if_pos hi]
        rcases h2 with k | ⟨k1, k2, _⟩
        · exact Or.inl k
        · exact Or.inr ⟨k1, k2, Nat.succ_pos _⟩
  · -- a mark
    have hjj := hmark hsp
    obtain ⟨e1, e2, e3⟩ := sk_scan_body_mark buf i a hsp
    rw [hjj] at e1 e2
    refine ⟨?_, ?_⟩
    · rw [e1, e2]
      rcases h1 with ⟨k1, k2, _⟩ | ⟨k1, k2, j, hj, hm⟩
      · refine Or.inr ⟨?_, ?_, i, Nat.lt_succ_self _, hsp⟩
        · rw [k1, if_pos hM0]
        · rw [k2, if_pos hMlt]
      · refine Or.inr ⟨?_, ?_, j, Nat.lt_succ_of_lt hj, hm⟩
        · rw [k1, if_neg (Nat.lt_irrefl _)]
        · rw [k2, if_neg (Nat.lt_irrefl _)]
    · rw [e3]
      rcases h2 with k | ⟨k1, k2, _⟩
      · exact Or.inl k
      · exact Or.inr ⟨k1, k2, Nat.succ_pos _⟩

/-- The first loop returns, with the scan invariant for the whole letter. -/
theorem sk_scan_uniform (buf : Nat → Nat) (e M : Nat) (hM0 : 0 < M) (hMlt : M < 0xffffffff)
    (he : e ≤ 254)
    (hmarks : ∀ i, i < e → buf i &&& KEY_HIBIT ≠ 0 → buf i &&& KEY_HIBIT_M = M) :
    ∀ fuel i a, i < e → e - i < fuel → ScanInv buf M i a →
      ∃ a', sk_scan buf e fuel i a = some a' ∧ ScanInv buf M e a' := by
  intro fuel
  induction fuel with
  | zero => intro i a _ h _; omega
  | succ n ih =>
    intro i a hi hf hinv
    have hb := sk_scan_body_inv buf M i a hM0 hMlt (hmarks i hi) hinv
    have hmod : (i + 1) % 256 = i + 1 := by omega
    by_cases hlt : i + 1 < e
    · obtain ⟨a', h1, h2⟩ := ih (i + 1) _ hlt (by omega) hb
      exact ⟨a', by simp only [sk_scan, hmod, hlt, if_true, h1], h2⟩
    · have hie : i + 1 = e := by omega
      refine ⟨sk_scan_body buf i a, by simp only [sk_scan, hmod, hlt, if_false], ?_⟩
      rw [← hie]; exact hb

/-- The second loop returns, and sums no dit mark when every mark it visits is
less than half the largest mark away from it (`xx / jj < 2`). -/
theorem sk_sum_no_dit (buf : Nat → Nat) (xx e : Nat) (he : e ≤ 254) :
    ∀ fuel i b, i ≤ e → e - i < fuel → b.di = 0 → b.k = 0 →
      (buf i &&& KEY_HIBIT ≠ 0 → xx / (buf i &&& KEY_HIBIT_M) < 2) →
      (∀ j, i < j → j < e → buf j &&& KEY_HIBIT ≠ 0 → xx / (buf j &&& KEY_HIBIT_M) < 2) →
      ∃ b', sk_sum buf xx e fuel i b = some b' ∧ b'.di = 0 ∧ b'.k = 0 := by
  intro fuel
  induction fuel with
  | zero => intro i b _ h _ _ _ _; omega
  | succ n ih =>
    intro i b hi hf hdi hk hcur hrest
    have hbody : (sk_sum_body buf xx i b).di = 0 ∧ (sk_sum_body buf xx i b).k = 0 := by
      by_cases hm : buf i &&& KEY_HIBIT ≠ 0
      · have hlt : ¬ (xx / (buf i &&& KEY_HIBIT_M) ≥ 2) := Nat.not_le_of_lt (hcur hm)
        simp only [sk_sum_body, hm, hlt, if_true, if_false, hdi, hk, and_self, ne_eq,
          not_false_eq_true]
      · simp only [sk_sum_body, hm, if_false, hdi, hk, and_self]
    have hmod : (i + 1) % 256 = i + 1 := by omega
    by_cases hlt : i + 1 < e
    · obtain ⟨b', h1, h2⟩ := ih (i + 1) _ (le_of_lt hlt) (by omega) hbody.1 hbody.2
        (hrest (i + 1) (Nat.lt_succ_self _) hlt)
        (fun j hj hje => hrest j (Nat.lt_of_succ_lt hj) hje)
      exact ⟨b', by simp only [sk_sum, hmod, hlt, if_true, h1], h2⟩
    · exact ⟨_, by simp only [sk_sum, hmod, hlt, if_false], hbody⟩

/-- The third loop returns. -/
theorem sk_build_total (buf : Nat → Nat) (ii e : Nat) (he : e ≤ 254) :
    ∀ fuel i (r : Nat × Nat), i ≤ e → e - i < fuel →
      ∃ r', sk_build buf ii e fuel i r = some r' := by
  intro fuel
  induction fuel with
  | zero => intro i r _ h; omega
  | succ n ih =>
    intro i r hi hf
    obtain ⟨ee, j⟩ := r
    have hmod : (i + 1) % 256 = i + 1 := by omega
    by_cases hlt : i + 1 < e
    · simp only [sk_build, hmod, hlt, if_true]
      exact ih _ _ (le_of_lt hlt) (by omega)
    · simp only [sk_build, hmod, hlt, if_false]
      exact ⟨_, rfl⟩

/-- The timing analysis in terms of the results of its two loops, when the
second loop found no dit mark. -/
theorem sk_timing_no_dit (st : State) (e : Nat) (a : SkScan) (b : SkSum)
    (hscan : sk_scan st.cw_timing_buf e 256 0 ⟨0, 0, 0, 0, 0xffffffff, 0⟩ = some a)
    (hsum : sk_sum st.cw_timing_buf a.xx (if a.s = 1 ∧ e = 2 then 1 else e) 256 a.s
      ⟨0, 0, 0, 0⟩ = some b)
    (hdi : b.di = 0) :
    ∃ t, sk_timing st e = some t ∧ t.regs.dit_ave = st.dit_ave ∧
      t.regs.cw_timing_buf = st.cw_timing_buf ∧ t.s = a.s ∧
      t.e = (if a.s = 1 ∧ e = 2 then 1 else e) ∧ t.mm = a.mm ∧ t.xx = a.xx ∧ t.di = 0 := by
  simp only [sk_timing, hscan, hsum, hdi, ne_eq, not_true_eq_false, if_false]
  refine ⟨_, rfl, ?_, ?_, rfl, rfl, rfl, rfl, rfl⟩
  · simp only [apply_ite State.dit_ave, ite_self]
  · simp only [apply_ite State.cw_timing_buf, ite_self]

/-- The threshold when the letter has no separate dit group and its marks are
inside the sanity bounds: twice the running dit average. -/
theorem sk_threshold_uniform (t : SkTiming) (hd31 : t.regs.dit_ave < 2 ^ 31) (hdi : t.di = 0)
    (hxx : t.xx < DAH_SK_MAX) (hmm : t.mm > DIT_SK_MIN) :
    sk_threshold t = some (2 * t.regs.dit_ave, t.regs) := by
  have h1 : (2 * t.regs.dit_ave) % 4294967296 = 2 * t.regs.dit_ave :=
    Nat.mod_eq_of_lt (by omega)
  have h2 : (t.regs.dit_ave * 2) % 4294967296 = 2 * t.regs.dit_ave := by
    rw [Nat.mul_comm]; exact h1
  have h3 : ¬ (t.xx > DAH_SK_MAX <<< 1) := by
    have : DAH_SK_MAX <<< 1 = 24000 := by decide
    have h12 : DAH_SK_MAX = 12000 := by decide
    rw [this]; rw [h12] at hxx; omega
  by_cases he : t.e > 1
  · simp only [sk_threshold, hxx, hmm, and_self, if_true, hdi, he, h1, h3, if_false]
  · simp only [sk_threshold, hxx, hmm, and_self, if_true, he, h2, h3, if_false]

/-- Once the threshold is set, the rest of the straight-key letter processing
returns and leaves the running dit average alone. -/
theorem sk_letter_dit_ave (st : State) (e ii : Nat) (t : SkTiming)
    (ht : sk_timing st e = some t) (hth : sk_threshold t = some (ii, t.regs))
    (he : t.e ≤ 254) (hs : t.s ≤ t.e) :
    ∃ c st', sk_letter st e = some (c, st') ∧ st'.dit_ave = t.regs.dit_ave := by
  obtain ⟨⟨ee, j⟩, hb⟩ := sk_build_total t.regs.cw_timing_buf ii t.e he 256 t.s (0, 0) hs
    (by omega)
  by_cases htg : ee = CWSTT_E ∧ j = CWSTT_L
  · simp only [sk_letter, ht, hth, apply_ite State.cw_timing_buf, ite_self, hb, htg, and_self,
      if_true]
    refine ⟨_, _, rfl, ?_⟩
    simp only [apply_ite State.dit_ave, ite_self]
  · obtain ⟨c, hc⟩ := decode_elem_total ee j
    simp only [sk_letter, ht, hth, apply_ite State.cw_timing_buf, ite_self, hb, htg, if_false, hc]
    refine ⟨_, _, rfl, ?_⟩
    simp only [apply_ite State.dit_ave, ite_self]

/-- The running dit average after the timing analysis: unchanged, or the
halved 32-bit sum, which is below 2^31. -/
theorem sk_timing_dit_ave (st : State) (e : Nat) (t : SkTiming)
    (h : sk_timing st e = some t) :
    t.regs.dit_ave = st.dit_ave ∨ t.regs.dit_ave < 2 ^ 31 := by
  unfold sk_timing at h
  cases hscan : sk_scan st.cw_timing_buf e 256 0 ⟨0, 0, 0, 0, 0xffffffff, 0⟩ with
  | none => rw [hscan] at h; exact absurd h (by simp)
  | some a =>
    rw [hscan] at h
    simp only [] at h
    cases hsum : sk_sum st.cw_timing_buf a.xx (if a.s = 1 ∧ e = 2 then 1 else e) 256 a.s
        ⟨0, 0, 0, 0⟩ with
    | none => rw [hsum] at h; exact absurd h (by simp)
    | some b =>
      rw [hsum] at h
      simp only [Option.some.injEq] at h
      rw [← h]
      by_cases hdi : b.di ≠ 0
      · right
        simp only [hdi, if_true, apply_ite State.dit_ave, ite_self, ne_eq, not_false_eq_true]
        omega
      · left
        simp only [hdi, if_false, apply_ite State.dit_ave, ite_self, ne_eq, not_true_eq_false]

/-- The running dit average after the threshold step: as before, or the
power-on default. -/
theorem sk_threshold_dit_ave (t : SkTiming) (ii : Nat) (st1 : State)
    (h : sk_threshold t = some (ii, st1)) :
    st1.dit_ave = t.regs.dit_ave ∨ st1.dit_ave = DIT_SK := by
  unfold sk_threshold at h
  split at h
  · simp only [] at h
    split at h
    · simp only [Option.some.injEq, Prod.mk.injEq] at h
      right; rw [← h.2]
    · simp only [Option.some.injEq, Prod.mk.injEq] at h
      left; rw [← h.2]
  · exact absurd h (by simp)

theorem DIT_SK_lt : DIT_SK < 2 ^ 31 := by decide

/-- The straight-key letter processing keeps the running dit average below
2^31. -/
theorem sk_letter_dit_ave_lt (st : State) (e c : Nat) (st' : State)
    (h : sk_letter st e = some (c, st')) (hd : st.dit_ave < 2 ^ 31) : st'.dit_ave < 2 ^ 31 := by
  unfold sk_letter at h
  cases ht : sk_timing st e with
  | none => rw [ht] at h; exact absurd h (by simp)
  | some t =>
    rw [ht] at h
    simp only [] at h
    have ht31 : t.regs.dit_ave < 2 ^ 31 := by
      rcases sk_timing_dit_ave st e t ht with k | k
      · rw [k]; exact hd
      · exact k
    cases hth : sk_threshold t with
    | none =>
      rw [hth] at h
      simp only [Option.some.injEq, Prod.mk.injEq] at h
      rw [← h.2]; exact ht31
    | some p =>
      obtain ⟨ii, st1⟩ := p
      rw [hth] at h
      simp only [] at h
      have h1 : st1.dit_ave < 2 ^ 31 := by
        rcases sk_threshold_dit_ave t ii st1 hth with k | k
        · rw [k]; exact ht31
        · rw [k]; exact DIT_SK_lt
      split at h
      · exact absurd h (by simp)
      · rename_i ee j hb
        split at h
        · simp only [Option.some.injEq, Prod.mk.injEq] at h
          rw [← h.2]
          simp only [apply_ite State.dit_ave, ite_self]
          exact h1
        · split at h
          · exact absurd h (by simp)
          · simp only [Option.some.injEq, Prod.mk.injEq] at h
            rw [← h.2]
            simp only [apply_ite State.dit_ave, ite_self]
            exact h1

/-- Processing the entry at the tail leaves the running dit average alone. -/
theorem paddle_char_dit_ave (st : State) (c : Nat) (x : State)
    (h : paddle_char st = some (c, x)) : x.dit_ave = st.dit_ave := by
  have key : ∃ c' x', paddle_char st = some (c', x') ∧ x'.dit_ave = st.dit_ave := by
    by_cases h1 : st.suppress_s ≠ 0 ∧ st.cw_elem_buf st.cw_tail = SPACE_ELEM
    · exact ⟨0, st, by rw [paddle_char, if_pos h1], rfl⟩
    · obtain ⟨d, hd⟩ := decode_elem_total (st.cw_elem_buf st.cw_tail) (st.cw_len_buf st.cw_tail)
      by_cases h2 : st.cw_elem_buf st.cw_tail = SPACE_ELEM
      · have h3 : st.suppress_s = 0 := by
          by_contra hh; exact h1 ⟨hh, h2⟩
        refine ⟨d, { st with cw_stat := st.cw_stat ||| CW_STB }, ?_, rfl⟩
        rw [h2] at hd
        simp only [paddle_char, h2, h3, ne_eq, not_true_eq_false, false_and, if_false, if_true,
          not_false_eq_true, hd]
      · refine ⟨d, st, ?_, rfl⟩
        simp only [paddle_char, h2, and_false, if_false, not_false_eq_true, if_true, hd]
  obtain ⟨c', x', hx', hd'⟩ := key
  rw [hx'] at h
  simp only [Option.some.injEq, Prod.mk.injEq] at h
  rw [← h.2]; exact hd'

/-- Every call of `get_cw_asc` keeps the running dit average below 2^31, the
bound it has after `morse_init`. -/
theorem get_cw_asc_dit_ave_lt (st : State) (c : Nat) (st' : State)
    (h : get_cw_asc st = some (c, st')) (hd : st.dit_ave < 2 ^ 31) : st'.dit_ave < 2 ^ 31 := by
  unfold get_cw_asc at h
  split at h
  · split at h
    · simp only [Option.some.injEq, Prod.mk.injEq] at h
      rw [← h.2]; exact hd
    · split at h
      · simp only [Option.some.injEq, Prod.mk.injEq] at h
        rw [← h.2]; exact hd
      · split at h
        · exact sk_letter_dit_ave_lt st _ c st' h hd
        · split at h
          · simp only [Option.some.injEq, Prod.mk.injEq] at h
            rw [← h.2]; exact hd
          · simp only [Option.some.injEq, Prod.mk.injEq] at h
            rw [← h.2]; exact hd
  · split at h
    · split at h
      · exact absurd h (by simp)
      · rename_i c0 x hx
        simp only [Option.some.injEq, Prod.mk.injEq] at h
        rw [← h.2]
        have hpc : x.dit_ave = st.dit_ave := paddle_char_dit_ave st c0 x hx
        have hat : (advance_tail x).dit_ave = x.dit_ave := by
          simp only [advance_tail, apply_ite State.dit_ave, ite_self]
        rw [hat, hpc]; exact hd
    · simp only [Option.some.injEq, Prod.mk.injEq] at h
      rw [← h.2]; exact hd

/-- The straight-key letter with equal marks: timing analysis, threshold and
the rest of the letter processing. -/
theorem sk_uniform_core (st : State) (M : Nat) (he0 : 0 < st.cwelem_idx)
    (he : st.cwelem_idx < CW_BUFF_END) (hM1 : DIT_SK_MIN < M) (hM2 : M < DAH_SK_MAX)
    (hmarks : ∀ i, i < st.cwelem_idx → st.cw_timing_buf i &&& KEY_HIBIT ≠ 0 →
      st.cw_timing_buf i &&& KEY_HIBIT_M = M)
    (hd : st.dit_ave < 2 ^ 31) :
    ∃ t, sk_timing st st.cwelem_idx = some t ∧
      sk_threshold t = some (2 * st.dit_ave, t.regs) ∧ t.regs.dit_ave = st.dit_ave ∧
      ∃ c st', sk_letter st st.cwelem_idx = some (c, st') ∧ st'.dit_ave = st.dit_ave := by
  have h218 : DIT_SK_MIN = 218 := by decide
  have h12000 : DAH_SK_MAX = 12000 := by decide
  have h40 : CW_BUFF_END = 40 := rfl
  rw [h218] at hM1
  rw [h12000] at hM2
  rw [h40] at he
  have hM0 : 0 < M := by omega
  -- first loop
  obtain ⟨a, hscan, hinv, hsinv⟩ := sk_scan_uniform st.cw_timing_buf st.cwelem_idx M hM0
    (by omega) (by omega) hmarks 256 0 ⟨0, 0, 0, 0, 0xffffffff, 0⟩ he0 (by omega)
    ⟨Or.inl ⟨rfl, rfl, fun j hj => absurd hj (Nat.not_lt_zero j)⟩, Or.inl rfl⟩
  -- the largest mark is less than twice any mark the second loop visits
  have hratio : ∀ j, j < st.cwelem_idx → st.cw_timing_buf j &&& KEY_HIBIT ≠ 0 →
      a.xx / (st.cw_timing_buf j &&& KEY_HIBIT_M) < 2 := by
    intro j hj hm
    rw [hmarks j hj hm]
    rcases hinv with ⟨k1, -, -⟩ | ⟨k1, -, -⟩
    · rw [k1, Nat.zero_div]; omega
    · rw [k1, Nat.div_self hM0]; omega
  have hs01 : a.s = 0 ∨ a.s = 1 := by
    rcases hsinv with k | ⟨k, -, -⟩
    · exact Or.inl k
    · exact Or.inr k
  have hcur : st.cw_timing_buf a.s &&& KEY_HIBIT ≠ 0 →
      a.xx / (st.cw_timing_buf a.s &&& KEY_HIBIT_M) < 2 := by
    intro hm
    rcases hinv with ⟨k1, -, -⟩ | ⟨-, -, j, hj, hmj⟩
    · rw [k1, Nat.zero_div]; omega
    · rcases hsinv with k | ⟨k, ksp, -⟩
      · rw [k] at hm ⊢
        exact hratio 0 he0 hm
      · rw [k] at hm ⊢
        have hj0 : j ≠ 0 := by
          intro h0; rw [h0] at hmj; exact hmj ksp
        exact hratio 1 (by omega) hm
  have he' : (if a.s = 1 ∧ st.cwelem_idx = 2 then 1 else st.cwelem_idx) ≤ st.cwelem_idx := by
    split <;> omega
  have hse : a.s ≤ (if a.s = 1 ∧ st.cwelem_idx = 2 then 1 else st.cwelem_idx) := by
    split <;> omega
  -- second loop
  obtain ⟨b, hsum, hdi, -⟩ := sk_sum_no_dit st.cw_timing_buf a.xx
    (if a.s = 1 ∧ st.cwelem_idx = 2 then 1 else st.cwelem_idx) (by omega) 256 a.s ⟨0, 0, 0, 0⟩
    hse (by omega) rfl rfl hcur (fun j _ hje hm => hratio j (by omega) hm)
  obtain ⟨t, ht, t1, -, t3, t4, t5, t6, t7⟩ := sk_timing_no_dit st st.cwelem_idx a b hscan hsum hdi
  have hxx : t.xx < DAH_SK_MAX := by
    rw [t6, h12000]
    rcases hinv with ⟨k1, -, -⟩ | ⟨k1, -, -⟩ <;> rw [k1] <;> omega
  have hmm : t.mm > DIT_SK_MIN := by
    rw [t5, h218]
    rcases hinv with ⟨-, k2, -⟩ | ⟨-, k2, -⟩ <;> rw [k2] <;> omega
  have hth := sk_threshold_uniform t (by rw [t1]; exact hd) t7 hxx hmm
  obtain ⟨c, st', hl, hl2⟩ := sk_letter_dit_ave st st.cwelem_idx _ t ht hth
    (by rw [t4]; omega) (by rw [t3, t4]; exact hse)
  rw [t1] at hth
  exact ⟨t, ht, hth, t1, c, st', hl, hl2.trans t1⟩

/-- C7: in straight-key mode with no auto-space pending, for a timing buffer
(`0 < cwelem_idx < CW_BUFF_END`) whose marks all have the same duration `M`,
`DIT_SK_MIN < M < DAH_SK_MAX`, and a running dit average below 2^31: the
timing analysis of `get_cw_asc` returns, the threshold it computes is exactly
`2 * dit_ave` with `dit_ave` as it was when the call began, and the call returns
with `dit_ave` unchanged. -/
theorem sk_uniform_threshold (st : State) (M : Nat) (hsk : st.paddle_key_mode = 0)
    (hasp : st.aspace = 0) (he0 : 0 < st.cwelem_idx) (he : st.cwelem_idx < CW_BUFF_END)
    (hM1 : DIT_SK_MIN < M) (hM2 : M < DAH_SK_MAX)
    (hmarks : ∀ i, i < st.cwelem_idx → st.cw_timing_buf i &&& KEY_HIBIT ≠ 0 →
      st.cw_timing_buf i &&& KEY_HIBIT_M = M)
    (hd : st.dit_ave < 2 ^ 31) :
    ∃ t, sk_timing st st.cwelem_idx = some t ∧
      sk_threshold t = some (2 * st.dit_ave, t.regs) ∧ t.regs.dit_ave = st.dit_ave ∧
      ∃ c st', get_cw_asc st = some (c, st') ∧ st'.dit_ave = st.dit_ave := by
  obtain ⟨t, h1, h2, h3, c, st', h4, h5⟩ := sk_uniform_core st M he0 he hM1 hM2 hmarks hd
  refine ⟨t, h1, h2, h3, c, st', ?_, h5⟩
  have hgt : st.cwelem_idx > 0 := he0
  simp only [get_cw_asc, hsk, if_true, hasp, ne_eq, not_true_eq_false, and_false, if_false, he,
    hgt, and_self, h4]

set_option maxRecDepth 100000 in
/-- Witness of C7: five equal marks of 700 ticks separated by spaces, with the
power-on dit average 1200: the threshold is 2400. -/
theorem sk_uniform_threshold_witness :
    (five_marks_regs.paddle_key_mode = 0 ∧ five_marks_regs.aspace = 0 ∧
      0 < five_marks_regs.cwelem_idx ∧ five_marks_regs.cwelem_idx < CW_BUFF_END ∧
      DIT_SK_MIN < 700 ∧ 700 < DAH_SK_MAX ∧ five_marks_regs.dit_ave < 2 ^ 31) ∧
    ∃ t, sk_timing five_marks_regs five_marks_regs.cwelem_idx = some t ∧
      sk_threshold t = some (2 * 1200, t.regs) ∧ t.regs.dit_ave = 1200 ∧
      ∃ c st', get_cw_asc five_marks_regs = some (c, st') ∧ st'.dit_ave = 1200 :=
  ⟨⟨rfl, rfl, by decide, by decide, by decide, by decide, by decide⟩,
    sk_uniform_threshold five_marks_regs 700 rfl rfl (by decide) (by decide) (by decide)
      (by decide) (by decide) (by decide)⟩

/-! ## Theorems: the speed setting -/

/-- The registers `set_speed` writes, and the weight register it reads. -/
theorem set_speed_fields (code : Nat) (s : State) :
    (set_speed code s).dit_time_reg = ((FSAMP * WPM_CONST) / (1000 * (code + 5))) % 65536 ∧
    (set_speed code s).ditie_time_reg =
      (((FSAMP * WPM_CONST) / (1000 * (code + 5))) % 65536 + BASE_WEIGHT + s.weight_reg) % 65536 ∧
    (set_speed code s).dah_time_reg =
      (((FSAMP * WPM_CONST) / (1000 * (code + 5))) % 65536 * 3) % 65536 ∧
    (set_speed code s).weight_reg = s.weight_reg ∧
    (set_speed code s).ramp_rate_reg = RAMP_RATE1 ∧
    (set_speed code s).ramp_rateb_reg = RAMP_RATE1 :=
  ⟨rfl, rfl, rfl, rfl, rfl, rfl⟩

/-- A second call of `set_speed` with the same code changes no register. -/
theorem set_speed_twice (code : Nat) (s : State) :
    set_speed code (set_speed code s) = set_speed code s := rfl

/-- C11: `set_speed` is idempotent.  For every register state and every speed
code (so in particular the codes 0..64), two calls of `set_speed(code)` in
succession leave `dit_time_reg`, `ditie_time_reg`, `dah_time_reg`, `weight_reg`
and both ramp-rate registers, and in fact every register, exactly as a single
call leaves them. -/
theorem set_speed_idempotent (code : Nat) (s : State) :
    (set_speed code (set_speed code s)).dit_time_reg = (set_speed code s).dit_time_reg ∧
    (set_speed code (set_speed code s)).ditie_time_reg = (set_speed code s).ditie_time_reg ∧
    (set_speed code (set_speed code s)).dah_time_reg = (set_speed code s).dah_time_reg ∧
    (set_speed code (set_speed code s)).weight_reg = (set_speed code s).weight_reg ∧
    (set_speed code (set_speed code s)).ramp_rate_reg = (set_speed code s).ramp_rate_reg ∧
    (set_speed code (set_speed code s)).ramp_rateb_reg = (set_speed code s).ramp_rateb_reg ∧
    set_speed code (set_speed code s) = set_speed code s := by
  rw [set_speed_twice]
  exact ⟨rfl, rfl, rfl, rfl, rfl, rfl, rfl⟩

/-- The dit formula of `set_speed` in lowest terms. -/
theorem speed_div (code : Nat) :
    (FSAMP * WPM_CONST) / (1000 * (code + 5)) = 12000 / (code + 5) := by
  have h : FSAMP * WPM_CONST = 1000 * 12000 := by decide
  rw [h]
  exact Nat.mul_div_mul_left 12000 (code + 5) (by decide)

/-- The dit register after `set_speed`; the value fits the 16-bit register. -/
theorem set_speed_dit_eq (code : Nat) (s : State) :
    (set_speed code s).dit_time_reg = 12000 / (code + 5) := by
  rw [(set_speed_fields code s).1, speed_div]
  have : 12000 / (code + 5) ≤ 12000 := Nat.div_le_self _ _
  exact Nat.mod_eq_of_lt (by omega)

/-- C12: for every speed code in 0..64 the divisor `1000 * (code + 5)` of
`set_speed` is not zero and `dit_time_reg` becomes
`(FSAMP * 1200) / (1000 * (code + 5)) = 12000 / (code + 5)` (integer division),
the dit length of `code + 5` words per minute: between 173 and 2400 ticks, never
zero, non-increasing in the code, 2400 at code 0 and 173 at code 64. -/
theorem set_speed_dit (code : Nat) (hc : code ≤ 64) (s : State) :
    1000 * (code + 5) ≠ 0 ∧
    (set_speed code s).dit_time_reg = (FSAMP * 1200) / (1000 * (code + 5)) ∧
    (set_speed code s).dit_time_reg = 12000 / (code + 5) ∧
    173 ≤ (set_speed code s).dit_time_reg ∧ (set_speed code s).dit_time_reg ≤ 2400 ∧
    (set_speed code s).dit_time_reg ≠ 0 ∧
    (∀ code2, code ≤ code2 → code2 ≤ 64 →
      (set_speed code2 s).dit_time_reg ≤ (set_speed code s).dit_time_reg) ∧
    (set_speed 0 s).dit_time_reg = 2400 ∧ (set_speed 64 s).dit_time_reg = 173 := by
  have h1 : 12000 / (code + 5) ≤ 2400 := by
    have h : 12000 / (code + 5) ≤ 12000 / 5 := Nat.div_le_div_left (by omega) (by decide)
    omega
  have h2 : 173 ≤ 12000 / (code + 5) := by
    have h : 12000 / 69 ≤ 12000 / (code + 5) := Nat.div_le_div_left (by omega) (by omega)
    omega
  refine ⟨by omega, ?_, set_speed_dit_eq code s, ?_, ?_, ?_, ?_, ?_, ?_⟩
  · rw [set_speed_dit_eq]
    exact (speed_div code).symm
  · rw [set_speed_dit_eq]; exact h2
  · rw [set_speed_dit_eq]; exact h1
  · rw [set_speed_dit_eq]; omega
  · intro code2 h12 _
    rw [set_speed_dit_eq, set_speed_dit_eq]
    exact Nat.div_le_div_left (by omega) (by omega)
  · rw [set_speed_dit_eq]
  · rw [set_speed_dit_eq]

/-- Witness of C12: speed code 20 (25 words per minute) gives 480 ticks. -/
theorem set_speed_dit_witness :
    (20 : Nat) ≤ 64 ∧ (set_speed 20 zero_regs).dit_time_reg = 12000 / (20 + 5) :=
  ⟨by decide, (set_speed_dit 20 (by decide) zero_regs).2.2.1⟩

/-! ## Theorems: the weight setting -/

/-- The folding by quadrant. -/
theorem dds_fold_cases (p : Nat) :
    (p < 2048 → dds_fold p = (p, 1)) ∧
    (2048 ≤ p → p < 4096 → dds_fold p = (4095 - p, 1)) ∧
    (4096 ≤ p → p < 6144 → dds_fold p = (p - 4096, -1)) ∧
    (6144 ≤ p → dds_fold p = (8191 - p, -1)) := by
  refine ⟨?_, ?_, ?_, ?_⟩
  · intro h
    have a1 : ¬ (p > 2047 ∧ p < 4096) := by omega
    have a2 : ¬ (p > 4095 ∧ p < 6144) := by omega
    have a3 : ¬ (p > 6143) := by omega
    simp only [dds_fold, h, a1, a2, a3, if_true, if_false]
  · intro h1 h2
    have a1 : p > 2047 ∧ p < 4096 := by omega
    have a2 : ¬ (p > 4095 ∧ p < 6144) := by omega
    have a3 : ¬ (p > 6143) := by omega
    simp only [dds_fold, a1, a2, a3, and_self, if_true, if_false]
  · intro h1 h2
    have a2 : p > 4095 ∧ p < 6144 := by omega
    have a3 : ¬ (p > 6143) := by omega
    simp only [dds_fold, a2, a3, and_self, if_true, if_false]
  · intro h1
    have a3 : p > 6143 := by omega
    simp only [dds_fold, a3, if_true]

/-- Half-period antisymmetry of the folded sample. -/
theorem dds_folded_half (SINE : Nat → Int) (p : Nat) (hp : p < 4096) :
    dds_folded SINE (p + 4096) = - dds_folded SINE p := by
  by_cases h : p < 2048
  · rw [dds_folded, dds_folded, (dds_fold_cases p).1 h,
      (dds_fold_cases (p + 4096)).2.2.1 (by omega) (by omega)]
    simp only [Nat.add_sub_cancel, neg_mul, one_mul]
  · rw [dds_folded, dds_folded, (dds_fold_cases p).2.1 (by omega) hp,
      (dds_fold_cases (p + 4096)).2.2.2 (by omega)]
    have e : 8191 - (p + 4096) = 4095 - p := by omega
    simp only [e, neg_mul, one_mul]

/-- Quarter-period mirror symmetry of the folded sample. -/
theorem dds_folded_mirror (SINE : Nat → Int) (p : Nat) (hp : p < 2048) :
    dds_folded SINE (4095 - p) = dds_folded SINE p := by
  rw [dds_folded, dds_folded, (dds_fold_cases p).1 hp,
    (dds_fold_cases (4095 - p)).2.1 (by omega) (by omega)]
  have e : 4095 - (4095 - p) = p := by omega
  simp only [e]

/-- The folded samples of one full period add up to zero. -/
theorem dds_folded_sum (SINE : Nat → Int) :
    ∑ p in Finset.range 8192, dds_folded SINE p = 0 := by
  have h : (8192 : Nat) = 4096 + 4096 := rfl
  rw [h, Finset.sum_range_add]
  have e : ∑ x in Finset.range 4096, dds_folded SINE (4096 + x) =
      ∑ x in Finset.range 4096, - dds_folded SINE x := by
    apply Finset.sum_congr rfl
    intro x hx
    rw [Nat.add_comm]
    exact dds_folded_half SINE x (Finset.mem_range.mp hx)
  rw [e, Finset.sum_neg_distrib, add_neg_cancel]

/-- The value the interrupt routines write to the PWM register with no attack
or decay shaping in progress is the folded sample raised by the mid-range
offset, for a table whose entries stay within the PWM range. -/
theorem dds_sample_folded (SINE : Nat → Int) (p : Nat) (hp : p < 8192)
    (hs : ∀ i, i < 2048 → -2500 ≤ SINE i ∧ SINE i ≤ 2500) :
    ((dds_sample SINE p 0 0 : Nat) : Int) = dds_folded SINE p + (DDS_MID_DAC : Int) := by
  have hd : (DDS_MID_DAC : Int) = 2500 := by decide
  obtain ⟨c1, c2, c3, c4⟩ := dds_fold_cases p
  have hidx : (dds_fold p).1 < 2048 ∧ ((dds_fold p).2 = 1 ∨ (dds_fold p).2 = -1) := by
    by_cases h1 : p < 2048
    · rw [c1 h1]; exact ⟨h1, Or.inl rfl⟩
    · by_cases h2 : p < 4096
      · rw [c2 (by omega) h2]; exact ⟨by show 4095 - p < 2048; omega, Or.inl rfl⟩
      · by_cases h3 : p < 6144
        · rw [c3 (by omega) h3]; exact ⟨by show p - 4096 < 2048; omega, Or.inr rfl⟩
        · rw [c4 (by omega)]; exact ⟨by show 8191 - p < 2048; omega, Or.inr rfl⟩
  obtain ⟨hi, hsg⟩ := hidx
  obtain ⟨b1, b2⟩ := hs _ hi
  simp only [dds_sample, dds_folded, ne_eq, not_true_eq_false, if_false, hd]
  rcases hsg with e | e <;> rw [e] <;> simp only [toS16] <;> omega

/-- C14: for any quarter-wave table `SINE`, the quadrant folding of the DDS
channels maps every 13-bit phase `p` (0..8191) to a table index in 0..2047 and
a sign 1 or -1, exactly one of the four quadrant tests applying; the folded
sample `f p = sign p * SINE[index p]` satisfies `f (p + 4096) = - f p` for
`p < 4096` and `f (4095 - p) = f p` for `p < 2048`, and the sum of `f` over the
full period `p = 0..8191` is exactly 0. -/
theorem dds_fold_symmetry (SINE : Nat → Int) :
    (∀ p, p < 8192 → (dds_fold p).1 < 2048 ∧ ((dds_fold p).2 = 1 ∨ (dds_fold p).2 = -1) ∧
      dds_quadrants p = 1) ∧
    (∀ p, p < 4096 → dds_folded SINE (p + 4096) = - dds_folded SINE p) ∧
    (∀ p, p < 2048 → dds_folded SINE (4095 - p) = dds_folded SINE p) ∧
    ∑ p in Finset.range 8192, dds_folded SINE p = 0 := by
  refine ⟨?_, dds_folded_half SINE, dds_folded_mirror SINE, dds_folded_sum SINE⟩
  intro p hp
  obtain ⟨c1, c2, c3, c4⟩ := dds_fold_cases p
  by_cases h1 : p < 2048
  · rw [c1 h1]
    have a1 : ¬ (p > 2047 ∧ p < 4096) := by omega
    have a2 : ¬ (p > 4095 ∧ p < 6144) := by omega
    have a3 : ¬ (p > 6143) := by omega
    refine ⟨h1, Or.inl rfl, ?_⟩
    simp only [dds_quadrants, h1, a1, a2, a3, if_true, if_false]
  · by_cases h2 : p < 4096
    · rw [c2 (by omega) h2]
      have a1 : p > 2047 ∧ p < 4096 := by omega
      have a2 : ¬ (p > 4095 ∧ p < 6144) := by omega
      have a3 : ¬ (p > 6143) := by omega
      refine ⟨by show 4095 - p < 2048; omega, Or.inl rfl, ?_⟩
      simp only [dds_quadrants, h1, a1, a2, a3, and_self, if_true, if_false]
    · by_cases h3 : p < 6144
      · rw [c3 (by omega) h3]
        have a1 : ¬ (p > 2047 ∧ p < 4096) := by omega
        have a2 : p > 4095 ∧ p < 6144 := by omega
        have a3 : ¬ (p > 6143) := by omega
        refine ⟨by show p - 4096 < 2048; omega, Or.inr rfl, ?_⟩
        simp only [dds_quadrants, h1, a1, a2, a3, and_self, if_true, if_false]
      · rw [c4 (by omega)]
        have a1 : ¬ (p > 2047 ∧ p < 4096) := by omega
        have a2 : ¬ (p > 4095 ∧ p < 6144) := by omega
        have a3 : p > 6143 := by omega
        refine ⟨by show 8191 - p < 2048; omega, Or.inr rfl, ?_⟩
        simp only [dds_quadrants, h1, a1, a2, a3, if_true, if_false]

/-- Witness of C14 on the table `SINE[i] = i`: phase 5000 is in the third
quadrant (index 904, negative), the mirror image of phase 904. -/
theorem dds_fold_symmetry_witness :
    (5000 : Nat) < 8192 ∧ dds_fold 5000 = (904, -1) ∧ dds_quadrants 5000 = 1 ∧
    dds_folded (fun i => (i : Int)) (904 + 4096) = - dds_folded (fun i => (i : Int)) 904 ∧
    ∑ p in Finset.range 8192, dds_folded (fun i => (i : Int)) p = 0 :=
  ⟨by decide, by decide,
    ((dds_fold_symmetry (fun i => (i : Int))).1 5000 (by decide)).2.2,
    (dds_fold_symmetry (fun i => (i : Int))).2.1 904 (by decide),
    (dds_fold_symmetry (fun i => (i : Int))).2.2.2⟩

/-! ## Theorems: the decoded text ring buffer -/

theorem CWT_BUFF_END_eq : CWT_BUFF_END = 128 := rfl

/-- A read of the empty text buffer. -/
theorem getchar_cw_empty (s : State) (h : s.cwt_tail = s.cwt_head) :
    getchar_cw s = (0, s) := by
  simp only [getchar_cw, h, ne_eq, not_true_eq_false, if_false]

/-- A read of a non-empty text buffer. -/
theorem getchar_cw_nonempty (s : State) (h : s.cwt_tail ≠ s.cwt_head)
    (ht : s.cwt_tail < CWT_BUFF_END) :
    getchar_cw s =
      (s.cw_text_buf s.cwt_tail, { s with cwt_tail := (s.cwt_tail + 1) % CWT_BUFF_END }) := by
  rw [CWT_BUFF_END_eq] at ht
  by_cases hw : s.cwt_tail + 1 = 128
  · have e1 : (s.cwt_tail + 1) % 256 ≥ CWT_BUFF_END := by rw [CWT_BUFF_END_eq]; omega
    have e2 : (s.cwt_tail + 1) % CWT_BUFF_END = 0 := by rw [CWT_BUFF_END_eq]; omega
    simp only [getchar_cw, h, ne_eq, not_false_eq_true, if_true, e1, e2]
  · have e1 : ¬ ((s.cwt_tail + 1) % 256 ≥ CWT_BUFF_END) := by rw [CWT_BUFF_END_eq]; omega
    have e2 : (s.cwt_tail + 1) % CWT_BUFF_END = (s.cwt_tail + 1) % 256 := by
      rw [CWT_BUFF_END_eq]; omega
    simp only [getchar_cw, h, ne_eq, not_false_eq_true, if_true, e1, e2, if_false]

/-- The text buffer registers after a store. -/
theorem Process_CW_store_spec (c : Nat) (s : State) (hh : s.cwt_head < CWT_BUFF_END) :
    (Process_CW_store c s).cw_text_buf = wr s.cw_text_buf s.cwt_head c ∧
    (Process_CW_store c s).cwt_head = (s.cwt_head + 1) % CWT_BUFF_END ∧
    (Process_CW_store c s).cwt_tail = (if c = CWESC then s.cwt_head else s.cwt_tail) := by
  rw [CWT_BUFF_END_eq] at hh
  have e2 : (s.cwt_head + 1) % 256 = s.cwt_head + 1 := by omega
  by_cases hw : s.cwt_head + 1 = 128
  · have e1 : s.cwt_head + 1 ≥ CWT_BUFF_END := by rw [CWT_BUFF_END_eq]; omega
    have e3 : (s.cwt_head + 1) % CWT_BUFF_END = 0 := by rw [CWT_BUFF_END_eq]; omega
    by_cases hc : c = CWESC <;>
    simp only [Process_CW_store, hc, if_true, if_false, e1, e2, e3, apply_ite State.cw_text_buf,
      apply_ite State.cwt_head, apply_ite State.cwt_tail, ite_self, and_self]
  · have e1 : ¬ (s.cwt_head + 1 ≥ CWT_BUFF_END) := by rw [CWT_BUFF_END_eq]; omega
    have e3 : (s.cwt_head + 1) % CWT_BUFF_END = s.cwt_head + 1 := by
      rw [CWT_BUFF_END_eq]; omega
    by_cases hc : c = CWESC <;>
    simp only [Process_CW_store, hc, if_true, if_false, e1, e2, e3, apply_ite State.cw_text_buf,
      apply_ite State.cwt_head, apply_ite State.cwt_tail, ite_self, and_self]

/-- A read takes the oldest unread character off the buffer. -/
theorem getchar_cw_unread (s : State) (h : s.cwt_tail ≠ s.cwt_head)
    (ht : s.cwt_tail < CWT_BUFF_END) (hh : s.cwt_head < CWT_BUFF_END) :
    cwt_unread s = (getchar_cw s).1 :: cwt_unread (getchar_cw s).2 := by
  rw [getchar_cw_nonempty s h ht]
  rw [CWT_BUFF_END_eq] at ht hh
  have hn : cwt_count s =
      cwt_count { s with cwt_tail := (s.cwt_tail + 1) % CWT_BUFF_END } + 1 := by
    simp only [cwt_count, CWT_BUFF_END_eq]
    omega
  simp only [cwt_unread]
  rw [hn, List.range_succ_eq_map, List.map_cons, List.map_map]
  congr 1
  · simp only [CWT_BUFF_END_eq]
    congr 1
    omega
  · apply List.map_congr_left
    intro k _
    simp only [Function.comp, CWT_BUFF_END_eq]
    congr 1
    omega

/-- A store of a character other than the escape, with room in the buffer,
appends it to the unread characters. -/
theorem Process_CW_store_unread (c : Nat) (s : State) (hc : c ≠ CWESC)
    (ht : s.cwt_tail < CWT_BUFF_END) (hh : s.cwt_head < CWT_BUFF_END)
    (hroom : cwt_count s + 1 < CWT_BUFF_END) :
    cwt_unread (Process_CW_store c s) = cwt_unread s ++ [c] ∧
    cwt_count (Process_CW_store c s) = cwt_count s + 1 := by
  obtain ⟨f1, f2, f3⟩ := Process_CW_store_spec c s hh
  rw [if_neg hc] at f3
  rw [CWT_BUFF_END_eq] at ht hh hroom
  have hn : cwt_count (Process_CW_store c s) = cwt_count s + 1 := by
    simp only [cwt_count, f2, f3, CWT_BUFF_END_eq] at hroom ⊢
    omega
  refine ⟨?_, hn⟩
  simp only [cwt_unread]
  rw [hn, List.range_succ, List.map_append, List.map_singleton, f1, f3]
  congr 1
  · apply List.map_congr_left
    intro k hk
    have hk2 := List.mem_range.mp hk
    simp only [cwt_count, CWT_BUFF_END_eq] at hk2 hroom ⊢
    simp only [wr]
    rw [if_neg (by omega)]
  · simp only [cwt_count, CWT_BUFF_END_eq] at hroom ⊢
    simp only [wr]
    rw [if_pos (by omega)]

/-- Reading as many characters as are unread returns them oldest first and
leaves the buffer empty. -/
theorem getchar_cw_n_unread :
    ∀ (n : Nat) (s : State), s.cwt_tail < CWT_BUFF_END → s.cwt_head < CWT_BUFF_END →
      cwt_count s = n →
      (getchar_cw_n n s).1 = cwt_unread s ∧
      (getchar_cw_n n s).2.cwt_tail = (getchar_cw_n n s).2.cwt_head := by
  intro n
  induction n with
  | zero =>
    intro s ht hh hn
    simp only [getchar_cw_n, cwt_unread, hn, List.range_zero, List.map_nil, true_and]
    simp only [cwt_count, CWT_BUFF_END_eq] at hn ht hh
    omega
  | succ n ih =>
    intro s ht hh hn
    have hne : s.cwt_tail ≠ s.cwt_head := by
      intro h
      simp only [cwt_count, CWT_BUFF_END_eq, h] at hn hh
      omega
    have hu := getchar_cw_unread s hne ht hh
    have hg := getchar_cw_nonempty s hne ht
    have ht2 : (getchar_cw s).2.cwt_tail < CWT_BUFF_END := by
      rw [hg]; exact Nat.mod_lt _ (by decide)
    have hh2 : (getchar_cw s).2.cwt_head < CWT_BUFF_END := by
      rw [hg]; exact hh
    have hn2 : cwt_count (getchar_cw s).2 = n := by
      rw [hg]
      simp only [cwt_count, CWT_BUFF_END_eq] at hn ht hh ⊢
      omega
    obtain ⟨i1, i2⟩ := ih _ ht2 hh2 hn2
    simp only [getchar_cw_n]
    exact ⟨by rw [hu, i1], i2⟩

/-- A sequence of stores without an escape, with room in the buffer, appends
the characters to the unread ones in the order stored. -/
theorem Process_CW_store_all_unread :
    ∀ (cs : List Nat) (s : State), s.cwt_tail < CWT_BUFF_END → s.cwt_head < CWT_BUFF_END →
      (∀ c, c ∈ cs → c ≠ CWESC) → cwt_count s + cs.length < CWT_BUFF_END →
      cwt_unread (Process_CW_store_all cs s) = cwt_unread s ++ cs ∧
      cwt_count (Process_CW_store_all cs s) = cwt_count s + cs.length ∧
      (Process_CW_store_all cs s).cwt_tail < CWT_BUFF_END ∧
      (Process_CW_store_all cs s).cwt_head < CWT_BUFF_END := by
  intro cs
  induction cs with
  | nil =>
    intro s ht hh _ _
    simp only [Process_CW_store_all, List.append_nil, List.length_nil, Nat.add_zero, true_and]
    exact ⟨ht, hh⟩
  | cons c rest ih =>
    intro s ht hh hesc hroom
    simp only [List.length_cons] at hroom
    have hc := hesc c (List.mem_cons_self _ _)
    obtain ⟨u1, u2⟩ := Process_CW_store_unread c s hc ht hh (by omega)
    obtain ⟨-, f2, f3⟩ := Process_CW_store_spec c s hh
    rw [if_neg hc] at f3
    have ht2 : (Process_CW_store c s).cwt_tail < CWT_BUFF_END := by rw [f3]; exact ht
    have hh2 : (Process_CW_store c s).cwt_head < CWT_BUFF_END := by
      rw [f2]; exact Nat.mod_lt _ (by decide)
    obtain ⟨i1, i2, i3, i4⟩ := ih (Process_CW_store c s) ht2 hh2
      (fun x hx => hesc x (List.mem_cons_of_mem _ hx)) (by rw [u2]; omega)
    simp only [Process_CW_store_all, List.length_cons]
    refine ⟨?_, ?_, i3, i4⟩
    · rw [i1, u1, List.append_assoc, List.singleton_append]
    · rw [i2, u2]; omega

/-- C15: `getchar_cw` is a non-blocking FIFO read of the text ring buffer
(indices inside the buffer).  When `cwt_tail = cwt_head` it returns the
sentinel 0 and changes no register; otherwise it returns
`cw_text_buf[cwt_tail]`, advances `cwt_tail` by one modulo `CWT_BUFF_END` and
changes nothing else, so that the character returned is the oldest unread one
and the others stay in order.  A store of `Process_CW` (no escape, room in the
buffer) appends to the unread characters, so characters stored by `Process_CW`
are fetched in the order they were stored: after storing `cs`, reading all
unread characters returns the earlier unread ones followed by `cs`.
`gotchar_cw` returns TRUE exactly when `cwt_tail` differs from `cwt_head` and
changes no register. -/
theorem getchar_cw_fifo (s : State) (ht : s.cwt_tail < CWT_BUFF_END)
    (hh : s.cwt_head < CWT_BUFF_END) :
    (s.cwt_tail = s.cwt_head → getchar_cw s = (0, s)) ∧
    (s.cwt_tail ≠ s.cwt_head →
      getchar_cw s =
        (s.cw_text_buf s.cwt_tail, { s with cwt_tail := (s.cwt_tail + 1) % CWT_BUFF_END }) ∧
      cwt_unread s = (getchar_cw s).1 :: cwt_unread (getchar_cw s).2) ∧
    (∀ cs : List Nat, (∀ c, c ∈ cs → c ≠ CWESC) → cwt_count s + cs.length < CWT_BUFF_END →
      cwt_unread (Process_CW_store_all cs s) = cwt_unread s ++ cs ∧
      (getchar_cw_n (cwt_count s + cs.length) (Process_CW_store_all cs s)).1 =
        cwt_unread s ++ cs ∧
      (gotchar_cw (getchar_cw_n (cwt_count s + cs.length) (Process_CW_store_all cs s)).2).1
        = 0) ∧
    ((gotchar_cw s).1 = 1 ↔ s.cwt_tail ≠ s.cwt_head) ∧
    ((gotchar_cw s).1 = 0 ↔ s.cwt_tail = s.cwt_head) ∧
    (gotchar_cw s).2 = s := by
  refine ⟨getchar_cw_empty s, fun h => ⟨getchar_cw_nonempty s h ht, getchar_cw_unread s h ht hh⟩,
    ?_, ?_, ?_, ?_⟩
  · intro cs hesc hroom
    obtain ⟨u1, u2, u3, u4⟩ := Process_CW_store_all_unread cs s ht hh hesc hroom
    obtain ⟨g1, g2⟩ := getchar_cw_n_unread _ _ u3 u4 u2
    refine ⟨u1, by rw [g1, u1], ?_⟩
    simp only [gotchar_cw, g2, ne_eq, not_true_eq_false, if_false]
  · by_cases h : s.cwt_tail = s.cwt_head
    · simp only [gotchar_cw, h, ne_eq, not_true_eq_false, if_false, zero_ne_one]
    · simp only [gotchar_cw, h, ne_eq, not_false_eq_true, if_true]
  · by_cases h : s.cwt_tail = s.cwt_head
    · simp only [gotchar_cw, h, ne_eq, not_true_eq_false, if_false]
    · simp only [gotchar_cw, h, ne_eq, not_false_eq_true, if_true, one_ne_zero]
  · simp only [gotchar_cw, apply_ite Prod.snd, ite_self]

/-- Witness of C15: with C and Q unread across the wrap of the buffer, storing
R and S and reading four times returns C, Q, R, S. -/
theorem getchar_cw_fifo_witness :
    text_regs.cwt_tail < CWT_BUFF_END ∧ text_regs.cwt_head < CWT_BUFF_END ∧
    cwt_unread text_regs = [67, 81] ∧
    (getchar_cw_n (cwt_count text_regs + [82, 83].length)
      (Process_CW_store_all [82, 83] text_regs)).1 = cwt_unread text_regs ++ [82, 83] :=
  ⟨by decide, by decide, by decide,
    ((getchar_cw_fifo text_regs (by decide) (by decide)).2.2.1 [82, 83] (by decide)
      (by decide)).2.1⟩

/-! ## Theorems: the status handshake -/

theorem stat_kept_refl (a : Nat) : StatKept a a := fun _ _ _ h => h

theorem stat_kept_trans {a b c : Nat} (h1 : StatKept a b) (h2 : StatKept b c) : StatKept a c :=
  fun k hk h3 h => h2 k hk h3 (h1 k hk h3 h)

/-- Setting flags keeps the flags. -/
theorem stat_kept_or {a b : Nat} (m : Nat) (h : StatKept a b) : StatKept a (b ||| m) := by
  intro k hk h3 hb
  rw [Nat.testBit_or, h k hk h3 hb, Bool.true_or]

/-- Clearing `CW_ST` keeps the other flags. -/
theorem stat_kept_bic {a b : Nat} (h : StatKept a b) : StatKept a (bic8 b CW_ST) := by
  intro k hk h3 hb
  have hm : ∀ j, j < 8 → j ≠ 3 → Nat.testBit (0xff ^^^ CW_ST) j = true := by decide
  rw [bic8, Nat.testBit_and, h k hk h3 hb, hm k hk h3, Bool.true_and]

/-- The handshake replies with a value that is never the request code. -/
theorem or_CW_GS_ne (x : Nat) : x ||| CW_GS ≠ CW_RS := by
  intro h
  have h1 : (x ||| CW_GS).testBit 2 = true := by
    rw [Nat.testBit_or]
    have : CW_GS.testBit 2 = true := by decide
    rw [this, Bool.or_true]
  rw [h] at h1
  exact absurd h1 (by decide)

/-- The handshake block. -/
theorem status_handshake_spec (s : State) :
    (s.cw_astat = CW_RS →
      (status_handshake s).cw_astat = s.cw_stat ||| CW_GS ∧
      (status_handshake s).cw_stat = s.cw_stat &&& CW_ST) ∧
    (s.cw_astat ≠ CW_RS → status_handshake s = s) := by
  constructor
  · intro h
    simp only [status_handshake, h, if_true, and_self]
  · intro h
    simp only [status_handshake, h, if_false]

/-- The timer updates after the handshake touch neither status register. -/
theorem tick_tail_stat (s : State) :
    (debounce_tick s).cw_astat = s.cw_astat ∧ (debounce_tick s).cw_stat = s.cw_stat ∧
    (key_timer_tick s).cw_astat = s.cw_astat ∧ (key_timer_tick s).cw_stat = s.cw_stat := by
  simp only [debounce_tick, key_timer_tick, apply_ite State.cw_astat, apply_ite State.cw_stat,
    ite_self, and_self]

/-- Straight-key mode: the statements before the handshake touch neither
status register. -/
theorem sk_entry_stat (SINE : Nat → Int) (hw : PortB) (s : State) :
    (sk_tick SINE (sk_edge hw (sk_initial s))).cw_astat = s.cw_astat ∧
    (sk_tick SINE (sk_edge hw (sk_initial s))).cw_stat = s.cw_stat := by
  have h1 : ∀ t : State, (sk_initial t).cw_astat = t.cw_astat ∧
      (sk_initial t).cw_stat = t.cw_stat := by
    intro t
    simp only [sk_initial, apply_ite State.cw_astat, apply_ite State.cw_stat, ite_self, and_self]
  have h2 : ∀ t : State, (sk_edge hw t).cw_astat = t.cw_astat ∧
      (sk_edge hw t).cw_stat = t.cw_stat := by
    intro t
    simp only [sk_edge, apply_ite State.cw_astat, apply_ite State.cw_stat, ite_self, and_self]
  have h3 : ∀ t : State, (sk_tick SINE t).cw_astat = t.cw_astat ∧
      (sk_tick SINE t).cw_stat = t.cw_stat := by
    intro t
    simp only [sk_tick, sk_tone, sk_space, a_dds, a_rampup, apply_ite State.cw_astat,
      apply_ite State.cw_stat, ite_self, and_self]
  rw [(h3 _).1, (h3 _).2, (h2 _).1, (h2 _).2, (h1 _).1, (h1 _).2]
  exact ⟨rfl, rfl⟩

/-- A push into the element buffer keeps the status flags and the application
status. -/
theorem cw_push_stat (elem len : Nat) (s : State) :
    (cw_push elem len s).cw_astat = s.cw_astat ∧
    StatKept s.cw_stat (cw_push elem len s).cw_stat := by
  constructor
  · simp only [cw_push, apply_ite State.cw_astat, ite_self]
  · simp only [cw_push, apply_ite State.cw_stat, ite_self]
    split_ifs <;>
      first
      | exact stat_kept_or _ (stat_kept_refl _)
      | exact stat_kept_refl _

/-- The word-space step keeps the status flags and the application status. -/
theorem pdl_word_space_stat (s : State) :
    (pdl_word_space s).cw_astat = s.cw_astat ∧
    StatKept s.cw_stat (pdl_word_space s).cw_stat := by
  constructor
  · simp only [pdl_word_space, cw_push, apply_ite State.cw_astat, ite_self]
  · have hp := (cw_push_stat SPACE_ELEM SPACE_COUNT s).2
    simp only [pdl_word_space, apply_ite State.cw_stat]
    generalize cw_push SPACE_ELEM SPACE_COUNT s = q at hp ⊢
    generalize s.cw_stat = a at hp ⊢
    generalize q.cw_stat = b at hp ⊢
    split_ifs <;>
      first
      | exact stat_kept_or _ (stat_kept_or _ hp)
      | exact stat_kept_or _ hp
      | exact stat_kept_or _ (stat_kept_or _ (stat_kept_refl _))
      | exact stat_kept_or _ (stat_kept_refl _)

/-- The letter-space step keeps the status flags other than `CW_ST` and the
application status. -/
theorem pdl_letter_space_stat (s : State) :
    (pdl_letter_space s).cw_astat = s.cw_astat ∧
    StatKept s.cw_stat (pdl_letter_space s).cw_stat := by
  constructor
  · simp only [pdl_letter_space, cw_push, apply_ite State.cw_astat, ite_self]
  · have hp := (cw_push_stat s.trap_word s.trap_count s).2
    simp only [pdl_letter_space, apply_ite State.cw_stat]
    generalize cw_push s.trap_word s.trap_count s = q at hp ⊢
    generalize s.cw_stat = a at hp ⊢
    generalize q.cw_stat = b at hp ⊢
    split_ifs <;>
      first
      | exact stat_kept_or _ (stat_kept_bic (stat_kept_refl _))
      | exact stat_kept_or _ (stat_kept_or _ (stat_kept_refl _))
      | exact stat_kept_or _ hp
      | exact hp
      | exact stat_kept_refl _

/-- A choice between two register states keeps the flags when both do. -/
theorem stat_kept_ite (c : Prop) [Decidable c] (a : Nat) (x y : State)
    (hx : StatKept a x.cw_stat) (hy : StatKept a y.cw_stat) :
    StatKept a (if c then x else y).cw_stat := by
  split_ifs
  · exact hx
  · exact hy

/-- Counting silence keeps the status flags and the application status. -/
theorem pdl_silence_stat (s : State) :
    (pdl_silence s).cw_astat = s.cw_astat ∧
    ∀ a, StatKept a s.cw_stat → StatKept a (pdl_silence s).cw_stat := by
  constructor
  · simp only [pdl_silence, pdl_word_space, pdl_letter_space, cw_push, apply_ite State.cw_astat,
      ite_self]
  · intro a ha
    simp only [pdl_silence]
    refine stat_kept_ite _ _ _ _ (stat_kept_trans ?_ (pdl_letter_space_stat _).2) ?_ <;>
      refine stat_kept_ite _ _ _ _ (stat_kept_trans ?_ (pdl_word_space_stat _).2) ?_ <;>
      exact ha

/-- Starting the next element or counting silence keeps the status flags. -/
theorem pdl_start_stat (s : State) :
    (pdl_start s).cw_astat = s.cw_astat ∧
    ∀ a, StatKept a s.cw_stat → StatKept a (pdl_start s).cw_stat := by
  constructor
  · simp only [pdl_start, pdl_start_opposite, apply_ite State.cw_astat, (pdl_silence_stat s).1,
      ite_self]
  · intro a ha
    simp only [pdl_start, pdl_start_opposite]
    refine stat_kept_ite _ _ _ _ (stat_kept_ite _ _ _ _ ha ha)
      (stat_kept_ite _ _ _ _ ha (stat_kept_ite _ _ _ _ ha ((pdl_silence_stat s).2 a ha)))

/-- Tone-off processing of the paddle mode keeps the status flags. -/
theorem pdl_space_stat (hw : PortB) (s : State) :
    (pdl_space hw s).cw_astat = s.cw_astat ∧
    ∀ a, StatKept a s.cw_stat → StatKept a (pdl_space hw s).cw_stat := by
  have h1 : ∀ t : State, (pdl_edge hw t).cw_astat = t.cw_astat ∧
      (pdl_edge hw t).cw_stat = t.cw_stat := by
    intro t
    simp only [pdl_edge, apply_ite State.cw_astat, apply_ite State.cw_stat, ite_self, and_self]
  have h2 : ∀ t : State, (pdl_clear_edges (pdl_sample hw t)).cw_astat = t.cw_astat ∧
      (pdl_clear_edges (pdl_sample hw t)).cw_stat = t.cw_stat := by
    intro t
    simp only [pdl_clear_edges, pdl_sample, apply_ite State.cw_astat, apply_ite State.cw_stat,
      ite_self, and_self]
  have h3 : ∀ t : State, (pdl_gap hw t).cw_astat = t.cw_astat ∧
      ∀ a, StatKept a t.cw_stat → StatKept a (pdl_gap hw t).cw_stat := by
    intro t
    constructor
    · show (pdl_start (pdl_clear_edges (pdl_sample hw t))).cw_astat = t.cw_astat
      rw [(pdl_start_stat _).1, (h2 t).1]
    · intro a ha
      show StatKept a (pdl_start (pdl_clear_edges (pdl_sample hw t))).cw_stat
      exact (pdl_start_stat _).2 a (by rw [(h2 t).2]; exact ha)
  constructor
  · simp only [pdl_space, pdl_gap_check, apply_ite State.cw_astat, (h3 _).1, (h1 s).1, ite_self]
  · intro a ha
    simp only [pdl_space, pdl_gap_check]
    exact stat_kept_ite _ _ _ _ ((h3 _).2 a (by rw [(h1 s).2]; exact ha))
      (by rw [(h1 s).2]; exact ha)

/-- Paddle mode: the statements before the handshake keep the application
status and every status flag other than `CW_ST`. -/
theorem pdl_entry_stat (SINE : Nat → Int) (hw : PortB) (s : State) :
    (pdl_tick SINE hw (pdl_initial (tone_timer_tick s))).cw_astat = s.cw_astat ∧
    StatKept s.cw_stat (pdl_tick SINE hw (pdl_initial (tone_timer_tick s))).cw_stat := by
  have h1 : ∀ t : State, (pdl_initial (tone_timer_tick t)).cw_astat = t.cw_astat ∧
      (pdl_initial (tone_timer_tick t)).cw_stat = t.cw_stat := by
    intro t
    simp only [pdl_initial, tone_timer_tick, apply_ite State.cw_astat, apply_ite State.cw_stat,
      ite_self, and_self]
  have h2 : ∀ t : State, (pdl_tone SINE hw t).cw_astat = t.cw_astat ∧
      (pdl_tone SINE hw t).cw_stat = t.cw_stat := by
    intro t
    simp only [pdl_tone, pdl_decay, trap_element, a_rampup, a_dds, pdl_expire, pdl_latch,
      apply_ite State.cw_astat, apply_ite State.cw_stat, ite_self, and_self]
  constructor
  · simp only [pdl_tick, apply_ite State.cw_astat, (h2 _).1, (pdl_space_stat hw _).1, (h1 s).1,
      ite_self]
  · simp only [pdl_tick]
    exact stat_kept_ite _ _ _ _ (by rw [(h2 _).2, (h1 s).2]; exact stat_kept_refl _)
      ((pdl_space_stat hw _).2 _ (by rw [(h1 s).2]; exact stat_kept_refl _))

/-- The registers at the handshake block, by mode. -/
theorem Timer3A_ISR_handshake (SINE : Nat → Int) (hw : PortB) (s : State) :
    (Timer3A_ISR SINE hw s).cw_astat =
      (status_handshake (handshake_entry SINE hw s)).cw_astat ∧
    (Timer3A_ISR SINE hw s).cw_stat =
      (status_handshake (handshake_entry SINE hw s)).cw_stat := by
  by_cases hm : s.paddle_key_mode = 0
  · simp only [Timer3A_ISR, handshake_entry, if_pos hm]
    rw [(tick_tail_stat _).1, (tick_tail_stat _).2.1, (tick_tail_stat _).2.2.1,
      (tick_tail_stat _).2.2.2]
    exact ⟨rfl, rfl⟩
  · simp only [Timer3A_ISR, handshake_entry, if_neg hm]
    rw [(tick_tail_stat _).1, (tick_tail_stat _).2.1]
    exact ⟨rfl, rfl⟩

/-- The statements before the handshake keep the application status and every
status flag other than `CW_ST`; in straight-key mode they leave the status
register as it is. -/
theorem handshake_entry_stat (SINE : Nat → Int) (hw : PortB) (s : State) :
    (handshake_entry SINE hw s).cw_astat = s.cw_astat ∧
    StatKept s.cw_stat (handshake_entry SINE hw s).cw_stat ∧
    (s.paddle_key_mode = 0 → (handshake_entry SINE hw s).cw_stat = s.cw_stat) := by
  by_cases hm : s.paddle_key_mode = 0
  · simp only [handshake_entry, if_pos hm]
    obtain ⟨h1, h2⟩ := sk_entry_stat SINE hw s
    exact ⟨h1, by rw [h2]; exact stat_kept_refl _, fun _ => h2⟩
  · simp only [handshake_entry, if_neg hm]
    obtain ⟨h1, h2⟩ := pdl_entry_stat SINE hw s
    exact ⟨h1, h2, fun h => absurd h hm⟩

/-! ## Theorems: characters outside the table -/

/-- The scan of `lookup_elem` runs to the end of the table when no entry from
index `i` on holds the character. -/
theorem lookup_scan_miss (c : Nat) :
    ∀ (fuel i : Nat), i ≤ sizeof_len_map → sizeof_len_map - i < fuel →
      (∀ j, i ≤ j → j < sizeof_len_map → text_at j ≠ c) →
      lookup_scan c fuel i = some sizeof_len_map := by
  intro fuel
  induction fuel with
  | zero => intro i _ h; omega
  | succ n ih =>
    intro i hi hf hmiss
    by_cases hlt : i < sizeof_len_map
    · have hs : sizeof_len_map = 115 := sizeof_len_map_eq
      have h1 : text_at i ≠ c ∧ i < sizeof_len_map := ⟨hmiss i (Nat.le_refl _) hlt, hlt⟩
      have h2 : (i + 1) % 256 = i + 1 := by omega
      rw [lookup_scan, if_pos h1, h2]
      exact ih (i + 1) (by omega) (by omega) (fun j hj hj2 => hmiss j (by omega) hj2)
    · have h1 : ¬ (text_at i ≠ c ∧ i < sizeof_len_map) := fun h => hlt h.2
      rw [lookup_scan, if_neg h1]
      congr 1
      omega

/-- A character that is not in the text table is at no index of it. -/
theorem text_at_of_not_mem (c : Nat) (hc : c ∉ cw_text_map) (j : Nat)
    (hj : j < sizeof_len_map) : text_at j ≠ c := by
  intro h
  apply hc
  have hl : j < cw_text_map.length := by
    have : cw_text_map.length = 115 := by decide
    rw [sizeof_len_map_eq] at hj
    omega
  rw [← h, text_at, List.getD_eq_getElem cw_text_map 0 hl]
  exact List.getElem_mem hl

/-- For a character outside the table `lookup_elem` returns `0xff`. -/
theorem lookup_elem_miss (c : Nat) (hc : c ∉ cw_text_map) : lookup_elem c = some 0xff := by
  have h := lookup_scan_miss c 256 0 (Nat.zero_le _) (by rw [sizeof_len_map_eq]; omega)
    (fun j _ hj => text_at_of_not_mem c hc j hj)
  simp only [lookup_elem, h, if_true]

/-- C17, amended: for every character `c` that does not occur in `cw_text_map`
(for example a lower-case letter), `lookup_elem` returns `0xff` and `put_cw(c)`
stages nothing: it returns with every register unchanged, so `trapb_word`,
`trapb_count`, `initialb` and the interrupt mask are as before and neither a
word space nor an element pattern is staged. -/
theorem put_cw_unknown (c : Nat) (hc : c ∉ cw_text_map) (s : State) :
    lookup_elem c = some 0xff ∧ put_cw c s = some s := by
  have h := lookup_elem_miss c hc
  refine ⟨h, ?_⟩
  simp only [put_cw, h, ne_eq, not_true_eq_false, if_false]

/-- Witness of C17 as amended: the lower-case letter a. -/
theorem put_cw_unknown_witness :
    97 ∉ cw_text_map ∧ lookup_elem 97 = some 0xff ∧ put_cw 97 idle_regs = some idle_regs :=
  ⟨by decide, (put_cw_unknown 97 (by decide) idle_regs).1,
    (put_cw_unknown 97 (by decide) idle_regs).2⟩

/-- Counterexample to C17 as stated: the lower-case letter a is not in the
table, and `put_cw` leaves the idle reply channel as it is, with
`initialb = 0`: no word space (`initialb = 0x02`) is staged, whereas for the
space character it is. -/
theorem put_cw_unknown_counterexample :
    97 ∉ cw_text_map ∧
    (∃ s', put_cw 97 idle_regs = some s' ∧ s'.initialb = 0 ∧ s'.initialb ≠ 0x02 ∧
      s'.TIMER3_IMR_R = idle_regs.TIMER3_IMR_R) ∧
    (∃ s', put_cw 32 idle_regs = some s' ∧ s'.initialb = 0x02 ∧
      s'.TIMER3_IMR_R ≠ idle_regs.TIMER3_IMR_R) := by
  have h32 := put_cw_space 32 0 idle_regs (by decide) (by decide) (Or.inl rfl)
  refine ⟨by decide, ⟨idle_regs, ?_, rfl, by decide, rfl⟩, ⟨_, h32, rfl, by decide⟩⟩
  have h : lookup_elem 97 = some 0xff := by decide
  simp only [put_cw, h, ne_eq, not_true_eq_false, if_false]

/-! ## Theorems: straight-key letters outside the sanity bounds -/

/-- One pass of the body of the first loop keeps the max and min mark as bounds
of the marks seen, and the start index at 0 or 1. -/
theorem sk_scan_body_bound (buf : Nat → Nat) (i : Nat) (a : SkScan)
    (h : (∀ j, j < i → buf j &&& KEY_HIBIT ≠ 0 →
        (buf j &&& KEY_HIBIT_M) ≤ a.xx ∧ a.mm ≤ (buf j &&& KEY_HIBIT_M)) ∧ a.s ≤ 1) :
    (∀ j, j < i + 1 → buf j &&& KEY_HIBIT ≠ 0 →
      (buf j &&& KEY_HIBIT_M) ≤ (sk_scan_body buf i a).xx ∧
      (sk_scan_body buf i a).mm ≤ (buf j &&& KEY_HIBIT_M)) ∧
    (sk_scan_body buf i a).s ≤ 1 := by
  obtain ⟨h1, h2⟩ := h
  by_cases hsp : buf i &&& KEY_HIBIT = 0
  · obtain ⟨e1, e2, e3⟩ := sk_scan_body_space buf i a hsp
    rw [e1, e2, e3]
    refine ⟨fun j hj hm => ?_, by split_ifs <;> omega⟩
    rcases Nat.lt_succ_iff_lt_or_eq.mp hj with hlt | rfl
    · exact h1 j hlt hm
    · exact absurd hsp hm
  · obtain ⟨e1, e2, e3⟩ := sk_scan_body_mark buf i a hsp
    rw [e1, e2, e3]
    refine ⟨fun j hj hm => ?_, h2⟩
    rcases Nat.lt_succ_iff_lt_or_eq.mp hj with hlt | rfl
    · obtain ⟨k1, k2⟩ := h1 j hlt hm
      constructor <;> split_ifs <;> omega
    · constructor <;> split_ifs <;> omega

/-- The first loop returns; its max and min mark bound every mark of the
letter. -/
theorem sk_scan_bound (buf : Nat → Nat) (e : Nat) (he : e ≤ 254) :
    ∀ fuel i a, i < e → e - i < fuel →
      ((∀ j, j < i → buf j &&& KEY_HIBIT ≠ 0 →
        (buf j &&& KEY_HIBIT_M) ≤ a.xx ∧ a.mm ≤ (buf j &&& KEY_HIBIT_M)) ∧ a.s ≤ 1) →
      ∃ a', sk_scan buf e fuel i a = some a' ∧
        (∀ j, j < e → buf j &&& KEY_HIBIT ≠ 0 →
          (buf j &&& KEY_HIBIT_M) ≤ a'.xx ∧ a'.mm ≤ (buf j &&& KEY_HIBIT_M)) ∧ a'.s ≤ 1 := by
  intro fuel
  induction fuel with
  | zero => intro i a _ h _; omega
  | succ n ih =>
    intro i a hi hf hinv
    have hb := sk_scan_body_bound buf i a hinv
    have hmod : (i + 1) % 256 = i + 1 := by omega
    by_cases hlt : i + 1 < e
    · obtain ⟨a', h1, h2⟩ := ih (i + 1) _ hlt (by omega) hb
      exact ⟨a', by simp only [sk_scan, hmod, hlt, if_true, h1], h2⟩
    · have hie : i + 1 = e := by omega
      refine ⟨sk_scan_body buf i a, by simp only [sk_scan, hmod, hlt, if_false], ?_⟩
      rw [← hie]; exact hb

/-- The second loop returns. -/
theorem sk_sum_total (buf : Nat → Nat) (xx e : Nat) (he : e ≤ 254) :
    ∀ fuel i b, i ≤ e → e - i < fuel → ∃ b', sk_sum buf xx e fuel i b = some b' := by
  intro fuel
  induction fuel with
  | zero => intro i b _ h; omega
  | succ n ih =>
    intro i b hi hf
    have hmod : (i + 1) % 256 = i + 1 := by omega
    by_cases hlt : i + 1 < e
    · simp only [sk_sum, hmod, hlt, if_true]
      exact ih _ _ (le_of_lt hlt) (by omega)
    · simp only [sk_sum, hmod, hlt, if_false]
      exact ⟨_, rfl⟩

/-- The timing analysis in terms of the results of its two loops: it changes
no register other than the three running averages. -/
theorem sk_timing_frame (st : State) (e : Nat) (a : SkScan) (b : SkSum)
    (hscan : sk_scan st.cw_timing_buf e 256 0 ⟨0, 0, 0, 0, 0xffffffff, 0⟩ = some a)
    (hsum : sk_sum st.cw_timing_buf a.xx (if a.s = 1 ∧ e = 2 then 1 else e) 256 a.s
      ⟨0, 0, 0, 0⟩ = some b) :
    ∃ t, sk_timing st e = some t ∧ t.mm = a.mm ∧ t.xx = a.xx ∧
      t.regs = { st with spc_ave := t.regs.spc_ave, dit_ave := t.regs.dit_ave,
                         dah_ave := t.regs.dah_ave } := by
  simp only [sk_timing, hscan, hsum]
  refine ⟨_, rfl, rfl, rfl, ?_⟩
  by_cases h1 : a.aa = 0 <;> by_cases h2 : b.di = 0 <;> by_cases h3 : b.da = 0 <;>
    simp only [h1, h2, h3, ne_eq, not_true_eq_false, not_false_eq_true, if_true, if_false]

/-- The timing analysis of a straight-key letter returns; its max and min mark
bound every mark of the letter, and it changes no register other than the
three running averages. -/
theorem sk_timing_total (st : State) (e : Nat) (he0 : 0 < e) (he : e < CW_BUFF_END) :
    ∃ t, sk_timing st e = some t ∧
      (∀ j, j < e → st.cw_timing_buf j &&& KEY_HIBIT ≠ 0 →
        (st.cw_timing_buf j &&& KEY_HIBIT_M) ≤ t.xx ∧ t.mm ≤ (st.cw_timing_buf j &&& KEY_HIBIT_M)) ∧
      t.regs = { st with spc_ave := t.regs.spc_ave, dit_ave := t.regs.dit_ave,
                         dah_ave := t.regs.dah_ave } := by
  rw [CW_BUFF_END_eq] at he
  obtain ⟨a, hscan, hb, hs⟩ := sk_scan_bound st.cw_timing_buf e (by omega) 256 0
    ⟨0, 0, 0, 0, 0xffffffff, 0⟩ he0 (by omega)
    ⟨fun j hj _ => absurd hj (Nat.not_lt_zero _), Nat.zero_le _⟩
  have he2 : (if a.s = 1 ∧ e = 2 then 1 else e) ≤ 254 := by split_ifs <;> omega
  have hse : a.s ≤ (if a.s = 1 ∧ e = 2 then 1 else e) := by split_ifs <;> omega
  obtain ⟨b, hsum⟩ := sk_sum_total st.cw_timing_buf a.xx _ he2 256 a.s ⟨0, 0, 0, 0⟩ hse
    (by omega)
  obtain ⟨t, h1, h2, h3, h4⟩ := sk_timing_frame st e a b hscan hsum
  refine ⟨t, h1, ?_, h4⟩
  rw [h2, h3]
  exact hb

/-- A straight-key letter with a mark outside the sanity bounds: `get_cw_asc`
returns null and changes no register other than the three running averages. -/
theorem sk_reject_core (st : State) (hsk : st.paddle_key_mode = 0) (hasp : st.aspace = 0)
    (he0 : 0 < st.cwelem_idx) (he : st.cwelem_idx < CW_BUFF_END)
    (hbad : ∃ i, i < st.cwelem_idx ∧ st.cw_timing_buf i &&& KEY_HIBIT ≠ 0 ∧
      ((st.cw_timing_buf i &&& KEY_HIBIT_M) ≥ DAH_SK_MAX ∨
        (st.cw_timing_buf i &&& KEY_HIBIT_M) ≤ DIT_SK_MIN)) :
    ∃ st', get_cw_asc st = some (0, st') ∧
      st' = { st with spc_ave := st'.spc_ave, dit_ave := st'.dit_ave, dah_ave := st'.dah_ave } := by
  obtain ⟨t, ht, hb, hf⟩ := sk_timing_total st st.cwelem_idx he0 he
  obtain ⟨i, hi, hm, hout⟩ := hbad
  obtain ⟨b1, b2⟩ := hb i hi hm
  have hth : sk_threshold t = none := by
    have hc : ¬ (t.xx < DAH_SK_MAX ∧ t.mm > DIT_SK_MIN) := by
      intro ⟨c1, c2⟩
      rcases hout with h | h <;> omega
    simp only [sk_threshold, hc, if_false]
  have hgt : st.cwelem_idx > 0 := he0
  refine ⟨t.regs, ?_, hf⟩
  simp only [get_cw_asc, hsk, if_true, hasp, ne_eq, not_true_eq_false, and_false, if_false, he,
    hgt, and_self, sk_letter, ht, hth]

/-- C18: in straight-key mode with no auto-space pending and
`0 < cwelem_idx < CW_BUFF_END`, if some mark of the timing buffer is
`>= DAH_SK_MAX` (so the largest is) or some mark is `<= DIT_SK_MIN` (so the
smallest is), `get_cw_asc` returns null and leaves the buffer state as it was:
`cwelem_idx`, `letter_complete` and every entry of `cw_timing_buf` are
unchanged by the call. -/
theorem sk_reject_keeps_buffer (st : State) (hsk : st.paddle_key_mode = 0)
    (hasp : st.aspace = 0) (he0 : 0 < st.cwelem_idx) (he : st.cwelem_idx < CW_BUFF_END)
    (hbad : ∃ i, i < st.cwelem_idx ∧ st.cw_timing_buf i &&& KEY_HIBIT ≠ 0 ∧
      ((st.cw_timing_buf i &&& KEY_HIBIT_M) ≥ DAH_SK_MAX ∨
        (st.cw_timing_buf i &&& KEY_HIBIT_M) ≤ DIT_SK_MIN)) :
    ∃ st', get_cw_asc st = some (0, st') ∧ st'.cwelem_idx = st.cwelem_idx ∧
      st'.letter_complete = st.letter_complete ∧
      (∀ i, st'.cw_timing_buf i = st.cw_timing_buf i) := by
  obtain ⟨st', h1, h2⟩ := sk_reject_core st hsk hasp he0 he hbad
  refine ⟨st', h1, ?_, ?_, ?_⟩
  · rw [h2]
  · rw [h2]
  · intro i; rw [h2]

set_option maxRecDepth 100000 in
/-- Witness of C18: the letter with a mark of 13000 ticks is rejected and the
buffer index stays at 3. -/
theorem sk_reject_keeps_buffer_witness :
    (reject_regs.paddle_key_mode = 0 ∧ reject_regs.aspace = 0 ∧ 0 < reject_regs.cwelem_idx ∧
      reject_regs.cwelem_idx < CW_BUFF_END) ∧
    ∃ st', get_cw_asc reject_regs = some (0, st') ∧ st'.cwelem_idx = 3 ∧
      st'.letter_complete = 1 ∧
      (∀ i, st'.cw_timing_buf i = reject_regs.cw_timing_buf i) :=
  ⟨⟨rfl, rfl, by decide, by decide⟩,
    sk_reject_keeps_buffer reject_regs rfl rfl (by decide) (by decide)
      ⟨0, by decide, by decide, Or.inl (by decide)⟩⟩

set_option maxRecDepth 100000 in
/-- C19, the code at a failing input: the letter with a mark of 13000 ticks
(above `DAH_SK_MAX`) is rejected, `get_cw_asc` returns null, and yet the call
has moved all three running averages: `dit_ave` from 1200 to 750, `dah_ave`
from 3600 to 8300 and `spc_ave` from 1200 to 850.  The averages are updated
before the range check. -/
theorem sk_reject_changes_averages :
    (reject_regs.paddle_key_mode = 0 ∧ reject_regs.aspace = 0 ∧
      (reject_regs.cw_timing_buf 0 &&& KEY_HIBIT_M) ≥ DAH_SK_MAX) ∧
    (reject_regs.dit_ave, reject_regs.dah_ave, reject_regs.spc_ave) = (1200, 3600, 1200) ∧
    (get_cw_asc reject_regs).map (fun r => (r.1, r.2.dit_ave, r.2.dah_ave, r.2.spc_ave)) =
      some (0, 750, 8300, 850) := by
  refine ⟨⟨rfl, rfl, by decide⟩, by decide, by decide⟩

/-- The threshold step never resets the running averages: the reset is guarded
by `xx > DAH_SK_MAX << 1` and is reached only after `xx < DAH_SK_MAX` has
held. -/
theorem sk_threshold_no_reset (t : SkTiming) (ii : Nat) (st : State)
    (h : sk_threshold t = some (ii, st)) : st = t.regs := by
  by_cases hc : t.xx < DAH_SK_MAX ∧ t.mm > DIT_SK_MIN
  · have hx : ¬ (t.xx > DAH_SK_MAX <<< 1) := by
      have e : DAH_SK_MAX <<< 1 = 24000 := by decide
      have e2 : DAH_SK_MAX = 12000 := by decide
      rw [e]
      have := hc.1
      omega
    simp only [sk_threshold, hc, and_self, if_true, hx, if_false, Option.some.injEq,
      Prod.mk.injEq] at h
    exact h.2.symm
  · simp only [sk_threshold, hc, if_false] at h
    exact absurd h (by simp)

set_option maxRecDepth 100000 in
/-- C20, the code at a failing input: a single mark of 30000 ticks, longer than
`2 * DAH_SK_MAX = 24000`, with running averages 700, 2100 and 650.
`get_cw_asc` returns null at the range check and does not reset the averages
to the power-on defaults 1200, 3600 and 1200: `dit_ave` and `spc_ave` keep
their values and `dah_ave` is averaged with the long mark. -/
theorem sk_long_key_no_reset :
    (long_key_regs.paddle_key_mode = 0 ∧ long_key_regs.aspace = 0 ∧
      (long_key_regs.cw_timing_buf 0 &&& KEY_HIBIT_M) > 2 * DAH_SK_MAX) ∧
    (DIT_SK, DIT_SK * 3, DIT_SK) = (1200, 3600, 1200) ∧
    (get_cw_asc long_key_regs).map (fun r => (r.1, r.2.dit_ave, r.2.dah_ave, r.2.spc_ave)) =
      some (0, 700, 16050, 650) := by
  refine ⟨⟨rfl, rfl, by decide⟩, by decide, by decide⟩

/-! ## Theorems: the main-loop process -/

set_option maxRecDepth 100000 in
/-- The case labels of the switch are the codes 127 to 163. -/
theorem suppress_cases_range (c : Nat) : c ∈ suppress_cases ↔ 127 ≤ c ∧ c ≤ 163 := by
  constructor
  · intro h
    have : ∀ x ∈ suppress_cases, 127 ≤ x ∧ x ≤ 163 := by decide
    exact this c h
  · intro ⟨h1, h2⟩
    have : ∀ x, x < 164 → 127 ≤ x → x ∈ suppress_cases := by decide
    exact this c (by omega) h1

/-- What the switch does to `suppress_s`: set for null and for the listed
characters, left alone for every other character. -/
theorem Process_CW_switch_suppress (c : Nat) (l : PcwLocals) (st : State) :
    (Process_CW_switch c l st).2.suppress_s =
      if c = 0 ∨ (127 ≤ c ∧ c ≤ 163) then 1 else st.suppress_s := by
  have hstore : ∀ x t, (Process_CW_store x t).suppress_s = t.suppress_s := by
    intro x t
    simp only [Process_CW_store, apply_ite State.suppress_s, ite_self]
  by_cases h0 : c = 0
  · simp only [Process_CW_switch, h0, if_true, true_or]
  · by_cases hm : c ∈ suppress_cases
    · have hr := (suppress_cases_range c).mp hm
      simp only [Process_CW_switch, h0, hm, if_true, if_false, hstore, hr, and_self, or_true]
    · have hr : ¬ (127 ≤ c ∧ c ≤ 163) := fun h => hm ((suppress_cases_range c).mpr h)
      simp only [Process_CW_switch, h0, hm, if_false, hstore, hr, or_self]

set_option maxRecDepth 100000 in
/-- C21, the code at a failing input: the element buffer holds the pro-sign
store-EEPROM (pattern `0x000A`, length 7, code `MRSE_STOEE` = 164, a table
character in the range 128..167).  `Process_CW` obtains 164 from `get_cw_asc` and
stores it in the text buffer, but `suppress_s` is 0 afterwards: the switch has
case labels for the codes 127..163 only, and the codes 164..167 fall through to
`default:`.  For the code 163 (pattern `0x015C`, length 9) the flag is set. -/
theorem Process_CW_suppress_missed :
    MRSE_STOEE ∈ cw_text_map ∧ 128 ≤ MRSE_STOEE ∧ MRSE_STOEE ≤ LAST_KEY ∧
    (get_cw_asc (one_entry_regs 0x000A 7)).map (fun r => r.1) = some MRSE_STOEE ∧
    (Process_CW 0 ⟨0, 0, 0, 0⟩ (one_entry_regs 0x000A 7)).map
      (fun r => (r.1.rtn, r.2.cw_text_buf 0, r.2.cwt_head, r.2.suppress_s)) =
      some (0, MRSE_STOEE, 1, 0) ∧
    (Process_CW 0 ⟨0, 0, 0, 0⟩ (one_entry_regs 0x015C 9)).map
      (fun r => (r.1.rtn, r.2.cw_text_buf 0, r.2.cwt_head, r.2.suppress_s)) =
      some (0, MRSE_CTRLZ, 1, 1) := by
  refine ⟨by decide, by decide, by decide, by decide, by decide, by decide⟩

/-! ## Theorems: the paddle decoder at a gap expiry -/

/-- The path of a tick at which the gap timer expires: the gap block runs on
the sampled registers, then the handshake and the debounce timer. -/
theorem gap_tick_entry (SINE : Nat → Int) (hw : PortB) (s : State) (hg : GapTick hw s) :
    handshake_entry SINE hw s = pdl_clear_pstate (pdl_start (gap_sampled hw s)) ∧
    Timer3A_ISR SINE hw s =
      debounce_tick (status_handshake (pdl_clear_pstate (pdl_start (gap_sampled hw s)))) := by
  obtain ⟨hpdl, htone, hini, htimer, hedge⟩ := hg
  have h1 : tone_timer_tick s = { s with tone_timer := 0 } := by
    by_cases h0 : s.tone_timer = 0
    · simp only [tone_timer_tick, h0, ne_eq, not_true_eq_false, if_false]
      rw [← h0]
    · have h1 : s.tone_timer - 1 = 0 := by omega
      simp only [tone_timer_tick, h0, ne_eq, not_false_eq_true, if_true, h1]
  have h2 : pdl_edge hw { s with tone_timer := 0 } = { s with tone_timer := 0 } := by
    by_cases hs : s.silence_count ≥ LETTER_SPACE
    · have he : (hw.RIS_R &&& (s.dah_port ||| s.dit_port)) % 256 = 0 := by
        rcases hedge with h | h
        · exact absurd hs (Nat.not_le_of_lt h)
        · exact h
      simp only [pdl_edge, hs, if_true, he, ne_eq, not_true_eq_false, if_false]
      rw [← hini]
    · simp only [pdl_edge, hs, if_false]
  have h3 : handshake_entry SINE hw s = pdl_clear_pstate (pdl_start (gap_sampled hw s)) := by
    have e1 : handshake_entry SINE hw s = pdl_tick SINE hw (pdl_initial (tone_timer_tick s)) := by
      simp only [handshake_entry, hpdl, if_false]
    have e2 : pdl_initial { s with tone_timer := 0 } = { s with tone_timer := 0 } :=
      pdl_initial_idle _ hini
    have e3 : pdl_tick SINE hw { s with tone_timer := 0 } =
        pdl_space hw { s with tone_timer := 0 } := by
      simp only [pdl_tick, htone, ne_eq, not_true_eq_false, if_false]
    have e4 : pdl_gap_check hw { s with tone_timer := 0 } =
        pdl_gap hw { s with tone_timer := 0 } := by
      simp only [pdl_gap_check, if_true]
    rw [e1, h1, e2, e3, pdl_space, h2, e4]
    rfl
  refine ⟨h3, ?_⟩
  rw [← h3]
  simp only [Timer3A_ISR, handshake_entry, hpdl, if_false]

/-- The handshake and the debounce timer at the end of a tick leave the capture
registers, the tone registers, the element buffer and the interrupt masks as
they are. -/
theorem tick_tail_frame (g : State) :
    (debounce_tick (status_handshake g)).trap_word = g.trap_word ∧
    (debounce_tick (status_handshake g)).trap_count = g.trap_count ∧
    (debounce_tick (status_handshake g)).trap_bit = g.trap_bit ∧
    (debounce_tick (status_handshake g)).silence_count = g.silence_count ∧
    (debounce_tick (status_handshake g)).tone_timer = g.tone_timer ∧
    (debounce_tick (status_handshake g)).delph1 = g.delph1 ∧
    (debounce_tick (status_handshake g)).rampup = g.rampup ∧
    (debounce_tick (status_handshake g)).cw_head = g.cw_head ∧
    (debounce_tick (status_handshake g)).cw_tail = g.cw_tail ∧
    (debounce_tick (status_handshake g)).cw_elem_buf = g.cw_elem_buf ∧
    (debounce_tick (status_handshake g)).cw_len_buf = g.cw_len_buf ∧
    (debounce_tick (status_handshake g)).TIMER3_IMR_R = g.TIMER3_IMR_R ∧
    (debounce_tick (status_handshake g)).GPIO_PORTB_IM_R = g.GPIO_PORTB_IM_R := by
  simp only [debounce_tick, status_handshake, apply_ite State.trap_word,
    apply_ite State.trap_count, apply_ite State.trap_bit, apply_ite State.silence_count,
    apply_ite State.tone_timer, apply_ite State.delph1, apply_ite State.rampup,
    apply_ite State.cw_head, apply_ite State.cw_tail, apply_ite State.cw_elem_buf,
    apply_ite State.cw_len_buf, apply_ite State.TIMER3_IMR_R, apply_ite State.GPIO_PORTB_IM_R,
    ite_self, and_self]

/-- Sampling the paddles at a gap expiry changes only the latch, the edge-clear
register and the (expired) tone timer. -/
theorem gap_sampled_frame (hw : PortB) (s : State) :
    (gap_sampled hw s).pstate = sensed hw s ∧ (gap_sampled hw s).tone_timer = 0 ∧
    (gap_sampled hw s).trap_word = s.trap_word ∧ (gap_sampled hw s).trap_count = s.trap_count ∧
    (gap_sampled hw s).trap_bit = s.trap_bit ∧
    (gap_sampled hw s).silence_count = s.silence_count ∧
    (gap_sampled hw s).delph1 = s.delph1 ∧ (gap_sampled hw s).rampup = s.rampup ∧
    (gap_sampled hw s).cw_head = s.cw_head ∧ (gap_sampled hw s).cw_tail = s.cw_tail ∧
    (gap_sampled hw s).cw_elem_buf = s.cw_elem_buf ∧
    (gap_sampled hw s).cw_len_buf = s.cw_len_buf ∧ (gap_sampled hw s).cw_stat = s.cw_stat ∧
    (gap_sampled hw s).TIMER3_IMR_R = s.TIMER3_IMR_R ∧
    (gap_sampled hw s).GPIO_PORTB_IM_R = s.GPIO_PORTB_IM_R ∧
    (gap_sampled hw s).dit_time_reg = s.dit_time_reg ∧
    (gap_sampled hw s).dah_time_reg = s.dah_time_reg ∧
    (gap_sampled hw s).tone_reg = s.tone_reg ∧
    (gap_sampled hw s).dit_port = s.dit_port ∧ (gap_sampled hw s).dah_port = s.dah_port := by
  simp only [gap_sampled, sensed, pdl_clear_edges, pdl_sample, apply_ite State.pstate,
    apply_ite State.tone_timer, apply_ite State.trap_word, apply_ite State.trap_count,
    apply_ite State.trap_bit, apply_ite State.silence_count, apply_ite State.delph1,
    apply_ite State.rampup, apply_ite State.cw_head, apply_ite State.cw_tail,
    apply_ite State.cw_elem_buf, apply_ite State.cw_len_buf, apply_ite State.cw_stat,
    apply_ite State.TIMER3_IMR_R, apply_ite State.GPIO_PORTB_IM_R,
    apply_ite State.dit_time_reg, apply_ite State.dah_time_reg, apply_ite State.tone_reg,
    apply_ite State.dit_port, apply_ite State.dah_port, ite_self, and_self]

/-- Counting silence: the tone timer is loaded with one dit time, the silence
counter advances by one, no tone starts. -/
theorem pdl_silence_count (s : State) :
    (pdl_silence s).tone_timer = s.dit_time_reg ∧
    (pdl_silence s).silence_count = (s.silence_count + 1) % 256 ∧
    (pdl_silence s).delph1 = s.delph1 ∧ (pdl_silence s).rampup = s.rampup := by
  simp only [pdl_silence, pdl_word_space, pdl_letter_space, cw_push, apply_ite State.tone_timer,
    apply_ite State.silence_count, apply_ite State.delph1, apply_ite State.rampup, ite_self,
    and_self]

/-- The element the gap block starts, by the sensed paddle state. -/
theorem pdl_start_spec (x : State) (hports : PortsOk x) :
    (x.pstate = x.dit_port ||| x.dah_port →
      (pdl_start x).trap_bit = (x.trap_bit ^^^ 0x01) % 256 ∧
      (pdl_start x).tone_timer =
        (if (x.trap_bit ^^^ 0x01) % 256 ≠ 0 then x.dah_time_reg else x.dit_time_reg) ∧
      (pdl_start x).delph1 = x.tone_reg ∧ (pdl_start x).rampup = RAMP_MAX ∧
      (pdl_start x).silence_count = x.silence_count) ∧
    (x.pstate = x.dit_port →
      (pdl_start x).trap_bit = 0 ∧ (pdl_start x).tone_timer = x.dit_time_reg ∧
      (pdl_start x).delph1 = x.tone_reg ∧ (pdl_start x).rampup = RAMP_MAX ∧
      (pdl_start x).silence_count = x.silence_count) ∧
    (x.pstate = x.dah_port →
      (pdl_start x).trap_bit = 1 ∧ (pdl_start x).tone_timer = x.dah_time_reg ∧
      (pdl_start x).delph1 = x.tone_reg ∧ (pdl_start x).rampup = RAMP_MAX ∧
      (pdl_start x).silence_count = x.silence_count) ∧
    (x.pstate = 0 → pdl_start x = pdl_silence x) := by
  have hne : x.dit_port ≠ x.dit_port ||| x.dah_port ∧ x.dah_port ≠ x.dit_port ||| x.dah_port ∧
      x.dah_port ≠ x.dit_port ∧ (0 : Nat) ≠ x.dit_port ||| x.dah_port ∧ (0 : Nat) ≠ x.dit_port ∧
      (0 : Nat) ≠ x.dah_port := by
    rcases hports with ⟨h1, h2⟩ | ⟨h1, h2⟩ <;> rw [h1, h2] <;> decide
  obtain ⟨n1, n2, n3, n4, n5, n6⟩ := hne
  refine ⟨?_, ?_, ?_, ?_⟩
  · intro h
    by_cases hb : (x.trap_bit ^^^ 0x01) % 256 = 0
    · simp only [pdl_start, pdl_start_opposite, h, if_true, hb, ne_eq, not_true_eq_false,
        if_false, and_self]
    · simp only [pdl_start, pdl_start_opposite, h, if_true, hb, ne_eq, not_false_eq_true,
        and_self]
  · intro h
    simp only [pdl_start, h, n1, if_false, if_true, and_self]
  · intro h
    simp only [pdl_start, h, n2, n3, if_false, if_true, and_self]
  · intro h
    simp only [pdl_start, h, n4, n5, n6, if_false]

/-- C24: the paddle decoder at the tick where the gap timer expires with the
tone off and `initial = 0`, by the paddle state sensed.  Both paddles: the new
element is the opposite of the previous one (`trap_bit` inverted, `tone_timer`
loaded with `dah_time_reg` when the new `trap_bit` is 1 and with `dit_time_reg`
when it is 0).  Only the dit paddle: a dit starts (`trap_bit = 0`,
`tone_timer = dit_time_reg`).  Only the dah paddle: a dah starts
(`trap_bit = 1`, `tone_timer = dah_time_reg`).  In these three cases the tone is
started (`delph1 = tone_reg`, `rampup = RAMP_MAX`).  No paddle: no tone starts,
`tone_timer` is loaded with `dit_time_reg` and `silence_count` is incremented by
one (in its 8 bits). -/
theorem gap_expiry_element (SINE : Nat → Int) (hw : PortB) (s : State) (hg : GapTick hw s)
    (hports : PortsOk s) :
    (sensed hw s = s.dit_port ||| s.dah_port →
      (Timer3A_ISR SINE hw s).trap_bit = (s.trap_bit ^^^ 0x01) % 256 ∧
      (s.trap_bit = 0 → (Timer3A_ISR SINE hw s).trap_bit = 1 ∧
        (Timer3A_ISR SINE hw s).tone_timer = s.dah_time_reg) ∧
      (s.trap_bit = 1 → (Timer3A_ISR SINE hw s).trap_bit = 0 ∧
        (Timer3A_ISR SINE hw s).tone_timer = s.dit_time_reg) ∧
      (Timer3A_ISR SINE hw s).tone_timer =
        (if (Timer3A_ISR SINE hw s).trap_bit ≠ 0 then s.dah_time_reg else s.dit_time_reg) ∧
      (Timer3A_ISR SINE hw s).delph1 = s.tone_reg ∧
      (Timer3A_ISR SINE hw s).rampup = RAMP_MAX) ∧
    (sensed hw s = s.dit_port →
      (Timer3A_ISR SINE hw s).trap_bit = 0 ∧
      (Timer3A_ISR SINE hw s).tone_timer = s.dit_time_reg ∧
      (Timer3A_ISR SINE hw s).delph1 = s.tone_reg ∧
      (Timer3A_ISR SINE hw s).rampup = RAMP_MAX) ∧
    (sensed hw s = s.dah_port →
      (Timer3A_ISR SINE hw s).trap_bit = 1 ∧
      (Timer3A_ISR SINE hw s).tone_timer = s.dah_time_reg ∧
      (Timer3A_ISR SINE hw s).delph1 = s.tone_reg ∧
      (Timer3A_ISR SINE hw s).rampup = RAMP_MAX) ∧
    (sensed hw s = 0 →
      (Timer3A_ISR SINE hw s).delph1 = 0 ∧
      (Timer3A_ISR SINE hw s).tone_timer = s.dit_time_reg ∧
      (Timer3A_ISR SINE hw s).silence_count = (s.silence_count + 1) % 256 ∧
      (s.silence_count < 255 →
        (Timer3A_ISR SINE hw s).silence_count = s.silence_count + 1)) := by
  obtain ⟨-, hT⟩ := gap_tick_entry SINE hw s hg
  obtain ⟨f1, f2, f3, f4, f5, f6, f7, f8, f9, f10, f11, f12, f13, f14, f15, f16, f17, f18, f19,
    f20⟩ := gap_sampled_frame hw s
  obtain ⟨t1, t2, t3, t4, t5, t6, t7, -⟩ :=
    tick_tail_frame (pdl_clear_pstate (pdl_start (gap_sampled hw s)))
  have hpx : PortsOk (gap_sampled hw s) := by
    unfold PortsOk; rw [f19, f20]; exact hports
  obtain ⟨c1, c2, c3, c4⟩ := pdl_start_spec (gap_sampled hw s) hpx
  simp only [f1, f5, f6, f16, f17, f18, f19, f20] at c1 c2 c3 c4
  have hc : ∀ t : State, (pdl_clear_pstate t).trap_bit = t.trap_bit ∧
      (pdl_clear_pstate t).silence_count = t.silence_count ∧
      (pdl_clear_pstate t).tone_timer = t.tone_timer ∧
      (pdl_clear_pstate t).delph1 = t.delph1 ∧ (pdl_clear_pstate t).rampup = t.rampup :=
    fun t => ⟨rfl, rfl, rfl, rfl, rfl⟩
  obtain ⟨k1, k2, k3, k4, k5⟩ := hc (pdl_start (gap_sampled hw s))
  rw [hT, t3, t4, t5, t6, t7, k1, k2, k3, k4, k5]
  refine ⟨?_, ?_, ?_, ?_⟩
  · intro h
    obtain ⟨a1, a2, a3, a4, -⟩ := c1 h
    refine ⟨a1, ?_, ?_, ?_, a3, a4⟩
    · intro h0
      rw [a1, a2, h0]
      exact ⟨rfl, rfl⟩
    · intro h0
      rw [a1, a2, h0]
      exact ⟨rfl, rfl⟩
    · rw [a1, a2]
  · intro h
    obtain ⟨a1, a2, a3, a4, -⟩ := c2 h
    exact ⟨a1, a2, a3, a4⟩
  · intro h
    obtain ⟨a1, a2, a3, a4, -⟩ := c3 h
    exact ⟨a1, a2, a3, a4⟩
  · intro h
    obtain ⟨b1, b2, b3, -⟩ := pdl_silence_count (gap_sampled hw s)
    rw [c4 h, b1, b2, b3, f6, f7, f16]
    refine ⟨hg.2.1, rfl, rfl, fun hlt => ?_⟩
    omega

/-- Witness of C24: in mode A with the dit paddle pressed at the gap expiry a
dit starts; in mode B with a squeeze latched and the paddles released the
element opposite to the previous dit starts. -/
theorem gap_expiry_element_witness :
    (GapTick dit_pressed_hw (squeeze_regs 65) ∧ PortsOk (squeeze_regs 65) ∧
      sensed dit_pressed_hw (squeeze_regs 65) = (squeeze_regs 65).dit_port) ∧
    ((Timer3A_ISR (fun _ => 0) dit_pressed_hw (squeeze_regs 65)).trap_bit = 0 ∧
      (Timer3A_ISR (fun _ => 0) dit_pressed_hw (squeeze_regs 65)).tone_timer = DIT_TIME ∧
      (Timer3A_ISR (fun _ => 0) dit_pressed_hw (squeeze_regs 65)).delph1 = TONE_600 ∧
      (Timer3A_ISR (fun _ => 0) dit_pressed_hw (squeeze_regs 65)).rampup = RAMP_MAX) ∧
    ((Timer3A_ISR (fun _ => 0) released_hw (squeeze_regs 66)).trap_bit = 1 ∧
      (Timer3A_ISR (fun _ => 0) released_hw (squeeze_regs 66)).tone_timer = 3 * DIT_TIME) := by
  have hg : ∀ m hw, GapTick hw (squeeze_regs m) := fun m hw =>
    ⟨show PADL_KEY ≠ 0 by decide, rfl, rfl, show 1 ≤ 1 by decide,
      Or.inl (show 0 < LETTER_SPACE by decide)⟩
  have hp : ∀ m, PortsOk (squeeze_regs m) := fun m => Or.inl ⟨rfl, rfl⟩
  have hs : sensed dit_pressed_hw (squeeze_regs 65) = (squeeze_regs 65).dit_port := by decide
  have hs2 : sensed released_hw (squeeze_regs 66) =
      (squeeze_regs 66).dit_port ||| (squeeze_regs 66).dah_port := by decide
  exact ⟨⟨hg _ _, hp _, hs⟩,
    (gap_expiry_element (fun _ => 0) dit_pressed_hw (squeeze_regs 65) (hg _ _) (hp _)).2.1 hs,
    ((gap_expiry_element (fun _ => 0) released_hw (squeeze_regs 66) (hg _ _) (hp _)).1 hs2).2.1
      rfl⟩

/-! ## Theorems: letter space and word space of the paddle decoder -/

/-- The letter-space step always clears the trap registers and leaves the
silence counter, the tone timer, the tail and the interrupt masks alone. -/
theorem pdl_letter_space_frame (y : State) :
    (pdl_letter_space y).trap_word = 0 ∧ (pdl_letter_space y).trap_count = 0 ∧
    (pdl_letter_space y).trap_bit = 0 ∧
    (pdl_letter_space y).silence_count = y.silence_count ∧
    (pdl_letter_space y).tone_timer = y.tone_timer ∧
    (pdl_letter_space y).cw_tail = y.cw_tail ∧
    (pdl_letter_space y).TIMER3_IMR_R = y.TIMER3_IMR_R ∧
    (pdl_letter_space y).GPIO_PORTB_IM_R = y.GPIO_PORTB_IM_R := by
  simp only [pdl_letter_space, cw_push, apply_ite State.silence_count,
    apply_ite State.tone_timer, apply_ite State.cw_tail, apply_ite State.TIMER3_IMR_R,
    apply_ite State.GPIO_PORTB_IM_R, ite_self, and_self]

/-- The letter-space step with a saturated element counter, or with the
auto-space toggle trapped, writes nothing to the element buffer. -/
theorem pdl_letter_space_skip (y : State)
    (h : ¬ y.trap_count < MAX_SPACE_COUNT ∨ (y.trap_word = CWSTT_E ∧ y.trap_count = CWSTT_L)) :
    (pdl_letter_space y).cw_elem_buf = y.cw_elem_buf ∧
    (pdl_letter_space y).cw_len_buf = y.cw_len_buf ∧
    (pdl_letter_space y).cw_head = y.cw_head ∧
    (¬ y.trap_count < MAX_SPACE_COUNT → (pdl_letter_space y).cw_stat = y.cw_stat) := by
  by_cases hc : y.trap_count < MAX_SPACE_COUNT
  · have ht : y.trap_word = CWSTT_E ∧ y.trap_count = CWSTT_L := by
      rcases h with h | h
      · exact absurd hc h
      · exact h
    refine ⟨?_, ?_, ?_, fun h2 => absurd hc h2⟩ <;>
      simp only [pdl_letter_space, hc, ht, and_self, if_true, apply_ite State.cw_elem_buf,
        apply_ite State.cw_len_buf, apply_ite State.cw_head, ite_self]
  · simp only [pdl_letter_space, hc, if_false, not_false_eq_true, imp_self, and_self]

/-- The letter-space step with a valid element count and no toggle pattern:
the trapped pair is pushed, and the 70% flag is set exactly when the count
formed from the new head and the tail exceeds `CW_BUFF_70`. -/
theorem pdl_letter_space_push (y : State) (hh : y.cw_head < CW_BUFF_END)
    (hc : y.trap_count < MAX_SPACE_COUNT)
    (ht : ¬ (y.trap_word = CWSTT_E ∧ y.trap_count = CWSTT_L)) :
    (pdl_letter_space y).cw_elem_buf = wr y.cw_elem_buf y.cw_head y.trap_word ∧
    (pdl_letter_space y).cw_len_buf = wr y.cw_len_buf y.cw_head y.trap_count ∧
    (pdl_letter_space y).cw_head = (y.cw_head + 1) % CW_BUFF_END ∧
    (pdl_letter_space y).cw_stat =
      (if letter_fill ((y.cw_head + 1) % CW_BUFF_END) y.cw_tail > CW_BUFF_70 then
        (if (y.cw_head + 1) % CW_BUFF_END = y.cw_tail then y.cw_stat ||| CW_OR
          else y.cw_stat) ||| CW_FF
       else (if (y.cw_head + 1) % CW_BUFF_END = y.cw_tail then y.cw_stat ||| CW_OR
          else y.cw_stat)) := by
  obtain ⟨p1, p2, p3, p4, p5⟩ := cw_push_spec y.trap_word y.trap_count y hh
  simp only [pdl_letter_space, hc, ht, if_true, if_false, apply_ite State.cw_elem_buf,
    apply_ite State.cw_len_buf, apply_ite State.cw_head, apply_ite State.cw_stat, ite_self,
    p1, p2, p3, p4, p5, letter_fill, and_self]

/-- A flag that has just been set is set. -/
theorem or_and_flag (x m : Nat) (hm : m ≠ 0) : (x ||| m) &&& m ≠ 0 := by
  have h : (x ||| m) &&& m = m := by
    apply Nat.eq_of_testBit_eq
    intro i
    rw [Nat.testBit_and, Nat.testBit_or]
    cases x.testBit i <;> cases m.testBit i <;> rfl
  rw [h]
  exact hm

/-- A flag that has just been cleared is clear. -/
theorem and_not_flag (x : Nat) : (x &&& (0xffffffff ^^^ TIMER_IMR_CAEIM)) &&& TIMER_IMR_CAEIM = 0 := by
  rw [Nat.and_assoc]
  have h : (0xffffffff ^^^ TIMER_IMR_CAEIM) &&& TIMER_IMR_CAEIM = 0 := by decide
  rw [h, Nat.and_zero]

/-- The word-space step masks the timer 3A interrupt, unmasks the paddle edge
interrupt and leaves the tail, the capture registers and the timers alone. -/
theorem pdl_word_space_frame (y : State) :
    (pdl_word_space y).TIMER3_IMR_R = y.TIMER3_IMR_R &&& (0xffffffff ^^^ TIMER_IMR_CAEIM) ∧
    (pdl_word_space y).GPIO_PORTB_IM_R = y.dah_port ||| y.dit_port ∧
    (pdl_word_space y).cw_tail = y.cw_tail ∧
    (pdl_word_space y).trap_word = y.trap_word ∧
    (pdl_word_space y).trap_count = y.trap_count ∧
    (pdl_word_space y).silence_count = y.silence_count ∧
    (pdl_word_space y).tone_timer = y.tone_timer := by
  simp only [pdl_word_space, cw_push, apply_ite State.TIMER3_IMR_R,
    apply_ite State.GPIO_PORTB_IM_R, apply_ite State.cw_tail, apply_ite State.trap_word,
    apply_ite State.trap_count, apply_ite State.silence_count, apply_ite State.tone_timer,
    apply_ite State.dah_port, apply_ite State.dit_port, ite_self, and_self]

/-- The word-space step: the marker is pushed when auto-space is on and not
otherwise; the word flag is set, the timer 3A interrupt is masked and the paddle
edge interrupt unmasked; the capture registers are left alone. -/
theorem pdl_word_space_spec (y : State) (hh : y.cw_head < CW_BUFF_END) :
    (y.cw_stat &&& CW_ST ≠ 0 →
      (pdl_word_space y).cw_elem_buf = wr y.cw_elem_buf y.cw_head SPACE_ELEM ∧
      (pdl_word_space y).cw_len_buf = wr y.cw_len_buf y.cw_head SPACE_COUNT ∧
      (pdl_word_space y).cw_head = (y.cw_head + 1) % CW_BUFF_END) ∧
    (y.cw_stat &&& CW_ST = 0 →
      (pdl_word_space y).cw_elem_buf = y.cw_elem_buf ∧
      (pdl_word_space y).cw_len_buf = y.cw_len_buf ∧
      (pdl_word_space y).cw_head = y.cw_head) ∧
    (pdl_word_space y).cw_stat &&& CW_WF ≠ 0 ∧
    (pdl_word_space y).TIMER3_IMR_R = y.TIMER3_IMR_R &&& (0xffffffff ^^^ TIMER_IMR_CAEIM) ∧
    (pdl_word_space y).GPIO_PORTB_IM_R = y.dah_port ||| y.dit_port ∧
    (pdl_word_space y).cw_tail = y.cw_tail ∧
    (pdl_word_space y).trap_word = y.trap_word ∧ (pdl_word_space y).trap_count = y.trap_count ∧
    (pdl_word_space y).silence_count = y.silence_count ∧
    (pdl_word_space y).tone_timer = y.tone_timer := by
  obtain ⟨p1, p2, p3, p4, -⟩ := cw_push_spec SPACE_ELEM SPACE_COUNT y hh
  have hwf : (pdl_word_space y).cw_stat &&& CW_WF ≠ 0 := by
    have e : ∃ x, (pdl_word_space y).cw_stat = x ||| CW_WF := by
      simp only [pdl_word_space]
      exact ⟨_, rfl⟩
    obtain ⟨x, hx⟩ := e
    rw [hx]
    exact or_and_flag x CW_WF (by decide)
  have hfr := pdl_word_space_frame y
  refine ⟨?_, ?_, hwf, hfr⟩
  · intro hst
    simp only [pdl_word_space, hst, ne_eq, not_false_eq_true, if_true,
      apply_ite State.cw_elem_buf, apply_ite State.cw_len_buf, apply_ite State.cw_head,
      ite_self, p1, p2, p3, and_self]
  · intro hst
    simp only [pdl_word_space, hst, ne_eq, not_true_eq_false, if_false,
      apply_ite State.cw_elem_buf, apply_ite State.cw_len_buf, apply_ite State.cw_head,
      ite_self, and_self]

/-- Counting silence when the count reaches the letter space. -/
theorem pdl_silence_letter (x : State) (hs : x.silence_count + 1 = LETTER_SPACE) :
    pdl_silence x =
      pdl_letter_space { x with tone_timer := x.dit_time_reg, silence_count := LETTER_SPACE } := by
  have h1 : x.silence_count = 1 := by
    have : LETTER_SPACE = 2 := rfl
    omega
  have e1 : ¬ (1 ≥ WORD_SPACE) := by decide
  have e2 : (1 + 1) % 256 = LETTER_SPACE := by decide
  simp only [pdl_silence, h1, e1, e2, if_false, if_true]

/-- Counting silence when the count has reached the word space. -/
theorem pdl_silence_word (x : State) (hs : x.silence_count ≥ WORD_SPACE)
    (h8 : x.silence_count < 256) :
    pdl_silence x =
      pdl_word_space { x with tone_timer := x.dit_time_reg,
                              silence_count := (x.silence_count + 1) % 256 } := by
  have hw : WORD_SPACE = 14 := rfl
  have hl : LETTER_SPACE = 2 := rfl
  simp only [pdl_silence, hs, if_true]
  rw [if_neg]
  rw [(pdl_word_space_frame _).2.2.2.2.2.1]
  show ¬ ((x.silence_count + 1) % 256 = LETTER_SPACE)
  rw [hl]
  omega

/-- A set flag stays set when further flags are set. -/
theorem flag_kept_or (x m f : Nat) (h : x &&& f ≠ 0) : (x ||| m) &&& f ≠ 0 := by
  intro h0
  apply h
  apply Nat.eq_of_testBit_eq
  intro i
  have hi : ((x ||| m) &&& f).testBit i = false := by rw [h0, Nat.zero_testBit]
  rw [Nat.testBit_and, Nat.testBit_or] at hi
  rw [Nat.testBit_and, Nat.zero_testBit]
  cases hx : x.testBit i <;> cases hf : f.testBit i <;> rw [hx, hf] at hi <;>
    first | rfl | exact hi

/-- The registers of a tick at which the gap timer expires with no paddle
sensed: silence is counted on the sampled registers. -/
theorem silence_tick_entry (SINE : Nat → Int) (hw : PortB) (s : State) (hg : GapTick hw s)
    (hports : PortsOk s) (hno : sensed hw s = 0) :
    handshake_entry SINE hw s = pdl_clear_pstate (pdl_silence (gap_sampled hw s)) ∧
    Timer3A_ISR SINE hw s =
      debounce_tick (status_handshake (pdl_clear_pstate (pdl_silence (gap_sampled hw s)))) := by
  obtain ⟨h1, h2⟩ := gap_tick_entry SINE hw s hg
  have hf := gap_sampled_frame hw s
  have hpx : PortsOk (gap_sampled hw s) := by
    unfold PortsOk; rw [hf.2.2.2.2.2.2.2.2.2.2.2.2.2.2.2.2.2.2.1, hf.2.2.2.2.2.2.2.2.2.2.2.2.2.2.2.2.2.2.2]
    exact hports
  have h3 := (pdl_start_spec (gap_sampled hw s) hpx).2.2.2 (by rw [hf.1]; exact hno)
  rw [h1, h2, h3]
  exact ⟨rfl, rfl⟩

/-- Counting silence up to the letter space clears the trap registers and
leaves the silence counter at `LETTER_SPACE`. -/
theorem pdl_silence_letter_regs (x : State) (hs : x.silence_count + 1 = LETTER_SPACE) :
    (pdl_silence x).trap_word = 0 ∧ (pdl_silence x).trap_count = 0 ∧
    (pdl_silence x).trap_bit = 0 ∧ (pdl_silence x).silence_count = LETTER_SPACE := by
  rw [pdl_silence_letter x hs]
  obtain ⟨l1, l2, l3, l4, -⟩ := pdl_letter_space_frame
    { x with tone_timer := x.dit_time_reg, silence_count := LETTER_SPACE }
  exact ⟨l1, l2, l3, l4⟩

/-- C25, amended: at the tick that completes a character (gap expiry with no
paddle sensed at which `silence_count` reaches `LETTER_SPACE`) the paddle
decoder resets the element register `trap_word`, the element count `trap_count`
and the element bit `trap_bit` to zero; the silence counter is not reset, it
stands at `LETTER_SPACE` after the tick and goes on counting towards the word
space. -/
theorem letter_space_resets (SINE : Nat → Int) (hw : PortB) (s : State) (hg : GapTick hw s)
    (hports : PortsOk s) (hno : sensed hw s = 0) (hs : s.silence_count + 1 = LETTER_SPACE) :
    (Timer3A_ISR SINE hw s).trap_word = 0 ∧ (Timer3A_ISR SINE hw s).trap_count = 0 ∧
    (Timer3A_ISR SINE hw s).trap_bit = 0 ∧
    (Timer3A_ISR SINE hw s).silence_count = LETTER_SPACE ∧
    (Timer3A_ISR SINE hw s).silence_count ≠ 0 := by
  obtain ⟨-, hT⟩ := silence_tick_entry SINE hw s hg hports hno
  have hsx : (gap_sampled hw s).silence_count + 1 = LETTER_SPACE := by
    rw [(gap_sampled_frame hw s).2.2.2.2.2.1]; exact hs
  obtain ⟨t1, t2, t3, t4, -⟩ :=
    tick_tail_frame (pdl_clear_pstate (pdl_silence (gap_sampled hw s)))
  obtain ⟨l1, l2, l3, l4⟩ := pdl_silence_letter_regs (gap_sampled hw s) hsx
  rw [hT, t1, t2, t3, t4]
  refine ⟨l1, l2, l3, l4, ?_⟩
  show (pdl_silence (gap_sampled hw s)).silence_count ≠ 0
  rw [l4]
  decide

/-- Witness of C25 as amended: the letter with pattern 5 and three elements. -/
theorem letter_space_resets_witness :
    (GapTick released_hw (letter_regs 5 3 0 0 0) ∧ PortsOk (letter_regs 5 3 0 0 0) ∧
      sensed released_hw (letter_regs 5 3 0 0 0) = 0 ∧
      (letter_regs 5 3 0 0 0).silence_count + 1 = LETTER_SPACE) ∧
    (Timer3A_ISR (fun _ => 0) released_hw (letter_regs 5 3 0 0 0)).trap_word = 0 ∧
    (Timer3A_ISR (fun _ => 0) released_hw (letter_regs 5 3 0 0 0)).silence_count =
      LETTER_SPACE := by
  have hg : GapTick released_hw (letter_regs 5 3 0 0 0) :=
    ⟨show PADL_KEY ≠ 0 by decide, rfl, rfl, show 1 ≤ 1 by decide,
      Or.inl (show 1 < LETTER_SPACE by decide)⟩
  have hp : PortsOk (letter_regs 5 3 0 0 0) := Or.inl ⟨rfl, rfl⟩
  have hno : sensed released_hw (letter_regs 5 3 0 0 0) = 0 := by decide
  have h := letter_space_resets (fun _ => 0) released_hw (letter_regs 5 3 0 0 0) hg hp hno rfl
  exact ⟨⟨hg, hp, hno, rfl⟩, h.1, h.2.2.2.1⟩

/-- Counterexample to C25 as stated: at the tick that completes the letter with
pattern 5 and three elements the silence counter goes from 1 to
`LETTER_SPACE` = 2 and is not reset to zero, while `trap_word` and `trap_count`
are. -/
theorem letter_space_resets_counterexample :
    (letter_regs 5 3 0 0 0).paddle_key_mode ≠ 0 ∧ (letter_regs 5 3 0 0 0).silence_count = 1 ∧
    (letter_regs 5 3 0 0 0).trap_word = 5 ∧ (letter_regs 5 3 0 0 0).trap_count = 3 ∧
    (Timer3A_ISR (fun _ => 0) released_hw (letter_regs 5 3 0 0 0)).trap_word = 0 ∧
    (Timer3A_ISR (fun _ => 0) released_hw (letter_regs 5 3 0 0 0)).trap_count = 0 ∧
    (Timer3A_ISR (fun _ => 0) released_hw (letter_regs 5 3 0 0 0)).cw_elem_buf 0 = 5 ∧
    (Timer3A_ISR (fun _ => 0) released_hw (letter_regs 5 3 0 0 0)).cw_len_buf 0 = 3 ∧
    (Timer3A_ISR (fun _ => 0) released_hw (letter_regs 5 3 0 0 0)).silence_count = 2 ∧
    (Timer3A_ISR (fun _ => 0) released_hw (letter_regs 5 3 0 0 0)).silence_count ≠ 0 := by
  refine ⟨by decide, by decide, by decide, by decide, by decide, by decide, by decide,
    by decide, by decide, by decide⟩

/-- Counting silence once the word space is reached: the marker is pushed when
auto-space is on and not otherwise; the word flag is set, the timer 3A
interrupt is masked and the paddle edge interrupt unmasked. -/
theorem pdl_silence_word_regs (x : State) (hs : x.silence_count ≥ WORD_SPACE)
    (h8 : x.silence_count < 256) (hh : x.cw_head < CW_BUFF_END) :
    (x.cw_stat &&& CW_ST ≠ 0 →
      (pdl_silence x).cw_elem_buf = wr x.cw_elem_buf x.cw_head SPACE_ELEM ∧
      (pdl_silence x).cw_len_buf = wr x.cw_len_buf x.cw_head SPACE_COUNT ∧
      (pdl_silence x).cw_head = (x.cw_head + 1) % CW_BUFF_END) ∧
    (x.cw_stat &&& CW_ST = 0 →
      (pdl_silence x).cw_elem_buf = x.cw_elem_buf ∧
      (pdl_silence x).cw_len_buf = x.cw_len_buf ∧
      (pdl_silence x).cw_head = x.cw_head) ∧
    (pdl_silence x).cw_stat &&& CW_WF ≠ 0 ∧
    (pdl_silence x).TIMER3_IMR_R = x.TIMER3_IMR_R &&& (0xffffffff ^^^ TIMER_IMR_CAEIM) ∧
    (pdl_silence x).GPIO_PORTB_IM_R = x.dah_port ||| x.dit_port := by
  rw [pdl_silence_word x hs h8]
  obtain ⟨w1, w2, w3, w4, w5, -⟩ := pdl_word_space_spec
    { x with tone_timer := x.dit_time_reg, silence_count := (x.silence_count + 1) % 256 } hh
  exact ⟨w1, w2, w3, w4, w5⟩

/-- C26, amended: at a gap expiry with no paddle sensed at which the silence
count has reached the word-space threshold (`silence_count >= WORD_SPACE`), the
paddle decoder pushes the reserved word-space marker
(`SPACE_ELEM`, `SPACE_COUNT`) into the element ring buffer when auto-space is on
(`CW_ST` set in `cw_stat`) and pushes nothing when it is off; in both cases it
sets `CW_WF` (in `cw_stat`, passed on to `cw_astat` when a status request is
answered in the same tick), masks the timer 3A periodic interrupt and unmasks
the paddle edge interrupt. -/
theorem word_space_step (SINE : Nat → Int) (hw : PortB) (s : State) (hg : GapTick hw s)
    (hports : PortsOk s) (hno : sensed hw s = 0) (hs : s.silence_count ≥ WORD_SPACE)
    (h8 : s.silence_count < 256) (hh : s.cw_head < CW_BUFF_END) :
    (s.cw_stat &&& CW_ST ≠ 0 →
      (Timer3A_ISR SINE hw s).cw_elem_buf = wr s.cw_elem_buf s.cw_head SPACE_ELEM ∧
      (Timer3A_ISR SINE hw s).cw_len_buf = wr s.cw_len_buf s.cw_head SPACE_COUNT ∧
      (Timer3A_ISR SINE hw s).cw_head = (s.cw_head + 1) % CW_BUFF_END) ∧
    (s.cw_stat &&& CW_ST = 0 →
      (Timer3A_ISR SINE hw s).cw_elem_buf = s.cw_elem_buf ∧
      (Timer3A_ISR SINE hw s).cw_len_buf = s.cw_len_buf ∧
      (Timer3A_ISR SINE hw s).cw_head = s.cw_head) ∧
    (handshake_entry SINE hw s).cw_stat &&& CW_WF ≠ 0 ∧
    (s.cw_astat ≠ CW_RS → (Timer3A_ISR SINE hw s).cw_stat &&& CW_WF ≠ 0) ∧
    (s.cw_astat = CW_RS → (Timer3A_ISR SINE hw s).cw_astat &&& CW_WF ≠ 0) ∧
    (Timer3A_ISR SINE hw s).TIMER3_IMR_R =
      s.TIMER3_IMR_R &&& (0xffffffff ^^^ TIMER_IMR_CAEIM) ∧
    (Timer3A_ISR SINE hw s).TIMER3_IMR_R &&& TIMER_IMR_CAEIM = 0 ∧
    (Timer3A_ISR SINE hw s).GPIO_PORTB_IM_R = s.dah_port ||| s.dit_port := by
  obtain ⟨hE, hT⟩ := silence_tick_entry SINE hw s hg hports hno
  obtain ⟨f1, f2, f3, f4, f5, f6, f7, f8, f9, f10, f11, f12, f13, f14, f15, f16, f17, f18, f19,
    f20⟩ := gap_sampled_frame hw s
  obtain ⟨-, -, -, -, -, -, -, t8, -, t10, t11, t12, t13⟩ :=
    tick_tail_frame (pdl_clear_pstate (pdl_silence (gap_sampled hw s)))
  obtain ⟨w1, w2, w3, w4, w5⟩ := pdl_silence_word_regs (gap_sampled hw s)
    (by rw [f6]; exact hs) (by rw [f6]; exact h8) (by rw [f9]; exact hh)
  rw [f9, f11, f12, f13] at w1
  rw [f11, f12, f13, f9] at w2
  rw [f14] at w4
  rw [f19, f20] at w5
  have hwf : (handshake_entry SINE hw s).cw_stat &&& CW_WF ≠ 0 := by
    rw [hE]; exact w3
  obtain ⟨a1, a2⟩ := Timer3A_ISR_handshake SINE hw s
  obtain ⟨e1, -, -⟩ := handshake_entry_stat SINE hw s
  obtain ⟨k1, k2⟩ := status_handshake_spec (handshake_entry SINE hw s)
  have hI : (Timer3A_ISR SINE hw s).TIMER3_IMR_R =
      s.TIMER3_IMR_R &&& (0xffffffff ^^^ TIMER_IMR_CAEIM) := by
    rw [hT, t12]; exact w4
  refine ⟨?_, ?_, hwf, ?_, ?_, hI, ?_, ?_⟩
  · intro h
    rw [hT, t8, t10, t11]
    exact w1 h
  · intro h
    rw [hT, t8, t10, t11]
    exact w2 h
  · intro h
    rw [a2, k2 (by rw [e1]; exact h)]
    exact hwf
  · intro h
    rw [a1, (k1 (by rw [e1]; exact h)).1]
    exact flag_kept_or _ _ _ hwf
  · rw [hI]
    exact and_not_flag _
  · rw [hT, t13]
    exact w5

/-- Witness of C26 as amended: with auto-space on the marker is pushed at the
head index 3. -/
theorem word_space_step_witness :
    (GapTick released_hw (word_regs CW_ST) ∧ PortsOk (word_regs CW_ST) ∧
      sensed released_hw (word_regs CW_ST) = 0 ∧
      (word_regs CW_ST).silence_count ≥ WORD_SPACE ∧ (word_regs CW_ST).cw_stat &&& CW_ST ≠ 0) ∧
    (Timer3A_ISR (fun _ => 0) released_hw (word_regs CW_ST)).cw_elem_buf =
      wr (word_regs CW_ST).cw_elem_buf 3 SPACE_ELEM ∧
    (Timer3A_ISR (fun _ => 0) released_hw (word_regs CW_ST)).cw_head = (3 + 1) % CW_BUFF_END := by
  have hg : GapTick released_hw (word_regs CW_ST) :=
    ⟨show PADL_KEY ≠ 0 by decide, rfl, rfl, show 1 ≤ 1 by decide,
      Or.inr (show (0 &&& (NDAH ||| NDIT)) % 256 = 0 by decide)⟩
  have hp : PortsOk (word_regs CW_ST) := Or.inl ⟨rfl, rfl⟩
  have hno : sensed released_hw (word_regs CW_ST) = 0 := by decide
  have hst : (word_regs CW_ST).cw_stat &&& CW_ST ≠ 0 := by decide
  have h := (word_space_step (fun _ => 0) released_hw (word_regs CW_ST) hg hp hno
    (show 14 ≥ WORD_SPACE by decide) (show 14 < 256 by decide)
    (show 3 < CW_BUFF_END by decide)).1 hst
  exact ⟨⟨hg, hp, hno, show 14 ≥ WORD_SPACE by decide, hst⟩, h.1, h.2.2⟩

/-- Counterexample to C26 as stated: with auto-space off (`cw_stat = 0`) the
tick at which the silence count has reached the word space pushes nothing:
head and tail stay at 3 and the slot at the head is not written, although
`CW_WF` is set, the timer 3A interrupt is masked and the paddle edge interrupt
unmasked. -/
theorem word_space_step_counterexample :
    (word_regs 0).paddle_key_mode ≠ 0 ∧ (word_regs 0).silence_count ≥ WORD_SPACE ∧
    sensed released_hw (word_regs 0) = 0 ∧ (word_regs 0).cw_head = 3 ∧
    (Timer3A_ISR (fun _ => 0) released_hw (word_regs 0)).cw_head = 3 ∧
    (Timer3A_ISR (fun _ => 0) released_hw (word_regs 0)).cw_elem_buf 3 ≠ SPACE_ELEM ∧
    (Timer3A_ISR (fun _ => 0) released_hw (word_regs 0)).cw_len_buf 3 ≠ SPACE_COUNT ∧
    (Timer3A_ISR (fun _ => 0) released_hw (word_regs 0)).cw_stat = CW_WF ∧
    (Timer3A_ISR (fun _ => 0) released_hw (word_regs 0)).TIMER3_IMR_R = 0 ∧
    (Timer3A_ISR (fun _ => 0) released_hw (word_regs 0)).GPIO_PORTB_IM_R = NDAH ||| NDIT := by
  refine ⟨by decide, by decide, by decide, by decide, by decide, by decide, by decide,
    by decide, by decide, by decide⟩

theorem CW_BUFF_70_eq : CW_BUFF_70 = 28 := rfl

/-- The count tested against `CW_BUFF_70` is the number of unread entries, a
buffer whose head has met its tail counting as `CW_BUFF_END`. -/
theorem letter_fill_unread (h t : Nat) (hh : h < CW_BUFF_END) (ht : t < CW_BUFF_END) :
    letter_fill h t = (if h = t then CW_BUFF_END else cw_unread h t) ∧
    (letter_fill h t > CW_BUFF_70 ↔ cw_unread h t ≥ 29 ∨ h = t) := by
  rw [CW_BUFF_END_eq] at hh ht
  simp only [letter_fill, cw_unread, CW_BUFF_END_eq, CW_BUFF_70_eq]
  constructor
  · split_ifs <;> omega
  · split_ifs <;> omega

/-- Counting silence up to the letter space with a valid element count and no
toggle pattern: the trapped pair is pushed and the 70% flag set by the count
test. -/
theorem pdl_silence_letter_push (x : State) (hs : x.silence_count + 1 = LETTER_SPACE)
    (hh : x.cw_head < CW_BUFF_END) (hc : x.trap_count < MAX_SPACE_COUNT)
    (ht : ¬ (x.trap_word = CWSTT_E ∧ x.trap_count = CWSTT_L)) :
    (pdl_silence x).cw_elem_buf = wr x.cw_elem_buf x.cw_head x.trap_word ∧
    (pdl_silence x).cw_len_buf = wr x.cw_len_buf x.cw_head x.trap_count ∧
    (pdl_silence x).cw_head = (x.cw_head + 1) % CW_BUFF_END ∧
    (pdl_silence x).cw_stat =
      (if letter_fill ((x.cw_head + 1) % CW_BUFF_END) x.cw_tail > CW_BUFF_70 then
        (if (x.cw_head + 1) % CW_BUFF_END = x.cw_tail then x.cw_stat ||| CW_OR
          else x.cw_stat) ||| CW_FF
       else (if (x.cw_head + 1) % CW_BUFF_END = x.cw_tail then x.cw_stat ||| CW_OR
          else x.cw_stat)) := by
  rw [pdl_silence_letter x hs]
  exact pdl_letter_space_push
    { x with tone_timer := x.dit_time_reg, silence_count := LETTER_SPACE } hh hc ht

/-- C22, amended: when `Timer3A_ISR` pushes a decoded element into the element
ring buffer at a letter space (valid element count, not the auto-space toggle),
the pair is stored at the old head, the head advances, and the push sets the
near-full flag `CW_FF` in `cw_stat` exactly when the count it forms from the new
head and the tail exceeds `CW_BUFF_70 = 28`: that is when the number of unread
entries after the push is at least 29 of `CW_BUFF_END = 40`, or the new head has
met the tail (all 40 slots written, the overrun case). -/
theorem letter_push_near_full (SINE : Nat → Int) (hw : PortB) (s : State) (hg : GapTick hw s)
    (hports : PortsOk s) (hno : sensed hw s = 0) (hs : s.silence_count + 1 = LETTER_SPACE)
    (hh : s.cw_head < CW_BUFF_END) (htl : s.cw_tail < CW_BUFF_END)
    (hc : s.trap_count < MAX_SPACE_COUNT)
    (ht : ¬ (s.trap_word = CWSTT_E ∧ s.trap_count = CWSTT_L)) :
    (Timer3A_ISR SINE hw s).cw_elem_buf = wr s.cw_elem_buf s.cw_head s.trap_word ∧
    (Timer3A_ISR SINE hw s).cw_len_buf = wr s.cw_len_buf s.cw_head s.trap_count ∧
    (Timer3A_ISR SINE hw s).cw_head = (s.cw_head + 1) % CW_BUFF_END ∧
    (Timer3A_ISR SINE hw s).cw_tail = s.cw_tail ∧
    (handshake_entry SINE hw s).cw_stat =
      (if cw_unread (Timer3A_ISR SINE hw s).cw_head s.cw_tail ≥ 29 ∨
          (Timer3A_ISR SINE hw s).cw_head = s.cw_tail then
        (if (Timer3A_ISR SINE hw s).cw_head = s.cw_tail then s.cw_stat ||| CW_OR
          else s.cw_stat) ||| CW_FF
       else (if (Timer3A_ISR SINE hw s).cw_head = s.cw_tail then s.cw_stat ||| CW_OR
          else s.cw_stat)) ∧
    (s.cw_astat ≠ CW_RS →
      (Timer3A_ISR SINE hw s).cw_stat = (handshake_entry SINE hw s).cw_stat) := by
  obtain ⟨hE, hT⟩ := silence_tick_entry SINE hw s hg hports hno
  obtain ⟨f1, f2, f3, f4, f5, f6, f7, f8, f9, f10, f11, f12, f13, f14, f15, f16, f17, f18, f19,
    f20⟩ := gap_sampled_frame hw s
  obtain ⟨-, -, -, -, -, -, -, t8, t9, t10, t11, -⟩ :=
    tick_tail_frame (pdl_clear_pstate (pdl_silence (gap_sampled hw s)))
  obtain ⟨p1, p2, p3, p4⟩ := pdl_silence_letter_push (gap_sampled hw s)
    (by rw [f6]; exact hs) (by rw [f9]; exact hh) (by rw [f4]; exact hc)
    (by rw [f3, f4]; exact ht)
  rw [f9, f11, f3] at p1
  rw [f9, f12, f4] at p2
  rw [f9] at p3
  rw [f9, f10, f13] at p4
  obtain ⟨-, -, -, -, -, l6, -⟩ := pdl_letter_space_frame
    { gap_sampled hw s with tone_timer := (gap_sampled hw s).dit_time_reg,
                            silence_count := LETTER_SPACE }
  have hhead : (Timer3A_ISR SINE hw s).cw_head = (s.cw_head + 1) % CW_BUFF_END := by
    rw [hT, t8]; exact p3
  have htail : (Timer3A_ISR SINE hw s).cw_tail = s.cw_tail := by
    rw [hT, t9]
    show (pdl_silence (gap_sampled hw s)).cw_tail = s.cw_tail
    rw [pdl_silence_letter _ (by rw [f6]; exact hs)]
    exact (pdl_letter_space_frame _).2.2.2.2.2.1.trans f10
  obtain ⟨a1, a2⟩ := Timer3A_ISR_handshake SINE hw s
  obtain ⟨e1, -, -⟩ := handshake_entry_stat SINE hw s
  obtain ⟨-, k2⟩ := status_handshake_spec (handshake_entry SINE hw s)
  have hiff := (letter_fill_unread ((s.cw_head + 1) % CW_BUFF_END) s.cw_tail
    (Nat.mod_lt _ (by decide)) htl).2
  refine ⟨?_, ?_, hhead, htail, ?_, ?_⟩
  · rw [hT, t10]; exact p1
  · rw [hT, t11]; exact p2
  · rw [hE, hhead]
    show (pdl_silence (gap_sampled hw s)).cw_stat = _
    rw [p4]
    by_cases hc2 : letter_fill ((s.cw_head + 1) % CW_BUFF_END) s.cw_tail > CW_BUFF_70
    · rw [if_pos hc2, if_pos (hiff.mp hc2)]
    · rw [if_neg hc2, if_neg (fun h => hc2 (hiff.mpr h))]
  · intro h
    rw [a2, k2 (by rw [e1]; exact h)]

theorem letter_push_near_full_witness :
    (GapTick released_hw (letter_regs 5 3 28 0 0) ∧ PortsOk (letter_regs 5 3 28 0 0) ∧
      sensed released_hw (letter_regs 5 3 28 0 0) = 0 ∧
      (letter_regs 5 3 28 0 0).silence_count + 1 = LETTER_SPACE) ∧
    (Timer3A_ISR (fun _ => 0) released_hw (letter_regs 5 3 28 0 0)).cw_head = 29 ∧
    cw_unread (Timer3A_ISR (fun _ => 0) released_hw (letter_regs 5 3 28 0 0)).cw_head 0 = 29 ∧
    (Timer3A_ISR (fun _ => 0) released_hw (letter_regs 5 3 28 0 0)).cw_stat = CW_FF := by
  have hg : GapTick released_hw (letter_regs 5 3 28 0 0) :=
    ⟨show PADL_KEY ≠ 0 by decide, rfl, rfl, show 1 ≤ 1 by decide,
      Or.inl (show 1 < LETTER_SPACE by decide)⟩
  have hp : PortsOk (letter_regs 5 3 28 0 0) := Or.inl ⟨rfl, rfl⟩
  have hno : sensed released_hw (letter_regs 5 3 28 0 0) = 0 := by decide
  have h := letter_push_near_full (fun _ => 0) released_hw (letter_regs 5 3 28 0 0) hg hp hno rfl
    (show 28 < CW_BUFF_END by decide) (show 0 < CW_BUFF_END by decide)
    (show 3 < MAX_SPACE_COUNT by decide) (by decide)
  obtain ⟨-, -, h3, -, h5, h6⟩ := h
  have hh : (Timer3A_ISR (fun _ => 0) released_hw (letter_regs 5 3 28 0 0)).cw_head = 29 := h3
  refine ⟨⟨hg, hp, hno, rfl⟩, hh, by rw [hh]; decide, ?_⟩
  rw [h6 (by decide), h5, hh]
  decide

/-- Counterexample to C22 as stated: with 27 unread entries (head 27, tail 0)
the letter-space push of the pair (5, 3) leaves 28 unread entries, which is 70%
of `CW_BUFF_END` = 40, and `CW_FF` is not set; the flag only appears with the
next push, at 29. -/
theorem letter_push_near_full_counterexample :
    (letter_regs 5 3 27 0 0).paddle_key_mode ≠ 0 ∧ (letter_regs 5 3 27 0 0).cw_head = 27 ∧
    (letter_regs 5 3 27 0 0).cw_tail = 0 ∧
    (Timer3A_ISR (fun _ => 0) released_hw (letter_regs 5 3 27 0 0)).cw_elem_buf 27 = 5 ∧
    (Timer3A_ISR (fun _ => 0) released_hw (letter_regs 5 3 27 0 0)).cw_len_buf 27 = 3 ∧
    (Timer3A_ISR (fun _ => 0) released_hw (letter_regs 5 3 27 0 0)).cw_head = 28 ∧
    (Timer3A_ISR (fun _ => 0) released_hw (letter_regs 5 3 27 0 0)).cw_tail = 0 ∧
    cw_unread (Timer3A_ISR (fun _ => 0) released_hw (letter_regs 5 3 27 0 0)).cw_head
      (Timer3A_ISR (fun _ => 0) released_hw (letter_regs 5 3 27 0 0)).cw_tail = 28 ∧
    28 * 100 ≥ CW_BUFF_END * 70 ∧
    (Timer3A_ISR (fun _ => 0) released_hw (letter_regs 5 3 27 0 0)).cw_stat &&& CW_FF = 0 ∧
    (Timer3A_ISR (fun _ => 0) released_hw (letter_regs 5 3 28 0 0)).cw_stat &&& CW_FF = CW_FF := by
  refine ⟨by decide, by decide, by decide, by decide, by decide, by decide, by decide,
    by decide, by decide, by decide, by decide⟩

theorem tone_scale_eq : RADIX * N_SIN = 32768 ∧ FSAMP = 10000 := by decide

theorem tone_hz_bound (t : Nat) (ht : t ≤ 512) : 300 ≤ tone_hz t ∧ tone_hz t ≤ 2102 := by
  unfold tone_hz
  omega

theorem tone_hz_mono (t u : Nat) (h : t ≤ u) : tone_hz t ≤ tone_hz u := by
  unfold tone_hz
  omega

theorem tone_delta_mono (f g : Nat) (h : f ≤ g) : tone_delta f ≤ tone_delta g := by
  unfold tone_delta
  exact Nat.div_le_div_right (Nat.mul_le_mul_right _ h)

theorem tone_delta_bound (f : Nat) (hf : f ≤ 2102) :
    f * (RADIX * N_SIN) < 4294967296 ∧ tone_delta f ≤ 6887 := by
  unfold tone_delta
  rw [tone_scale_eq.1, tone_scale_eq.2]
  omega

theorem set_tone_eq (t : Nat) (ht : t ≤ 512) (s : State) :
    set_tone t s = (tone_delta (tone_hz t), { s with tone_reg := tone_delta (tone_hz t) }) := by
  obtain ⟨h1, h2⟩ := tone_hz_bound t ht
  obtain ⟨h3, h4⟩ := tone_delta_bound (tone_hz t) h2
  have e1 : (t * 352 / 100 + 300) % 4294967296 = tone_hz t := by
    have hlt : t * 352 / 100 + 300 < 4294967296 := by omega
    rw [Nat.mod_eq_of_lt hlt]
    unfold tone_hz
    omega
  have e2 : ((tone_hz t * (RADIX * N_SIN)) % 4294967296 / FSAMP) % 65536
      = tone_delta (tone_hz t) := by
    rw [Nat.mod_eq_of_lt h3]
    show tone_delta (tone_hz t) % 65536 = _
    omega
  simp only [set_tone, e1, e2]

/-- C23: for every tone code `t` in 0..512, `set_tone t` stores and returns
`tone_reg = floor(f * (RADIX * N_SIN) / FSAMP) = floor(f * 32768 / 10000)` with
`f = 300 + floor(352 * t / 100)` Hz; `f` is 300 at `t = 0` and 2102 at
`t = 512`; `f` and `tone_reg` are non-decreasing in `t`; neither the 32-bit
products nor the 16-bit result wrap; and no register other than `tone_reg` (in
particular not `delph1`) is changed. -/
theorem set_tone_value (t : Nat) (ht : t ≤ 512) (s : State) :
    (set_tone t s).1 = tone_hz t * 32768 / 10000 ∧
    (set_tone t s).1 = tone_hz t * (RADIX * N_SIN) / FSAMP ∧
    (set_tone t s).2 = { s with tone_reg := tone_hz t * 32768 / 10000 } ∧
    (set_tone t s).2.tone_reg = (set_tone t s).1 ∧
    (set_tone t s).2.delph1 = s.delph1 ∧
    tone_hz t = 300 + 352 * t / 100 ∧ tone_hz 0 = 300 ∧ tone_hz 512 = 2102 ∧
    (∀ u, u ≤ t → tone_hz u ≤ tone_hz t ∧ (set_tone u s).1 ≤ (set_tone t s).1) ∧
    t * 352 < 2 ^ 32 ∧ t * 352 / 100 + 300 < 2 ^ 32 ∧
    tone_hz t * (RADIX * N_SIN) < 2 ^ 32 ∧ tone_hz t * (RADIX * N_SIN) / FSAMP < 2 ^ 16 := by
  obtain ⟨h1, h2⟩ := tone_hz_bound t ht
  obtain ⟨h3, h4⟩ := tone_delta_bound (tone_hz t) h2
  have hd : tone_delta (tone_hz t) = tone_hz t * 32768 / 10000 := by
    unfold tone_delta
    rw [tone_scale_eq.1, tone_scale_eq.2]
  rw [set_tone_eq t ht s]
  refine ⟨hd, rfl, by rw [hd], rfl, rfl, rfl, by decide, by decide, ?_, by omega, by omega,
    h3, ?_⟩
  · intro u hu
    rw [set_tone_eq u (le_trans hu ht) s]
    exact ⟨tone_hz_mono u t hu, tone_delta_mono _ _ (tone_hz_mono u t hu)⟩
  · show tone_delta (tone_hz t) < 2 ^ 16
    omega

theorem set_tone_value_witness :
    (512 : Nat) ≤ 512 ∧ (set_tone 512 zero_regs).1 = 6887 ∧
    (set_tone 512 zero_regs).2.tone_reg = 6887 ∧ tone_hz 512 = 2102 := by
  have h := set_tone_value 512 (le_refl 512) zero_regs
  exact ⟨le_refl 512, h.1.trans (by decide), (h.2.2.2.1).trans (h.1.trans (by decide)),
    h.2.2.2.2.2.2.2.1⟩

theorem ring_view_eq {s t : State} (h : ring_view s = ring_view t) :
    s.cw_elem_buf = t.cw_elem_buf ∧ s.cw_len_buf = t.cw_len_buf ∧ s.cw_head = t.cw_head ∧
    s.trap_word = t.trap_word ∧ s.trap_count = t.trap_count ∧
    s.silence_count = t.silence_count := by
  simp only [ring_view, Prod.mk.injEq] at h
  exact h

theorem ring_step_congr {s s1 t t1 : State} (hs : ring_view s1 = ring_view s)
    (ht : ring_view t1 = ring_view t) (h : RingStep s t) : RingStep s1 t1 := by
  obtain ⟨a1, a2, a3, a4, a5, -⟩ := ring_view_eq hs
  obtain ⟨b1, b2, b3, -, -, -⟩ := ring_view_eq ht
  simp only [RingStep, ring_kept, ring_pushed, a1, a2, a3, a4, a5, b1, b2, b3]
  exact h

theorem pdl_inv_congr {s t : State} (h : ring_view t = ring_view s) (hi : PdlInv s) :
    PdlInv t := by
  obtain ⟨-, -, a3, -, a5, a6⟩ := ring_view_eq h
  simp only [PdlInv, a3, a5, a6]
  exact hi

theorem ring_step_kept {s t : State} (h : ring_view t = ring_view s) : RingStep s t := by
  obtain ⟨a1, a2, a3, -, -, -⟩ := ring_view_eq h
  exact Or.inl ⟨a1, a2, a3⟩

theorem tone_timer_tick_ring (s : State) : ring_view (tone_timer_tick s) = ring_view s := by
  simp only [tone_timer_tick, ring_view, apply_ite State.cw_elem_buf, apply_ite State.cw_len_buf,
    apply_ite State.cw_head, apply_ite State.trap_word, apply_ite State.trap_count,
    apply_ite State.silence_count, ite_self]

theorem debounce_tick_ring (s : State) : ring_view (debounce_tick s) = ring_view s := by
  simp only [debounce_tick, ring_view, apply_ite State.cw_elem_buf, apply_ite State.cw_len_buf,
    apply_ite State.cw_head, apply_ite State.trap_word, apply_ite State.trap_count,
    apply_ite State.silence_count, ite_self]

theorem status_handshake_ring (s : State) : ring_view (status_handshake s) = ring_view s := by
  simp only [status_handshake, ring_view, apply_ite State.cw_elem_buf,
    apply_ite State.cw_len_buf, apply_ite State.cw_head, apply_ite State.trap_word,
    apply_ite State.trap_count, apply_ite State.silence_count, ite_self]

theorem key_timer_tick_ring (s : State) : ring_view (key_timer_tick s) = ring_view s := rfl

theorem pdl_initial_ring (s : State) : ring_view (pdl_initial s) = ring_view s := by
  simp only [pdl_initial, ring_view, apply_ite State.cw_elem_buf, apply_ite State.cw_len_buf,
    apply_ite State.cw_head, apply_ite State.trap_word, apply_ite State.trap_count,
    apply_ite State.silence_count, ite_self]

theorem pdl_edge_ring (hw : PortB) (s : State) : ring_view (pdl_edge hw s) = ring_view s := by
  simp only [pdl_edge, ring_view, apply_ite State.cw_elem_buf, apply_ite State.cw_len_buf,
    apply_ite State.cw_head, apply_ite State.trap_word, apply_ite State.trap_count,
    apply_ite State.silence_count, ite_self]

theorem pdl_sample_ring (hw : PortB) (s : State) : ring_view (pdl_sample hw s) = ring_view s := by
  simp only [pdl_sample, ring_view, apply_ite State.cw_elem_buf, apply_ite State.cw_len_buf,
    apply_ite State.cw_head, apply_ite State.trap_word, apply_ite State.trap_count,
    apply_ite State.silence_count, ite_self]

theorem sk_initial_ring (s : State) : ring_view (sk_initial s) = ring_view s := by
  simp only [sk_initial, ring_view, apply_ite State.cw_elem_buf, apply_ite State.cw_len_buf,
    apply_ite State.cw_head, apply_ite State.trap_word, apply_ite State.trap_count,
    apply_ite State.silence_count, ite_self]

theorem sk_edge_ring (hw : PortB) (s : State) : ring_view (sk_edge hw s) = ring_view s := by
  simp only [sk_edge, ring_view, apply_ite State.cw_elem_buf, apply_ite State.cw_len_buf,
    apply_ite State.cw_head, apply_ite State.trap_word, apply_ite State.trap_count,
    apply_ite State.silence_count, ite_self]

theorem sk_tick_ring (SINE : Nat → Int) (s : State) : ring_view (sk_tick SINE s) = ring_view s := by
  simp only [sk_tick, sk_tone, sk_space, a_dds, a_rampup, ring_view,
    apply_ite State.cw_elem_buf, apply_ite State.cw_len_buf,
    apply_ite State.cw_head, apply_ite State.trap_word, apply_ite State.trap_count,
    apply_ite State.silence_count, ite_self]

theorem didah_isr_ring (hw : PortB) (s : State) : ring_view (didah_isr hw s) = ring_view s := by
  simp only [didah_isr, ring_view, apply_ite State.cw_elem_buf, apply_ite State.cw_len_buf,
    apply_ite State.cw_head, apply_ite State.trap_word, apply_ite State.trap_count,
    apply_ite State.silence_count, ite_self]

theorem MAX_SPACE_COUNT_eq : MAX_SPACE_COUNT = 17 := rfl

/-- Trapping an element counts it, saturating at `MAX_SPACE_COUNT`, and shifts
its bit into the trap word. -/
theorem trap_element_spec (s : State) :
    (trap_element s).trap_word = ((s.trap_word <<< 1) % 65536) ||| (s.trap_bit &&& 0x01) ∧
    (trap_element s).trap_count =
      (if s.trap_count < MAX_SPACE_COUNT then s.trap_count + 1 else s.trap_count) ∧
    (trap_element s).cw_elem_buf = s.cw_elem_buf ∧ (trap_element s).cw_len_buf = s.cw_len_buf ∧
    (trap_element s).cw_head = s.cw_head ∧ (trap_element s).silence_count = s.silence_count ∧
    (trap_element s).trap_bit = s.trap_bit := by
  simp only [trap_element, apply_ite State.trap_word, apply_ite State.trap_count,
    apply_ite State.cw_elem_buf, apply_ite State.cw_len_buf, apply_ite State.cw_head,
    apply_ite State.silence_count, apply_ite State.trap_bit, ite_self, and_self]

/-- Tone-on processing writes nothing to the element ring buffer and keeps the
ranges of the capture registers. -/
theorem pdl_tone_ring (SINE : Nat → Int) (hw : PortB) (s : State) (hi : PdlInv s) :
    ring_kept s (pdl_tone SINE hw s) ∧ PdlInv (pdl_tone SINE hw s) := by
  obtain ⟨i1, i2, i3⟩ := hi
  have h1 : ring_view (pdl_latch hw s) = ring_view s := by
    simp only [pdl_latch, ring_view, apply_ite State.cw_elem_buf, apply_ite State.cw_len_buf,
      apply_ite State.cw_head, apply_ite State.trap_word, apply_ite State.trap_count,
      apply_ite State.silence_count, ite_self]
  have h2 : ∀ t : State, (pdl_expire t).cw_elem_buf = t.cw_elem_buf ∧
      (pdl_expire t).cw_len_buf = t.cw_len_buf ∧ (pdl_expire t).cw_head = t.cw_head ∧
      (pdl_expire t).trap_count = t.trap_count ∧
      (pdl_expire t).silence_count = (if t.tone_timer = 0 then 0 else t.silence_count) := by
    intro t
    simp only [pdl_expire, apply_ite State.cw_elem_buf, apply_ite State.cw_len_buf,
      apply_ite State.cw_head, apply_ite State.trap_count, apply_ite State.silence_count,
      ite_self, and_self]
  have h3 : ∀ t : State, ring_view (a_rampup (a_dds SINE t)) = ring_view t := by
    intro t
    simp only [a_rampup, a_dds, ring_view, apply_ite State.cw_elem_buf,
      apply_ite State.cw_len_buf, apply_ite State.cw_head, apply_ite State.trap_word,
      apply_ite State.trap_count, apply_ite State.silence_count, ite_self]
  have h4 : ∀ t : State, (pdl_decay t).cw_elem_buf = t.cw_elem_buf ∧
      (pdl_decay t).cw_len_buf = t.cw_len_buf ∧ (pdl_decay t).cw_head = t.cw_head ∧
      (pdl_decay t).silence_count = t.silence_count ∧
      (t.trap_count ≤ MAX_SPACE_COUNT → (pdl_decay t).trap_count ≤ MAX_SPACE_COUNT) := by
    intro t
    refine ⟨?_, ?_, ?_, ?_, ?_⟩
    · simp only [pdl_decay, trap_element, apply_ite State.cw_elem_buf, ite_self]
    · simp only [pdl_decay, trap_element, apply_ite State.cw_len_buf, ite_self]
    · simp only [pdl_decay, trap_element, apply_ite State.cw_head, ite_self]
    · simp only [pdl_decay, trap_element, apply_ite State.silence_count, ite_self]
    · intro ht
      rw [MAX_SPACE_COUNT_eq] at ht ⊢
      simp only [pdl_decay, trap_element, MAX_SPACE_COUNT_eq, apply_ite State.trap_count]
      split_ifs <;> omega
  obtain ⟨a1, a2, a3, -, a5, a6⟩ := ring_view_eq h1
  obtain ⟨b1, b2, b3, b4, b5⟩ := h2 (pdl_latch hw s)
  obtain ⟨c1, c2, c3, -, c5, c6⟩ := ring_view_eq (h3 (pdl_expire (pdl_latch hw s)))
  obtain ⟨d1, d2, d3, d4, d5⟩ := h4 (a_rampup (a_dds SINE (pdl_expire (pdl_latch hw s))))
  refine ⟨⟨?_, ?_, ?_⟩, ?_, ?_, ?_⟩
  · rw [pdl_tone, d1, c1, b1, a1]
  · rw [pdl_tone, d2, c2, b2, a2]
  · rw [pdl_tone, d3, c3, b3, a3]
  · rw [pdl_tone, d4, c6, b5, a6]
    split_ifs <;> omega
  · rw [pdl_tone, d3, c3, b3, a3]; exact i2
  · rw [pdl_tone]
    apply d5
    rw [c5, b4, a5]; exact i3

/-- Counting silence writes at most one pair to the element ring buffer: the
word-space marker, or the trapped pair when its count is below
`MAX_SPACE_COUNT`. -/
theorem pdl_silence_ring (x : State) (hi : PdlInv x) :
    RingStep x (pdl_silence x) ∧ PdlInv (pdl_silence x) := by
  obtain ⟨i1, i2, i3⟩ := hi
  have hw : WORD_SPACE = 14 := rfl
  have hl : LETTER_SPACE = 2 := rfl
  by_cases hword : x.silence_count ≥ WORD_SPACE
  · rw [pdl_silence_word x hword i1]
    obtain ⟨w1, w2, -, f1, f2, f3, f4, f5, f6, f7⟩ := pdl_word_space_spec
      { x with tone_timer := x.dit_time_reg, silence_count := (x.silence_count + 1) % 256 } i2
    have hinv : PdlInv (pdl_word_space
        { x with tone_timer := x.dit_time_reg, silence_count := (x.silence_count + 1) % 256 }) := by
      refine ⟨?_, ?_, ?_⟩
      · rw [f6]; exact Nat.mod_lt _ (by decide)
      · by_cases hst : x.cw_stat &&& CW_ST ≠ 0
        · rw [(w1 hst).2.2]; exact Nat.mod_lt _ (by decide)
        · rw [(w2 (not_not.mp hst)).2.2]; exact i2
      · rw [f5]; exact i3
    refine ⟨?_, hinv⟩
    by_cases hst : x.cw_stat &&& CW_ST ≠ 0
    · exact Or.inr (Or.inl (w1 hst))
    · exact Or.inl (w2 (not_not.mp hst))
  · by_cases hlet : x.silence_count + 1 = LETTER_SPACE
    · rw [pdl_silence_letter x hlet]
      obtain ⟨l1, l2, l3, l4, l5, l6, l7⟩ := pdl_letter_space_frame
        { x with tone_timer := x.dit_time_reg, silence_count := LETTER_SPACE }
      by_cases hc : x.trap_count < MAX_SPACE_COUNT ∧
          ¬ (x.trap_word = CWSTT_E ∧ x.trap_count = CWSTT_L)
      · obtain ⟨p1, p2, p3, -⟩ := pdl_letter_space_push
          { x with tone_timer := x.dit_time_reg, silence_count := LETTER_SPACE } i2 hc.1 hc.2
        refine ⟨Or.inr (Or.inr ⟨hc.1, p1, p2, p3⟩), ?_, ?_, ?_⟩
        · rw [l4]; show LETTER_SPACE < 256; decide
        · rw [p3]; exact Nat.mod_lt _ (by decide)
        · rw [l2]; exact Nat.zero_le _
      · obtain ⟨p1, p2, p3, -⟩ := pdl_letter_space_skip
          { x with tone_timer := x.dit_time_reg, silence_count := LETTER_SPACE }
          (by
            by_cases h17 : x.trap_count < MAX_SPACE_COUNT
            · exact Or.inr (by_contra (fun h => hc ⟨h17, h⟩))
            · exact Or.inl h17)
        refine ⟨Or.inl ⟨p1, p2, p3⟩, ?_, ?_, ?_⟩
        · rw [l4]; show LETTER_SPACE < 256; decide
        · rw [p3]; exact i2
        · rw [l2]; exact Nat.zero_le _
    · have e : pdl_silence x =
          { x with tone_timer := x.dit_time_reg, silence_count := (x.silence_count + 1) % 256 } := by
        have e1 : ¬ ((x.silence_count + 1) % 256 = LETTER_SPACE) := by
          rw [hl] at hlet ⊢
          rw [hw] at hword
          omega
        simp only [pdl_silence, hword, e1, if_false]
      rw [e]
      exact ⟨Or.inl ⟨rfl, rfl, rfl⟩, Nat.mod_lt _ (by decide), i2, i3⟩

/-- The gap block either counts silence or starts an element, which leaves the
ring buffer and the trap registers alone. -/
theorem pdl_start_ring (x : State) :
    pdl_start x = pdl_silence x ∨ ring_view (pdl_start x) = ring_view x := by
  rw [pdl_start]
  by_cases h1 : x.pstate = x.dit_port ||| x.dah_port
  · right
    rw [if_pos h1]
    simp only [pdl_start_opposite, ring_view,
      apply_ite State.cw_elem_buf, apply_ite State.cw_len_buf, apply_ite State.cw_head,
      apply_ite State.trap_word, apply_ite State.trap_count, apply_ite State.silence_count,
      ite_self]
  · rw [if_neg h1]
    by_cases h2 : x.pstate = x.dit_port
    · right
      rw [if_pos h2]
      rfl
    · rw [if_neg h2]
      by_cases h3 : x.pstate = x.dah_port
      · right
        rw [if_pos h3]
        rfl
      · left
        rw [if_neg h3]

/-- Tone-off processing writes at most one pair to the element ring buffer. -/
theorem pdl_space_ring (hw : PortB) (s : State) (hi : PdlInv s) :
    RingStep s (pdl_space hw s) ∧ PdlInv (pdl_space hw s) := by
  have he := pdl_edge_ring hw s
  rw [pdl_space, pdl_gap_check]
  by_cases ht : (pdl_edge hw s).tone_timer = 0
  · rw [if_pos ht, pdl_gap]
    have hd : ring_view (pdl_clear_edges (pdl_sample hw (pdl_edge hw s))) = ring_view s :=
      (pdl_sample_ring hw (pdl_edge hw s)).trans he
    have hc : ∀ t : State, ring_view (pdl_clear_pstate t) = ring_view t := fun _ => rfl
    generalize pdl_clear_edges (pdl_sample hw (pdl_edge hw s)) = d at hd ⊢
    rcases pdl_start_ring d with h | h
    · rw [h]
      obtain ⟨r1, r2⟩ := pdl_silence_ring d (pdl_inv_congr hd hi)
      generalize pdl_silence d = q at r1 r2 ⊢
      have hq := hc q
      generalize pdl_clear_pstate q = q1 at hq ⊢
      exact ⟨@ring_step_congr d s q q1 hd.symm hq r1, @pdl_inv_congr q q1 hq r2⟩
    · have hall : ring_view (pdl_clear_pstate (pdl_start d)) = ring_view s :=
        (hc (pdl_start d)).trans (h.trans hd)
      generalize pdl_clear_pstate (pdl_start d) = q at hall ⊢
      exact ⟨@ring_step_kept s q hall, @pdl_inv_congr s q hall hi⟩
  · rw [if_neg ht]
    generalize pdl_edge hw s = q at he ⊢
    exact ⟨@ring_step_kept s q he, @pdl_inv_congr s q he hi⟩

/-- One run of `Timer3A_ISR`, in either mode, writes at most one pair to the
element ring buffer, the word-space marker or the trapped pair with a count
below `MAX_SPACE_COUNT`, and keeps the ranges of the capture registers. -/
theorem Timer3A_ISR_ring (SINE : Nat → Int) (hw : PortB) (s : State) (hi : PdlInv s) :
    RingStep s (Timer3A_ISR SINE hw s) ∧ PdlInv (Timer3A_ISR SINE hw s) := by
  rw [Timer3A_ISR]
  by_cases hm : s.paddle_key_mode = 0
  · rw [if_pos hm]
    have h : ring_view (debounce_tick (key_timer_tick (status_handshake
        (sk_tick SINE (sk_edge hw (sk_initial s)))))) = ring_view s := by
      rw [debounce_tick_ring, key_timer_tick_ring, status_handshake_ring, sk_tick_ring,
        sk_edge_ring, sk_initial_ring]
    generalize debounce_tick (key_timer_tick (status_handshake
        (sk_tick SINE (sk_edge hw (sk_initial s))))) = q at h ⊢
    exact ⟨@ring_step_kept s q h, @pdl_inv_congr s q h hi⟩
  · rw [if_neg hm]
    have ha : ring_view (pdl_initial (tone_timer_tick s)) = ring_view s := by
      rw [pdl_initial_ring, tone_timer_tick_ring]
    have htail : ∀ t : State, ring_view (debounce_tick (status_handshake t)) = ring_view t := by
      intro t
      rw [debounce_tick_ring, status_handshake_ring]
    generalize pdl_initial (tone_timer_tick s) = a at ha ⊢
    have hia : PdlInv a := @pdl_inv_congr s a ha hi
    rw [pdl_tick]
    by_cases hd : a.delph1 ≠ 0
    · rw [if_pos hd]
      obtain ⟨r1, r2⟩ := pdl_tone_ring SINE hw a hia
      have hk : RingStep a (pdl_tone SINE hw a) := Or.inl r1
      generalize pdl_tone SINE hw a = b at hk r2 ⊢
      have hb := htail b
      generalize debounce_tick (status_handshake b) = c at hb ⊢
      exact ⟨@ring_step_congr a s b c ha.symm hb hk, @pdl_inv_congr b c hb r2⟩
    · rw [if_neg hd]
      obtain ⟨r1, r2⟩ := pdl_space_ring hw a hia
      generalize pdl_space hw a = b at r1 r2 ⊢
      have hb := htail b
      generalize debounce_tick (status_handshake b) = c at hb ⊢
      exact ⟨@ring_step_congr a s b c ha.symm hb r1, @pdl_inv_congr b c hb r2⟩

/-- The state `morse_init` leaves has an empty ring buffer position, a cleared
trap and a cleared silence counter, whatever the registers held before. -/
theorem morse_init_regs (pins : InitPins) (s : State) :
    (morse_init pins s).2.silence_count = 0 ∧ (morse_init pins s).2.cw_head = 0 ∧
    (morse_init pins s).2.cw_tail = 0 ∧ (morse_init pins s).2.trap_count = 0 ∧
    (morse_init pins s).2.trap_word = 0 ∧ (morse_init pins s).2.tone_timer = 0 ∧
    (morse_init pins s).2.delph1 = 0 ∧ (morse_init pins s).2.initial = 0 ∧
    (morse_init pins s).2.cw_stat = 0 ∧
    (morse_init pins s).2.TIMER3_IMR_R &&& TIMER_IMR_CAEIM ≠ 0 := by
  have hbit : ∀ x : Nat, (((x &&& TIMER3_IMR_AMASK) ||| TIMER_IMR_CAEIM) &&& TIMER3_IMR_BMASK
      &&& (0xffffffff ^^^ TIMER_IMR_CBEIM)) &&& TIMER_IMR_CAEIM ≠ 0 := by
    intro x h0
    have h2 := congrArg (fun n => Nat.testBit n 2) h0
    simp only [Nat.testBit_and, Nat.testBit_or, Nat.zero_testBit] at h2
    have c1 : TIMER_IMR_CAEIM.testBit 2 = true := by decide
    have c2 : TIMER3_IMR_BMASK.testBit 2 = true := by decide
    have c3 : (0xffffffff ^^^ TIMER_IMR_CBEIM).testBit 2 = true := by decide
    rw [c1, c2, c3] at h2
    simp at h2
  refine ⟨rfl, rfl, rfl, rfl, rfl, rfl, ?_, rfl, rfl, ?_⟩
  · simp only [morse_init, init_stw, set_ramp_rate, set_iambic_mode, timer3A_init,
      timer3B_init, apply_ite State.delph1, ite_self]
  · exact hbit _

theorem morse_init_inv (pins : InitPins) (s : State) : PdlInv (morse_init pins s).2 := by
  obtain ⟨h1, h2, -, h4, -⟩ := morse_init_regs pins s
  refine ⟨?_, ?_, ?_⟩
  · rw [h1]; decide
  · rw [h2]; decide
  · rw [h4]; decide

/-- Every capture interrupt keeps the ranges of the capture registers. -/
theorem isr_event_inv (SINE : Nat → Int) (ev : IsrEvent) (s : State) (hi : PdlInv s) :
    PdlInv (ev.run SINE s) := by
  cases ev with
  | tick hw => exact (Timer3A_ISR_ring SINE hw s hi).2
  | edge hw => exact pdl_inv_congr (didah_isr_ring hw s) hi

theorem isr_run_inv (SINE : Nat → Int) :
    ∀ (evs : List IsrEvent) (s : State), PdlInv s → PdlInv (isr_run SINE evs s) := by
  intro evs
  induction evs with
  | nil => intro s hi; exact hi
  | cons ev rest ih =>
    intro s hi
    exact ih _ (isr_event_inv SINE ev s hi)

/-- No stage of `Timer3A_ISR` writes the mode register. -/
theorem Timer3A_ISR_mode (SINE : Nat → Int) (hw : PortB) (s : State) :
    (Timer3A_ISR SINE hw s).paddle_key_mode = s.paddle_key_mode := by
  have k1 : ∀ t : State, (tone_timer_tick t).paddle_key_mode = t.paddle_key_mode := by
    intro t; simp only [tone_timer_tick, apply_ite State.paddle_key_mode, ite_self]
  have k2 : ∀ t : State, (pdl_initial t).paddle_key_mode = t.paddle_key_mode := by
    intro t; simp only [pdl_initial, apply_ite State.paddle_key_mode, ite_self]
  have k3 : ∀ t : State, (pdl_tone SINE hw t).paddle_key_mode = t.paddle_key_mode := by
    intro t
    have a1 : ∀ u : State, (pdl_latch hw u).paddle_key_mode = u.paddle_key_mode := by
      intro u; simp only [pdl_latch, apply_ite State.paddle_key_mode, ite_self]
    have a2 : ∀ u : State, (pdl_expire u).paddle_key_mode = u.paddle_key_mode := by
      intro u; simp only [pdl_expire, apply_ite State.paddle_key_mode, ite_self]
    have a3 : ∀ u : State, (a_rampup (a_dds SINE u)).paddle_key_mode = u.paddle_key_mode := by
      intro u; simp only [a_rampup, a_dds, apply_ite State.paddle_key_mode, ite_self]
    have a4 : ∀ u : State, (pdl_decay u).paddle_key_mode = u.paddle_key_mode := by
      intro u; simp only [pdl_decay, trap_element, apply_ite State.paddle_key_mode, ite_self]
    rw [pdl_tone, a4, a3, a2, a1]
  have k4 : ∀ t : State, (pdl_silence t).paddle_key_mode = t.paddle_key_mode := by
    intro t
    have a1 : ∀ u : State, (pdl_word_space u).paddle_key_mode = u.paddle_key_mode := by
      intro u
      simp only [pdl_word_space, cw_push, apply_ite State.paddle_key_mode, ite_self]
    have a2 : ∀ u : State, (pdl_letter_space u).paddle_key_mode = u.paddle_key_mode := by
      intro u
      simp only [pdl_letter_space, cw_push, apply_ite State.paddle_key_mode, ite_self]
    simp only [pdl_silence, apply_ite State.paddle_key_mode, a1, a2, ite_self]
  have k5 : ∀ t : State, (pdl_start t).paddle_key_mode = t.paddle_key_mode := by
    intro t
    simp only [pdl_start, pdl_start_opposite, apply_ite State.paddle_key_mode, k4, ite_self]
  have k6 : ∀ t : State, (pdl_space hw t).paddle_key_mode = t.paddle_key_mode := by
    intro t
    have a1 : ∀ u : State, (pdl_edge hw u).paddle_key_mode = u.paddle_key_mode := by
      intro u; simp only [pdl_edge, apply_ite State.paddle_key_mode, ite_self]
    have a2 : ∀ u : State, (pdl_sample hw u).paddle_key_mode = u.paddle_key_mode := by
      intro u; simp only [pdl_sample, apply_ite State.paddle_key_mode, ite_self]
    have a3 : ∀ u : State, (pdl_gap hw u).paddle_key_mode = u.paddle_key_mode := by
      intro u
      rw [pdl_gap]
      show (pdl_start (pdl_clear_edges (pdl_sample hw u))).paddle_key_mode = _
      rw [k5]
      exact a2 u
    simp only [pdl_space, pdl_gap_check, apply_ite State.paddle_key_mode, a3, a1, ite_self]
  have k7 : ∀ t : State, (debounce_tick t).paddle_key_mode = t.paddle_key_mode := by
    intro t; simp only [debounce_tick, apply_ite State.paddle_key_mode, ite_self]
  have k8 : ∀ t : State, (status_handshake t).paddle_key_mode = t.paddle_key_mode := by
    intro t; simp only [status_handshake, apply_ite State.paddle_key_mode, ite_self]
  have k9 : ∀ t : State, (sk_tick SINE t).paddle_key_mode = t.paddle_key_mode := by
    intro t
    simp only [sk_tick, sk_tone, sk_space, a_dds, a_rampup, apply_ite State.paddle_key_mode,
      ite_self]
  have k10 : ∀ t : State, (sk_edge hw t).paddle_key_mode = t.paddle_key_mode := by
    intro t; simp only [sk_edge, apply_ite State.paddle_key_mode, ite_self]
  have k11 : ∀ t : State, (sk_initial t).paddle_key_mode = t.paddle_key_mode := by
    intro t; simp only [sk_initial, apply_ite State.paddle_key_mode, ite_self]
  rw [Timer3A_ISR]
  by_cases hm : s.paddle_key_mode = 0
  · rw [if_pos hm, k7]
    show (status_handshake _).paddle_key_mode = _
    rw [k8, k9, k10, k11]
  · rw [if_neg hm, k7, k8, pdl_tick]
    by_cases hd : (pdl_initial (tone_timer_tick s)).delph1 ≠ 0
    · rw [if_pos hd, k3, k2, k1]
    · rw [if_neg hd, k6, k2, k1]

theorem didah_isr_mode (hw : PortB) (s : State) :
    (didah_isr hw s).paddle_key_mode = s.paddle_key_mode := by
  simp only [didah_isr, apply_ite State.paddle_key_mode, ite_self]

theorem isr_run_mode (SINE : Nat → Int) :
    ∀ (evs : List IsrEvent) (s : State),
      (isr_run SINE evs s).paddle_key_mode = s.paddle_key_mode := by
  intro evs
  induction evs with
  | nil => intro s; rfl
  | cons ev rest ih =>
    intro s
    rw [isr_run, ih]
    cases ev with
    | tick hw => exact Timer3A_ISR_mode SINE hw s
    | edge hw => exact didah_isr_mode hw s

theorem morse_init_mode (pins : InitPins) (s : State) :
    (morse_init pins s).2.paddle_key_mode = get_paddle_mode_strap pins s := by
  simp only [morse_init, init_stw, set_ramp_rate, set_iambic_mode, timer3A_init,
    timer3B_init, apply_ite State.paddle_key_mode, ite_self]

theorem isr_run_append (SINE : Nat → Int) :
    ∀ (a b : List IsrEvent) (s : State),
      isr_run SINE (a ++ b) s = isr_run SINE b (isr_run SINE a s) := by
  intro a
  induction a with
  | nil => intro b s; rfl
  | cons ev rest ih => intro b s; exact ih b _

/-- An idle paddle tick inside a gap only counts the gap timer down. -/
theorem idle_tick (SINE : Nat → Int) (hw : PortB) (s : State) (hm : s.paddle_key_mode ≠ 0)
    (hd : s.delph1 = 0) (hi : s.initial = 0) (ht : 2 ≤ s.tone_timer)
    (hs : s.silence_count < LETTER_SPACE) (hb : s.debounce_timer = 0)
    (ha : s.cw_astat ≠ CW_RS) :
    Timer3A_ISR SINE hw s = { s with tone_timer := s.tone_timer - 1 } := by
  have h0 : s.tone_timer ≠ 0 := by omega
  have h1 : ¬ (s.tone_timer - 1 = 0) := by omega
  have h2 : ¬ (s.silence_count ≥ LETTER_SPACE) := by omega
  simp only [Timer3A_ISR, hm, if_false, tone_timer_tick, h0, ne_eq, not_false_eq_true, if_true,
    pdl_initial, hi, not_true_eq_false, pdl_tick, hd, pdl_space, pdl_edge, h2, pdl_gap_check,
    h1, status_handshake, ha, debounce_tick, hb]

/-- A run of idle paddle ticks inside a gap only counts the gap timer down. -/
theorem idle_run (SINE : Nat → Int) (hw : PortB) :
    ∀ (n : Nat) (s : State), s.paddle_key_mode ≠ 0 → s.delph1 = 0 → s.initial = 0 →
      n < s.tone_timer → s.silence_count < LETTER_SPACE → s.debounce_timer = 0 →
      s.cw_astat ≠ CW_RS →
      isr_run SINE (List.replicate n (IsrEvent.tick hw)) s =
        { s with tone_timer := s.tone_timer - n } := by
  intro n
  induction n with
  | zero => intro s _ _ _ _ _ _ _; rfl
  | succ k ih =>
    intro s hm hd hi ht hs hb ha
    rw [List.replicate_succ, isr_run]
    show isr_run SINE _ (Timer3A_ISR SINE hw s) = _
    rw [idle_tick SINE hw s hm hd hi (by omega) hs hb ha]
    rw [ih { s with tone_timer := s.tone_timer - 1 } hm hd hi
      (show k < s.tone_timer - 1 by omega) hs hb ha]
    show ({ s with tone_timer := s.tone_timer - 1 - k } : State) = _
    rw [Nat.sub_sub, Nat.add_comm]

/-- C27, amended: in every run of the capture interrupts (`Timer3A_ISR` ticks
and paddle edge interrupts, in any order and with any port readings) that
starts from the state `morse_init` leaves with the paddle strap selecting
paddle mode, the run stays in paddle mode and each tick either writes nothing
to the element ring buffer or writes exactly one (pattern, length) entry, at
the old head inside the buffer; that entry is either the reserved word-space
marker (`SPACE_ELEM`, `SPACE_COUNT`) or the trapped pair, whose length is
between 0 and 16. -/
theorem ring_entry_lengths (SINE : Nat → Int) (pins : InitPins) (s0 : State)
    (evs : List IsrEvent) (hw : PortB) (hpdl : get_paddle_mode_strap pins s0 ≠ 0) :
    (isr_run SINE evs (morse_init pins s0).2).paddle_key_mode ≠ 0 ∧
    (isr_run SINE evs (morse_init pins s0).2).cw_head < CW_BUFF_END ∧
    (ring_kept (isr_run SINE evs (morse_init pins s0).2)
        (Timer3A_ISR SINE hw (isr_run SINE evs (morse_init pins s0).2)) ∨
      ∃ e l, ring_pushed (isr_run SINE evs (morse_init pins s0).2)
          (Timer3A_ISR SINE hw (isr_run SINE evs (morse_init pins s0).2)) e l ∧
        ((e = SPACE_ELEM ∧ l = SPACE_COUNT) ∨
          (e = (isr_run SINE evs (morse_init pins s0).2).trap_word ∧
            l = (isr_run SINE evs (morse_init pins s0).2).trap_count ∧ 0 ≤ l ∧ l ≤ 16))) := by
  have hinv := isr_run_inv SINE evs _ (morse_init_inv pins s0)
  have hmode : (isr_run SINE evs (morse_init pins s0).2).paddle_key_mode ≠ 0 := by
    rw [isr_run_mode, morse_init_mode]
    exact hpdl
  generalize isr_run SINE evs (morse_init pins s0).2 = s at hinv hmode ⊢
  obtain ⟨r, -⟩ := Timer3A_ISR_ring SINE hw s hinv
  generalize Timer3A_ISR SINE hw s = t at r ⊢
  refine ⟨hmode, hinv.2.1, ?_⟩
  rcases r with r | r | ⟨hc, r⟩
  · exact Or.inl r
  · exact Or.inr ⟨SPACE_ELEM, SPACE_COUNT, r, Or.inl ⟨rfl, rfl⟩⟩
  · refine Or.inr ⟨s.trap_word, s.trap_count, r, Or.inr ⟨rfl, rfl, Nat.zero_le _, ?_⟩⟩
    rw [MAX_SPACE_COUNT_eq] at hc
    omega

theorem ring_entry_lengths_witness :
    get_paddle_mode_strap paddle_pins zero_regs ≠ 0 ∧
    (isr_run (fun _ => 0) (List.replicate 600 (IsrEvent.tick released_hw))
      (morse_init paddle_pins zero_regs).2).paddle_key_mode ≠ 0 ∧
    (isr_run (fun _ => 0) (List.replicate 600 (IsrEvent.tick released_hw))
      (morse_init paddle_pins zero_regs).2).cw_head < CW_BUFF_END :=
  have h := ring_entry_lengths (fun _ => 0) paddle_pins zero_regs
    (List.replicate 600 (IsrEvent.tick released_hw)) released_hw (by decide)
  ⟨by decide, h.1, h.2.1⟩

/-- The registers after the first 600 ticks of an idle paddle start-up: one dit
time of silence counted, the gap timer about to expire, nothing trapped. -/
theorem idle_start_regs :
    isr_run (fun _ => 0) (List.replicate 600 (IsrEvent.tick released_hw))
        (morse_init paddle_pins zero_regs).2 =
      { Timer3A_ISR (fun _ => 0) released_hw (morse_init paddle_pins zero_regs).2 with
        tone_timer := (Timer3A_ISR (fun _ => 0) released_hw
          (morse_init paddle_pins zero_regs).2).tone_timer - 599 } := by
  rw [List.replicate_succ, isr_run]
  exact idle_run (fun _ => 0) released_hw 599
    (Timer3A_ISR (fun _ => 0) released_hw (morse_init paddle_pins zero_regs).2)
    (by decide) (by decide) (by decide) (by decide) (by decide) (by decide) (by decide)

/-- Counterexample to C27 as stated: from the state `morse_init` leaves in paddle
mode (timer 3A interrupt enabled, trap and silence counter cleared) and with
the paddles untouched, the first tick starts counting silence and the 601st
tick reaches the letter space with nothing trapped: it writes the entry (0, 0)
at slot 0 and advances the head to 1.  The entry is not the word-space marker
and its length 0 is not between 1 and 16. -/
theorem ring_entry_lengths_counterexample :
    (morse_init paddle_pins zero_regs).2.paddle_key_mode ≠ 0 ∧
    (morse_init paddle_pins zero_regs).2.TIMER3_IMR_R &&& TIMER_IMR_CAEIM ≠ 0 ∧
    (isr_run (fun _ => 0) (List.replicate 600 (IsrEvent.tick released_hw))
      (morse_init paddle_pins zero_regs).2).cw_head = 0 ∧
    (isr_run (fun _ => 0) (List.replicate 600 (IsrEvent.tick released_hw))
      (morse_init paddle_pins zero_regs).2).trap_count = 0 ∧
    (isr_run (fun _ => 0) (List.replicate 600 (IsrEvent.tick released_hw))
      (morse_init paddle_pins zero_regs).2).TIMER3_IMR_R &&& TIMER_IMR_CAEIM ≠ 0 ∧
    (Timer3A_ISR (fun _ => 0) released_hw
      (isr_run (fun _ => 0) (List.replicate 600 (IsrEvent.tick released_hw))
        (morse_init paddle_pins zero_regs).2)).cw_head = 1 ∧
    (Timer3A_ISR (fun _ => 0) released_hw
      (isr_run (fun _ => 0) (List.replicate 600 (IsrEvent.tick released_hw))
        (morse_init paddle_pins zero_regs).2)).cw_elem_buf 0 = 0 ∧
    (Timer3A_ISR (fun _ => 0) released_hw
      (isr_run (fun _ => 0) (List.replicate 600 (IsrEvent.tick released_hw))
        (morse_init paddle_pins zero_regs).2)).cw_len_buf 0 = 0 ∧
    (0 : Nat) ≠ SPACE_COUNT ∧ ¬ (1 ≤ (0 : Nat)) := by
  rw [idle_start_regs]
  refine ⟨by decide, by decide, by decide, by decide, by decide, by decide, by decide,
    by decide, by decide, by decide⟩

theorem or_low_bit (w b : Nat) (hb : b ≤ 1) : (2 * w) ||| (b &&& 0x01) = 2 * w + b := by
  have hb1 : b &&& 0x01 = b := by
    rcases Nat.le_one_iff_eq_zero_or_eq_one.mp hb with h | h <;> rw [h] <;> rfl
  rw [hb1]
  apply Nat.eq_of_testBit_eq
  intro i
  rw [Nat.testBit_or]
  cases i with
  | zero =>
    simp only [Nat.testBit_zero]
    rcases Nat.le_one_iff_eq_zero_or_eq_one.mp hb with h | h
    · rw [h]; simp
    · rw [h]; simp; omega
  | succ j =>
    simp only [Nat.testBit_succ]
    have e1 : 2 * w / 2 = w := by omega
    have e2 : b / 2 = 0 := by omega
    have e3 : (2 * w + b) / 2 = w := by omega
    rw [e1, e2, e3, Nat.zero_testBit, Bool.or_false]

/-- Trapping one element bit with room left in the 16-bit trap word. -/
theorem trap_element_bit (s : State) (b k : Nat) (hb : b ≤ 1) (hk : k ≤ 15)
    (hc : s.trap_count = k) (hw : s.trap_word < 2 ^ k) :
    (trap_element { s with trap_bit := b }).trap_count = k + 1 ∧
    (trap_element { s with trap_bit := b }).trap_word = 2 * s.trap_word + b ∧
    (trap_element { s with trap_bit := b }).trap_word < 2 ^ (k + 1) := by
  obtain ⟨t1, t2, -⟩ := trap_element_spec { s with trap_bit := b }
  have hw16 : s.trap_word < 2 ^ 15 :=
    lt_of_lt_of_le hw (Nat.pow_le_pow_right (by decide) hk)
  have e1 : (s.trap_word <<< 1) % 65536 = 2 * s.trap_word := by
    rw [Nat.shiftLeft_eq, Nat.pow_one]
    omega
  have e2 : (trap_element { s with trap_bit := b }).trap_word = 2 * s.trap_word + b := by
    rw [t1]
    show ((s.trap_word <<< 1) % 65536) ||| (b &&& 0x01) = _
    rw [e1, or_low_bit _ _ hb]
  refine ⟨?_, e2, ?_⟩
  · rw [t2]
    show (if s.trap_count < MAX_SPACE_COUNT then s.trap_count + 1 else s.trap_count) = k + 1
    rw [hc, MAX_SPACE_COUNT_eq, if_pos (by omega)]
  · rw [e2, Nat.pow_succ]
    omega

/-- Up to sixteen elements are counted exactly and shifted in without loss. -/
theorem trap_elements_exact :
    ∀ (bs : List Nat) (s : State) (k : Nat), (∀ b ∈ bs, b ≤ 1) → s.trap_count = k →
      s.trap_word < 2 ^ k → k + bs.length ≤ 16 →
      (trap_elements bs s).trap_count = k + bs.length ∧
      (trap_elements bs s).trap_word = bs.foldl (fun w b => 2 * w + b) s.trap_word := by
  intro bs
  induction bs with
  | nil => intro s k _ hc _ _; exact ⟨hc, rfl⟩
  | cons b rest ih =>
    intro s k hb hc hw hk
    rw [List.length_cons] at hk
    obtain ⟨t1, t2, t3⟩ := trap_element_bit s b k (hb b (List.mem_cons_self _ _))
      (by omega) hc hw
    obtain ⟨r1, r2⟩ := ih (trap_element { s with trap_bit := b }) (k + 1)
      (fun x hx => hb x (List.mem_cons_of_mem _ hx)) t1 t3 (by omega)
    rw [trap_elements, r1, r2, t2, List.length_cons, List.foldl_cons]
    exact ⟨by omega, rfl⟩

/-- The element counter saturates at `MAX_SPACE_COUNT`. -/
theorem trap_elements_count :
    ∀ (bs : List Nat) (s : State), s.trap_count ≤ MAX_SPACE_COUNT →
      (trap_elements bs s).trap_count = min (s.trap_count + bs.length) MAX_SPACE_COUNT := by
  intro bs
  induction bs with
  | nil =>
    intro s hc
    show s.trap_count = min (s.trap_count + 0) MAX_SPACE_COUNT
    rw [Nat.add_zero, Nat.min_eq_left hc]
  | cons b rest ih =>
    intro s hc
    obtain ⟨-, t2, -⟩ := trap_element_spec { s with trap_bit := b }
    have e : (trap_element { s with trap_bit := b }).trap_count =
        (if s.trap_count < MAX_SPACE_COUNT then s.trap_count + 1 else s.trap_count) := t2
    rw [MAX_SPACE_COUNT_eq] at hc e
    have hle : (trap_element { s with trap_bit := b }).trap_count ≤ MAX_SPACE_COUNT := by
      rw [e, MAX_SPACE_COUNT_eq]
      split_ifs <;> omega
    rw [trap_elements, ih _ hle, e, List.length_cons, MAX_SPACE_COUNT_eq]
    split_ifs <;> omega

/-- Bit `i` of the value of an element sequence is the element `i` places from
the end. -/
theorem elements_value_bits (bs : List Nat) (hb : ∀ b ∈ bs, b ≤ 1) :
    ∀ i, i < bs.length → (elements_value bs).testBit i = decide (bs.reverse.getD i 0 = 1) := by
  induction bs using List.reverseRecOn with
  | nil => intro i hi; exact absurd hi (Nat.not_lt_zero _)
  | append_singleton l a ih =>
    intro i hi
    have ha : a ≤ 1 := hb a (List.mem_append_right _ (List.mem_singleton_self a))
    have hl : ∀ b ∈ l, b ≤ 1 := fun b hbl => hb b (List.mem_append_left _ hbl)
    have ev : elements_value (l ++ [a]) = 2 * elements_value l + a := by
      simp only [elements_value, List.foldl_append, List.foldl_cons, List.foldl_nil]
    rw [ev, List.reverse_append, List.reverse_singleton, List.singleton_append]
    cases i with
    | zero =>
      rw [Nat.testBit_zero, List.getD_cons_zero]
      rcases Nat.le_one_iff_eq_zero_or_eq_one.mp ha with h | h
      · rw [h]; simp
      · rw [h]; simp; omega
    | succ j =>
      rw [Nat.testBit_succ, List.getD_cons_succ]
      have e3 : (2 * elements_value l + a) / 2 = elements_value l := by omega
      rw [e3]
      apply ih hl
      rw [List.length_append, List.length_singleton] at hi
      omega

theorem trap_step_kept {s t : State} (h : ring_view t = ring_view s) : TrapStep s t := by
  obtain ⟨-, -, -, a4, a5, -⟩ := ring_view_eq h
  exact Or.inl ⟨a4, a5⟩

theorem trap_step_congr {s s1 t t1 : State} (hs : ring_view s1 = ring_view s)
    (ht : ring_view t1 = ring_view t) (h : TrapStep s t) : TrapStep s1 t1 := by
  obtain ⟨-, -, -, a4, a5, -⟩ := ring_view_eq hs
  obtain ⟨-, -, -, b4, b5, -⟩ := ring_view_eq ht
  have e : ∀ b, (trap_element { s1 with trap_bit := b }).trap_word =
        (trap_element { s with trap_bit := b }).trap_word ∧
      (trap_element { s1 with trap_bit := b }).trap_count =
        (trap_element { s with trap_bit := b }).trap_count := by
    intro b
    obtain ⟨x1, x2, -⟩ := trap_element_spec { s with trap_bit := b }
    obtain ⟨y1, y2, -⟩ := trap_element_spec { s1 with trap_bit := b }
    rw [x1, x2, y1, y2]
    show ((s1.trap_word <<< 1) % 65536 ||| (b &&& 0x01) =
        (s.trap_word <<< 1) % 65536 ||| (b &&& 0x01)) ∧
      (if s1.trap_count < MAX_SPACE_COUNT then s1.trap_count + 1 else s1.trap_count) =
        (if s.trap_count < MAX_SPACE_COUNT then s.trap_count + 1 else s.trap_count)
    rw [a4, a5]
    exact ⟨rfl, rfl⟩
  rcases h with ⟨h1, h2⟩ | ⟨h1, h2⟩ | ⟨b, h1, h2⟩
  · exact Or.inl ⟨by rw [b4, h1, a4], by rw [b5, h2, a5]⟩
  · exact Or.inr (Or.inl ⟨by rw [b4, h1], by rw [b5, h2]⟩)
  · exact Or.inr (Or.inr ⟨b, by rw [b4, h1, (e b).1], by rw [b5, h2, (e b).2]⟩)

/-- Tone-on processing leaves the trap registers alone or traps one element. -/
theorem pdl_tone_trap (SINE : Nat → Int) (hw : PortB) (s : State) :
    TrapStep s (pdl_tone SINE hw s) := by
  have h1 : ring_view (pdl_latch hw s) = ring_view s := by
    simp only [pdl_latch, ring_view, apply_ite State.cw_elem_buf, apply_ite State.cw_len_buf,
      apply_ite State.cw_head, apply_ite State.trap_word, apply_ite State.trap_count,
      apply_ite State.silence_count, ite_self]
  have h2 : ∀ t : State, (pdl_expire t).trap_word = t.trap_word ∧
      (pdl_expire t).trap_count = t.trap_count := by
    intro t
    simp only [pdl_expire, apply_ite State.trap_word, apply_ite State.trap_count, ite_self,
      and_self]
  have h3 : ∀ t : State, ring_view (a_rampup (a_dds SINE t)) = ring_view t := by
    intro t
    simp only [a_rampup, a_dds, ring_view, apply_ite State.cw_elem_buf,
      apply_ite State.cw_len_buf, apply_ite State.cw_head, apply_ite State.trap_word,
      apply_ite State.trap_count, apply_ite State.silence_count, ite_self]
  have h4 : ∀ t : State,
      ((pdl_decay t).trap_word = t.trap_word ∧ (pdl_decay t).trap_count = t.trap_count) ∨
      ((pdl_decay t).trap_word = (t.trap_word <<< 1) % 65536 ||| (t.trap_bit &&& 0x01) ∧
        (pdl_decay t).trap_count =
          (if t.trap_count < MAX_SPACE_COUNT then t.trap_count + 1 else t.trap_count)) := by
    intro t
    simp only [pdl_decay, trap_element, apply_ite State.trap_word, apply_ite State.trap_count]
    split_ifs <;> first
      | exact Or.inl ⟨rfl, rfl⟩
      | exact Or.inr ⟨rfl, rfl⟩
  obtain ⟨-, -, -, a4, a5, -⟩ := ring_view_eq h1
  obtain ⟨b4, b5⟩ := h2 (pdl_latch hw s)
  obtain ⟨-, -, -, c4, c5, -⟩ := ring_view_eq (h3 (pdl_expire (pdl_latch hw s)))
  have hw4 : (a_rampup (a_dds SINE (pdl_expire (pdl_latch hw s)))).trap_word = s.trap_word := by
    rw [c4, b4, a4]
  have hc4 : (a_rampup (a_dds SINE (pdl_expire (pdl_latch hw s)))).trap_count = s.trap_count := by
    rw [c5, b5, a5]
  rw [pdl_tone]
  generalize a_rampup (a_dds SINE (pdl_expire (pdl_latch hw s))) = r at hw4 hc4 ⊢
  obtain ⟨x1, x2, -⟩ := trap_element_spec { s with trap_bit := r.trap_bit }
  rcases h4 r with ⟨d1, d2⟩ | ⟨d1, d2⟩
  · exact Or.inl ⟨d1.trans hw4, d2.trans hc4⟩
  · refine Or.inr (Or.inr ⟨r.trap_bit, ?_, ?_⟩)
    · rw [d1, x1, hw4]
    · rw [d2, x2, hc4]

/-- Counting silence leaves the trap registers alone or clears them. -/
theorem pdl_silence_trap (x : State) :
    ((pdl_silence x).trap_word = x.trap_word ∧ (pdl_silence x).trap_count = x.trap_count) ∨
    ((pdl_silence x).trap_word = 0 ∧ (pdl_silence x).trap_count = 0) := by
  have hy : ∀ (c : Prop) [Decidable c] (y : State),
      (if c then pdl_word_space y else y).trap_word = y.trap_word ∧
      (if c then pdl_word_space y else y).trap_count = y.trap_count := by
    intro c _ y
    obtain ⟨-, -, -, f4, f5, -⟩ := pdl_word_space_frame y
    split_ifs
    · exact ⟨f4, f5⟩
    · exact ⟨rfl, rfl⟩
  have hz : ∀ (c : Prop) [Decidable c] (y : State),
      ((if c then pdl_letter_space y else y).trap_word = y.trap_word ∧
        (if c then pdl_letter_space y else y).trap_count = y.trap_count) ∨
      ((if c then pdl_letter_space y else y).trap_word = 0 ∧
        (if c then pdl_letter_space y else y).trap_count = 0) := by
    intro c _ y
    obtain ⟨l1, l2, -⟩ := pdl_letter_space_frame y
    split_ifs
    · exact Or.inr ⟨l1, l2⟩
    · exact Or.inl ⟨rfl, rfl⟩
  simp only [pdl_silence]
  generalize hY : (if x.silence_count ≥ WORD_SPACE then
      pdl_word_space { x with tone_timer := x.dit_time_reg,
                              silence_count := (x.silence_count + 1) % 256 }
    else { x with tone_timer := x.dit_time_reg,
                  silence_count := (x.silence_count + 1) % 256 }) = Y
  have hYt : Y.trap_word = x.trap_word ∧ Y.trap_count = x.trap_count := by
    rw [← hY]
    exact hy _ _
  rcases hz (Y.silence_count = LETTER_SPACE) Y with ⟨z1, z2⟩ | ⟨z1, z2⟩
  · exact Or.inl ⟨z1.trans hYt.1, z2.trans hYt.2⟩
  · exact Or.inr ⟨z1, z2⟩

/-- Tone-off processing leaves the trap registers alone or clears them. -/
theorem pdl_space_trap (hw : PortB) (s : State) : TrapStep s (pdl_space hw s) := by
  have he := pdl_edge_ring hw s
  rw [pdl_space, pdl_gap_check]
  by_cases ht : (pdl_edge hw s).tone_timer = 0
  · rw [if_pos ht, pdl_gap]
    have hd : ring_view (pdl_clear_edges (pdl_sample hw (pdl_edge hw s))) = ring_view s :=
      (pdl_sample_ring hw (pdl_edge hw s)).trans he
    have hc : ∀ t : State, ring_view (pdl_clear_pstate t) = ring_view t := fun _ => rfl
    generalize pdl_clear_edges (pdl_sample hw (pdl_edge hw s)) = d at hd ⊢
    obtain ⟨-, -, -, d4, d5, -⟩ := ring_view_eq hd
    rcases pdl_start_ring d with h | h
    · rw [h]
      have hq := pdl_silence_trap d
      generalize pdl_silence d = q at hq ⊢
      rcases hq with ⟨q1, q2⟩ | ⟨q1, q2⟩
      · exact Or.inl ⟨q1.trans d4, q2.trans d5⟩
      · exact Or.inr (Or.inl ⟨q1, q2⟩)
    · have hall : ring_view (pdl_clear_pstate (pdl_start d)) = ring_view s :=
        (hc (pdl_start d)).trans (h.trans hd)
      generalize pdl_clear_pstate (pdl_start d) = q at hall ⊢
      exact @trap_step_kept s q hall
  · rw [if_neg ht]
    generalize pdl_edge hw s = q at he ⊢
    exact @trap_step_kept s q he

/-- One run of `Timer3A_ISR`, in either mode, leaves the trap registers alone,
clears them, or traps one element. -/
theorem Timer3A_ISR_trap (SINE : Nat → Int) (hw : PortB) (s : State) :
    TrapStep s (Timer3A_ISR SINE hw s) := by
  rw [Timer3A_ISR]
  by_cases hm : s.paddle_key_mode = 0
  · rw [if_pos hm]
    have h : ring_view (debounce_tick (key_timer_tick (status_handshake
        (sk_tick SINE (sk_edge hw (sk_initial s)))))) = ring_view s := by
      rw [debounce_tick_ring, key_timer_tick_ring, status_handshake_ring, sk_tick_ring,
        sk_edge_ring, sk_initial_ring]
    generalize debounce_tick (key_timer_tick (status_handshake
        (sk_tick SINE (sk_edge hw (sk_initial s))))) = q at h ⊢
    exact @trap_step_kept s q h
  · rw [if_neg hm]
    have ha : ring_view (pdl_initial (tone_timer_tick s)) = ring_view s := by
      rw [pdl_initial_ring, tone_timer_tick_ring]
    have htail : ∀ t : State, ring_view (debounce_tick (status_handshake t)) = ring_view t := by
      intro t
      rw [debounce_tick_ring, status_handshake_ring]
    generalize pdl_initial (tone_timer_tick s) = a at ha ⊢
    rw [pdl_tick]
    by_cases hd : a.delph1 ≠ 0
    · rw [if_pos hd]
      have hk := pdl_tone_trap SINE hw a
      generalize pdl_tone SINE hw a = b at hk ⊢
      have hb := htail b
      generalize debounce_tick (status_handshake b) = c at hb ⊢
      exact @trap_step_congr a s b c ha.symm hb hk
    · rw [if_neg hd]
      have hk := pdl_space_trap hw a
      generalize pdl_space hw a = b at hk ⊢
      have hb := htail b
      generalize debounce_tick (status_handshake b) = c at hb ⊢
      exact @trap_step_congr a s b c ha.symm hb hk

/-- At the tick that ends the decay of an element the tone is switched off and
the element is trapped: its bit is shifted into `trap_word` and counted. -/
theorem decay_end_tick (SINE : Nat → Int) (hw : PortB) (u : State) (h : DecayEnd u) :
    (Timer3A_ISR SINE hw u).delph1 = 0 ∧
    (Timer3A_ISR SINE hw u).trap_word = (trap_element u).trap_word ∧
    (Timer3A_ISR SINE hw u).trap_count = (trap_element u).trap_count := by
  obtain ⟨hm, hi, hd, ht, hu, hdn, hc⟩ := h
  have h0 : u.tone_timer ≠ 0 := by omega
  have h1 : ¬ (u.tone_timer - 1 = 0) := by omega
  have e1 : (tone_timer_tick u).initial = u.initial ∧ (tone_timer_tick u).delph1 = u.delph1 ∧
      (tone_timer_tick u).tone_timer = u.tone_timer - 1 ∧
      (tone_timer_tick u).trap_word = u.trap_word ∧
      (tone_timer_tick u).trap_count = u.trap_count ∧
      (tone_timer_tick u).trap_bit = u.trap_bit ∧ (tone_timer_tick u).rampup = u.rampup ∧
      (tone_timer_tick u).rampdn = u.rampdn ∧ (tone_timer_tick u).rampcyc = u.rampcyc := by
    simp only [tone_timer_tick, h0, ne_eq, not_false_eq_true, if_true, and_self]
  have e2 : ∀ t : State, t.initial = 0 → pdl_initial t = t := pdl_initial_idle
  have k1 : ∀ t : State, (pdl_latch hw t).delph1 = t.delph1 ∧
      (pdl_latch hw t).trap_word = t.trap_word ∧ (pdl_latch hw t).trap_count = t.trap_count ∧
      (pdl_latch hw t).trap_bit = t.trap_bit ∧ (pdl_latch hw t).tone_timer = t.tone_timer ∧
      (pdl_latch hw t).rampup = t.rampup ∧ (pdl_latch hw t).rampdn = t.rampdn ∧
      (pdl_latch hw t).rampcyc = t.rampcyc := by
    intro t
    simp only [pdl_latch, apply_ite State.delph1, apply_ite State.trap_word,
      apply_ite State.trap_count, apply_ite State.trap_bit, apply_ite State.tone_timer,
      apply_ite State.rampup, apply_ite State.rampdn, apply_ite State.rampcyc, ite_self,
      and_self]
  have k2 : ∀ t : State, t.tone_timer ≠ 0 → pdl_expire t = t := by
    intro t h
    simp only [pdl_expire, h, if_false]
  have k3 : ∀ t : State, t.rampup = 0 →
      (a_rampup (a_dds SINE t)).trap_word = t.trap_word ∧
      (a_rampup (a_dds SINE t)).trap_count = t.trap_count ∧
      (a_rampup (a_dds SINE t)).trap_bit = t.trap_bit ∧
      (a_rampup (a_dds SINE t)).rampdn = t.rampdn ∧
      (a_rampup (a_dds SINE t)).rampcyc = t.rampcyc := by
    intro t h
    simp only [a_rampup, a_dds, h, ne_eq, not_true_eq_false, if_false, and_self]
  have k4 : ∀ t : State, t.rampdn = 1 → t.rampcyc = 1 →
      (pdl_decay t).delph1 = 0 ∧ (pdl_decay t).trap_word = (trap_element t).trap_word ∧
      (pdl_decay t).trap_count = (trap_element t).trap_count := by
    intro t hr hy
    have c1 : (1 + 255) % 256 = 0 := rfl
    simp only [pdl_decay, trap_element, hr, hy, c1, ne_eq, one_ne_zero, not_false_eq_true,
      if_true, Nat.sub_self, apply_ite State.delph1, apply_ite State.trap_word,
      apply_ite State.trap_count, ite_self, and_self]
  have ts : ∀ t v : State, t.trap_word = v.trap_word → t.trap_count = v.trap_count →
      t.trap_bit = v.trap_bit → (trap_element t).trap_word = (trap_element v).trap_word ∧
      (trap_element t).trap_count = (trap_element v).trap_count := by
    intro t v a b c
    obtain ⟨x1, x2, -⟩ := trap_element_spec t
    obtain ⟨y1, y2, -⟩ := trap_element_spec v
    rw [x1, x2, y1, y2, a, b, c]
    exact ⟨rfl, rfl⟩
  obtain ⟨f1, f2, f3, -⟩ := tick_tail_frame (pdl_tick SINE hw (pdl_initial (tone_timer_tick u)))
  have hf6 := (tick_tail_frame (pdl_tick SINE hw (pdl_initial (tone_timer_tick u)))).2.2.2.2.2.1
  rw [Timer3A_ISR, if_neg hm, f1, f2, hf6]
  obtain ⟨v1, v2, v3, v4, v5, v6, v7, v8, v9⟩ := e1
  generalize tone_timer_tick u = v at v1 v2 v3 v4 v5 v6 v7 v8 v9 ⊢
  rw [e2 v (v1.trans hi), pdl_tick, if_pos (by rw [v2]; exact hd), pdl_tone]
  obtain ⟨l1, l2, l3, l4, l5, l6, l7, l8⟩ := k1 v
  have hx : pdl_expire (pdl_latch hw v) = pdl_latch hw v :=
    k2 _ (by rw [l5, v3]; exact h1)
  rw [hx]
  obtain ⟨r1, r2, r3, r4, r5⟩ := k3 (pdl_latch hw v) (by rw [l6, v7]; exact hu)
  generalize pdl_latch hw v = p at l2 l3 l4 l7 l8 r1 r2 r3 r4 r5 ⊢
  generalize a_rampup (a_dds SINE p) = r at r1 r2 r3 r4 r5 ⊢
  obtain ⟨d1, d2, d3⟩ := k4 r (by rw [r4, l7, v8]; exact hdn) (by rw [r5, l8, v9]; exact hc)
  obtain ⟨g1, g2⟩ := ts r u (by rw [r1, l2, v4]) (by rw [r2, l3, v5]) (by rw [r3, l4, v6])
  exact ⟨d1, d2.trans g1, d3.trans g2⟩

/-- A letter space reached with a saturated element counter writes nothing to
the element ring buffer; the trapped character is discarded. -/
theorem saturated_letter_tick (SINE : Nat → Int) (hw : PortB) (s : State) (hg : GapTick hw s)
    (hports : PortsOk s) (hno : sensed hw s = 0) (hs : s.silence_count + 1 = LETTER_SPACE)
    (h17 : s.trap_count = MAX_SPACE_COUNT) :
    ring_kept s (Timer3A_ISR SINE hw s) ∧ (Timer3A_ISR SINE hw s).cw_tail = s.cw_tail ∧
    (Timer3A_ISR SINE hw s).trap_word = 0 ∧ (Timer3A_ISR SINE hw s).trap_count = 0 := by
  obtain ⟨-, hT⟩ := silence_tick_entry SINE hw s hg hports hno
  obtain ⟨f1, f2, f3, f4, f5, f6, f7, f8, f9, f10, f11, f12, -⟩ := gap_sampled_frame hw s
  obtain ⟨t1, t2, -, -, -, -, -, t8, t9, t10, t11, -⟩ :=
    tick_tail_frame (pdl_clear_pstate (pdl_silence (gap_sampled hw s)))
  have hsx : (gap_sampled hw s).silence_count + 1 = LETTER_SPACE := by rw [f6]; exact hs
  obtain ⟨l1, l2, -, -⟩ := pdl_silence_letter_regs (gap_sampled hw s) hsx
  have hk := pdl_letter_space_skip
    { gap_sampled hw s with tone_timer := (gap_sampled hw s).dit_time_reg,
                            silence_count := LETTER_SPACE }
    (Or.inl (by
      show ¬ (gap_sampled hw s).trap_count < MAX_SPACE_COUNT
      rw [f4, h17]
      exact Nat.lt_irrefl _))
  have hfr := pdl_letter_space_frame
    { gap_sampled hw s with tone_timer := (gap_sampled hw s).dit_time_reg,
                            silence_count := LETTER_SPACE }
  rw [← pdl_silence_letter (gap_sampled hw s) hsx] at hk hfr
  obtain ⟨p1, p2, p3, -⟩ := hk
  have p4 := hfr.2.2.2.2.2.1
  rw [hT]
  refine ⟨⟨?_, ?_, ?_⟩, ?_, ?_, ?_⟩
  · rw [t10]; exact p1.trans f11
  · rw [t11]; exact p2.trans f12
  · rw [t8]; exact p3.trans f9
  · rw [t9]; exact p4.trans f10
  · rw [t1]; exact l1
  · rw [t2]; exact l2

/-! ## Theorems: the straight-key loops as folds over the buffer -/

/-- The first loop visits the indices `i .. e-1` in order. -/
theorem sk_scan_run (buf : Nat → Nat) :
    ∀ (n fuel i : Nat) (a : SkScan), i + n < 255 → n < fuel →
      sk_scan buf (i + n + 1) fuel i a =
        some ((List.range' i (n + 1)).foldl (fun a k => sk_scan_body buf k a) a) := by
  intro n
  induction n with
  | zero =>
    intro fuel i a hi hf
    obtain ⟨f, rfl⟩ : ∃ f, fuel = f + 1 := ⟨fuel - 1, by omega⟩
    have hmod : (i + 1) % 256 = i + 1 := by omega
    simp only [sk_scan, hmod, Nat.add_zero, Nat.lt_irrefl, if_false]
    rfl
  | succ m ih =>
    intro fuel i a hi hf
    obtain ⟨f, rfl⟩ : ∃ f, fuel = f + 1 := ⟨fuel - 1, by omega⟩
    have hmod : (i + 1) % 256 = i + 1 := by omega
    have hlt : i + 1 < i + (m + 1) + 1 := by omega
    have e1 : i + (m + 1) + 1 = (i + 1) + m + 1 := by omega
    rw [List.range'_succ, List.foldl_cons]
    simp only [sk_scan, hmod, hlt, if_true]
    rw [e1]
    exact ih f (i + 1) _ (by omega) (by omega)

/-- The second loop visits the indices `i .. e-1` in order. -/
theorem sk_sum_run (buf : Nat → Nat) (xx : Nat) :
    ∀ (n fuel i : Nat) (b : SkSum), i + n < 255 → n < fuel →
      sk_sum buf xx (i + n + 1) fuel i b =
        some ((List.range' i (n + 1)).foldl (fun b k => sk_sum_body buf xx k b) b) := by
  intro n
  induction n with
  | zero =>
    intro fuel i b hi hf
    obtain ⟨f, rfl⟩ : ∃ f, fuel = f + 1 := ⟨fuel - 1, by omega⟩
    have hmod : (i + 1) % 256 = i + 1 := by omega
    simp only [sk_sum, hmod, Nat.add_zero, Nat.lt_irrefl, if_false]
    rfl
  | succ m ih =>
    intro fuel i b hi hf
    obtain ⟨f, rfl⟩ : ∃ f, fuel = f + 1 := ⟨fuel - 1, by omega⟩
    have hmod : (i + 1) % 256 = i + 1 := by omega
    have hlt : i + 1 < i + (m + 1) + 1 := by omega
    have e1 : i + (m + 1) + 1 = (i + 1) + m + 1 := by omega
    rw [List.range'_succ, List.foldl_cons]
    simp only [sk_sum, hmod, hlt, if_true]
    rw [e1]
    exact ih f (i + 1) _ (by omega) (by omega)

/-- A loop entered at or past its end index makes one pass. -/
theorem sk_sum_once (buf : Nat → Nat) (xx e fuel i : Nat) (b : SkSum) (hi : i < 255)
    (he : ¬ (i + 1 < e)) :
    sk_sum buf xx e (fuel + 1) i b = some (sk_sum_body buf xx i b) := by
  have hmod : (i + 1) % 256 = i + 1 := by omega
  simp only [sk_sum, hmod, he, if_false]

theorem sk_build_step (buf : Nat → Nat) (ii e fuel i : Nat) (r : Nat × Nat) (hi : i < 255) :
    sk_build buf ii e (fuel + 1) i r =
      if i + 1 < e then sk_build buf ii e fuel (i + 1) (sk_build_body buf ii i r)
      else some (sk_build_body buf ii i r) := by
  obtain ⟨ee, j⟩ := r
  have hmod : (i + 1) % 256 = i + 1 := by omega
  by_cases hm : buf i &&& KEY_HIBIT ≠ 0 <;>
    by_cases hg : (buf i &&& KEY_HIBIT_M) ≥ ii <;>
    simp only [sk_build, sk_build_body, hmod, hm, hg, if_true, if_false]

/-- The third loop visits the indices `i .. e-1` in order. -/
theorem sk_build_run (buf : Nat → Nat) (ii : Nat) :
    ∀ (n fuel i : Nat) (r : Nat × Nat), i + n < 255 → n < fuel →
      sk_build buf ii (i + n + 1) fuel i r =
        some ((List.range' i (n + 1)).foldl (fun r k => sk_build_body buf ii k r) r) := by
  intro n
  induction n with
  | zero =>
    intro fuel i r hi hf
    obtain ⟨f, rfl⟩ : ∃ f, fuel = f + 1 := ⟨fuel - 1, by omega⟩
    rw [sk_build_step buf ii _ f i r (by omega), if_neg (by omega)]
    rfl
  | succ m ih =>
    intro fuel i r hi hf
    obtain ⟨f, rfl⟩ : ∃ f, fuel = f + 1 := ⟨fuel - 1, by omega⟩
    have e1 : i + (m + 1) + 1 = (i + 1) + m + 1 := by omega
    rw [sk_build_step buf ii _ f i r (by omega), if_pos (by omega), List.range'_succ,
      List.foldl_cons, e1]
    exact ih f (i + 1) _ (by omega) (by omega)

theorem sk_build_once (buf : Nat → Nat) (ii e fuel i : Nat) (r : Nat × Nat) (hi : i < 255)
    (he : ¬ (i + 1 < e)) :
    sk_build buf ii e (fuel + 1) i r = some (sk_build_body buf ii i r) := by
  rw [sk_build_step buf ii e fuel i r hi, if_neg he]

theorem marks_of_nil (buf : Nat → Nat) : marks_of buf [] = [] := rfl

theorem marks_of_cons_mark (buf : Nat → Nat) (i : Nat) (l : List Nat)
    (h : buf i &&& KEY_HIBIT ≠ 0) :
    marks_of buf (i :: l) = (buf i &&& KEY_HIBIT_M) :: marks_of buf l := by
  simp only [marks_of, List.filter_cons, h, ne_eq, not_false_eq_true, decide_True, if_true,
    List.map_cons]

theorem marks_of_cons_space (buf : Nat → Nat) (i : Nat) (l : List Nat)
    (h : buf i &&& KEY_HIBIT = 0) : marks_of buf (i :: l) = marks_of buf l := by
  simp only [marks_of, List.filter_cons, h, ne_eq, not_true_eq_false, decide_False,
    Bool.false_eq_true, if_false]

theorem marks_of_length_le (buf : Nat → Nat) (l : List Nat) :
    (marks_of buf l).length ≤ l.length := by
  rw [marks_of, List.length_map]
  exact List.length_filter_le _ _

/-- The marks of a letter, read from the start index the first loop found. -/
theorem spec_marks_from (buf : Nat → Nat) (e s : Nat) (he : 0 < e)
    (hs : (s = 0 ∧ buf 0 &&& KEY_HIBIT ≠ 0) ∨ (s = 1 ∧ buf 0 &&& KEY_HIBIT = 0)) :
    spec_marks buf e = marks_of buf (List.range' s (e - s)) := by
  obtain ⟨n, rfl⟩ : ∃ n, e = n + 1 := ⟨e - 1, by omega⟩
  rw [spec_marks, List.range_eq_range']
  rcases hs with ⟨h0, -⟩ | ⟨h1, hsp⟩
  · rw [h0, Nat.sub_zero]
  · rw [h1, List.range'_succ, marks_of_cons_space buf 0 _ hsp, Nat.add_sub_cancel]

/-- The running maximum over a list. -/
theorem foldl_max_spec : ∀ (l : List Nat) (x : Nat),
    (∀ m ∈ l, m ≤ l.foldl max x) ∧ x ≤ l.foldl max x ∧
    (l.foldl max x = x ∨ l.foldl max x ∈ l) := by
  intro l
  induction l with
  | nil => intro x; exact ⟨fun m hm => absurd hm (List.not_mem_nil m), le_refl _, Or.inl rfl⟩
  | cons a rest ih =>
    intro x
    obtain ⟨h1, h2, h3⟩ := ih (max x a)
    rw [List.foldl_cons]
    refine ⟨?_, le_trans (le_max_left x a) h2, ?_⟩
    · intro m hm
      rcases List.mem_cons.mp hm with rfl | hm
      · exact le_trans (le_max_right x m) h2
      · exact h1 m hm
    · rcases h3 with h | h
      · rw [h]
        rcases le_total x a with hxa | hxa
        · rw [max_eq_right hxa]; exact Or.inr (List.mem_cons_self _ _)
        · rw [max_eq_left hxa]; exact Or.inl rfl
      · exact Or.inr (List.mem_cons_of_mem _ h)

/-- The running minimum over a list. -/
theorem foldl_min_spec : ∀ (l : List Nat) (x : Nat),
    (∀ m ∈ l, l.foldl min x ≤ m) ∧ l.foldl min x ≤ x ∧
    (l.foldl min x = x ∨ l.foldl min x ∈ l) := by
  intro l
  induction l with
  | nil => intro x; exact ⟨fun m hm => absurd hm (List.not_mem_nil m), le_refl _, Or.inl rfl⟩
  | cons a rest ih =>
    intro x
    obtain ⟨h1, h2, h3⟩ := ih (min x a)
    rw [List.foldl_cons]
    refine ⟨?_, le_trans h2 (min_le_left x a), ?_⟩
    · intro m hm
      rcases List.mem_cons.mp hm with rfl | hm
      · exact le_trans h2 (min_le_right x m)
      · exact h1 m hm
    · rcases h3 with h | h
      · rw [h]
        rcases le_total x a with hxa | hxa
        · rw [min_eq_left hxa]; exact Or.inl rfl
        · rw [min_eq_right hxa]; exact Or.inr (List.mem_cons_self _ _)
      · exact Or.inr (List.mem_cons_of_mem _ h)

/-- The max and min mark the first loop leaves are the running maximum and
minimum over the marks it visited. -/
theorem sk_scan_fold_marks (buf : Nat → Nat) : ∀ (l : List Nat) (a : SkScan),
    (l.foldl (fun a k => sk_scan_body buf k a) a).xx = (marks_of buf l).foldl max a.xx ∧
    (l.foldl (fun a k => sk_scan_body buf k a) a).mm = (marks_of buf l).foldl min a.mm := by
  intro l
  induction l with
  | nil => intro a; exact ⟨rfl, rfl⟩
  | cons i rest ih =>
    intro a
    rw [List.foldl_cons]
    obtain ⟨h1, h2⟩ := ih (sk_scan_body buf i a)
    rw [h1, h2]
    by_cases hsp : buf i &&& KEY_HIBIT = 0
    · obtain ⟨e1, e2, -⟩ := sk_scan_body_space buf i a hsp
      rw [marks_of_cons_space buf i rest hsp, e1, e2]
      exact ⟨rfl, rfl⟩
    · obtain ⟨e1, e2, -⟩ := sk_scan_body_mark buf i a hsp
      rw [marks_of_cons_mark buf i rest hsp, e1, e2, List.foldl_cons, List.foldl_cons]
      have m1 : (if buf i &&& KEY_HIBIT_M > a.xx then buf i &&& KEY_HIBIT_M else a.xx) =
          max a.xx (buf i &&& KEY_HIBIT_M) := by
        rw [Nat.max_def]; split_ifs <;> omega
      have m2 : (if buf i &&& KEY_HIBIT_M < a.mm then buf i &&& KEY_HIBIT_M else a.mm) =
          min a.mm (buf i &&& KEY_HIBIT_M) := by
        rw [Nat.min_def]; split_ifs <;> omega
      rw [m1, m2]
      exact ⟨rfl, rfl⟩

/-- Only index 0 can move the start index. -/
theorem sk_scan_fold_start (buf : Nat → Nat) : ∀ (l : List Nat) (a : SkScan), 0 ∉ l →
    (l.foldl (fun a k => sk_scan_body buf k a) a).s = a.s := by
  intro l
  induction l with
  | nil => intro a _; rfl
  | cons i rest ih =>
    intro a h0
    have hi : i ≠ 0 := fun h => h0 (h ▸ List.mem_cons_self _ _)
    have hr : 0 ∉ rest := fun h => h0 (List.mem_cons_of_mem _ h)
    rw [List.foldl_cons, ih _ hr]
    by_cases hsp : buf i &&& KEY_HIBIT = 0
    · rw [(sk_scan_body_space buf i a hsp).2.2, if_pos hi]
    · exact (sk_scan_body_mark buf i a hsp).2.2

/-- The first loop of `get_cw_asc` on a letter of `e` entries: it returns, its
max mark is the longest mark of the letter, its min mark the shortest (or the
initial value), and the start index is 1 exactly when entry 0 is a space. -/
theorem sk_scan_result (buf : Nat → Nat) (e : Nat) (he0 : 0 < e) (he : e ≤ 254) :
    ∃ a, sk_scan buf e 256 0 ⟨0, 0, 0, 0, 0xffffffff, 0⟩ = some a ∧
      a.xx = spec_max_mark buf e ∧ a.mm = (spec_marks buf e).foldl min 0xffffffff ∧
      ((a.s = 0 ∧ buf 0 &&& KEY_HIBIT ≠ 0) ∨ (a.s = 1 ∧ buf 0 &&& KEY_HIBIT = 0)) := by
  obtain ⟨n, rfl⟩ : ∃ n, e = n + 1 := ⟨e - 1, by omega⟩
  have hrun := sk_scan_run buf n 256 0 ⟨0, 0, 0, 0, 0xffffffff, 0⟩ (by omega) (by omega)
  rw [Nat.zero_add] at hrun
  obtain ⟨h1, h2⟩ := sk_scan_fold_marks buf (List.range' 0 (n + 1)) ⟨0, 0, 0, 0, 0xffffffff, 0⟩
  refine ⟨_, hrun, ?_, ?_, ?_⟩
  · rw [h1, spec_max_mark, spec_marks, List.range_eq_range']
  · rw [h2, spec_marks, List.range_eq_range']
  · rw [List.range'_succ, List.foldl_cons]
    have h0 : 0 ∉ List.range' (0 + 1) n := by
      intro h
      have := (List.mem_range'_1.mp h).1
      omega
    rw [sk_scan_fold_start buf _ _ h0]
    by_cases hsp : buf 0 &&& KEY_HIBIT = 0
    · rw [(sk_scan_body_space buf 0 _ hsp).2.2, if_neg (fun h => h rfl)]
      exact Or.inr ⟨rfl, hsp⟩
    · rw [(sk_scan_body_mark buf 0 _ hsp).2.2]
      exact Or.inl ⟨rfl, hsp⟩

/-- The sums and counts the second loop leaves, when no 32-bit sum and no
8-bit count can wrap: every mark below 12000 ticks. -/
theorem sk_sum_fold (buf : Nat → Nat) (xx : Nat) : ∀ (l : List Nat) (b : SkSum),
    (∀ m ∈ marks_of buf l, m < 12000) →
    b.di + 12000 * l.length < 4294967296 → b.da + 12000 * l.length < 4294967296 →
    b.k + l.length < 256 → b.l + l.length < 256 →
    (l.foldl (fun b k => sk_sum_body buf xx k b) b).di =
      b.di + ((marks_of buf l).filter (fun m => xx / m ≥ 2)).sum ∧
    (l.foldl (fun b k => sk_sum_body buf xx k b) b).k =
      b.k + ((marks_of buf l).filter (fun m => xx / m ≥ 2)).length ∧
    (l.foldl (fun b k => sk_sum_body buf xx k b) b).da =
      b.da + ((marks_of buf l).filter (fun m => ¬ (xx / m ≥ 2))).sum ∧
    (l.foldl (fun b k => sk_sum_body buf xx k b) b).l =
      b.l + ((marks_of buf l).filter (fun m => ¬ (xx / m ≥ 2))).length := by
  intro l
  induction l with
  | nil => intro b _ _ _ _ _; exact ⟨rfl, rfl, rfl, rfl⟩
  | cons i rest ih =>
    intro b hm h1 h2 h3 h4
    rw [List.length_cons] at h1 h2 h3 h4
    rw [List.foldl_cons]
    by_cases hsp : buf i &&& KEY_HIBIT = 0
    · have hb : sk_sum_body buf xx i b = b := by
        simp only [sk_sum_body, hsp, ne_eq, not_true_eq_false, if_false]
      rw [hb, marks_of_cons_space buf i rest hsp]
      rw [marks_of_cons_space buf i rest hsp] at hm
      exact ih b hm (by omega) (by omega) (by omega) (by omega)
    · rw [marks_of_cons_mark buf i rest hsp] at hm ⊢
      have hjj : buf i &&& KEY_HIBIT_M < 12000 := hm _ (List.mem_cons_self _ _)
      have hm2 : ∀ m ∈ marks_of buf rest, m < 12000 :=
        fun m h => hm m (List.mem_cons_of_mem _ h)
      by_cases hr : xx / (buf i &&& KEY_HIBIT_M) ≥ 2
      · have hb : sk_sum_body buf xx i b =
            { b with di := b.di + (buf i &&& KEY_HIBIT_M), k := b.k + 1 } := by
          have e1 : (b.di + (buf i &&& KEY_HIBIT_M)) % 4294967296 =
              b.di + (buf i &&& KEY_HIBIT_M) := by omega
          have e2 : (b.k + 1) % 256 = b.k + 1 := by omega
          simp only [sk_sum_body, hsp, hr, ne_eq, not_false_eq_true, if_true, e1, e2]
        rw [hb]
        obtain ⟨r1, r2, r3, r4⟩ := ih
          { b with di := b.di + (buf i &&& KEY_HIBIT_M), k := b.k + 1 } hm2
          (show b.di + (buf i &&& KEY_HIBIT_M) + 12000 * rest.length < 4294967296 by omega)
          (show b.da + 12000 * rest.length < 4294967296 by omega)
          (show b.k + 1 + rest.length < 256 by omega)
          (show b.l + rest.length < 256 by omega)
        dsimp only at r1 r2 r3 r4
        have p1 : List.filter (fun m => decide (xx / m ≥ 2))
            ((buf i &&& KEY_HIBIT_M) :: marks_of buf rest) =
            (buf i &&& KEY_HIBIT_M) :: List.filter (fun m => decide (xx / m ≥ 2))
              (marks_of buf rest) := by
          simp only [List.filter_cons, hr, decide_True, if_true]
        have p2 : List.filter (fun m => decide (¬ (xx / m ≥ 2)))
            ((buf i &&& KEY_HIBIT_M) :: marks_of buf rest) =
            List.filter (fun m => decide (¬ (xx / m ≥ 2))) (marks_of buf rest) := by
          simp only [List.filter_cons, hr, not_true_eq_false, decide_False, Bool.false_eq_true,
            if_false]
        rw [p1, p2, List.sum_cons, List.length_cons]
        refine ⟨?_, ?_, r3, r4⟩
        · rw [r1]; omega
        · rw [r2]; omega
      · have hb : sk_sum_body buf xx i b =
            { b with da := b.da + (buf i &&& KEY_HIBIT_M), l := b.l + 1 } := by
          have e1 : (b.da + (buf i &&& KEY_HIBIT_M)) % 4294967296 =
              b.da + (buf i &&& KEY_HIBIT_M) := by omega
          have e2 : (b.l + 1) % 256 = b.l + 1 := by omega
          simp only [sk_sum_body, hsp, hr, ne_eq, not_false_eq_true, if_true, if_false, e1, e2]
        rw [hb]
        obtain ⟨r1, r2, r3, r4⟩ := ih
          { b with da := b.da + (buf i &&& KEY_HIBIT_M), l := b.l + 1 } hm2
          (show b.di + 12000 * rest.length < 4294967296 by omega)
          (show b.da + (buf i &&& KEY_HIBIT_M) + 12000 * rest.length < 4294967296 by omega)
          (show b.k + rest.length < 256 by omega)
          (show b.l + 1 + rest.length < 256 by omega)
        dsimp only at r1 r2 r3 r4
        have p1 : List.filter (fun m => decide (xx / m ≥ 2))
            ((buf i &&& KEY_HIBIT_M) :: marks_of buf rest) =
            List.filter (fun m => decide (xx / m ≥ 2)) (marks_of buf rest) := by
          simp only [List.filter_cons, hr, decide_False, Bool.false_eq_true, if_false]
        have p2 : List.filter (fun m => decide (¬ (xx / m ≥ 2)))
            ((buf i &&& KEY_HIBIT_M) :: marks_of buf rest) =
            (buf i &&& KEY_HIBIT_M) :: List.filter (fun m => decide (¬ (xx / m ≥ 2)))
              (marks_of buf rest) := by
          simp only [List.filter_cons, hr, not_false_eq_true, decide_True, if_true]
        rw [p1, p2, List.sum_cons, List.length_cons]
        refine ⟨r1, r2, ?_, ?_⟩
        · rw [r3]; omega
        · rw [r4]; omega

/-- The third loop on up to sixteen marks: the length is the number of marks
visited and the element word takes one bit per mark, shifted in from the right,
1 for a mark of at least the threshold. -/
theorem sk_build_fold (buf : Nat → Nat) (T : Nat) : ∀ (l : List Nat) (r : Nat × Nat) (k : Nat),
    r.2 = k → r.1 < 2 ^ k → k + (marks_of buf l).length ≤ 16 →
    (l.foldl (fun r i => sk_build_body buf T i r) r).2 = k + (marks_of buf l).length ∧
    (l.foldl (fun r i => sk_build_body buf T i r) r).1 =
      ((marks_of buf l).map (fun m => if m ≥ T then 1 else 0)).foldl
        (fun w b => 2 * w + b) r.1 := by
  intro l
  induction l with
  | nil => intro r k h1 _ _; exact ⟨h1, rfl⟩
  | cons i rest ih =>
    intro r k h1 h2 h3
    obtain ⟨ee, j⟩ := r
    rw [List.foldl_cons]
    by_cases hsp : buf i &&& KEY_HIBIT = 0
    · have hb : sk_build_body buf T i (ee, j) = (ee, j) := by
        simp only [sk_build_body, hsp, ne_eq, not_true_eq_false, if_false]
      rw [hb, marks_of_cons_space buf i rest hsp]
      rw [marks_of_cons_space buf i rest hsp] at h3
      exact ih (ee, j) k h1 h2 h3
    · rw [marks_of_cons_mark buf i rest hsp, List.length_cons] at h3
      rw [marks_of_cons_mark buf i rest hsp, List.length_cons, List.map_cons, List.foldl_cons]
      have hj : j = k := h1
      have hee : ee < 2 ^ k := h2
      have hk : k ≤ 15 := by omega
      have hee15 : ee < 2 ^ 15 := lt_of_lt_of_le hee (Nat.pow_le_pow_right (by decide) hk)
      have e1 : (ee <<< 1) % 65536 = 2 * ee := by
        rw [Nat.shiftLeft_eq, Nat.pow_one]
        omega
      have e2 : (j + 1) % 256 = k + 1 := by omega
      have hp : (2 : Nat) ^ (k + 1) = 2 * 2 ^ k := by rw [Nat.pow_succ]; omega
      by_cases hg : (buf i &&& KEY_HIBIT_M) ≥ T
      · have e3 : (2 * ee) ||| 0x01 = 2 * ee + 1 := or_low_bit ee 1 (le_refl 1)
        have hb : sk_build_body buf T i (ee, j) = (2 * ee + 1, k + 1) := by
          simp only [sk_build_body, hsp, hg, ne_eq, not_false_eq_true, if_true, e1, e2, e3]
        rw [hb, if_pos hg]
        obtain ⟨r1, r2⟩ := ih (2 * ee + 1, k + 1) (k + 1) rfl
          (show 2 * ee + 1 < 2 ^ (k + 1) by rw [hp]; omega) (by omega)
        exact ⟨by rw [r1]; omega, r2⟩
      · have hb : sk_build_body buf T i (ee, j) = (2 * ee, k + 1) := by
          simp only [sk_build_body, hsp, hg, ne_eq, not_false_eq_true, if_true, if_false, e1, e2]
        rw [hb, if_neg hg]
        obtain ⟨r1, r2⟩ := ih (2 * ee, k + 1) (k + 1) rfl
          (show 2 * ee < 2 ^ (k + 1) by rw [hp]; omega) (by omega)
        exact ⟨by rw [r1]; omega, r2⟩

/-- The fields of the timing analysis in terms of the results of its two
loops. -/
theorem sk_timing_fields (st : State) (e : Nat) (a : SkScan) (b : SkSum)
    (hscan : sk_scan st.cw_timing_buf e 256 0 ⟨0, 0, 0, 0, 0xffffffff, 0⟩ = some a)
    (hsum : sk_sum st.cw_timing_buf a.xx (if a.s = 1 ∧ e = 2 then 1 else e) 256 a.s
      ⟨0, 0, 0, 0⟩ = some b) :
    ∃ t, sk_timing st e = some t ∧ t.s = a.s ∧
      t.e = (if a.s = 1 ∧ e = 2 then 1 else e) ∧ t.mm = a.mm ∧ t.xx = a.xx ∧
      t.di = (if b.di ≠ 0 then b.di / b.k else b.di) ∧
      t.da = (if b.da ≠ 0 then b.da / b.l else b.da) ∧
      t.regs.dit_ave =
        (if b.di ≠ 0 then ((st.dit_ave + b.di / b.k) % 4294967296) / 2 else st.dit_ave) ∧
      t.regs.dah_ave =
        (if b.da ≠ 0 then ((st.dah_ave + b.da / b.l) % 4294967296) / 2 else st.dah_ave) ∧
      t.regs.cw_timing_buf = st.cw_timing_buf ∧ t.regs.cw_stat = st.cw_stat := by
  simp only [sk_timing, hscan, hsum]
  refine ⟨_, rfl, rfl, rfl, rfl, rfl, rfl, rfl, ?_, ?_, ?_, ?_⟩ <;>
    by_cases h1 : a.aa = 0 <;> by_cases h2 : b.di = 0 <;> by_cases h3 : b.da = 0 <;>
    simp only [h1, h2, h3, ne_eq, not_true_eq_false, not_false_eq_true, if_true, if_false]

/-- The second loop, entered at the start index with the adjusted end index,
visits the entries from the start index to the end of the letter. -/
theorem sk_sum_visits (buf : Nat → Nat) (xx e s : Nat) (b : SkSum) (hs : s ≤ 1) (hse : s < e)
    (he : e ≤ 254) :
    sk_sum buf xx (if s = 1 ∧ e = 2 then 1 else e) 256 s b =
      some ((List.range' s (e - s)).foldl (fun b k => sk_sum_body buf xx k b) b) := by
  by_cases h : s = 1 ∧ e = 2
  · obtain ⟨h1, h2⟩ := h
    rw [if_pos ⟨h1, h2⟩, h1, h2, sk_sum_once buf xx 1 255 1 b (by decide) (by decide)]
    rfl
  · rw [if_neg h]
    obtain ⟨n, hn⟩ : ∃ n, e = s + n + 1 := ⟨e - s - 1, by omega⟩
    have hr := sk_sum_run buf xx n 256 s b (by omega) (by omega)
    rw [← hn] at hr
    rw [hr]
    have e1 : e - s = n + 1 := by omega
    rw [e1]

/-- The third loop, entered at the start index with the adjusted end index,
visits the entries from the start index to the end of the letter. -/
theorem sk_build_visits (buf : Nat → Nat) (ii e s : Nat) (r : Nat × Nat) (hs : s ≤ 1)
    (hse : s < e) (he : e ≤ 254) :
    sk_build buf ii (if s = 1 ∧ e = 2 then 1 else e) 256 s r =
      some ((List.range' s (e - s)).foldl (fun r k => sk_build_body buf ii k r) r) := by
  by_cases h : s = 1 ∧ e = 2
  · obtain ⟨h1, h2⟩ := h
    rw [if_pos ⟨h1, h2⟩, h1, h2, sk_build_once buf ii 1 255 1 r (by decide) (by decide)]
    rfl
  · rw [if_neg h]
    obtain ⟨n, hn⟩ : ∃ n, e = s + n + 1 := ⟨e - s - 1, by omega⟩
    have hr := sk_build_run buf ii n 256 s r (by omega) (by omega)
    rw [← hn] at hr
    rw [hr]
    have e1 : e - s = n + 1 := by omega
    rw [e1]

theorem sum_ge_of_all (c : Nat) : ∀ l : List Nat, (∀ m ∈ l, c ≤ m) → c * l.length ≤ l.sum := by
  intro l
  induction l with
  | nil => intro _; exact Nat.le_refl _
  | cons a rest ih =>
    intro h
    have h1 := h a (List.mem_cons_self _ _)
    have h2 := ih (fun m hm => h m (List.mem_cons_of_mem _ hm))
    rw [List.length_cons, List.sum_cons, Nat.mul_succ]
    omega

theorem sum_le_of_all (c : Nat) : ∀ l : List Nat, (∀ m ∈ l, m ≤ c) → l.sum ≤ c * l.length := by
  intro l
  induction l with
  | nil => intro _; exact Nat.le_refl _
  | cons a rest ih =>
    intro h
    have h1 := h a (List.mem_cons_self _ _)
    have h2 := ih (fun m hm => h m (List.mem_cons_of_mem _ hm))
    rw [List.length_cons, List.sum_cons, Nat.mul_succ]
    omega

/-- The integer mean of a non-empty list lies between any bounds of its
members. -/
theorem spec_mean_bounds (l : List Nat) (lo hi : Nat) (hne : l ≠ []) (hpos : 0 < lo)
    (h : ∀ m ∈ l, lo ≤ m ∧ m ≤ hi) : lo ≤ spec_mean l ∧ spec_mean l ≤ hi ∧ l.sum ≠ 0 := by
  have hlen : 0 < l.length := List.length_pos.mpr hne
  have h1 := sum_ge_of_all lo l (fun m hm => (h m hm).1)
  have h2 := sum_le_of_all hi l (fun m hm => (h m hm).2)
  refine ⟨?_, ?_, ?_⟩
  · rw [spec_mean]
    exact (Nat.le_div_iff_mul_le hlen).mpr h1
  · rw [spec_mean]
    exact Nat.div_le_of_le_mul (by rw [Nat.mul_comm]; exact h2)
  · intro hs
    rw [hs] at h1
    rcases Nat.mul_eq_zero.mp (Nat.le_zero.mp h1) with h | h <;> omega

theorem two_le_length_of_mem_ne {l : List Nat} {a b : Nat} (ha : a ∈ l) (hb : b ∈ l)
    (hab : a ≠ b) : 2 ≤ l.length := by
  match l, ha, hb with
  | [], ha, _ => exact absurd ha (List.not_mem_nil _)
  | [x], ha, hb =>
    have h1 := List.mem_singleton.mp ha
    have h2 := List.mem_singleton.mp hb
    exact absurd (h1.trans h2.symm) hab
  | _ :: _ :: _, _, _ =>
    simp only [List.length_cons]
    omega

/-- The timing analysis of a straight-key letter with at least one mark and
every mark below 12000 ticks, in terms of the marks of the letter: it returns;
the max mark is the longest mark; the dit and dah sums are taken over the marks
the ratio test separates; the means and the running averages follow. -/
theorem sk_timing_spec (st : State) (e : Nat) (he0 : 0 < e) (he : e < CW_BUFF_END)
    (hne : spec_marks st.cw_timing_buf e ≠ [])
    (hm : ∀ m ∈ spec_marks st.cw_timing_buf e, m < 12000) :
    ∃ t, sk_timing st e = some t ∧ t.xx = spec_max_mark st.cw_timing_buf e ∧
      t.mm = (spec_marks st.cw_timing_buf e).foldl min 0xffffffff ∧
      t.s ≤ 1 ∧ t.s < e ∧ t.e = (if t.s = 1 ∧ e = 2 then 1 else e) ∧
      spec_marks st.cw_timing_buf e = marks_of st.cw_timing_buf (List.range' t.s (e - t.s)) ∧
      t.di = (if (spec_dits st.cw_timing_buf e).sum ≠ 0
        then spec_mean (spec_dits st.cw_timing_buf e) else 0) ∧
      t.da = (if (spec_dahs st.cw_timing_buf e).sum ≠ 0
        then spec_mean (spec_dahs st.cw_timing_buf e) else 0) ∧
      t.regs.dit_ave = (if (spec_dits st.cw_timing_buf e).sum ≠ 0
        then ((st.dit_ave + spec_mean (spec_dits st.cw_timing_buf e)) % 4294967296) / 2
        else st.dit_ave) ∧
      t.regs.dah_ave = (if (spec_dahs st.cw_timing_buf e).sum ≠ 0
        then ((st.dah_ave + spec_mean (spec_dahs st.cw_timing_buf e)) % 4294967296) / 2
        else st.dah_ave) ∧
      t.regs.cw_timing_buf = st.cw_timing_buf ∧ t.regs.cw_stat = st.cw_stat := by
  rw [CW_BUFF_END_eq] at he
  obtain ⟨a, hscan, hxx, hmm, hs⟩ := sk_scan_result st.cw_timing_buf e he0 (by omega)
  have hs1 : a.s ≤ 1 := by rcases hs with ⟨h, -⟩ | ⟨h, -⟩ <;> omega
  have hfrom := spec_marks_from st.cw_timing_buf e a.s he0 hs
  have hse : a.s < e := by
    rcases hs with ⟨h, -⟩ | ⟨h, hsp⟩
    · omega
    · by_contra hc
      have he1 : e = 1 := by omega
      apply hne
      rw [hfrom, h, he1]
      rfl
  have hsum := sk_sum_visits st.cw_timing_buf a.xx e a.s ⟨0, 0, 0, 0⟩ hs1 hse (by omega)
  have hlen : (List.range' a.s (e - a.s)).length = e - a.s := List.length_range' _ _ _
  obtain ⟨f1, f2, f3, f4⟩ := sk_sum_fold st.cw_timing_buf a.xx (List.range' a.s (e - a.s))
    ⟨0, 0, 0, 0⟩ (by rw [← hfrom]; exact hm)
    (by rw [hlen]; show 0 + 12000 * (e - a.s) < 4294967296; omega)
    (by rw [hlen]; show 0 + 12000 * (e - a.s) < 4294967296; omega)
    (by rw [hlen]; show 0 + (e - a.s) < 256; omega)
    (by rw [hlen]; show 0 + (e - a.s) < 256; omega)
  rw [← hfrom] at f1 f2 f3 f4
  obtain ⟨t, ht, t1, t2, t3, t4, t5, t6, t7, t8, t9, t10⟩ :=
    sk_timing_fields st e a _ hscan hsum
  have g1 : (List.foldl (fun b k => sk_sum_body st.cw_timing_buf a.xx k b) ⟨0, 0, 0, 0⟩
      (List.range' a.s (e - a.s))).di = (spec_dits st.cw_timing_buf e).sum := by
    rw [f1, hxx]; exact Nat.zero_add _
  have g2 : (List.foldl (fun b k => sk_sum_body st.cw_timing_buf a.xx k b) ⟨0, 0, 0, 0⟩
      (List.range' a.s (e - a.s))).k = (spec_dits st.cw_timing_buf e).length := by
    rw [f2, hxx]; exact Nat.zero_add _
  have g3 : (List.foldl (fun b k => sk_sum_body st.cw_timing_buf a.xx k b) ⟨0, 0, 0, 0⟩
      (List.range' a.s (e - a.s))).da = (spec_dahs st.cw_timing_buf e).sum := by
    rw [f3, hxx]; exact Nat.zero_add _
  have g4 : (List.foldl (fun b k => sk_sum_body st.cw_timing_buf a.xx k b) ⟨0, 0, 0, 0⟩
      (List.range' a.s (e - a.s))).l = (spec_dahs st.cw_timing_buf e).length := by
    rw [f4, hxx]; exact Nat.zero_add _
  rw [g1, g2] at t5 t7
  rw [g3, g4] at t6 t8
  refine ⟨t, ht, t4.trans hxx, t3.trans hmm, by rw [t1]; exact hs1, by rw [t1]; exact hse,
    by rw [t2, t1], by rw [t1]; exact hfrom, ?_, ?_, t7, t8, t9, t10⟩
  · rw [t5]
    by_cases h0 : (spec_dits st.cw_timing_buf e).sum ≠ 0
    · rw [if_pos h0, if_pos h0]; rfl
    · rw [if_neg h0, if_neg h0]; exact not_not.mp h0
  · rw [t6]
    by_cases h0 : (spec_dahs st.cw_timing_buf e).sum ≠ 0
    · rw [if_pos h0, if_pos h0]; rfl
    · rw [if_neg h0, if_neg h0]; exact not_not.mp h0

/-- The rest of the straight-key letter processing once the threshold is set
and the element word is built: the letter and word space registers follow the
threshold, the toggle pair is handled or the pair is decoded, and the element
index and the letter-complete flag are reset. -/
theorem sk_letter_result (st : State) (e ii ee j : Nat) (t : SkTiming)
    (ht : sk_timing st e = some t) (hth : sk_threshold t = some (ii, t.regs))
    (hb : sk_build t.regs.cw_timing_buf ii t.e 256 t.s (0, 0) = some (ee, j)) :
    ∃ c st', sk_letter st e = some (c, st') ∧
      ((ee = CWSTT_E ∧ j = CWSTT_L) → c = CWSTT ∧ st'.suppress_s = 1) ∧
      (¬ (ee = CWSTT_E ∧ j = CWSTT_L) →
        decode_elem ee j = some c ∧ st'.suppress_s = 0 ∧ st'.cw_stat = t.regs.cw_stat) ∧
      st'.cwelem_idx = 0 ∧ st'.letter_complete = 0 ∧
      st'.dit_ave = t.regs.dit_ave ∧ st'.dah_ave = t.regs.dah_ave ∧
      st'.letter_space = (if ii < DIT_MAX then LETTER_MAX
        else if ii > DIT_MIN then LETTER_MIN else (LETTER_SK * ii) % 4294967296) ∧
      st'.word_space = (if ii < DIT_MAX then WORD_MAX
        else if ii > DIT_MIN then WORD_MIN else (WORD_SK * ii) % 4294967296) := by
  by_cases htg : ee = CWSTT_E ∧ j = CWSTT_L
  · simp only [sk_letter, ht, hth, apply_ite State.cw_timing_buf, ite_self, hb, htg, and_self,
      if_true]
    refine ⟨_, _, rfl, fun _ => ⟨rfl, rfl⟩, fun h => absurd trivial h, rfl, rfl, ?_, ?_, ?_, ?_⟩
    · simp only [apply_ite State.dit_ave, ite_self]
    · simp only [apply_ite State.dah_ave, ite_self]
    · simp only [apply_ite State.letter_space, ite_self]
    · simp only [apply_ite State.word_space, ite_self]
  · obtain ⟨c, hc⟩ := decode_elem_total ee j
    simp only [sk_letter, ht, hth, apply_ite State.cw_timing_buf, ite_self, hb, htg, if_false, hc]
    refine ⟨_, _, rfl, fun h => h.elim, fun _ => ⟨rfl, rfl, ?_⟩, rfl, rfl, ?_, ?_, ?_, ?_⟩
    · simp only [apply_ite State.cw_stat, ite_self]
    · simp only [apply_ite State.dit_ave, ite_self]
    · simp only [apply_ite State.dah_ave, ite_self]
    · simp only [apply_ite State.letter_space, ite_self]
    · simp only [apply_ite State.word_space, ite_self]

/-- In straight-key mode with no auto-space pending and a valid end index,
`get_cw_asc` processes the letter in the timing buffer. -/
theorem get_cw_asc_sk (st : State) (hsk : st.paddle_key_mode = 0) (hasp : st.aspace = 0)
    (he0 : 0 < st.cwelem_idx) (he : st.cwelem_idx < CW_BUFF_END) :
    get_cw_asc st = sk_letter st st.cwelem_idx := by
  have hgt : st.cwelem_idx > 0 := he0
  simp only [get_cw_asc, hsk, if_true, hasp, ne_eq, not_true_eq_false, and_false, if_false, he,
    hgt, and_self]

/-- What the sanity bounds and a dit-like mark say about the marks of a letter:
there are at least two marks, the longest mark is one of them and counts as a
dah, both groups are non-empty and both means lie inside the bounds. -/
theorem sk_mixed_marks (buf : Nat → Nat) (e : Nat)
    (hbounds : ∀ m ∈ spec_marks buf e, DIT_SK_MIN < m ∧ m < DAH_SK_MAX)
    (hsep : ∃ m ∈ spec_marks buf e, spec_max_mark buf e / m ≥ 2) :
    2 ≤ (spec_marks buf e).length ∧
    (spec_max_mark buf e ∈ spec_marks buf e ∧ ∀ m ∈ spec_marks buf e, m ≤ spec_max_mark buf e) ∧
    spec_dits buf e ≠ [] ∧ spec_dahs buf e ≠ [] ∧
    (219 ≤ spec_mean (spec_dits buf e) ∧ spec_mean (spec_dits buf e) ≤ 11999 ∧
      (spec_dits buf e).sum ≠ 0) ∧
    (219 ≤ spec_mean (spec_dahs buf e) ∧ spec_mean (spec_dahs buf e) ≤ 11999 ∧
      (spec_dahs buf e).sum ≠ 0) := by
  have h218 : DIT_SK_MIN = 218 := by decide
  have h12000 : DAH_SK_MAX = 12000 := by decide
  rw [h218, h12000] at hbounds
  obtain ⟨m0, hm0, hr0⟩ := hsep
  obtain ⟨x1, -, x3⟩ := foldl_max_spec (spec_marks buf e) 0
  have hmax_ge : m0 ≤ spec_max_mark buf e := x1 m0 hm0
  have hmax_mem : spec_max_mark buf e ∈ spec_marks buf e := by
    rcases x3 with h | h
    · have h0 : spec_max_mark buf e = 0 := h
      have := (hbounds m0 hm0).1
      omega
    · exact h
  have hmax_pos : 0 < spec_max_mark buf e := by
    have := (hbounds m0 hm0).1
    omega
  have hself : spec_max_mark buf e / spec_max_mark buf e = 1 := Nat.div_self hmax_pos
  have hne : m0 ≠ spec_max_mark buf e := by
    intro h
    rw [h, hself] at hr0
    omega
  have hdit : m0 ∈ spec_dits buf e :=
    List.mem_filter.mpr ⟨hm0, by simp only [hr0, decide_True]⟩
  have hdah : spec_max_mark buf e ∈ spec_dahs buf e :=
    List.mem_filter.mpr ⟨hmax_mem, by rw [hself]; decide⟩
  have hd1 : spec_dits buf e ≠ [] := List.ne_nil_of_mem hdit
  have hd2 : spec_dahs buf e ≠ [] := List.ne_nil_of_mem hdah
  have hb1 : ∀ m ∈ spec_dits buf e, 219 ≤ m ∧ m ≤ 11999 := by
    intro m hm
    have := hbounds m (List.mem_filter.mp hm).1
    omega
  have hb2 : ∀ m ∈ spec_dahs buf e, 219 ≤ m ∧ m ≤ 11999 := by
    intro m hm
    have := hbounds m (List.mem_filter.mp hm).1
    omega
  exact ⟨two_le_length_of_mem_ne hm0 hmax_mem hne, ⟨hmax_mem, x1⟩, hd1, hd2,
    spec_mean_bounds _ 219 11999 hd1 (by decide) hb1,
    spec_mean_bounds _ 219 11999 hd2 (by decide) hb2⟩

/-- The mixed-letter threshold, with the timing analysis and the rest of the
call. -/
theorem sk_mixed_core (st : State) (hsk : st.paddle_key_mode = 0) (hasp : st.aspace = 0)
    (he0 : 0 < st.cwelem_idx) (he : st.cwelem_idx < CW_BUFF_END)
    (hbounds : ∀ m ∈ spec_marks st.cw_timing_buf st.cwelem_idx, DIT_SK_MIN < m ∧ m < DAH_SK_MAX)
    (hsep : ∃ m ∈ spec_marks st.cw_timing_buf st.cwelem_idx,
      spec_max_mark st.cw_timing_buf st.cwelem_idx / m ≥ 2)
    (hd : st.dit_ave < 2 ^ 31) (hh : st.dah_ave < 2 ^ 31) :
    ∃ t, sk_timing st st.cwelem_idx = some t ∧
      sk_threshold t = some ((spec_mean (spec_dits st.cw_timing_buf st.cwelem_idx) +
        spec_mean (spec_dahs st.cw_timing_buf st.cwelem_idx)) / 2, t.regs) ∧
      t.regs.dit_ave =
        (st.dit_ave + spec_mean (spec_dits st.cw_timing_buf st.cwelem_idx)) / 2 ∧
      t.regs.dah_ave =
        (st.dah_ave + spec_mean (spec_dahs st.cw_timing_buf st.cwelem_idx)) / 2 ∧
      ∃ c st', get_cw_asc st = some (c, st') ∧
        st'.dit_ave = (st.dit_ave + spec_mean (spec_dits st.cw_timing_buf st.cwelem_idx)) / 2 ∧
        st'.dah_ave = (st.dah_ave + spec_mean (spec_dahs st.cw_timing_buf st.cwelem_idx)) / 2 ∧
        st'.letter_space =
          (if (spec_mean (spec_dits st.cw_timing_buf st.cwelem_idx) +
              spec_mean (spec_dahs st.cw_timing_buf st.cwelem_idx)) / 2 < DIT_MAX then LETTER_MAX
            else if (spec_mean (spec_dits st.cw_timing_buf st.cwelem_idx) +
              spec_mean (spec_dahs st.cw_timing_buf st.cwelem_idx)) / 2 > DIT_MIN then LETTER_MIN
            else LETTER_SK * ((spec_mean (spec_dits st.cw_timing_buf st.cwelem_idx) +
              spec_mean (spec_dahs st.cw_timing_buf st.cwelem_idx)) / 2)) := by
  obtain ⟨k2, ⟨kmem, kle⟩, kd1, kd2, ⟨d1, d2, d3⟩, ⟨a1, a2, a3⟩⟩ :=
    sk_mixed_marks st.cw_timing_buf st.cwelem_idx hbounds hsep
  have h218 : DIT_SK_MIN = 218 := by decide
  have h12000 : DAH_SK_MAX = 12000 := by decide
  have h40 : CW_BUFF_END = 40 := rfl
  have hne : spec_marks st.cw_timing_buf st.cwelem_idx ≠ [] := List.ne_nil_of_mem kmem
  have hm : ∀ m ∈ spec_marks st.cw_timing_buf st.cwelem_idx, m < 12000 := by
    intro m hmm
    have := (hbounds m hmm).2
    rw [h12000] at this
    exact this
  obtain ⟨t, ht, t1, t2, t3, t4, t5, t6, t7, t8, t9, t10, t11, -⟩ :=
    sk_timing_spec st st.cwelem_idx he0 he hne hm
  rw [if_pos d3] at t7 t9
  rw [if_pos a3] at t8 t10
  generalize spec_mean (spec_dits st.cw_timing_buf st.cwelem_idx) = D at d1 d2 t7 t9 ⊢
  generalize spec_mean (spec_dahs st.cw_timing_buf st.cwelem_idx) = H at a1 a2 t8 t10 ⊢
  have e9 : t.regs.dit_ave = (st.dit_ave + D) / 2 := by
    rw [t9, Nat.mod_eq_of_lt (by omega)]
  have e10 : t.regs.dah_ave = (st.dah_ave + H) / 2 := by
    rw [t10, Nat.mod_eq_of_lt (by omega)]
  -- the letter has more than one entry
  have hlen : (spec_marks st.cw_timing_buf st.cwelem_idx).length ≤ st.cwelem_idx - t.s := by
    rw [t6]
    have := marks_of_length_le st.cw_timing_buf (List.range' t.s (st.cwelem_idx - t.s))
    rw [List.length_range'] at this
    exact this
  rw [h40] at he
  have he1 : t.e > 1 := by
    rw [t5]
    split_ifs with hc
    · omega
    · omega
  have hele : t.e ≤ 254 := by
    rw [t5]
    split_ifs <;> omega
  have hse : t.s ≤ t.e := by
    rw [t5]
    split_ifs <;> omega
  -- the sanity test passes
  have hxx : t.xx < DAH_SK_MAX := by
    rw [t1]
    exact (hbounds _ kmem).2
  have hmm : t.mm > DIT_SK_MIN := by
    rw [t2]
    obtain ⟨-, -, y3⟩ := foldl_min_spec (spec_marks st.cw_timing_buf st.cwelem_idx) 0xffffffff
    rcases y3 with h | h
    · rw [h, h218]; decide
    · exact (hbounds _ h).1
  have hdi : ¬ (t.di = 0) := by rw [t7]; omega
  have hsum : ((t.di + t.da) % 4294967296) / 2 = (D + H) / 2 := by
    rw [t7, t8, Nat.mod_eq_of_lt (by omega)]
  have h3 : ¬ (t.xx > DAH_SK_MAX <<< 1) := by
    have : DAH_SK_MAX <<< 1 = 24000 := by decide
    rw [this]
    rw [h12000] at hxx
    omega
  have hth : sk_threshold t = some ((D + H) / 2, t.regs) := by
    simp only [sk_threshold, hxx, hmm, and_self, if_true, he1, hdi, if_false, hsum, h3]
  obtain ⟨⟨ee, j⟩, hb⟩ := sk_build_total t.regs.cw_timing_buf ((D + H) / 2) t.e hele 256 t.s
    (0, 0) hse (by omega)
  obtain ⟨c, st', hl, -, -, -, -, l5, l6, l7, -⟩ :=
    sk_letter_result st st.cwelem_idx _ ee j t ht hth hb
  have hT : (D + H) / 2 ≤ 11999 := by omega
  have hls : (LETTER_SK * ((D + H) / 2)) % 4294967296 = LETTER_SK * ((D + H) / 2) := by
    have : LETTER_SK = 3 := rfl
    rw [this]
    omega
  refine ⟨t, ht, hth, e9, e10, c, st', ?_, l5.trans e9, l6.trans e10, ?_⟩
  · rw [get_cw_asc_sk st hsk hasp he0 (by rw [h40]; exact he)]
    exact hl
  · rw [l7, hls]

/-- C29: in straight-key mode with no auto-space pending, for a letter in the
timing buffer (`0 < cwelem_idx < CW_BUFF_END`) whose marks all lie inside the
sanity bounds (`DIT_SK_MIN < m < DAH_SK_MAX`) and which the ratio test separates
(some mark `m` has `max_mark / m >= 2`), with running averages below 2^31: the
letter has at least two marks, both groups are non-empty, and the threshold
`get_cw_asc` uses is `floor((D + H) / 2)`, where `D` is the integer mean of the
marks with `max_mark / m >= 2` and `H` the integer mean of the remaining marks;
the letter and word space registers are set from that threshold, and the call
returns with `dit_ave = floor((old dit_ave + D) / 2)` and
`dah_ave = floor((old dah_ave + H) / 2)`. -/
theorem sk_mixed_threshold (st : State) (hsk : st.paddle_key_mode = 0) (hasp : st.aspace = 0)
    (he0 : 0 < st.cwelem_idx) (he : st.cwelem_idx < CW_BUFF_END)
    (hbounds : ∀ m ∈ spec_marks st.cw_timing_buf st.cwelem_idx, DIT_SK_MIN < m ∧ m < DAH_SK_MAX)
    (hsep : ∃ m ∈ spec_marks st.cw_timing_buf st.cwelem_idx,
      spec_max_mark st.cw_timing_buf st.cwelem_idx / m ≥ 2)
    (hd : st.dit_ave < 2 ^ 31) (hh : st.dah_ave < 2 ^ 31) :
    (2 ≤ (spec_marks st.cw_timing_buf st.cwelem_idx).length ∧
      spec_max_mark st.cw_timing_buf st.cwelem_idx ∈ spec_marks st.cw_timing_buf st.cwelem_idx ∧
      (∀ m ∈ spec_marks st.cw_timing_buf st.cwelem_idx,
        m ≤ spec_max_mark st.cw_timing_buf st.cwelem_idx) ∧
      spec_dits st.cw_timing_buf st.cwelem_idx ≠ [] ∧
      spec_dahs st.cw_timing_buf st.cwelem_idx ≠ []) ∧
    ∃ t, sk_timing st st.cwelem_idx = some t ∧
      sk_threshold t = some ((spec_mean (spec_dits st.cw_timing_buf st.cwelem_idx) +
        spec_mean (spec_dahs st.cw_timing_buf st.cwelem_idx)) / 2, t.regs) ∧
      t.regs.dit_ave =
        (st.dit_ave + spec_mean (spec_dits st.cw_timing_buf st.cwelem_idx)) / 2 ∧
      t.regs.dah_ave =
        (st.dah_ave + spec_mean (spec_dahs st.cw_timing_buf st.cwelem_idx)) / 2 ∧
      ∃ c st', get_cw_asc st = some (c, st') ∧
        st'.dit_ave = (st.dit_ave + spec_mean (spec_dits st.cw_timing_buf st.cwelem_idx)) / 2 ∧
        st'.dah_ave = (st.dah_ave + spec_mean (spec_dahs st.cw_timing_buf st.cwelem_idx)) / 2 ∧
        st'.letter_space =
          (if (spec_mean (spec_dits st.cw_timing_buf st.cwelem_idx) +
              spec_mean (spec_dahs st.cw_timing_buf st.cwelem_idx)) / 2 < DIT_MAX then LETTER_MAX
            else if (spec_mean (spec_dits st.cw_timing_buf st.cwelem_idx) +
              spec_mean (spec_dahs st.cw_timing_buf st.cwelem_idx)) / 2 > DIT_MIN then LETTER_MIN
            else LETTER_SK * ((spec_mean (spec_dits st.cw_timing_buf st.cwelem_idx) +
              spec_mean (spec_dahs st.cw_timing_buf st.cwelem_idx)) / 2)) := by
  obtain ⟨k2, ⟨kmem, kle⟩, kd1, kd2, -, -⟩ :=
    sk_mixed_marks st.cw_timing_buf st.cwelem_idx hbounds hsep
  exact ⟨⟨k2, kmem, kle, kd1, kd2⟩, sk_mixed_core st hsk hasp he0 he hbounds hsep hd hh⟩

set_option maxRecDepth 100000 in
/-- Witness of C29: the letter N keyed as a mark of 1500 ticks and a mark of 500
ticks, with the power-on averages 1200 and 3600: `D` = 500, `H` = 1500, the
threshold is 1000, and the averages become 850 and 2550. -/
theorem sk_mixed_threshold_witness :
    ((∀ m ∈ spec_marks mixed_marks_regs.cw_timing_buf mixed_marks_regs.cwelem_idx,
        DIT_SK_MIN < m ∧ m < DAH_SK_MAX) ∧
      (∃ m ∈ spec_marks mixed_marks_regs.cw_timing_buf mixed_marks_regs.cwelem_idx,
        spec_max_mark mixed_marks_regs.cw_timing_buf mixed_marks_regs.cwelem_idx / m ≥ 2)) ∧
    spec_mean (spec_dits mixed_marks_regs.cw_timing_buf mixed_marks_regs.cwelem_idx) = 500 ∧
    spec_mean (spec_dahs mixed_marks_regs.cw_timing_buf mixed_marks_regs.cwelem_idx) = 1500 ∧
    ∃ c st', get_cw_asc mixed_marks_regs = some (c, st') ∧ st'.dit_ave = 850 ∧
      st'.dah_ave = 2550 ∧ st'.letter_space = LETTER_SK * 1000 := by
  have hb : ∀ m ∈ spec_marks mixed_marks_regs.cw_timing_buf mixed_marks_regs.cwelem_idx,
      DIT_SK_MIN < m ∧ m < DAH_SK_MAX := by decide
  have hs : ∃ m ∈ spec_marks mixed_marks_regs.cw_timing_buf mixed_marks_regs.cwelem_idx,
      spec_max_mark mixed_marks_regs.cw_timing_buf mixed_marks_regs.cwelem_idx / m ≥ 2 := by
    decide
  have hD : spec_mean (spec_dits mixed_marks_regs.cw_timing_buf mixed_marks_regs.cwelem_idx)
      = 500 := by decide
  have hH : spec_mean (spec_dahs mixed_marks_regs.cw_timing_buf mixed_marks_regs.cwelem_idx)
      = 1500 := by decide
  obtain ⟨-, t, -, -, -, -, c, st', h1, h2, h3, h4⟩ :=
    sk_mixed_threshold mixed_marks_regs rfl rfl (by decide) (by decide) hb hs (by decide)
      (by decide)
  rw [hD] at h2
  rw [hH] at h3
  rw [hD, hH] at h4
  exact ⟨⟨hb, hs⟩, hD, hH, c, st', h1, h2, h3, h4.trans (by decide)⟩

/-- The shape of the timing analysis of a letter with at least one mark: the
start index is 0 or 1 and lies inside the letter, and the marks of the letter
are those from the start index on. -/
theorem sk_timing_shape (st : State) (e : Nat) (t : SkTiming) (he0 : 0 < e)
    (he : e < CW_BUFF_END) (hne : spec_marks st.cw_timing_buf e ≠ [])
    (ht : sk_timing st e = some t) :
    t.s ≤ 1 ∧ t.s < e ∧ t.e = (if t.s = 1 ∧ e = 2 then 1 else e) ∧
    spec_marks st.cw_timing_buf e = marks_of st.cw_timing_buf (List.range' t.s (e - t.s)) ∧
    t.regs.cw_timing_buf = st.cw_timing_buf ∧ t.xx = spec_max_mark st.cw_timing_buf e := by
  rw [CW_BUFF_END_eq] at he
  obtain ⟨a, hscan, hxx, -, hs⟩ := sk_scan_result st.cw_timing_buf e he0 (by omega)
  have hs1 : a.s ≤ 1 := by rcases hs with ⟨h, -⟩ | ⟨h, -⟩ <;> omega
  have hfrom := spec_marks_from st.cw_timing_buf e a.s he0 hs
  have hse : a.s < e := by
    rcases hs with ⟨h, -⟩ | ⟨h, hsp⟩
    · omega
    · by_contra hc
      have he1 : e = 1 := by omega
      apply hne
      rw [hfrom, h, he1]
      rfl
  have hsum := sk_sum_visits st.cw_timing_buf a.xx e a.s ⟨0, 0, 0, 0⟩ hs1 hse (by omega)
  obtain ⟨t2, ht2, t1, t2e, -, t4, -, -, -, -, t9, -⟩ := sk_timing_fields st e a _ hscan hsum
  have heq : t2 = t := Option.some.inj (ht2.symm.trans ht)
  subst heq
  exact ⟨by rw [t1]; exact hs1, by rw [t1]; exact hse, by rw [t2e, t1], by rw [t1]; exact hfrom,
    t9, t4.trans hxx⟩

/-- Bit `i` of the element word of a letter is set exactly when the mark `i`
places from the end lasts at least the threshold. -/
theorem spec_bits_testBit (T : Nat) (ms : List Nat) :
    ∀ i, i < ms.length →
      (elements_value (ms.map (fun m => if m ≥ T then 1 else 0))).testBit i =
        decide (ms.reverse.getD i 0 ≥ T) := by
  induction ms using List.reverseRecOn with
  | nil => intro i hi; exact absurd hi (Nat.not_lt_zero _)
  | append_singleton l a ih =>
    intro i hi
    have ev : elements_value ((l ++ [a]).map (fun m => if m ≥ T then 1 else 0)) =
        2 * elements_value (l.map (fun m => if m ≥ T then 1 else 0)) +
          (if a ≥ T then 1 else 0) := by
      simp only [elements_value, List.map_append, List.map_cons, List.map_nil,
        List.foldl_append, List.foldl_cons, List.foldl_nil]
    rw [ev, List.reverse_append, List.reverse_singleton, List.singleton_append]
    cases i with
    | zero =>
      rw [Nat.testBit_zero, List.getD_cons_zero]
      by_cases hg : a ≥ T
      · rw [if_pos hg]
        have : (2 * elements_value (l.map (fun m => if m ≥ T then 1 else 0)) + 1) % 2 = 1 := by
          omega
        simp only [this, hg, decide_True]
      · rw [if_neg hg]
        have : (2 * elements_value (l.map (fun m => if m ≥ T then 1 else 0)) + 0) % 2 = 0 := by
          omega
        simp only [this, hg, decide_False]
        decide
    | succ j =>
      rw [Nat.testBit_succ, List.getD_cons_succ]
      have e3 : (2 * elements_value (l.map (fun m => if m ≥ T then 1 else 0)) +
          (if a ≥ T then 1 else 0)) / 2 =
          elements_value (l.map (fun m => if m ≥ T then 1 else 0)) := by
        split_ifs <;> omega
      rw [e3]
      apply ih
      rw [List.length_append, List.length_singleton] at hi
      omega

/-- The element word and length the third loop builds for a letter of one to
sixteen marks. -/
theorem sk_build_spec (buf : Nat → Nat) (e s T : Nat) (hs : s ≤ 1) (hse : s < e)
    (he : e ≤ 254) (hfrom : spec_marks buf e = marks_of buf (List.range' s (e - s)))
    (hn : (spec_marks buf e).length ≤ 16) :
    sk_build buf T (if s = 1 ∧ e = 2 then 1 else e) 256 s (0, 0) =
      some (elements_value (spec_bits buf e T), (spec_marks buf e).length) := by
  rw [sk_build_visits buf T e s (0, 0) hs hse he]
  obtain ⟨r1, r2⟩ := sk_build_fold buf T (List.range' s (e - s)) (0, 0) 0 rfl (by decide)
    (by rw [← hfrom]; omega)
  rw [← hfrom, Nat.zero_add] at r1
  rw [← hfrom] at r2
  have r3 : (List.foldl (fun r i => sk_build_body buf T i r) (0, 0)
      (List.range' s (e - s))).1 = elements_value (spec_bits buf e T) := r2
  rw [← r1, ← r3]

theorem foldl_bits_lt : ∀ (bs : List Nat) (w k : Nat), (∀ b ∈ bs, b ≤ 1) → w < 2 ^ k →
    bs.foldl (fun w b => 2 * w + b) w < 2 ^ (k + bs.length) := by
  intro bs
  induction bs with
  | nil => intro w k _ h; exact h
  | cons b rest ih =>
    intro w k hb hw
    have h1 := hb b (List.mem_cons_self _ _)
    have hp : (2 : Nat) ^ (k + 1) = 2 * 2 ^ k := by rw [Nat.pow_succ]; omega
    have h2 := ih (2 * w + b) (k + 1) (fun x hx => hb x (List.mem_cons_of_mem _ hx))
      (by rw [hp]; omega)
    rw [List.foldl_cons, List.length_cons]
    have e : k + (rest.length + 1) = k + 1 + rest.length := by omega
    rw [e]
    exact h2

/-- The value of `n` element bits is below `2 ^ n`. -/
theorem elements_value_lt (bs : List Nat) (hb : ∀ b ∈ bs, b ≤ 1) :
    elements_value bs < 2 ^ bs.length := by
  have h := foldl_bits_lt bs 0 0 hb (by decide)
  rw [Nat.zero_add] at h
  exact h

/-- C30: in straight-key mode with no auto-space pending, when `get_cw_asc`
accepts the letter in the timing buffer (the timing analysis returns and the
range test passes with threshold `T`) and the letter has between one and sixteen
marks: the (pattern, length) pair the third loop builds has length equal to the
number of marks in the buffer and one pattern bit per mark in buffer order
(first mark most significant, last mark at bit 0), the bit being 1 exactly when
that mark's duration is at least `T`; the call returns `CWSTT` for the
auto-space toggle pair and `decode_elem pattern length` otherwise, and resets
`cwelem_idx` and `letter_complete`. -/
theorem sk_pattern_build (st : State) (t : SkTiming) (T : Nat) (st1 : State)
    (hsk : st.paddle_key_mode = 0) (hasp : st.aspace = 0)
    (he0 : 0 < st.cwelem_idx) (he : st.cwelem_idx < CW_BUFF_END)
    (ht : sk_timing st st.cwelem_idx = some t) (hth : sk_threshold t = some (T, st1))
    (hn1 : 1 ≤ (spec_marks st.cw_timing_buf st.cwelem_idx).length)
    (hn16 : (spec_marks st.cw_timing_buf st.cwelem_idx).length ≤ 16) :
    sk_build st1.cw_timing_buf T t.e 256 t.s (0, 0) =
      some (elements_value (spec_bits st.cw_timing_buf st.cwelem_idx T),
        (spec_marks st.cw_timing_buf st.cwelem_idx).length) ∧
    elements_value (spec_bits st.cw_timing_buf st.cwelem_idx T) <
      2 ^ (spec_marks st.cw_timing_buf st.cwelem_idx).length ∧
    (∀ i, i < (spec_marks st.cw_timing_buf st.cwelem_idx).length →
      (elements_value (spec_bits st.cw_timing_buf st.cwelem_idx T)).testBit i =
        decide ((spec_marks st.cw_timing_buf st.cwelem_idx).reverse.getD i 0 ≥ T)) ∧
    ∃ c st', get_cw_asc st = some (c, st') ∧
      ((elements_value (spec_bits st.cw_timing_buf st.cwelem_idx T) = CWSTT_E ∧
          (spec_marks st.cw_timing_buf st.cwelem_idx).length = CWSTT_L) → c = CWSTT) ∧
      (¬ (elements_value (spec_bits st.cw_timing_buf st.cwelem_idx T) = CWSTT_E ∧
          (spec_marks st.cw_timing_buf st.cwelem_idx).length = CWSTT_L) →
        decode_elem (elements_value (spec_bits st.cw_timing_buf st.cwelem_idx T))
          (spec_marks st.cw_timing_buf st.cwelem_idx).length = some c) ∧
      st'.cwelem_idx = 0 ∧ st'.letter_complete = 0 := by
  have hne : spec_marks st.cw_timing_buf st.cwelem_idx ≠ [] := by
    intro h
    rw [h] at hn1
    exact absurd hn1 (by decide)
  obtain ⟨s1, s2, s3, s4, s5, -⟩ := sk_timing_shape st st.cwelem_idx t he0 he hne ht
  have hst1 : st1 = t.regs := sk_threshold_no_reset t T st1 hth
  subst hst1
  have h40 : CW_BUFF_END = 40 := rfl
  have hb : sk_build t.regs.cw_timing_buf T t.e 256 t.s (0, 0) =
      some (elements_value (spec_bits st.cw_timing_buf st.cwelem_idx T),
        (spec_marks st.cw_timing_buf st.cwelem_idx).length) := by
    rw [s5, s3]
    exact sk_build_spec st.cw_timing_buf st.cwelem_idx t.s T s1 s2 (by rw [h40] at he; omega)
      s4 hn16
  obtain ⟨c, st', hl, l1, l2, l3, l4, -⟩ := sk_letter_result st st.cwelem_idx T _ _ t ht hth hb
  have hlt : elements_value (spec_bits st.cw_timing_buf st.cwelem_idx T) <
      2 ^ (spec_marks st.cw_timing_buf st.cwelem_idx).length := by
    have h := elements_value_lt (spec_bits st.cw_timing_buf st.cwelem_idx T)
      (by
        intro x hx
        obtain ⟨m, -, hm⟩ := List.mem_map.mp hx
        rw [← hm]
        split_ifs <;> omega)
    rw [spec_bits, List.length_map] at h
    exact h
  refine ⟨hb, hlt, spec_bits_testBit T _, c, st', ?_, fun h => (l1 h).1, fun h => (l2 h).1,
    l3, l4⟩
  rw [get_cw_asc_sk st hsk hasp he0 he]
  exact hl

set_option maxRecDepth 100000 in
/-- Witness of C30: the letter N keyed as a mark of 1500 ticks and a mark of 500
ticks is accepted with threshold 1000; the pattern is binary 10 with length 2
and the call returns `N` (78) with the element index reset. -/
theorem sk_pattern_build_witness :
    (1 ≤ (spec_marks mixed_marks_regs.cw_timing_buf mixed_marks_regs.cwelem_idx).length ∧
      (spec_marks mixed_marks_regs.cw_timing_buf mixed_marks_regs.cwelem_idx).length ≤ 16) ∧
    spec_marks mixed_marks_regs.cw_timing_buf mixed_marks_regs.cwelem_idx = [1500, 500] ∧
    elements_value (spec_bits mixed_marks_regs.cw_timing_buf mixed_marks_regs.cwelem_idx 1000)
      = 2 ∧
    ∃ st', get_cw_asc mixed_marks_regs = some (78, st') ∧ st'.cwelem_idx = 0 ∧
      st'.letter_complete = 0 := by
  have hb : ∀ m ∈ spec_marks mixed_marks_regs.cw_timing_buf mixed_marks_regs.cwelem_idx,
      DIT_SK_MIN < m ∧ m < DAH_SK_MAX := by decide
  have hs : ∃ m ∈ spec_marks mixed_marks_regs.cw_timing_buf mixed_marks_regs.cwelem_idx,
      spec_max_mark mixed_marks_regs.cw_timing_buf mixed_marks_regs.cwelem_idx / m ≥ 2 := by
    decide
  have hD : spec_mean (spec_dits mixed_marks_regs.cw_timing_buf mixed_marks_regs.cwelem_idx)
      = 500 := by decide
  have hH : spec_mean (spec_dahs mixed_marks_regs.cw_timing_buf mixed_marks_regs.cwelem_idx)
      = 1500 := by decide
  have hn1 : 1 ≤ (spec_marks mixed_marks_regs.cw_timing_buf
      mixed_marks_regs.cwelem_idx).length := by decide
  have hn16 : (spec_marks mixed_marks_regs.cw_timing_buf
      mixed_marks_regs.cwelem_idx).length ≤ 16 := by decide
  have hm : spec_marks mixed_marks_regs.cw_timing_buf mixed_marks_regs.cwelem_idx
      = [1500, 500] := by decide
  have hv : elements_value
      (spec_bits mixed_marks_regs.cw_timing_buf mixed_marks_regs.cwelem_idx 1000) = 2 := by
    decide
  obtain ⟨t, ht, hth, -⟩ := sk_mixed_core mixed_marks_regs rfl rfl (by decide) (by decide) hb hs
    (by decide) (by decide)
  rw [hD, hH] at hth
  have hth2 : sk_threshold t = some (1000, t.regs) := hth
  obtain ⟨-, -, -, c, st', h1, -, h3, h4, h5⟩ :=
    sk_pattern_build mixed_marks_regs t 1000 t.regs rfl rfl (by decide) (by decide) ht hth2
      hn1 hn16
  have hdec : decode_elem (elements_value
      (spec_bits mixed_marks_regs.cw_timing_buf mixed_marks_regs.cwelem_idx 1000))
      (spec_marks mixed_marks_regs.cw_timing_buf mixed_marks_regs.cwelem_idx).length
      = some 78 := by decide
  have hnt : ¬ (elements_value
      (spec_bits mixed_marks_regs.cw_timing_buf mixed_marks_regs.cwelem_idx 1000) = CWSTT_E ∧
      (spec_marks mixed_marks_regs.cw_timing_buf mixed_marks_regs.cwelem_idx).length
        = CWSTT_L) := by decide
  have hc : c = 78 := Option.some.inj ((h3 hnt).symm.trans hdec)
  rw [hc] at h1
  exact ⟨⟨hn1, hn16⟩, hm, hv, st', h1, h4, h5⟩

/-! ## Theorems: the look-up tables -/

/-- The scan of `lookup_elem` returns: it stops at the first index holding the
character, or at the end of the table; the 8-bit index never wraps. -/
theorem lookup_scan_spec (c : Nat) :
    ∀ fuel i, i ≤ sizeof_len_map → sizeof_len_map - i < fuel →
      ∃ k, lookup_scan c fuel i = some k ∧ i ≤ k ∧ k ≤ sizeof_len_map ∧
        (k < sizeof_len_map → text_at k = c) := by
  intro fuel
  induction fuel with
  | zero => intro i _ h; omega
  | succ n ih =>
    intro i hi hf
    have h115 : sizeof_len_map = 115 := sizeof_len_map_eq
    by_cases hc : text_at i ≠ c ∧ i < sizeof_len_map
    · have hmod : (i + 1) % 256 = i + 1 := by omega
      obtain ⟨k, h1, h2, h3, h4⟩ := ih (i + 1) (by omega) (by omega)
      refine ⟨k, ?_, by omega, h3, h4⟩
      simp only [lookup_scan, hc.1, hc.2, ne_eq, not_false_eq_true, and_self, if_true, hmod, h1]
    · refine ⟨i, ?_, le_refl _, hi, ?_⟩
      · simp only [lookup_scan, hc, if_false]
      · intro hlt
        by_contra hne
        exact hc ⟨hne, hlt⟩

/-- The index `lookup_elem` returns is inside the table, or `0xff` for no
match. -/
theorem lookup_elem_range (c : Nat) :
    ∃ i, lookup_elem c = some i ∧ ((i < sizeof_len_map ∧ text_at i = c) ∨ i = 0xff) := by
  have h115 : sizeof_len_map = 115 := sizeof_len_map_eq
  obtain ⟨k, h1, -, h3, h4⟩ := lookup_scan_spec c 256 0 (Nat.zero_le _) (by omega)
  by_cases hk : k = sizeof_len_map
  · exact ⟨0xff, by simp only [lookup_elem, h1, hk, if_true], Or.inr rfl⟩
  · have hlt : k < sizeof_len_map := by omega
    exact ⟨k, by simp only [lookup_elem, h1, hk, if_false], Or.inl ⟨hlt, h4 hlt⟩⟩

set_option maxRecDepth 100000 in
theorem lut_entries_ok : ∀ i, i < sizeof_len_map → i ≠ 0 →
    1 ≤ len_at i ∧ len_at i ≤ 16 ∧ elem_at i < 2 ^ len_at i := by
  decide

set_option maxRecDepth 100000 in
/-- C38: the three look-up tables have the same number of entries, 115, which
`sizeof_len_map` returns and which is below `0xff`, so the 8-bit scan index of
`lookup_elem` and `decode_elem` never wraps and `0xff` is never a valid index;
entry 0 is the word-space entry, and every other entry `i` has
`1 <= cw_len_map[i] <= 16` and `cw_elem_map[i] < 2 ^ cw_len_map[i]`. -/
theorem lut_well_formed (i c elem len : Nat) (hi : i < sizeof_len_map) (h0 : i ≠ 0) :
    (cw_elem_map.length = 115 ∧ cw_len_map.length = 115 ∧ cw_text_map.length = 115 ∧
      sizeof_len_map = 115 ∧ sizeof_len_map < 0xff) ∧
    (elem_at 0 = SPACE_ELEM ∧ len_at 0 = SPACE_COUNT ∧ text_at 0 = 32) ∧
    (1 ≤ len_at i ∧ len_at i ≤ 16 ∧ elem_at i < 2 ^ len_at i) ∧
    (∃ k, lookup_elem c = some k ∧ ((k < sizeof_len_map ∧ text_at k = c) ∨ k = 0xff)) ∧
    (∃ k, decode_scan elem len 256 0 = some k ∧ k ≤ sizeof_len_map ∧
      (k < sizeof_len_map → elem_at k = elem ∧ len_at k = len)) := by
  obtain ⟨k, d1, -, d3, d4, -⟩ := decode_scan_spec elem len 256 0 (Nat.zero_le _)
    (by rw [sizeof_len_map_eq]; omega)
  exact ⟨⟨by decide, by decide, by decide, by decide, by decide⟩,
    ⟨by decide, by decide, by decide⟩, lut_entries_ok i hi h0, lookup_elem_range c,
    k, d1, d3, d4⟩

set_option maxRecDepth 100000 in
theorem lut_well_formed_witness :
    (1 < sizeof_len_map ∧ (1 : Nat) ≠ 0) ∧
    (1 ≤ len_at 1 ∧ len_at 1 ≤ 16 ∧ elem_at 1 < 2 ^ len_at 1) ∧
    ∃ k, lookup_elem 69 = some k ∧ ((k < sizeof_len_map ∧ text_at k = 69) ∨ k = 0xff) :=
  have h := lut_well_formed 1 69 0 0 (by decide) (by decide)
  ⟨⟨by decide, by decide⟩, h.2.2.1, h.2.2.2.1⟩

/-! ## Theorems: the DDS phase accumulator -/

theorem dds_phase_eq (acc : Nat) : dds_phase acc = (acc / 4) % 8192 := by
  have h1 : PHMASK = 2 ^ 13 - 1 := by decide
  have h2 : RSHIFT = 2 := rfl
  rw [dds_phase, h1, h2, Nat.and_pow_two_sub_one_eq_mod, Nat.shiftRight_eq_div_pow]

theorem dds_phase_wrap (a d : Nat) :
    dds_phase ((a + d) % 65536) = ((a % 32768 + d) % 32768) >>> 2 := by
  rw [dds_phase_eq, Nat.shiftRight_eq_div_pow]
  show (a + d) % 65536 / 4 % 8192 = (a % 32768 + d) % 32768 / 4
  omega

/-- C40: the 16-bit wrap of a DDS phase accumulator is seamless.  For every
accumulator value `a` and delta-phase `d`, the table phase
`(((a + d) mod 2^16) >> RSHIFT) & PHMASK` that `Timer3A_ISR` and `Timer3B_ISR`
form equals `(((a mod 2^15) + d) mod 2^15) >> 2`; the phase therefore depends
only on the accumulator modulo `RADIX * N_SIN` = 32768, and the sample written
to the PWM register is the one for that phase. -/
theorem dds_wrap_seamless (SINE : Nat → Int) (a b d : Nat) (s : State)
    (hab : a % (RADIX * N_SIN) = b % (RADIX * N_SIN)) :
    RADIX * N_SIN = 32768 ∧
    dds_phase ((a + d) % 65536) = ((a % 32768 + d) % 32768) >>> 2 ∧
    dds_phase ((a + d) % 65536) = dds_phase ((b + d) % 65536) ∧
    (a_dds SINE s).phaccum1 = (s.phaccum1 + s.delph1) % 65536 ∧
    (a_dds SINE s).TIMER3_TAMATCHR_R =
      dds_sample SINE (((s.phaccum1 % 32768 + s.delph1) % 32768) >>> 2) s.rampup s.rampdn ∧
    (b_tone SINE s).phaccum2 = (s.phaccum2 + s.delph2) % 65536 ∧
    (b_tone SINE s).TIMER3_TBMATCHR_R =
      dds_sample SINE (((s.phaccum2 % 32768 + s.delph2) % 32768) >>> 2) s.rampupb
        (if s.toneb_timer = 0 then RAMP_MAX else s.rampdnb) := by
  have h32 : RADIX * N_SIN = 32768 := by decide
  rw [h32] at hab
  have e2 := dds_phase_wrap s.phaccum2 s.delph2
  rw [dds_phase] at e2
  refine ⟨h32, dds_phase_wrap a d, ?_, rfl, ?_, ?_, ?_⟩
  · rw [dds_phase_wrap, dds_phase_wrap, hab]
  · have e := dds_phase_wrap s.phaccum1 s.delph1
    rw [dds_phase] at e
    simp only [a_dds, e]
  · by_cases ht : s.toneb_timer = 0 <;>
      simp only [b_tone, ht, if_true, if_false, apply_ite State.phaccum2, ite_self]
  · by_cases ht : s.toneb_timer = 0 <;>
      simp only [b_tone, ht, if_true, if_false, apply_ite State.TIMER3_TBMATCHR_R, ite_self, e2]

theorem dds_wrap_seamless_witness :
    65535 % (RADIX * N_SIN) = 32767 % (RADIX * N_SIN) ∧
    dds_phase ((65535 + 4) % 65536) = 0 ∧
    dds_phase ((65535 + 4) % 65536) = dds_phase ((32767 + 4) % 65536) :=
  have h := dds_wrap_seamless (fun _ => 0) 65535 32767 4 zero_regs (by decide)
  ⟨by decide, h.2.1.trans (by decide), h.2.2.1⟩

/-! ## Theorems: a full element ring buffer reads as empty -/

theorem cw_push_mode (elem len : Nat) (s : State) :
    (cw_push elem len s).paddle_key_mode = s.paddle_key_mode := by
  simp only [cw_push, apply_ite State.paddle_key_mode, ite_self]

theorem push_all_mode : ∀ (es : List (Nat × Nat)) (s : State),
    (push_all es s).paddle_key_mode = s.paddle_key_mode := by
  intro es
  induction es with
  | nil => intro s; rfl
  | cons e rest ih =>
    intro s
    obtain ⟨elem, len⟩ := e
    rw [push_all, ih, cw_push_mode]

/-- Pushes leave alone every slot they do not reach. -/
theorem push_all_frame : ∀ (es : List (Nat × Nat)) (s : State) (i : Nat),
    s.cw_head < CW_BUFF_END → (∀ j, j < es.length → (s.cw_head + j) % CW_BUFF_END ≠ i) →
    (push_all es s).cw_elem_buf i = s.cw_elem_buf i ∧
    (push_all es s).cw_len_buf i = s.cw_len_buf i := by
  intro es
  induction es with
  | nil => intro s i _ _; exact ⟨rfl, rfl⟩
  | cons e rest ih =>
    intro s i hh hj
    obtain ⟨elem, len⟩ := e
    obtain ⟨p1, p2, p3, -, -⟩ := cw_push_spec elem len s hh
    have h40 : CW_BUFF_END = 40 := rfl
    have hi0 : s.cw_head ≠ i := by
      have := hj 0 (by rw [List.length_cons]; omega)
      rw [Nat.add_zero, Nat.mod_eq_of_lt hh] at this
      exact this
    obtain ⟨r1, r2⟩ := ih (cw_push elem len s) i (by rw [p3]; exact Nat.mod_lt _ (by decide))
      (by
        intro j hjl
        have := hj (j + 1) (by rw [List.length_cons]; omega)
        rw [p3]
        rw [h40] at this ⊢
        omega)
    rw [push_all, r1, r2, p1, p2]
    simp only [wr, if_neg (Ne.symm hi0), and_self]

/-- Up to `CW_BUFF_END` pushes with no read in between are all in the buffer
afterwards, in order from the old head. -/
theorem push_all_contents : ∀ (es : List (Nat × Nat)) (s : State),
    s.cw_head < CW_BUFF_END → es.length ≤ CW_BUFF_END → ∀ k, k < es.length →
    (push_all es s).cw_elem_buf ((s.cw_head + k) % CW_BUFF_END) = (es.getD k (0, 0)).1 ∧
    (push_all es s).cw_len_buf ((s.cw_head + k) % CW_BUFF_END) = (es.getD k (0, 0)).2 := by
  intro es
  induction es with
  | nil => intro s _ _ k hk; exact absurd hk (Nat.not_lt_zero _)
  | cons e rest ih =>
    intro s hh hlen k hk
    obtain ⟨elem, len⟩ := e
    obtain ⟨p1, p2, p3, -, -⟩ := cw_push_spec elem len s hh
    have h40 : CW_BUFF_END = 40 := rfl
    rw [List.length_cons] at hlen hk
    have hh2 : (cw_push elem len s).cw_head < CW_BUFF_END := by
      rw [p3]; exact Nat.mod_lt _ (by decide)
    cases k with
    | zero =>
      obtain ⟨r1, r2⟩ := push_all_frame rest (cw_push elem len s) s.cw_head hh2
        (by
          intro j hj
          rw [p3]
          rw [h40] at hh hlen ⊢
          omega)
      rw [push_all, Nat.add_zero, Nat.mod_eq_of_lt hh, r1, r2, p1, p2, List.getD_cons_zero]
      simp only [wr, if_true, and_self]
    | succ j =>
      obtain ⟨r1, r2⟩ := ih (cw_push elem len s) hh2 (by omega) j (by omega)
      have e : ((cw_push elem len s).cw_head + j) % CW_BUFF_END =
          (s.cw_head + (j + 1)) % CW_BUFF_END := by
        rw [p3]
        rw [h40]
        omega
      rw [e] at r1 r2
      rw [push_all, List.getD_cons_succ]
      exact ⟨r1, r2⟩

/-- Reading an empty paddle buffer any number of times returns nulls and
changes nothing. -/
theorem drain_empty (t : State) (hpdl : t.paddle_key_mode ≠ 0) (he : t.cw_tail = t.cw_head) :
    ∀ n, drain n t = some (List.replicate n 0, t) := by
  intro n
  induction n with
  | zero => rfl
  | succ k ih =>
    simp only [drain, get_cw_asc_paddle_empty t hpdl he, ih, List.replicate_succ]

/-- C36: after exactly `CW_BUFF_END` (40) pushes into an empty element ring
buffer with no read in between, `cw_head` equals `cw_tail` again: all 40 entries
are in the buffer, the overrun flag is set, `get_cwdr` returns FALSE, and
`get_cw_asc` returns null without consuming anything, however often it is
called; the consumer sees an empty buffer. -/
theorem ring_full_reads_empty (s : State) (es : List (Nat × Nat)) (k : Nat)
    (hpdl : s.paddle_key_mode ≠ 0) (hh : s.cw_head < CW_BUFF_END)
    (hempty : s.cw_tail = s.cw_head) (hlen : es.length = CW_BUFF_END) (hk : k < CW_BUFF_END) :
    (push_all es s).cw_head = (push_all es s).cw_tail ∧
    (push_all es s).cw_tail = s.cw_tail ∧
    ((push_all es s).cw_elem_buf ((s.cw_head + k) % CW_BUFF_END) = (es.getD k (0, 0)).1 ∧
      (push_all es s).cw_len_buf ((s.cw_head + k) % CW_BUFF_END) = (es.getD k (0, 0)).2) ∧
    (push_all es s).cw_stat &&& CW_OR ≠ 0 ∧
    get_cwdr (push_all es s) = 0 ∧
    get_cw_asc (push_all es s) = some (0, push_all es s) ∧
    (∀ n, drain n (push_all es s) = some (List.replicate n 0, push_all es s)) := by
  have h40 : CW_BUFF_END = 40 := rfl
  obtain ⟨q1, q2, q3⟩ := push_all_spec es s 0 s.cw_head s.cw_stat hh hempty
    (by rw [Nat.add_zero, Nat.mod_eq_of_lt hh]) (by rw [if_neg (by decide)])
  have hhead : (push_all es s).cw_head = s.cw_head := by
    rw [q2, hlen, Nat.zero_add, Nat.add_mod_right, Nat.mod_eq_of_lt hh]
  have hmode : (push_all es s).paddle_key_mode ≠ 0 := by rw [push_all_mode]; exact hpdl
  have hte : (push_all es s).cw_tail = (push_all es s).cw_head := by rw [q1, hhead]
  refine ⟨hte.symm, q1.trans hempty.symm, push_all_contents es s hh (by rw [hlen]) k
    (by rw [hlen]; exact hk), ?_, ?_, get_cw_asc_paddle_empty _ hmode hte,
    drain_empty _ hmode hte⟩
  · rw [q3, hlen, Nat.zero_add, if_pos (le_refl _)]
    exact or_and_flag s.cw_stat CW_OR (by decide)
  · rw [get_cwdr_paddle _ hmode, if_pos hte.symm]

set_option maxRecDepth 100000 in
theorem ring_full_reads_empty_witness :
    (ring_regs.paddle_key_mode ≠ 0 ∧ (7 : Nat) < CW_BUFF_END) ∧
    (push_all (List.replicate 40 (5, 3)) { ring_regs with cw_tail := 3 }).cw_head = 3 ∧
    (push_all (List.replicate 40 (5, 3)) { ring_regs with cw_tail := 3 }).cw_elem_buf 10 = 5 ∧
    get_cwdr (push_all (List.replicate 40 (5, 3)) { ring_regs with cw_tail := 3 }) = 0 := by
  have h := ring_full_reads_empty { ring_regs with cw_tail := 3 } (List.replicate 40 (5, 3)) 7
    (show PADL_KEY ≠ 0 by decide) (show 3 < CW_BUFF_END by decide) rfl (by decide)
    (by decide)
  obtain ⟨h1, h2, ⟨h3, -⟩, -, h5, -⟩ := h
  exact ⟨⟨by decide, by decide⟩, h1.trans h2, h3.trans (by decide), h5⟩

/-! ## Theorems: the suppress flag in the paddle branch of `get_cw_asc` -/

theorem advance_tail_frame (st : State) :
    (advance_tail st).suppress_s = 0 ∧ (advance_tail st).cw_stat = st.cw_stat ∧
    (advance_tail st).cw_head = st.cw_head := by
  simp only [advance_tail, apply_ite State.suppress_s, apply_ite State.cw_stat,
    apply_ite State.cw_head, ite_self, and_self]

/-- A call of `get_cw_asc` in paddle mode on a non-empty buffer, by the entry at
the tail and the suppress flag. -/
theorem get_cw_asc_paddle_cases (st : State) (hpdl : st.paddle_key_mode ≠ 0)
    (hne : st.cw_tail ≠ st.cw_head) :
    (st.suppress_s ≠ 0 → st.cw_elem_buf st.cw_tail = SPACE_ELEM →
      get_cw_asc st = some (0, advance_tail st)) ∧
    (st.suppress_s = 0 → st.cw_elem_buf st.cw_tail = SPACE_ELEM →
      st.cw_len_buf st.cw_tail = SPACE_COUNT →
      get_cw_asc st = some (32, advance_tail { st with cw_stat := st.cw_stat ||| CW_STB })) ∧
    (∀ c st', get_cw_asc st = some (c, st') → st'.suppress_s = 0) := by
  refine ⟨?_, ?_, ?_⟩
  · intro h1 h2
    simp only [get_cw_asc, hpdl, if_false, hne, ne_eq, not_false_eq_true, if_true, paddle_char,
      h1, h2, and_self]
  · intro h1 h2 h3
    have hdec : decode_elem SPACE_ELEM SPACE_COUNT = some 32 := by decide
    simp only [get_cw_asc, hpdl, if_false, hne, ne_eq, not_false_eq_true, if_true, paddle_char,
      h1, h2, h3, not_true_eq_false, false_and, hdec]
  · intro c st' h
    obtain ⟨c2, x, hx, -⟩ := paddle_char_spec st
    simp only [get_cw_asc, hpdl, if_false, hne, ne_eq, not_false_eq_true, if_true, hx,
      Option.some.injEq, Prod.mk.injEq] at h
    rw [← h.2]
    exact (advance_tail_frame x).1

/-- C31: in paddle mode, with an entry in the element ring buffer.  When
`suppress_s` is set and the entry at the tail is the word-space marker,
`get_cw_asc` consumes the entry, returns null and leaves `cw_stat` alone, so the
beep flag `CW_STB` is not set; when `suppress_s` is clear the marker yields a
space and sets `CW_STB`; and every call that consumes an entry leaves
`suppress_s` cleared, so a set flag suppresses at most the one entry that
follows it. -/
theorem paddle_suppress_once (st : State) (hpdl : st.paddle_key_mode ≠ 0)
    (ht : st.cw_tail < CW_BUFF_END) (hne : st.cw_tail ≠ st.cw_head) :
    (st.suppress_s ≠ 0 → st.cw_elem_buf st.cw_tail = SPACE_ELEM →
      ∃ st', get_cw_asc st = some (0, st') ∧ st'.cw_tail = (st.cw_tail + 1) % CW_BUFF_END ∧
        st'.cw_stat = st.cw_stat ∧ st'.suppress_s = 0) ∧
    (st.suppress_s = 0 → st.cw_elem_buf st.cw_tail = SPACE_ELEM →
      st.cw_len_buf st.cw_tail = SPACE_COUNT →
      ∃ st', get_cw_asc st = some (32, st') ∧ st'.cw_tail = (st.cw_tail + 1) % CW_BUFF_END ∧
        st'.cw_stat = st.cw_stat ||| CW_STB ∧ st'.cw_stat &&& CW_STB ≠ 0 ∧
        st'.suppress_s = 0) ∧
    (∃ c st', get_cw_asc st = some (c, st') ∧ st'.cw_tail = (st.cw_tail + 1) % CW_BUFF_END ∧
      st'.suppress_s = 0) := by
  obtain ⟨k1, k2, k3⟩ := get_cw_asc_paddle_cases st hpdl hne
  refine ⟨?_, ?_, ?_⟩
  · intro h1 h2
    obtain ⟨f1, f2, -⟩ := advance_tail_frame st
    exact ⟨_, k1 h1 h2, (advance_tail_spec st ht).1, f2, f1⟩
  · intro h1 h2 h3
    obtain ⟨f1, f2, -⟩ := advance_tail_frame { st with cw_stat := st.cw_stat ||| CW_STB }
    refine ⟨_, k2 h1 h2 h3,
      (advance_tail_spec { st with cw_stat := st.cw_stat ||| CW_STB } ht).1, f2, ?_, f1⟩
    rw [f2]
    exact or_and_flag st.cw_stat CW_STB (by decide)
  · obtain ⟨c, st', h1, h2, -⟩ := get_cw_asc_paddle_step st hpdl ht hne
    exact ⟨c, st', h1, h2, k3 c st' h1⟩

set_option maxRecDepth 100000 in
theorem paddle_suppress_once_witness :
    ((marker_regs 1).paddle_key_mode ≠ 0 ∧ (marker_regs 1).cw_tail < CW_BUFF_END ∧
      (marker_regs 1).cw_tail ≠ (marker_regs 1).cw_head ∧ (marker_regs 1).suppress_s ≠ 0 ∧
      (marker_regs 1).cw_elem_buf (marker_regs 1).cw_tail = SPACE_ELEM) ∧
    (∃ st', get_cw_asc (marker_regs 1) = some (0, st') ∧ st'.cw_tail = 1 ∧ st'.cw_stat = 0 ∧
      st'.suppress_s = 0) ∧
    (∃ st', get_cw_asc (marker_regs 0) = some (32, st') ∧ st'.cw_tail = 1 ∧
      st'.cw_stat = CW_STB ∧ st'.suppress_s = 0) := by
  have ha := (paddle_suppress_once (marker_regs 1) (show PADL_KEY ≠ 0 by decide)
    (show 0 < CW_BUFF_END by decide) (show (0 : Nat) ≠ 1 by decide)).1
    (show (1 : Nat) ≠ 0 by decide) (by decide)
  have hb := (paddle_suppress_once (marker_regs 0) (show PADL_KEY ≠ 0 by decide)
    (show 0 < CW_BUFF_END by decide) (show (0 : Nat) ≠ 1 by decide)).2.1 rfl (by decide)
    (by decide)
  obtain ⟨x, a1, a2, a3, a4⟩ := ha
  obtain ⟨y, b1, b2, b3, -, b5⟩ := hb
  exact ⟨⟨by decide, by decide, by decide, by decide, by decide⟩, ⟨x, a1, a2, a3, a4⟩,
    ⟨y, b1, b2, b3, b5⟩⟩

/-! ## Theorems: `get_cw_asc` returns, and what it returns and changes -/

set_option maxRecDepth 100000 in
/-- Every entry of the text table is a member of the table. -/
theorem text_at_mem : ∀ i, i < sizeof_len_map → text_at i ∈ cw_text_map := by decide

/-- The function `decode_elem` returns null or a character of the text table. -/
theorem decode_elem_range (elem len : Nat) :
    ∃ c, decode_elem elem len = some c ∧ (c = 0 ∨ c ∈ cw_text_map) := by
  obtain ⟨k, hk, -, hle, -, -⟩ := decode_scan_spec elem len 256 0 (Nat.zero_le _)
    (by rw [sizeof_len_map_eq]; omega)
  refine ⟨_, decode_elem_of_scan elem len k hk, ?_⟩
  by_cases hks : k = sizeof_len_map
  · left; rw [if_pos hks]
  · right; rw [if_neg hks]; exact text_at_mem k (by omega)

/-- The timing analysis returns, with a start index of 0 or 1 and an end index
between 1 and the letter's end; it changes the three running averages only. -/
theorem sk_timing_ends (st : State) (e : Nat) (he0 : 0 < e) (he : e < CW_BUFF_END) :
    ∃ t, sk_timing st e = some t ∧ t.s ≤ 1 ∧ 1 ≤ t.e ∧ t.e ≤ e ∧
      t.regs = { st with spc_ave := t.regs.spc_ave, dit_ave := t.regs.dit_ave,
                         dah_ave := t.regs.dah_ave } := by
  rw [CW_BUFF_END_eq] at he
  obtain ⟨a, hscan, -, hs⟩ := sk_scan_bound st.cw_timing_buf e (by omega) 256 0
    ⟨0, 0, 0, 0, 0xffffffff, 0⟩ he0 (by omega)
    ⟨fun j hj _ => absurd hj (Nat.not_lt_zero _), Nat.zero_le _⟩
  have he2 : (if a.s = 1 ∧ e = 2 then 1 else e) ≤ 254 := by split_ifs <;> omega
  have hse : a.s ≤ (if a.s = 1 ∧ e = 2 then 1 else e) := by split_ifs <;> omega
  obtain ⟨b, hsum⟩ := sk_sum_total st.cw_timing_buf a.xx _ he2 256 a.s ⟨0, 0, 0, 0⟩ hse
    (by omega)
  obtain ⟨t, h1, -, -, h4⟩ := sk_timing_frame st e a b hscan hsum
  obtain ⟨t2, g1, g2, g3, -⟩ := sk_timing_fields st e a b hscan hsum
  have heq : t2 = t := Option.some.inj (g1.symm.trans h1)
  subst heq
  refine ⟨t2, h1, by omega, ?_, ?_, h4⟩
  · rw [g3]; split_ifs <;> omega
  · rw [g3]; split_ifs <;> omega

/-- The threshold step changes the three running averages only. -/
theorem sk_threshold_frame (t : SkTiming) (ii : Nat) (st1 : State)
    (h : sk_threshold t = some (ii, st1)) :
    st1 = { t.regs with spc_ave := st1.spc_ave, dit_ave := st1.dit_ave,
                        dah_ave := st1.dah_ave } := by
  unfold sk_threshold at h
  by_cases h1 : t.xx < DAH_SK_MAX ∧ t.mm > DIT_SK_MIN
  · rw [if_pos h1] at h
    by_cases h2 : t.xx > DAH_SK_MAX <<< 1
    · simp only [h2, if_true, Option.some.injEq, Prod.mk.injEq] at h
      rw [← h.2]
    · simp only [h2, if_false, Option.some.injEq, Prod.mk.injEq] at h
      rw [← h.2]
  · rw [if_neg h1] at h
    exact absurd h (by simp)

/-- The letter/word space registers as `get_cw_asc` sets them from a
threshold: both are the same dit time, between `DIT_MAX` and `DIT_MIN`, times
`LETTER_SK` and `WORD_SK`. -/
theorem sk_space_bracket (ii : Nat) :
    ∃ d, DIT_MAX ≤ d ∧ d ≤ DIT_MIN ∧
      (if ii < DIT_MAX then LETTER_MAX
        else if ii > DIT_MIN then LETTER_MIN else (LETTER_SK * ii) % 4294967296) =
        LETTER_SK * d ∧
      (if ii < DIT_MAX then WORD_MAX
        else if ii > DIT_MIN then WORD_MIN else (WORD_SK * ii) % 4294967296) = WORD_SK * d := by
  have h1 : DIT_MAX = 600 := by decide
  have h2 : DIT_MIN = 1200 := by decide
  have h3 : LETTER_MAX = LETTER_SK * 600 := by decide
  have h4 : LETTER_MIN = LETTER_SK * 1200 := by decide
  have h5 : WORD_MAX = WORD_SK * 600 := by decide
  have h6 : WORD_MIN = WORD_SK * 1200 := by decide
  have h7 : LETTER_SK = 3 := rfl
  have h8 : WORD_SK = 14 := rfl
  rw [h1, h2]
  by_cases c1 : ii < 600
  · exact ⟨600, by omega, by omega, by rw [if_pos c1, h3], by rw [if_pos c1, h5]⟩
  · by_cases c2 : ii > 1200
    · exact ⟨1200, by omega, by omega, by rw [if_neg c1, if_pos c2, h4],
        by rw [if_neg c1, if_pos c2, h6]⟩
    · refine ⟨ii, by omega, by omega, ?_, ?_⟩
      · rw [if_neg c1, if_neg c2, h7]; omega
      · rw [if_neg c1, if_neg c2, h8]; omega

/-- A straight-key letter past the threshold step: the letter/word space
update, the pattern loop result `(ee, j)`, and the toggle test or the decode. -/
theorem sk_letter_general (st : State) (e ii ee j : Nat) (t : SkTiming) (st1 : State)
    (ht : sk_timing st e = some t) (hth : sk_threshold t = some (ii, st1))
    (hb : sk_build st1.cw_timing_buf ii t.e 256 t.s (0, 0) = some (ee, j)) :
    ∃ c st', sk_letter st e = some (c, st') ∧
      ((ee = CWSTT_E ∧ j = CWSTT_L) → c = CWSTT ∧ st'.suppress_s = 1 ∧
        st'.cw_stat = (if st1.cw_stat &&& CW_ST ≠ 0 then bic8 st1.cw_stat CW_ST
          else st1.cw_stat ||| CW_ST) ||| CW_STC) ∧
      (¬ (ee = CWSTT_E ∧ j = CWSTT_L) →
        decode_elem ee j = some c ∧ st'.suppress_s = 0 ∧ st'.cw_stat = st1.cw_stat) ∧
      st'.cwelem_idx = 0 ∧ st'.letter_complete = 0 ∧
      st'.letter_space = (if ii < DIT_MAX then LETTER_MAX
        else if ii > DIT_MIN then LETTER_MIN else (LETTER_SK * ii) % 4294967296) ∧
      st'.word_space = (if ii < DIT_MAX then WORD_MAX
        else if ii > DIT_MIN then WORD_MIN else (WORD_SK * ii) % 4294967296) ∧
      st' = { st1 with letter_space := st'.letter_space, word_space := st'.word_space,
                       cw_stat := st'.cw_stat, suppress_s := st'.suppress_s,
                       cwelem_idx := st'.cwelem_idx,
                       letter_complete := st'.letter_complete } := by
  by_cases htg : ee = CWSTT_E ∧ j = CWSTT_L
  · simp only [sk_letter, ht, hth, apply_ite State.cw_timing_buf, ite_self, hb, htg, and_self,
      if_true]
    refine ⟨_, _, rfl, fun _ => ⟨rfl, rfl, ?_⟩, fun h => absurd trivial h, rfl, rfl, ?_, ?_, ?_⟩
    · by_cases c0 : st1.cw_stat &&& CW_ST ≠ 0
      · by_cases c1 : ii < DIT_MAX
        · simp only [c0, c1, if_true, apply_ite State.cw_stat, ite_self]
        · by_cases c2 : ii > DIT_MIN
          · simp only [c0, c1, c2, if_true, if_false, apply_ite State.cw_stat, ite_self]
          · simp only [c0, c1, c2, if_true, if_false, apply_ite State.cw_stat, ite_self]
      · by_cases c1 : ii < DIT_MAX
        · simp only [c0, c1, if_true, if_false, apply_ite State.cw_stat, ite_self]
        · by_cases c2 : ii > DIT_MIN
          · simp only [c0, c1, c2, if_true, if_false, apply_ite State.cw_stat, ite_self]
          · simp only [c0, c1, c2, if_true, if_false, apply_ite State.cw_stat, ite_self]
    · simp only [apply_ite State.letter_space, ite_self]
    · simp only [apply_ite State.word_space, ite_self]
    · by_cases c0 : st1.cw_stat &&& CW_ST = 0 <;> by_cases c1 : ii < DIT_MAX <;>
        by_cases c2 : ii > DIT_MIN <;>
        simp only [c0, c1, c2, if_true, if_false, ne_eq, not_true_eq_false, not_false_eq_true]
  · obtain ⟨c, hc⟩ := decode_elem_total ee j
    simp only [sk_letter, ht, hth, apply_ite State.cw_timing_buf, ite_self, hb, htg, if_false, hc]
    refine ⟨_, _, rfl, fun h => h.elim, fun _ => ⟨rfl, rfl, ?_⟩, rfl, rfl, ?_, ?_, ?_⟩
    · simp only [apply_ite State.cw_stat, ite_self]
    · simp only [apply_ite State.letter_space, ite_self]
    · simp only [apply_ite State.word_space, ite_self]
    · by_cases c1 : ii < DIT_MAX <;> by_cases c2 : ii > DIT_MIN <;>
        simp only [c1, c2, if_true, if_false]

/-- A straight-key letter always yields a result: null, the toggle code or a
table character.  The call changes the running averages, the letter/word space
registers, the status, the suppress flag, the end index and the letter flag,
and nothing else; the end index is kept or reset to 0; the space registers are
kept or set from one dit time inside the brackets. -/
theorem sk_letter_total (st : State) (e : Nat) (he0 : 0 < e) (he : e < CW_BUFF_END) :
    ∃ c st', sk_letter st e = some (c, st') ∧ (c = 0 ∨ c = CWSTT ∨ c ∈ cw_text_map) ∧
      st' = { st with spc_ave := st'.spc_ave, dit_ave := st'.dit_ave, dah_ave := st'.dah_ave,
                      letter_space := st'.letter_space, word_space := st'.word_space,
                      cw_stat := st'.cw_stat, suppress_s := st'.suppress_s,
                      cwelem_idx := st'.cwelem_idx,
                      letter_complete := st'.letter_complete } ∧
      (st'.cwelem_idx = 0 ∨ st'.cwelem_idx = st.cwelem_idx) ∧
      ((st'.letter_space = st.letter_space ∧ st'.word_space = st.word_space) ∨
        ∃ d, DIT_MAX ≤ d ∧ d ≤ DIT_MIN ∧ st'.letter_space = LETTER_SK * d ∧
          st'.word_space = WORD_SK * d) := by
  obtain ⟨t, ht, hs, he1, he2, hfr⟩ := sk_timing_ends st e he0 he
  rw [CW_BUFF_END_eq] at he
  cases hth : sk_threshold t with
  | none =>
    refine ⟨0, t.regs, by simp only [sk_letter, ht, hth], Or.inl rfl, ?_, ?_, ?_⟩
    · generalize t.regs = r at hfr ⊢
      rw [hfr]
    · right; rw [hfr]
    · left; rw [hfr]; exact ⟨rfl, rfl⟩
  | some p =>
    obtain ⟨ii, st1⟩ := p
    have hfr1 := sk_threshold_frame t ii st1 hth
    obtain ⟨r, hb⟩ := sk_build_total st1.cw_timing_buf ii t.e (by omega) 256 t.s (0, 0)
      (by omega) (by omega)
    obtain ⟨ee, j⟩ := r
    obtain ⟨c, st', h1, h2, h3, h4, h5, h6, h7, h8⟩ :=
      sk_letter_general st e ii ee j t st1 ht hth hb
    refine ⟨c, st', h1, ?_, ?_, Or.inl h4, Or.inr ?_⟩
    · by_cases htg : ee = CWSTT_E ∧ j = CWSTT_L
      · exact Or.inr (Or.inl (h2 htg).1)
      · obtain ⟨c2, g1, g2⟩ := decode_elem_range ee j
        have hc : c2 = c := Option.some.inj (g1.symm.trans (h3 htg).1)
        rw [← hc]
        rcases g2 with g | g
        · exact Or.inl g
        · exact Or.inr (Or.inr g)
    · generalize t.regs = r at hfr hfr1
      rw [h8, hfr1, hfr]
    · obtain ⟨d, d1, d2, d3, d4⟩ := sk_space_bracket ii
      exact ⟨d, d1, d2, h6.trans d3, h7.trans d4⟩

/-- Advancing the tail clears the suppress flag and moves the tail to an index
inside the buffer; nothing else changes. -/
theorem advance_tail_eq (x : State) :
    advance_tail x = { x with suppress_s := 0, cw_tail := (advance_tail x).cw_tail } ∧
    (advance_tail x).cw_tail < CW_BUFF_END := by
  rw [CW_BUFF_END_eq]
  by_cases h : (x.cw_tail + 1) % 256 ≥ 40
  · constructor
    · simp only [advance_tail, CW_BUFF_END_eq, h, if_true]
    · simp only [advance_tail, CW_BUFF_END_eq, h, if_true]; omega
  · constructor
    · simp only [advance_tail, CW_BUFF_END_eq, h, if_false]
    · simp only [advance_tail, CW_BUFF_END_eq, h, if_false]; omega

/-- Every call of `get_cw_asc` returns, in either mode and for any registers.
The character is null, a space, the toggle code or a table character.  The call
changes no buffer and neither head index nor the text tail; the element tail
is kept or moved to an index inside the buffer; the end index of the timing
buffer is kept or reset to 0; the letter/word space registers are kept or set
from one dit time inside the brackets. -/
theorem get_cw_asc_total (st : State) :
    ∃ c st', get_cw_asc st = some (c, st') ∧ AscValue c ∧
      st' = { st with spc_ave := st'.spc_ave, dit_ave := st'.dit_ave, dah_ave := st'.dah_ave,
                      letter_space := st'.letter_space, word_space := st'.word_space,
                      cw_stat := st'.cw_stat, suppress_s := st'.suppress_s,
                      cwelem_idx := st'.cwelem_idx,
                      letter_complete := st'.letter_complete, aspace := st'.aspace,
                      cw_tail := st'.cw_tail } ∧
      (st'.cwelem_idx = 0 ∨ st'.cwelem_idx = st.cwelem_idx) ∧
      (st'.cw_tail = st.cw_tail ∨ st'.cw_tail < CW_BUFF_END) ∧
      ((st'.letter_space = st.letter_space ∧ st'.word_space = st.word_space) ∨
        ∃ d, DIT_MAX ≤ d ∧ d ≤ DIT_MIN ∧ st'.letter_space = LETTER_SK * d ∧
          st'.word_space = WORD_SK * d) := by
  by_cases hsk : st.paddle_key_mode = 0
  · by_cases h1 : st.suppress_s ≠ 0 ∧ st.aspace ≠ 0
    · exact ⟨0, { st with aspace := 0, suppress_s := 0, letter_complete := 0, cwelem_idx := 0 },
        by rw [get_cw_asc, if_pos hsk, if_pos h1], Or.inl rfl, rfl,
        Or.inl rfl, Or.inl rfl, Or.inl ⟨rfl, rfl⟩⟩
    · by_cases h2 : st.aspace ≠ 0
      · exact ⟨32, { st with
            cw_stat := st.cw_stat ||| CW_STB, cwelem_idx := 0,
            letter_complete := 0, aspace := 0, suppress_s := 0 },
          by rw [get_cw_asc, if_pos hsk, if_neg h1, if_pos h2],
          Or.inr (Or.inl rfl), rfl, Or.inl rfl, Or.inl rfl, Or.inl ⟨rfl, rfl⟩⟩
      · by_cases h3 : st.cwelem_idx < CW_BUFF_END ∧ st.cwelem_idx > 0
        · obtain ⟨c, st', g1, g2, g3, g4, g5⟩ := sk_letter_total st st.cwelem_idx h3.2 h3.1
          refine ⟨c, st', by rw [get_cw_asc, if_pos hsk, if_neg h1, if_neg h2, if_pos h3, g1],
            ?_, ?_, g4, Or.inl ?_, g5⟩
          · rcases g2 with g | g | g
            · exact Or.inl g
            · exact Or.inr (Or.inr (Or.inl g))
            · exact Or.inr (Or.inr (Or.inr g))
          · rw [g3]
          · rw [g3]
        · by_cases h4 : st.cwelem_idx ≥ CW_BUFF_END
          · exact ⟨0, { st with cwelem_idx := 0, letter_complete := 0, suppress_s := 0 },
              by rw [get_cw_asc, if_pos hsk, if_neg h1, if_neg h2, if_neg h3, if_pos h4],
              Or.inl rfl, rfl, Or.inl rfl, Or.inl rfl, Or.inl ⟨rfl, rfl⟩⟩
          · exact ⟨0, st, by rw [get_cw_asc, if_pos hsk, if_neg h1, if_neg h2, if_neg h3, if_neg h4],
              Or.inl rfl, rfl, Or.inr rfl, Or.inl rfl, Or.inl ⟨rfl, rfl⟩⟩
  · by_cases hne : st.cw_tail ≠ st.cw_head
    · have hrun : ∀ c x, paddle_char st = some (c, x) →
          get_cw_asc st = some (c, advance_tail x) := by
        intro c x hx
        rw [get_cw_asc, if_neg hsk, if_pos hne, hx]
      have hx : ∃ c x, paddle_char st = some (c, x) ∧ (c = 0 ∨ c ∈ cw_text_map) ∧
          x = { st with cw_stat := x.cw_stat } := by
        by_cases c1 : st.suppress_s ≠ 0 ∧ st.cw_elem_buf st.cw_tail = SPACE_ELEM
        · exact ⟨0, st, by rw [paddle_char, if_pos c1], Or.inl rfl, rfl⟩
        · obtain ⟨c, hc, hr⟩ :=
            decode_elem_range (st.cw_elem_buf st.cw_tail) (st.cw_len_buf st.cw_tail)
          by_cases c2 : st.cw_elem_buf st.cw_tail = SPACE_ELEM
          · have c3 : st.suppress_s = 0 := by
              by_contra h; exact c1 ⟨h, c2⟩
            refine ⟨c, { st with cw_stat := st.cw_stat ||| CW_STB }, ?_, hr, rfl⟩
            rw [c2] at hc
            simp only [paddle_char, c2, c3, ne_eq, not_true_eq_false, false_and, if_false,
              if_true, not_false_eq_true, hc]
          · refine ⟨c, st, ?_, hr, rfl⟩
            simp only [paddle_char, c2, and_false, if_false, not_false_eq_true, if_true, hc]
      obtain ⟨c, x, hp, hc, hfx⟩ := hx
      obtain ⟨a1, a2⟩ := advance_tail_eq x
      refine ⟨c, advance_tail x, hrun c x hp, ?_, ?_, Or.inr ?_, Or.inr a2, Or.inl ?_⟩
      · rcases hc with g | g
        · exact Or.inl g
        · exact Or.inr (Or.inr (Or.inr g))
      · generalize advance_tail x = y at a1 ⊢
        rw [a1, hfx]
      · rw [a1, hfx]
      · rw [a1, hfx]; exact ⟨rfl, rfl⟩
    · exact ⟨0, st, by rw [get_cw_asc, if_neg hsk, if_neg hne], Or.inl rfl, rfl,
        Or.inr rfl, Or.inl rfl, Or.inl ⟨rfl, rfl⟩⟩

/-! ## Theorems: what a call of `Process_CW` returns and changes -/

/-- The text table holds none of carriage return, tab and escape. -/
theorem text_map_no_control :
    CW_CR ∉ cw_text_map ∧ CWTAB ∉ cw_text_map ∧ CWESC ∉ cw_text_map := by decide

/-- A value `get_cw_asc` can return is none of carriage return, tab and
escape. -/
theorem asc_value_no_control (c : Nat) (hc : AscValue c) :
    c ≠ CW_CR ∧ c ≠ CWTAB ∧ c ≠ CWESC := by
  obtain ⟨n1, n2, n3⟩ := text_map_no_control
  rcases hc with h | h | h | h
  · rw [h]; exact ⟨by decide, by decide, by decide⟩
  · rw [h]; exact ⟨by decide, by decide, by decide⟩
  · rw [h]; exact ⟨by decide, by decide, by decide⟩
  · refine ⟨?_, ?_, ?_⟩ <;> intro hx <;> rw [hx] at h
    · exact n1 h
    · exact n2 h
    · exact n3 h

/-- The store of `Process_CW`: the head moves to an index inside the text
buffer, the character is written at the old head, and the store changes the
text buffer, its indices and its status only. -/
theorem Process_CW_store_frame (c : Nat) (s : State) :
    (Process_CW_store c s).cwt_head < CWT_BUFF_END ∧
    (Process_CW_store c s).cw_text_buf = wr s.cw_text_buf s.cwt_head c ∧
    (c ≠ CWESC → (Process_CW_store c s).cwt_tail = s.cwt_tail) ∧
    Process_CW_store c s =
      { s with cw_text_buf := (Process_CW_store c s).cw_text_buf,
               cwt_head := (Process_CW_store c s).cwt_head,
               cwt_tail := (Process_CW_store c s).cwt_tail,
               cwt_stat := (Process_CW_store c s).cwt_stat } := by
  rw [CWT_BUFF_END_eq]
  refine ⟨?_, ?_, ?_, ?_⟩
  · by_cases h : (s.cwt_head + 1) % 256 ≥ 128
    · simp only [Process_CW_store, CWT_BUFF_END_eq, apply_ite State.cwt_head, ite_self, h, if_true]
      omega
    · simp only [Process_CW_store, CWT_BUFF_END_eq, apply_ite State.cwt_head, ite_self, h,
        if_false]
      omega
  · simp only [Process_CW_store, apply_ite State.cw_text_buf, ite_self]
  · intro hc
    simp only [Process_CW_store, hc, if_false, apply_ite State.cwt_tail, ite_self]
  · by_cases h1 : c = CWESC <;> by_cases h2 : (s.cwt_head + 1) % 256 ≥ 128 <;>
      simp only [Process_CW_store, CWT_BUFF_END_eq, h1, h2, if_true, if_false] <;>
      split_ifs <;> rfl

/-- The character switch of `Process_CW` on a value `get_cw_asc` can return:
the return value and the pending reply are kept, the text tail is kept, the head
is kept or moves to an index inside the buffer, the text buffer is kept or
written at the old head, and the switch changes the suppress flag and the text
buffer registers only. -/
theorem Process_CW_switch_effect (c : Nat) (l : PcwLocals) (st : State) (hc : AscValue c) :
    (Process_CW_switch c l st).1.rtn = l.rtn ∧
    (Process_CW_switch c l st).1.cws_process_cmd = l.cws_process_cmd ∧
    (Process_CW_switch c l st).2.cwt_tail = st.cwt_tail ∧
    ((Process_CW_switch c l st).2.cwt_head = st.cwt_head ∨
      (Process_CW_switch c l st).2.cwt_head < CWT_BUFF_END) ∧
    ((Process_CW_switch c l st).2.cw_text_buf = st.cw_text_buf ∨
      (Process_CW_switch c l st).2.cw_text_buf = wr st.cw_text_buf st.cwt_head c) ∧
    (Process_CW_switch c l st).2 =
      { st with suppress_s := (Process_CW_switch c l st).2.suppress_s,
                cw_text_buf := (Process_CW_switch c l st).2.cw_text_buf,
                cwt_head := (Process_CW_switch c l st).2.cwt_head,
                cwt_tail := (Process_CW_switch c l st).2.cwt_tail,
                cwt_stat := (Process_CW_switch c l st).2.cwt_stat } := by
  obtain ⟨n1, n2, n3⟩ := asc_value_no_control c hc
  by_cases h0 : c = 0
  · simp only [Process_CW_switch, h0, if_true]
    exact ⟨trivial, trivial, trivial, Or.inl trivial, Or.inl trivial, trivial⟩
  · by_cases hm : c ∈ suppress_cases
    · obtain ⟨f1, f2, f3, f4⟩ := Process_CW_store_frame c { st with suppress_s := 1 }
      simp only [Process_CW_switch, h0, hm, n1, n2, n3, if_true, if_false]
      refine ⟨trivial, trivial, f3 n3, Or.inr f1, Or.inr f2, ?_⟩
      generalize Process_CW_store c { st with suppress_s := 1 } = y at f4 ⊢
      rw [f4]
    · obtain ⟨f1, f2, f3, f4⟩ := Process_CW_store_frame c st
      simp only [Process_CW_switch, h0, hm, n1, n2, n3, if_true, if_false]
      refine ⟨trivial, trivial, f3 n3, Or.inr f1, Or.inr f2, ?_⟩
      generalize Process_CW_store c st = y at f4 ⊢
      rw [f4]

/-- The block `if(get_cwdr()){...}` of `Process_CW` when a character is ready
and `get_cw_asc` returns `c` with the registers `x`: the switch runs, then the
near-full test on the count `i`, which is `cwt_head - cwt_tail` if the head is
above the tail and `CWT_BUFF_END - (cwt_tail - cwt_head)` otherwise. -/
theorem Process_CW_char_run (l : PcwLocals) (st : State) (c : Nat) (x : State)
    (hdr : get_cwdr st ≠ 0) (hget : get_cw_asc st = some (c, x)) :
    Process_CW_char l st = some ((Process_CW_switch c l x).1,
      if (if (Process_CW_switch c l x).2.cwt_head > (Process_CW_switch c l x).2.cwt_tail then
            ((Process_CW_switch c l x).2.cwt_head - (Process_CW_switch c l x).2.cwt_tail) % 256
          else (CWT_BUFF_END + 256 -
            ((Process_CW_switch c l x).2.cwt_tail - (Process_CW_switch c l x).2.cwt_head)) % 256)
          > CWT_BUFF_70 then
        { (Process_CW_switch c l x).2 with
          cwt_stat := (Process_CW_switch c l x).2.cwt_stat ||| CW_FF }
      else (Process_CW_switch c l x).2) := by
  rw [Process_CW_char, if_pos hdr, hget]

/-- The character block of `Process_CW` returns.  It keeps the return value,
the pending reply, the element head and the text tail; the other three indices
are kept or end inside their buffers; the text buffer is kept or written at the
old head; no other buffer changes. -/
theorem Process_CW_char_effect (l : PcwLocals) (st : State) :
    ∃ l' st', Process_CW_char l st = some (l', st') ∧
      l'.rtn = l.rtn ∧ l'.cws_process_cmd = l.cws_process_cmd ∧
      st'.cwt_tail = st.cwt_tail ∧
      (st'.cwt_head = st.cwt_head ∨ st'.cwt_head < CWT_BUFF_END) ∧
      (st'.cw_tail = st.cw_tail ∨ st'.cw_tail < CW_BUFF_END) ∧
      (st'.cwelem_idx = 0 ∨ st'.cwelem_idx = st.cwelem_idx) ∧
      (st'.cw_text_buf = st.cw_text_buf ∨
        ∃ c, st'.cw_text_buf = wr st.cw_text_buf st.cwt_head c) ∧
      ((st'.letter_space = st.letter_space ∧ st'.word_space = st.word_space) ∨
        ∃ d, DIT_MAX ≤ d ∧ d ≤ DIT_MIN ∧ st'.letter_space = LETTER_SK * d ∧
          st'.word_space = WORD_SK * d) ∧
      st' = { st with spc_ave := st'.spc_ave, dit_ave := st'.dit_ave, dah_ave := st'.dah_ave,
                      letter_space := st'.letter_space, word_space := st'.word_space,
                      cw_stat := st'.cw_stat, suppress_s := st'.suppress_s,
                      cwelem_idx := st'.cwelem_idx,
                      letter_complete := st'.letter_complete, aspace := st'.aspace,
                      cw_tail := st'.cw_tail, cw_text_buf := st'.cw_text_buf,
                      cwt_head := st'.cwt_head, cwt_tail := st'.cwt_tail,
                      cwt_stat := st'.cwt_stat } := by
  by_cases hdr : get_cwdr st ≠ 0
  · obtain ⟨c, x, hget, hc, g1, g2, g3, g4⟩ := get_cw_asc_total st
    obtain ⟨w1, w2, w3, w4, w5, w6⟩ := Process_CW_switch_effect c l x hc
    have hrun := Process_CW_char_run l st c x hdr hget
    generalize Process_CW_switch c l x = r at w1 w2 w3 w4 w5 w6 hrun
    obtain ⟨r1, r2⟩ := r
    dsimp only at w1 w2 w3 w4 w5 w6 hrun
    have hxh : x.cwt_head = st.cwt_head := by rw [g1]
    have hxt : x.cwt_tail = st.cwt_tail := by rw [g1]
    have hxb : x.cw_text_buf = st.cw_text_buf := by rw [g1]
    have hy : ∀ y : State, y = { r2 with cwt_stat := y.cwt_stat } →
        Process_CW_char l st = some (r1, y) →
        ∃ l' st', Process_CW_char l st = some (l', st') ∧
          l'.rtn = l.rtn ∧ l'.cws_process_cmd = l.cws_process_cmd ∧
          st'.cwt_tail = st.cwt_tail ∧
          (st'.cwt_head = st.cwt_head ∨ st'.cwt_head < CWT_BUFF_END) ∧
          (st'.cw_tail = st.cw_tail ∨ st'.cw_tail < CW_BUFF_END) ∧
          (st'.cwelem_idx = 0 ∨ st'.cwelem_idx = st.cwelem_idx) ∧
          (st'.cw_text_buf = st.cw_text_buf ∨
            ∃ c, st'.cw_text_buf = wr st.cw_text_buf st.cwt_head c) ∧
          ((st'.letter_space = st.letter_space ∧ st'.word_space = st.word_space) ∨
            ∃ d, DIT_MAX ≤ d ∧ d ≤ DIT_MIN ∧ st'.letter_space = LETTER_SK * d ∧
              st'.word_space = WORD_SK * d) ∧
          st' = { st with spc_ave := st'.spc_ave, dit_ave := st'.dit_ave,
                          dah_ave := st'.dah_ave,
                          letter_space := st'.letter_space, word_space := st'.word_space,
                          cw_stat := st'.cw_stat, suppress_s := st'.suppress_s,
                          cwelem_idx := st'.cwelem_idx,
                          letter_complete := st'.letter_complete, aspace := st'.aspace,
                          cw_tail := st'.cw_tail, cw_text_buf := st'.cw_text_buf,
                          cwt_head := st'.cwt_head, cwt_tail := st'.cwt_tail,
                          cwt_stat := st'.cwt_stat } := by
      intro y hyr hyy
      have e1 : y.cwt_tail = r2.cwt_tail := by rw [hyr]
      have e2 : y.cwt_head = r2.cwt_head := by rw [hyr]
      have e3 : y.cw_tail = x.cw_tail := by rw [hyr, w6]
      have e4 : y.cwelem_idx = x.cwelem_idx := by rw [hyr, w6]
      have e5 : y.cw_text_buf = r2.cw_text_buf := by rw [hyr]
      have e6 : y.letter_space = x.letter_space := by rw [hyr, w6]
      have e7 : y.word_space = x.word_space := by rw [hyr, w6]
      refine ⟨r1, y, hyy, w1, w2, ?_, ?_, ?_, ?_, ?_, ?_, ?_⟩
      · rw [e1, w3, hxt]
      · rw [e2, ← hxh]; exact w4
      · rw [e3]; exact g3
      · rw [e4]; exact g2
      · rw [e5]
        rcases w5 with h | h
        · left; rw [h, hxb]
        · right; exact ⟨c, by rw [h, hxb, hxh]⟩
      · rw [e6, e7]; exact g4
      · rw [hyr, w6, g1]
    by_cases hi : (if r2.cwt_head > r2.cwt_tail then (r2.cwt_head - r2.cwt_tail) % 256
        else (CWT_BUFF_END + 256 - (r2.cwt_tail - r2.cwt_head)) % 256) > CWT_BUFF_70
    · rw [if_pos hi] at hrun
      exact hy _ rfl hrun
    · rw [if_neg hi] at hrun
      exact hy _ rfl hrun
  · exact ⟨l, st, by rw [Process_CW_char, if_neg hdr], rfl, rfl, rfl, Or.inl rfl, Or.inl rfl,
      Or.inr rfl, Or.inl rfl, Or.inl ⟨rfl, rfl⟩, rfl⟩

/-- The function `put_cw` returns for every character, and changes the send
trap registers and the timer interrupt mask only. -/
theorem put_cw_total (c : Nat) (s : State) :
    ∃ s', put_cw c s = some s' ∧
      s' = { s with trapb_word := s'.trapb_word, trapb_count := s'.trapb_count,
                    initialb := s'.initialb, TIMER3_IMR_R := s'.TIMER3_IMR_R } := by
  obtain ⟨i, hi, -⟩ := lookup_elem_range c
  by_cases h1 : i ≠ 0xff
  · by_cases h2 : c = 32 ∨ c = CWSPC
    · simp only [put_cw, hi, h2, if_true]
      rw [if_pos h1]
      exact ⟨_, rfl, rfl⟩
    · simp only [put_cw, hi, h2, if_false]
      rw [if_pos h1]
      exact ⟨_, rfl, rfl⟩
  · simp only [put_cw, hi]
    rw [if_neg h1]
    exact ⟨_, rfl, rfl⟩

/-- The block `if(!sendingb){...}` of `Process_CW` returns; it keeps the return
value, keeps or clears the pending reply, and changes the send trap registers,
the timer interrupt mask and the status only. -/
theorem Process_CW_send_effect (l : PcwLocals) (st : State) :
    ∃ l' st', Process_CW_send l st = some (l', st') ∧ l'.rtn = l.rtn ∧
      (l'.cws_process_cmd = l.cws_process_cmd ∨ l'.cws_process_cmd = 0) ∧
      st' = { st with trapb_word := st'.trapb_word, trapb_count := st'.trapb_count,
                      initialb := st'.initialb, TIMER3_IMR_R := st'.TIMER3_IMR_R,
                      cw_stat := st'.cw_stat } := by
  by_cases h1 : st.sendingb = 0
  · by_cases h2 : l.s &&& CW_ST ≠ 0 ∧ l.s &&& CW_STB ≠ 0
    · exact ⟨l, _, by rw [Process_CW_send, if_pos h1, if_pos h2], rfl, Or.inl rfl, rfl⟩
    · by_cases h3 : l.cws_process_cmd ≠ 0
      · obtain ⟨s', hp, hf⟩ := put_cw_total l.cws_process_cmd st
        refine ⟨{ l with cws_process_cmd := 0 }, s',
          by rw [Process_CW_send, if_pos h1, if_neg h2, if_pos h3, hp], rfl, Or.inr rfl, ?_⟩
        generalize s' = y at hf ⊢
        rw [hf]
      · exact ⟨l, st, by rw [Process_CW_send, if_pos h1, if_neg h2, if_neg h3], rfl,
          Or.inl rfl, rfl⟩
  · exact ⟨l, st, by rw [Process_CW_send, if_neg h1], rfl, Or.inl rfl, rfl⟩

/-- A call of `Process_CW` (command other than `INIT_PROCESS`) returns.  The
value returned is 0; the pending reply is kept or cleared; the element head and
the text tail are kept; the other three indices are kept or end inside their
buffers; the text buffer is kept or written at the old head; the element,
length and timing buffers are kept; the letter/word space registers are kept or
set from one dit time inside the brackets. -/
theorem Process_CW_effect (s : Nat) (l : PcwLocals) (st : State) :
    ∃ l' st', Process_CW s l st = some (l', st') ∧ l'.rtn = 0 ∧
      (l'.cws_process_cmd = l.cws_process_cmd ∨ l'.cws_process_cmd = 0) ∧
      st'.cwt_tail = st.cwt_tail ∧ st'.cw_head = st.cw_head ∧
      (st'.cwt_head = st.cwt_head ∨ st'.cwt_head < CWT_BUFF_END) ∧
      (st'.cw_tail = st.cw_tail ∨ st'.cw_tail < CW_BUFF_END) ∧
      (st'.cwelem_idx = 0 ∨ st'.cwelem_idx = st.cwelem_idx) ∧
      (st'.cw_text_buf = st.cw_text_buf ∨
        ∃ c, st'.cw_text_buf = wr st.cw_text_buf st.cwt_head c) ∧
      st'.cw_elem_buf = st.cw_elem_buf ∧ st'.cw_len_buf = st.cw_len_buf ∧
      st'.cw_timing_buf = st.cw_timing_buf ∧
      ((st'.letter_space = st.letter_space ∧ st'.word_space = st.word_space) ∨
        ∃ d, DIT_MAX ≤ d ∧ d ≤ DIT_MIN ∧ st'.letter_space = LETTER_SK * d ∧
          st'.word_space = WORD_SK * d) ∧
      st' = { st with spc_ave := st'.spc_ave, dit_ave := st'.dit_ave, dah_ave := st'.dah_ave,
                      letter_space := st'.letter_space, word_space := st'.word_space,
                      cw_stat := st'.cw_stat, suppress_s := st'.suppress_s,
                      cwelem_idx := st'.cwelem_idx,
                      letter_complete := st'.letter_complete, aspace := st'.aspace,
                      cw_tail := st'.cw_tail, cw_text_buf := st'.cw_text_buf,
                      cwt_head := st'.cwt_head, cwt_tail := st'.cwt_tail,
                      cwt_stat := st'.cwt_stat, trapb_word := st'.trapb_word,
                      trapb_count := st'.trapb_count, initialb := st'.initialb,
                      TIMER3_IMR_R := st'.TIMER3_IMR_R } := by
  have hl : ∀ l0 : PcwLocals, l0.rtn = 0 → l0.cws_process_cmd = l.cws_process_cmd →
      ∃ l' st', (match Process_CW_char l0 st with
          | none => none
          | some (l, st) => Process_CW_send l st) = some (l', st') ∧ l'.rtn = 0 ∧
        (l'.cws_process_cmd = l.cws_process_cmd ∨ l'.cws_process_cmd = 0) ∧
        st'.cwt_tail = st.cwt_tail ∧ st'.cw_head = st.cw_head ∧
        (st'.cwt_head = st.cwt_head ∨ st'.cwt_head < CWT_BUFF_END) ∧
        (st'.cw_tail = st.cw_tail ∨ st'.cw_tail < CW_BUFF_END) ∧
        (st'.cwelem_idx = 0 ∨ st'.cwelem_idx = st.cwelem_idx) ∧
        (st'.cw_text_buf = st.cw_text_buf ∨
          ∃ c, st'.cw_text_buf = wr st.cw_text_buf st.cwt_head c) ∧
        st'.cw_elem_buf = st.cw_elem_buf ∧ st'.cw_len_buf = st.cw_len_buf ∧
        st'.cw_timing_buf = st.cw_timing_buf ∧
        ((st'.letter_space = st.letter_space ∧ st'.word_space = st.word_space) ∨
          ∃ d, DIT_MAX ≤ d ∧ d ≤ DIT_MIN ∧ st'.letter_space = LETTER_SK * d ∧
            st'.word_space = WORD_SK * d) ∧
        st' = { st with spc_ave := st'.spc_ave, dit_ave := st'.dit_ave, dah_ave := st'.dah_ave,
                        letter_space := st'.letter_space, word_space := st'.word_space,
                        cw_stat := st'.cw_stat, suppress_s := st'.suppress_s,
                        cwelem_idx := st'.cwelem_idx,
                        letter_complete := st'.letter_complete, aspace := st'.aspace,
                        cw_tail := st'.cw_tail, cw_text_buf := st'.cw_text_buf,
                        cwt_head := st'.cwt_head, cwt_tail := st'.cwt_tail,
                        cwt_stat := st'.cwt_stat, trapb_word := st'.trapb_word,
                        trapb_count := st'.trapb_count, initialb := st'.initialb,
                        TIMER3_IMR_R := st'.TIMER3_IMR_R } := by
    intro l0 hr hq
    obtain ⟨l1, x, hc, c1, c2, c3, c4, c5, c6, c7, c8, c9⟩ := Process_CW_char_effect l0 st
    obtain ⟨l2, y, hs, s1, s2, s3⟩ := Process_CW_send_effect l1 x
    have e1 : y.cwt_tail = x.cwt_tail := by rw [s3]
    have e2 : y.cwt_head = x.cwt_head := by rw [s3]
    have e3 : y.cw_tail = x.cw_tail := by rw [s3]
    have e4 : y.cwelem_idx = x.cwelem_idx := by rw [s3]
    have e5 : y.cw_text_buf = x.cw_text_buf := by rw [s3]
    have e6 : y.letter_space = x.letter_space := by rw [s3]
    have e7 : y.word_space = x.word_space := by rw [s3]
    have e8 : y.cw_head = st.cw_head := by rw [s3, c9]
    have e9 : y.cw_elem_buf = st.cw_elem_buf := by rw [s3, c9]
    have e10 : y.cw_len_buf = st.cw_len_buf := by rw [s3, c9]
    have e11 : y.cw_timing_buf = st.cw_timing_buf := by rw [s3, c9]
    refine ⟨l2, y, by rw [hc]; exact hs, by rw [s1, c1, hr], ?_, by rw [e1, c3], e8,
      by rw [e2]; exact c4, by rw [e3]; exact c5, by rw [e4]; exact c6,
      by rw [e5]; exact c7, e9, e10, e11, by rw [e6, e7]; exact c8, ?_⟩
    · rcases s2 with h | h
      · left; rw [h, c2, hq]
      · right; exact h
    · rw [s3, c9]
  by_cases hs : s = 0
  · simp only [Process_CW, hs, ne_eq, not_true_eq_false, if_false]
    exact hl _ rfl rfl
  · simp only [Process_CW, hs, ne_eq, not_false_eq_true, if_true]
    exact hl _ rfl rfl

/-- The character block of `Process_CW` when `get_cw_asc` returns null and the
text head equals the text tail: nothing is stored, the indices stay equal, and
the count `i` is `CWT_BUFF_END`, above `CWT_BUFF_70`, so `CW_FF` is set. -/
theorem Process_CW_char_empty_flag (l : PcwLocals) (st x : State)
    (hdr : get_cwdr st ≠ 0) (hget : get_cw_asc st = some (0, x))
    (he : x.cwt_head = x.cwt_tail) :
    ∃ l' st', Process_CW_char l st = some (l', st') ∧ st'.cwt_head = x.cwt_head ∧
      st'.cwt_tail = x.cwt_tail ∧ st'.cw_text_buf = x.cw_text_buf ∧
      st'.cwt_stat = x.cwt_stat ||| CW_FF := by
  have hrun := Process_CW_char_run l st 0 x hdr hget
  have hsw : Process_CW_switch 0 l x =
      ({ l with char_status := 0, s := bic8 l.s CW_STB }, { x with suppress_s := 1 }) := by
    simp only [Process_CW_switch, if_true]
  rw [hsw] at hrun
  dsimp only at hrun
  have hi : (if x.cwt_head > x.cwt_tail then (x.cwt_head - x.cwt_tail) % 256
      else (CWT_BUFF_END + 256 - (x.cwt_tail - x.cwt_head)) % 256) > CWT_BUFF_70 := by
    have h1 : ¬ (x.cwt_head > x.cwt_tail) := by omega
    have h2 : x.cwt_tail - x.cwt_head = 0 := by omega
    rw [if_neg h1, h2]
    decide
  rw [if_pos hi] at hrun
  exact ⟨_, _, hrun, rfl, rfl, rfl, rfl⟩

set_option maxRecDepth 100000 in
/-- C33, the code at a failing input: paddle mode, the text buffer empty
(`cwt_head = cwt_tail = 0`, no unread character) with `cwt_stat = 0`, and one
entry in the element ring buffer that decodes to null (pattern 0, length 0).
`Process_CW` obtains null from `get_cw_asc`, stores nothing, and then forms the
count `i = CWT_BUFF_END - (cwt_tail - cwt_head) = 128 > CWT_BUFF_70 = 89`, because
its test `cwt_head > cwt_tail` sends equal indices to the wrap-around branch: the
text buffer is still empty after the call and `cwt_stat` holds `CW_FF`. -/
theorem Process_CW_empty_near_full :
    get_cwdr (one_entry_regs 0 0) ≠ 0 ∧ cwt_count (one_entry_regs 0 0) = 0 ∧
    (one_entry_regs 0 0).cwt_stat = 0 ∧ CWT_BUFF_70 = 89 ∧
    (get_cw_asc (one_entry_regs 0 0)).map (fun r => r.1) = some 0 ∧
    (Process_CW 0 ⟨0, 0, 0, 0⟩ (one_entry_regs 0 0)).map
      (fun r => (r.1.rtn, r.2.cwt_head, r.2.cwt_tail, cwt_count r.2, (gotchar_cw r.2).1,
        r.2.cwt_stat)) = some (0, 0, 0, 0, 0, CW_FF) := by
  refine ⟨by decide, by decide, by decide, by decide, by decide, by decide⟩

/-- C37: `get_cw_asc` returns, and the value is null, a space, `CWSTT` or a
character of `cw_text_map`; the table holds none of `CW_CR`, `CWTAB` and
`CWESC`; so a call of `Process_CW` with a command other than `INIT_PROCESS`
returns, the value it returns is 0, it leaves `cwt_tail` as it was (no scrub of
the text buffer), and the pending reply `cws_process_cmd` is left as it was or
cleared, never set to `CWEOM`. -/
theorem Process_CW_returns_zero (s : Nat) (l : PcwLocals) (st : State) :
    (∃ c st', get_cw_asc st = some (c, st') ∧
      (c = 0 ∨ c = 32 ∨ c = CWSTT ∨ c ∈ cw_text_map)) ∧
    CW_CR ∉ cw_text_map ∧ CWTAB ∉ cw_text_map ∧ CWESC ∉ cw_text_map ∧
    ∃ l' st', Process_CW s l st = some (l', st') ∧ l'.rtn = 0 ∧
      st'.cwt_tail = st.cwt_tail ∧
      (l'.cws_process_cmd = l.cws_process_cmd ∨ l'.cws_process_cmd = 0) := by
  obtain ⟨c, x, h1, h2, -⟩ := get_cw_asc_total st
  obtain ⟨n1, n2, n3⟩ := text_map_no_control
  obtain ⟨l', st', p1, p2, p3, p4, -⟩ := Process_CW_effect s l st
  exact ⟨⟨c, x, h1, h2⟩, n1, n2, n3, l', st', p1, p2, p4, p3⟩

/-! ## Theorems: the auto-space toggle pro-sign -/

set_option maxRecDepth 100000 in
/-- Two toggles, with the toggle-seen flag set after each, restore the
auto-space flag of an 8-bit status. -/
theorem cw_st_toggle_twice : ∀ x, x < 256 →
    cw_st_toggle (cw_st_toggle x ||| CW_STC) &&& CW_ST = x &&& CW_ST ∧
    cw_st_toggle x &&& CW_ST ≠ x &&& CW_ST := by
  decide

/-- The letter-space step with the toggle pair trapped: the auto-space flag is
toggled and the toggle-seen flag set. -/
theorem pdl_letter_space_toggle (y : State)
    (ht : y.trap_word = CWSTT_E ∧ y.trap_count = CWSTT_L) :
    (pdl_letter_space y).cw_stat = cw_st_toggle y.cw_stat ||| CW_STC := by
  have hc : CWSTT_L < MAX_SPACE_COUNT := by decide
  by_cases h0 : y.cw_stat &&& CW_ST = 0
  · simp only [pdl_letter_space, hc, ht, and_self, if_true, cw_st_toggle, h0, ne_eq,
      not_true_eq_false, if_false]
  · simp only [pdl_letter_space, hc, ht, and_self, if_true, cw_st_toggle, h0, ne_eq,
      not_false_eq_true]

/-- Setting the toggle-seen flag leaves the auto-space flag as it is. -/
theorem or_stc_and_st (y : Nat) : (y ||| CW_STC) &&& CW_ST = y &&& CW_ST := by
  apply Nat.eq_of_testBit_eq
  intro i
  rw [Nat.testBit_and, Nat.testBit_or, Nat.testBit_and]
  have h8 : CW_ST = 2 ^ 3 := by decide
  have h16 : CW_STC = 2 ^ 4 := by decide
  rw [h8, h16, Nat.testBit_two_pow, Nat.testBit_two_pow]
  by_cases h3 : 3 = i
  · have h4 : ¬ (4 = i) := by omega
    simp only [h3, h4, decide_False, decide_True, Bool.or_false]
  · simp only [h3, decide_False, Bool.and_false]

/-- The handshake keeps the auto-space flag. -/
theorem tick_tail_st (g : State) :
    (debounce_tick (status_handshake g)).cw_stat &&& CW_ST = g.cw_stat &&& CW_ST := by
  rw [(tick_tail_stat _).2.1]
  by_cases h : g.cw_astat = CW_RS
  · rw [((status_handshake_spec g).1 h).2, Nat.and_assoc, Nat.and_self]
  · rw [(status_handshake_spec g).2 h]

/-- The timing analysis and the threshold step leave the status register
alone. -/
theorem sk_pattern_stat (st : State) (e ii : Nat) (t : SkTiming) (st1 : State)
    (he0 : 0 < e) (he : e < CW_BUFF_END)
    (ht : sk_timing st e = some t) (hth : sk_threshold t = some (ii, st1)) :
    st1.cw_stat = st.cw_stat := by
  obtain ⟨t2, g1, -, -, -, g2⟩ := sk_timing_ends st e he0 he
  have heq : t2 = t := Option.some.inj (g1.symm.trans ht)
  subst heq
  have h1 := sk_threshold_frame t2 ii st1 hth
  generalize t2.regs = r at g2 h1
  rw [h1, g2]

/-- C32: the auto-space toggle pro-sign (pattern `CWSTT_E`, length `CWSTT_L`).
Paddle decoder, at the tick that completes the letter (gap expiry with no paddle
sensed at which `silence_count` reaches `LETTER_SPACE`) with the toggle pair
trapped: the status at the handshake block is the old status with `CW_ST`
toggled and `CW_STC` set, the tick writes nothing to the element ring buffer and
keeps its head, and the toggled `CW_ST` survives the handshake.  Straight-key
decoder, when the pattern loop of `get_cw_asc` builds the toggle pair:
`get_cw_asc` returns `CWSTT`, the status is the old status with `CW_ST` toggled
and `CW_STC` set, `suppress_s` is set and the timing buffer index is reset.  A
toggle changes the `CW_ST` bit and two toggles restore it, and the table agrees
with the constants: `decode_elem CWSTT_E CWSTT_L` is `CWSTT`. -/
theorem toggle_prosign_detect (SINE : Nat → Int) (hw : PortB) (s st : State)
    (hg : GapTick hw s) (hports : PortsOk s) (hno : sensed hw s = 0)
    (hs : s.silence_count + 1 = LETTER_SPACE)
    (htrap : s.trap_word = CWSTT_E ∧ s.trap_count = CWSTT_L)
    (hsk : st.paddle_key_mode = 0) (hasp : st.aspace = 0)
    (he0 : 0 < st.cwelem_idx) (he : st.cwelem_idx < CW_BUFF_END)
    (hpat : sk_pattern st st.cwelem_idx = some (CWSTT_E, CWSTT_L)) :
    ((handshake_entry SINE hw s).cw_stat = cw_st_toggle s.cw_stat ||| CW_STC ∧
      (handshake_entry SINE hw s).cw_stat &&& CW_STC ≠ 0 ∧
      ring_kept s (Timer3A_ISR SINE hw s) ∧
      (Timer3A_ISR SINE hw s).cw_stat &&& CW_ST = cw_st_toggle s.cw_stat &&& CW_ST) ∧
    (∃ st', get_cw_asc st = some (CWSTT, st') ∧
      st'.cw_stat = cw_st_toggle st.cw_stat ||| CW_STC ∧ st'.cw_stat &&& CW_STC ≠ 0 ∧
      st'.suppress_s = 1 ∧ st'.cwelem_idx = 0 ∧ st'.letter_complete = 0) ∧
    (∀ x, x < 256 →
      cw_st_toggle (cw_st_toggle x ||| CW_STC) &&& CW_ST = x &&& CW_ST ∧
      cw_st_toggle x &&& CW_ST ≠ x &&& CW_ST) ∧
    decode_elem CWSTT_E CWSTT_L = some CWSTT := by
  refine ⟨?_, ?_, cw_st_toggle_twice, by decide⟩
  · obtain ⟨hE, hT⟩ := silence_tick_entry SINE hw s hg hports hno
    have hf := gap_sampled_frame hw s
    obtain ⟨-, -, f3, f4, -, f6, -, -, f9, -, f11, f12, f13, -⟩ := hf
    have hsx : (gap_sampled hw s).silence_count + 1 = LETTER_SPACE := by rw [f6]; exact hs
    have hl := pdl_silence_letter (gap_sampled hw s) hsx
    have htr : (gap_sampled hw s).trap_word = CWSTT_E ∧
        (gap_sampled hw s).trap_count = CWSTT_L := by rw [f3, f4]; exact htrap
    generalize gap_sampled hw s = x at hE hT f9 f11 f12 f13 hl htr
    have hy : ({ x with tone_timer := x.dit_time_reg, silence_count := LETTER_SPACE } :
        State).trap_word = CWSTT_E ∧
        ({ x with tone_timer := x.dit_time_reg, silence_count := LETTER_SPACE } :
        State).trap_count = CWSTT_L := htr
    have k1 := pdl_letter_space_toggle _ hy
    obtain ⟨k2, k3, k4, -⟩ := pdl_letter_space_skip _ (Or.inr hy)
    rw [← hl] at k1 k2 k3 k4
    dsimp only at k1 k2 k3 k4
    have hst : (handshake_entry SINE hw s).cw_stat = cw_st_toggle s.cw_stat ||| CW_STC := by
      rw [hE]
      show (pdl_silence x).cw_stat = _
      rw [k1, f13]
    obtain ⟨-, -, -, -, -, -, -, t8, -, t10, t11, -⟩ :=
      tick_tail_frame (pdl_clear_pstate (pdl_silence x))
    refine ⟨hst, ?_, ⟨?_, ?_, ?_⟩, ?_⟩
    · rw [hst]; exact or_and_flag _ _ (by decide)
    · rw [hT, t10]
      show (pdl_silence x).cw_elem_buf = _
      rw [k2, f11]
    · rw [hT, t11]
      show (pdl_silence x).cw_len_buf = _
      rw [k3, f12]
    · rw [hT, t8]
      show (pdl_silence x).cw_head = _
      rw [k4, f9]
    · rw [hT, tick_tail_st]
      show (pdl_silence x).cw_stat &&& CW_ST = _
      rw [k1, f13, or_stc_and_st]
  · have hx : ∃ t ii st1, sk_timing st st.cwelem_idx = some t ∧
        sk_threshold t = some (ii, st1) ∧
        sk_build st1.cw_timing_buf ii t.e 256 t.s (0, 0) = some (CWSTT_E, CWSTT_L) := by
      unfold sk_pattern at hpat
      cases h1 : sk_timing st st.cwelem_idx with
      | none => rw [h1] at hpat; exact absurd hpat (by simp)
      | some t =>
        rw [h1] at hpat
        dsimp only at hpat
        cases h2 : sk_threshold t with
        | none => rw [h2] at hpat; exact absurd hpat (by simp)
        | some p =>
          obtain ⟨ii, st1⟩ := p
          rw [h2] at hpat
          exact ⟨t, ii, st1, rfl, h2, hpat⟩
    obtain ⟨t, ii, st1, h1, h2, h3⟩ := hx
    obtain ⟨c, st', g1, g2, -, g4, g5, -, -, -⟩ :=
      sk_letter_general st st.cwelem_idx ii CWSTT_E CWSTT_L t st1 h1 h2 h3
    obtain ⟨q1, q2, q3⟩ := g2 ⟨rfl, rfl⟩
    have hstat := sk_pattern_stat st st.cwelem_idx ii t st1 he0 he h1 h2
    have hcs : st'.cw_stat = cw_st_toggle st.cw_stat ||| CW_STC := by
      rw [q3, hstat]; rfl
    refine ⟨st', ?_, hcs, ?_, q2, g4, g5⟩
    · rw [get_cw_asc_sk st hsk hasp he0 he, g1, q1]
    · rw [hcs]; exact or_and_flag _ _ (by decide)

set_option maxRecDepth 100000 in
/-- Witness of C32: the paddle registers `toggle_regs` at the letter space with
the toggle pair trapped and auto-space on, and the straight-key registers
`toggle_key_regs` holding the seven marks of the pro-sign, also with auto-space
on: both decoders clear `CW_ST` and set `CW_STC`. -/
theorem toggle_prosign_detect_witness :
    (GapTick released_hw (toggle_regs 0) ∧ sensed released_hw (toggle_regs 0) = 0 ∧
      sk_pattern toggle_key_regs toggle_key_regs.cwelem_idx = some (CWSTT_E, CWSTT_L)) ∧
    (handshake_entry (fun _ => 0) released_hw (toggle_regs 0)).cw_stat = CW_OR ||| CW_STC ∧
    ∃ st', get_cw_asc toggle_key_regs = some (CWSTT, st') ∧ st'.cw_stat = CW_STC := by
  have hg : GapTick released_hw (toggle_regs 0) :=
    ⟨show PADL_KEY ≠ 0 by decide, rfl, rfl, show 1 ≤ 1 by decide,
      Or.inl (show 1 < LETTER_SPACE by decide)⟩
  have hp : PortsOk (toggle_regs 0) := Or.inl ⟨rfl, rfl⟩
  have hno : sensed released_hw (toggle_regs 0) = 0 := by decide
  have hpat : sk_pattern toggle_key_regs toggle_key_regs.cwelem_idx =
      some (CWSTT_E, CWSTT_L) := by decide
  obtain ⟨⟨h1, -⟩, ⟨st', h2, h3, -⟩, -⟩ :=
    toggle_prosign_detect (fun _ => 0) released_hw (toggle_regs 0) toggle_key_regs hg hp hno rfl
      ⟨rfl, rfl⟩ rfl rfl (by decide) (by decide) hpat
  exact ⟨⟨hg, hno, hpat⟩, h1.trans (by decide), st', h2, h3.trans (by decide)⟩

/-! ## Theorems: the letter and word space registers of the straight-key decoder -/

/-- The brackets and what they give for the two registers. -/
theorem space_regs_range (d ls ws : Nat) (h1 : DIT_MAX ≤ d) (h2 : d ≤ DIT_MIN)
    (h3 : ls = LETTER_SK * d) (h4 : ws = WORD_SK * d) :
    1800 ≤ ls ∧ ls ≤ 3600 ∧ ws > ls ∧ ls > DEBOUNCE_DLY := by
  have e1 : DIT_MAX = 600 := by decide
  have e2 : DIT_MIN = 1200 := by decide
  have e3 : LETTER_SK = 3 := rfl
  have e4 : WORD_SK = 14 := rfl
  have e5 : DEBOUNCE_DLY = 200 := rfl
  rw [e1] at h1
  rw [e2] at h2
  rw [e3] at h3
  rw [e4] at h4
  rw [e5]
  omega

/-- The registers `morse_init` leaves: both space registers are set from the
power-on dit time `DIT_SK`, which equals the slow bracket `DIT_MIN`. -/
theorem morse_init_space (pins : InitPins) (s : State) :
    (morse_init pins s).2.letter_space = LETTER_SK * DIT_SK ∧
    (morse_init pins s).2.word_space = WORD_SK * DIT_SK ∧ DIT_SK = DIT_MIN :=
  ⟨rfl, rfl, by decide⟩

/-- Calls of `get_cw_asc` keep the two space registers inside the brackets. -/
theorem asc_run_space :
    ∀ (envs : List (State → State)) (s : State),
      (∀ f ∈ envs, ∀ x, (f x).letter_space = x.letter_space ∧
        (f x).word_space = x.word_space) →
      (∃ d, DIT_MAX ≤ d ∧ d ≤ DIT_MIN ∧ s.letter_space = LETTER_SK * d ∧
        s.word_space = WORD_SK * d) →
      ∃ s', asc_run envs s = some s' ∧
        ∃ d, DIT_MAX ≤ d ∧ d ≤ DIT_MIN ∧ s'.letter_space = LETTER_SK * d ∧
          s'.word_space = WORD_SK * d := by
  intro envs
  induction envs with
  | nil => intro s _ hs; exact ⟨s, rfl, hs⟩
  | cons f rest ih =>
    intro s henv hs
    obtain ⟨c, x, hget, -, -, -, -, hsp⟩ := get_cw_asc_total (f s)
    obtain ⟨f1, f2⟩ := henv f (List.mem_cons_self _ _) s
    have hx : ∃ d, DIT_MAX ≤ d ∧ d ≤ DIT_MIN ∧ x.letter_space = LETTER_SK * d ∧
        x.word_space = WORD_SK * d := by
      rcases hsp with ⟨g1, g2⟩ | h
      · obtain ⟨d, d1, d2, d3, d4⟩ := hs
        exact ⟨d, d1, d2, by rw [g1, f1, d3], by rw [g2, f2, d4]⟩
      · exact h
    obtain ⟨s', r1, r2⟩ := ih x (fun g hg => henv g (List.mem_cons_of_mem _ hg)) hx
    exact ⟨s', by simp only [asc_run, hget, r1], r2⟩

/-- C39: in every state reached from `morse_init` by calls of `get_cw_asc` (each
call returns), whatever the rest of the program does to the timing buffer and
the other registers between the calls as long as it does not write
`letter_space` and `word_space`, there is a `d` with `DIT_MAX` = 600 ≤ `d` ≤
`DIT_MIN` = 1200, `letter_space = LETTER_SK * d` and `word_space = WORD_SK * d`;
so 1800 ≤ `letter_space` ≤ 3600, `word_space > letter_space` and `letter_space`
exceeds `DEBOUNCE_DLY`. -/
theorem space_regs_bracketed (pins : InitPins) (s0 : State) (envs : List (State → State))
    (henv : ∀ f ∈ envs, ∀ x, (f x).letter_space = x.letter_space ∧
      (f x).word_space = x.word_space) :
    DIT_MAX = 600 ∧ DIT_MIN = 1200 ∧
    ∃ s, asc_run envs (morse_init pins s0).2 = some s ∧
      (∃ d, DIT_MAX ≤ d ∧ d ≤ DIT_MIN ∧ s.letter_space = LETTER_SK * d ∧
        s.word_space = WORD_SK * d) ∧
      1800 ≤ s.letter_space ∧ s.letter_space ≤ 3600 ∧ s.word_space > s.letter_space ∧
      s.letter_space > DEBOUNCE_DLY := by
  obtain ⟨i1, i2, i3⟩ := morse_init_space pins s0
  have h0 : ∃ d, DIT_MAX ≤ d ∧ d ≤ DIT_MIN ∧
      (morse_init pins s0).2.letter_space = LETTER_SK * d ∧
      (morse_init pins s0).2.word_space = WORD_SK * d :=
    ⟨DIT_SK, by decide, by decide, i1, i2⟩
  obtain ⟨s, r1, d, d1, d2, d3, d4⟩ := asc_run_space envs _ henv h0
  exact ⟨by decide, by decide, s, r1, ⟨d, d1, d2, d3, d4⟩, space_regs_range d _ _ d1 d2 d3 d4⟩

set_option maxRecDepth 100000 in
/-- Witness of C39: straight-key start-up, then two calls of `get_cw_asc`, each
on a freshly captured letter with marks of 1500 and 500 ticks: the threshold is
1000 ticks and the registers end at 3000 and 14000. -/
theorem space_regs_bracketed_witness :
    (∀ f ∈ [mixed_capture, mixed_capture], ∀ x,
      (f x).letter_space = x.letter_space ∧ (f x).word_space = x.word_space) ∧
    (morse_init key_pins zero_regs).2.paddle_key_mode = 0 ∧
    (asc_run [mixed_capture, mixed_capture] (morse_init key_pins zero_regs).2).map
      (fun s => (s.letter_space, s.word_space)) = some (3000, 14000) ∧
    ∃ s, asc_run [mixed_capture, mixed_capture] (morse_init key_pins zero_regs).2 = some s ∧
      1800 ≤ s.letter_space ∧ s.letter_space ≤ 3600 := by
  have henv : ∀ f ∈ [mixed_capture, mixed_capture], ∀ x,
      (f x).letter_space = x.letter_space ∧ (f x).word_space = x.word_space := by
    intro f hf x
    simp only [List.mem_cons, List.mem_singleton, List.not_mem_nil, or_false, or_self] at hf
    rw [hf]
    exact ⟨rfl, rfl⟩
  obtain ⟨-, -, s, h1, -, h3, h4, -⟩ :=
    space_regs_bracketed key_pins zero_regs [mixed_capture, mixed_capture] henv
  exact ⟨henv, by decide, by decide, s, h1, h3, h4⟩

/-! ## Theorems: reads and divisions of the straight-key branch -/

/-- The checked first loop agrees with the loop as long as the start index is
inside the array and the end index is at most its length. -/
theorem sk_scan_ck_eq (buf : Nat → Nat) (e : Nat) (he : e ≤ CW_BUFF_END) :
    ∀ fuel i a, i < CW_BUFF_END → sk_scan_ck buf e fuel i a = sk_scan buf e fuel i a := by
  intro fuel
  induction fuel with
  | zero => intro i a _; rfl
  | succ n ih =>
    intro i a hi
    have hrd : rd_timing buf i = some (buf i) := by rw [rd_timing, if_pos hi]
    rw [CW_BUFF_END_eq] at hi he
    have hmod : (i + 1) % 256 = i + 1 := by omega
    simp only [sk_scan_ck, sk_scan, hrd, hmod]
    by_cases hlt : i + 1 < e
    · rw [if_pos hlt, if_pos hlt]
      exact ih _ _ (by rw [CW_BUFF_END_eq]; omega)
    · rw [if_neg hlt, if_neg hlt]
      rfl

/-- The checked second loop agrees with the loop when every mark has a
non-zero duration. -/
theorem sk_sum_ck_eq (buf : Nat → Nat) (xx e : Nat) (he : e ≤ CW_BUFF_END)
    (hm : MarksNonzero buf) :
    ∀ fuel i b, i < CW_BUFF_END → sk_sum_ck buf xx e fuel i b = sk_sum buf xx e fuel i b := by
  intro fuel
  induction fuel with
  | zero => intro i b _; rfl
  | succ n ih =>
    intro i b hi
    have hrd : rd_timing buf i = some (buf i) := by rw [rd_timing, if_pos hi]
    have hmi := hm i hi
    rw [CW_BUFF_END_eq] at hi he
    have hmod : (i + 1) % 256 = i + 1 := by omega
    have hbody : (if buf i &&& KEY_HIBIT ≠ 0 then
          match div_ck xx (buf i &&& KEY_HIBIT_M) with
          | none => none
          | some q =>
            if q ≥ 2 then
              some { b with di := (b.di + (buf i &&& KEY_HIBIT_M)) % 4294967296,
                            k := (b.k + 1) % 256 }
            else some { b with da := (b.da + (buf i &&& KEY_HIBIT_M)) % 4294967296,
                               l := (b.l + 1) % 256 }
        else some b) = some (sk_sum_body buf xx i b) := by
      by_cases hk : buf i &&& KEY_HIBIT ≠ 0
      · have hd : div_ck xx (buf i &&& KEY_HIBIT_M) = some (xx / (buf i &&& KEY_HIBIT_M)) := by
          rw [div_ck, if_neg (hmi hk)]
        rw [if_pos hk, hd]
        by_cases hq : xx / (buf i &&& KEY_HIBIT_M) ≥ 2
        · simp only [sk_sum_body, hk, hq, if_true, ne_eq, not_false_eq_true]
        · simp only [sk_sum_body, hk, hq, if_true, if_false, ne_eq, not_false_eq_true]
      · rw [if_neg hk, sk_sum_body, if_neg hk]
    simp only [sk_sum_ck, hrd]
    rw [hbody]
    simp only [hmod]
    by_cases hlt : i + 1 < e
    · rw [sk_sum, if_pos hlt]
      simp only [hmod, hlt, if_true]
      exact ih _ _ (by rw [CW_BUFF_END_eq]; omega)
    · rw [if_neg hlt, sk_sum_once buf xx e n i b (by omega) hlt]

/-- The checked third loop agrees with the loop. -/
theorem sk_build_ck_eq (buf : Nat → Nat) (ii e : Nat) (he : e ≤ CW_BUFF_END) :
    ∀ fuel i r, i < CW_BUFF_END → sk_build_ck buf ii e fuel i r = sk_build buf ii e fuel i r := by
  intro fuel
  induction fuel with
  | zero => intro i r _; rfl
  | succ n ih =>
    intro i r hi
    obtain ⟨ee, j⟩ := r
    have hrd : rd_timing buf i = some (buf i) := by rw [rd_timing, if_pos hi]
    rw [CW_BUFF_END_eq] at hi he
    have hmod : (i + 1) % 256 = i + 1 := by omega
    simp only [sk_build_ck, sk_build, hrd, hmod]
    by_cases hlt : i + 1 < e
    · rw [if_pos hlt, if_pos hlt]
      exact ih _ _ (by rw [CW_BUFF_END_eq]; omega)
    · rw [if_neg hlt, if_neg hlt]

/-- One pass of the first loop body keeps the space count at most the number of
entries visited, and a non-zero space sum goes with a non-zero count. -/
theorem sk_scan_body_count (buf : Nat → Nat) (i : Nat) (a : SkScan) (hi : i < 255)
    (h : a.j ≤ i ∧ (a.aa ≠ 0 → a.j ≠ 0)) :
    (sk_scan_body buf i a).j ≤ i + 1 ∧
    ((sk_scan_body buf i a).aa ≠ 0 → (sk_scan_body buf i a).j ≠ 0) := by
  obtain ⟨h1, h2⟩ := h
  have hmod : (a.j + 1) % 256 = a.j + 1 := by omega
  by_cases hsp : buf i &&& KEY_HIBIT = 0
  · by_cases h0 : i = 0
    · subst h0
      simp only [sk_scan_body, hsp, if_true, ne_eq, not_true_eq_false, if_false]
      exact ⟨by omega, h2⟩
    · have e1 : (sk_scan_body buf i a).j = a.j + 1 := by
        simp only [sk_scan_body, hsp, h0, if_true, ne_eq, not_false_eq_true, hmod,
          apply_ite SkScan.j, ite_self]
      rw [e1]
      exact ⟨by omega, fun _ => by omega⟩
  · have e1 : (sk_scan_body buf i a).j = a.j := by
      simp only [sk_scan_body, hsp, if_false, apply_ite SkScan.j, ite_self]
    have e2 : (sk_scan_body buf i a).aa = a.aa := by
      simp only [sk_scan_body, hsp, if_false, apply_ite SkScan.aa, ite_self]
    rw [e1, e2]
    exact ⟨by omega, h2⟩

/-- The first loop ends with a non-zero space count whenever the space sum is
non-zero. -/
theorem sk_scan_count (buf : Nat → Nat) (e : Nat) (he : e ≤ 254) :
    ∀ fuel i a a', i < e → (a.j ≤ i ∧ (a.aa ≠ 0 → a.j ≠ 0)) →
      sk_scan buf e fuel i a = some a' → (a'.aa ≠ 0 → a'.j ≠ 0) := by
  intro fuel
  induction fuel with
  | zero => intro i a a' _ _ h; exact absurd h (by simp [sk_scan])
  | succ n ih =>
    intro i a a' hi hinv h
    have hb := sk_scan_body_count buf i a (by omega) hinv
    have hmod : (i + 1) % 256 = i + 1 := by omega
    by_cases hlt : i + 1 < e
    · simp only [sk_scan, hmod, hlt, if_true] at h
      exact ih (i + 1) _ a' hlt hb h
    · simp only [sk_scan, hmod, hlt, if_false, Option.some.injEq] at h
      rw [← h]
      exact hb.2

/-- One pass of the second loop body keeps both counts at most the number of
entries visited, and a non-zero sum goes with a non-zero count. -/
theorem sk_sum_body_count (buf : Nat → Nat) (xx i : Nat) (b : SkSum) (hi : i < 255)
    (h : b.k ≤ i ∧ b.l ≤ i ∧ (b.di ≠ 0 → b.k ≠ 0) ∧ (b.da ≠ 0 → b.l ≠ 0)) :
    (sk_sum_body buf xx i b).k ≤ i + 1 ∧ (sk_sum_body buf xx i b).l ≤ i + 1 ∧
    ((sk_sum_body buf xx i b).di ≠ 0 → (sk_sum_body buf xx i b).k ≠ 0) ∧
    ((sk_sum_body buf xx i b).da ≠ 0 → (sk_sum_body buf xx i b).l ≠ 0) := by
  obtain ⟨h1, h2, h3, h4⟩ := h
  have hk : (b.k + 1) % 256 = b.k + 1 := by omega
  have hl : (b.l + 1) % 256 = b.l + 1 := by omega
  by_cases hm : buf i &&& KEY_HIBIT ≠ 0
  · by_cases hq : xx / (buf i &&& KEY_HIBIT_M) ≥ 2
    · simp only [sk_sum_body, hm, hq, if_true, ne_eq, not_false_eq_true, hk]
      exact ⟨by omega, by omega, fun _ => by omega, h4⟩
    · simp only [sk_sum_body, hm, hq, if_true, if_false, ne_eq, not_false_eq_true, hl]
      exact ⟨by omega, by omega, h3, fun _ => by omega⟩
  · rw [sk_sum_body, if_neg hm]
    exact ⟨by omega, by omega, h3, h4⟩

/-- The second loop ends with a non-zero dit count whenever the dit sum is
non-zero, and likewise for the dahs. -/
theorem sk_sum_count (buf : Nat → Nat) (xx e : Nat) (he : e ≤ 254) :
    ∀ fuel i b b', i ≤ e →
      (b.k ≤ i ∧ b.l ≤ i ∧ (b.di ≠ 0 → b.k ≠ 0) ∧ (b.da ≠ 0 → b.l ≠ 0)) →
      sk_sum buf xx e fuel i b = some b' →
      (b'.di ≠ 0 → b'.k ≠ 0) ∧ (b'.da ≠ 0 → b'.l ≠ 0) := by
  intro fuel
  induction fuel with
  | zero => intro i b b' _ _ h; exact absurd h (by simp [sk_sum])
  | succ n ih =>
    intro i b b' hi hinv h
    have hb := sk_sum_body_count buf xx i b (by omega) hinv
    have hmod : (i + 1) % 256 = i + 1 := by omega
    by_cases hlt : i + 1 < e
    · simp only [sk_sum, hmod, hlt, if_true] at h
      exact ih (i + 1) _ b' (by omega) hb h
    · rw [sk_sum_once buf xx e n i b (by omega) hlt, Option.some.injEq] at h
      rw [← h]
      exact ⟨hb.2.2.1, hb.2.2.2⟩

/-- The checked timing analysis agrees with the timing analysis, which
returns: no read is outside the array and no divisor is zero. -/
theorem sk_timing_ck_eq (st : State) (e : Nat) (he0 : 0 < e) (he : e < CW_BUFF_END)
    (hm : MarksNonzero st.cw_timing_buf) :
    ∃ t, sk_timing st e = some t ∧ sk_timing_ck st e = some t := by
  have h40 : CW_BUFF_END = 40 := rfl
  obtain ⟨a, hscan, -, hs⟩ := sk_scan_bound st.cw_timing_buf e (by omega) 256 0
    ⟨0, 0, 0, 0, 0xffffffff, 0⟩ he0 (by omega)
    ⟨fun j hj _ => absurd hj (Nat.not_lt_zero _), Nat.zero_le _⟩
  have hscan2 : sk_scan_ck st.cw_timing_buf e 256 0 ⟨0, 0, 0, 0, 0xffffffff, 0⟩ = some a := by
    rw [sk_scan_ck_eq st.cw_timing_buf e (by omega) 256 0 _ (by omega)]; exact hscan
  have hcnt := sk_scan_count st.cw_timing_buf e (by omega) 256 0 _ a he0
    ⟨Nat.le_refl 0, fun h => absurd rfl h⟩ hscan
  have he2 : (if a.s = 1 ∧ e = 2 then 1 else e) ≤ 254 := by split_ifs <;> omega
  have he3 : (if a.s = 1 ∧ e = 2 then 1 else e) ≤ CW_BUFF_END := by split_ifs <;> omega
  have hse : a.s ≤ (if a.s = 1 ∧ e = 2 then 1 else e) := by split_ifs <;> omega
  obtain ⟨b, hsum⟩ := sk_sum_total st.cw_timing_buf a.xx _ he2 256 a.s ⟨0, 0, 0, 0⟩ hse
    (by omega)
  have hsum2 : sk_sum_ck st.cw_timing_buf a.xx (if a.s = 1 ∧ e = 2 then 1 else e) 256 a.s
      ⟨0, 0, 0, 0⟩ = some b := by
    rw [sk_sum_ck_eq st.cw_timing_buf a.xx _ he3 hm 256 a.s _ (by omega)]; exact hsum
  obtain ⟨hk, hl⟩ := sk_sum_count st.cw_timing_buf a.xx _ he2 256 a.s _ b hse
    ⟨Nat.zero_le _, Nat.zero_le _, fun h => absurd rfl h, fun h => absurd rfl h⟩ hsum
  have d1 : a.aa ≠ 0 → div_ck a.aa a.j = some (a.aa / a.j) := by
    intro h; rw [div_ck, if_neg (hcnt h)]
  have d2 : b.di ≠ 0 → div_ck b.di b.k = some (b.di / b.k) := by
    intro h; rw [div_ck, if_neg (hk h)]
  have d3 : b.da ≠ 0 → div_ck b.da b.l = some (b.da / b.l) := by
    intro h; rw [div_ck, if_neg (hl h)]
  obtain ⟨t, ht, -⟩ := sk_timing_total st e he0 he
  refine ⟨t, ht, ?_⟩
  rw [← ht]
  simp only [sk_timing, hscan, hsum, sk_timing_ck, hscan2, hsum2]
  by_cases c1 : a.aa = 0 <;> by_cases c2 : b.di = 0 <;> by_cases c3 : b.da = 0
  · simp only [c1, c2, c3, ne_eq, not_true_eq_false, if_false]
  · simp only [c1, c2, c3, ne_eq, not_true_eq_false, not_false_eq_true, if_false, if_true,
      d3 c3]
  · simp only [c1, c2, c3, ne_eq, not_true_eq_false, not_false_eq_true, if_false, if_true,
      d2 c2]
  · simp only [c1, c2, c3, ne_eq, not_true_eq_false, not_false_eq_true, if_false, if_true,
      d2 c2, d3 c3]
  · simp only [c1, c2, c3, ne_eq, not_true_eq_false, not_false_eq_true, if_false, if_true,
      d1 c1]
  · simp only [c1, c2, c3, ne_eq, not_true_eq_false, not_false_eq_true, if_false, if_true,
      d1 c1, d3 c3]
  · simp only [c1, c2, c3, ne_eq, not_true_eq_false, not_false_eq_true, if_false, if_true,
      d1 c1, d2 c2]
  · simp only [c1, c2, c3, ne_eq, not_true_eq_false, not_false_eq_true, if_false, if_true,
      d1 c1, d2 c2, d3 c3]

/-- The checked straight-key letter agrees with the straight-key letter. -/
theorem sk_letter_ck_eq (st : State) (e : Nat) (he0 : 0 < e) (he : e < CW_BUFF_END)
    (hm : MarksNonzero st.cw_timing_buf) : sk_letter_ck st e = sk_letter st e := by
  obtain ⟨t, h1, h2⟩ := sk_timing_ck_eq st e he0 he hm
  obtain ⟨t2, g1, g2, g3, g4, -⟩ := sk_timing_ends st e he0 he
  have heq : t2 = t := Option.some.inj (g1.symm.trans h1)
  subst heq
  have hte : t2.e ≤ CW_BUFF_END := by omega
  have hts : t2.s < CW_BUFF_END := by rw [CW_BUFF_END_eq]; omega
  cases hth : sk_threshold t2 with
  | none => simp only [sk_letter_ck, sk_letter, h1, h2, hth]
  | some p =>
    obtain ⟨ii, st1⟩ := p
    simp only [sk_letter_ck, sk_letter, h1, h2, hth]
    rw [sk_build_ck_eq _ ii t2.e hte 256 t2.s (0, 0) hts]
    try rfl

/-- C34: the straight-key branch of `get_cw_asc`, run with every read of
`cw_timing_buf` checked against `CW_BUFF_END` and every divisor of its four
divisions (`xx / jj`, `aa /= j`, `di /= k`, `da /= l`) checked against zero.  For
every value of `cwelem_idx` and of the other registers, and every timing buffer
whose mark entries have a non-zero duration in the low 31 bits, the checked
branch returns, so no read is outside the array and no divisor is zero, and it
returns what `get_cw_asc` returns. -/
theorem sk_branch_safe (st : State) (hsk : st.paddle_key_mode = 0)
    (hm : MarksNonzero st.cw_timing_buf) :
    ∃ c st', sk_branch_ck st = some (c, st') ∧ get_cw_asc st = some (c, st') := by
  obtain ⟨c, st', h, -⟩ := get_cw_asc_total st
  refine ⟨c, st', ?_, h⟩
  rw [← h, get_cw_asc, if_pos hsk, sk_branch_ck]
  by_cases h1 : st.suppress_s ≠ 0 ∧ st.aspace ≠ 0
  · rw [if_pos h1, if_pos h1]
  · rw [if_neg h1, if_neg h1]
    by_cases h2 : st.aspace ≠ 0
    · rw [if_pos h2, if_pos h2]
    · rw [if_neg h2, if_neg h2]
      by_cases h3 : st.cwelem_idx < CW_BUFF_END ∧ st.cwelem_idx > 0
      · rw [if_pos h3, if_pos h3]
        exact sk_letter_ck_eq st st.cwelem_idx h3.2 h3.1 hm
      · rw [if_neg h3, if_neg h3]

set_option maxRecDepth 100000 in
/-- Witness of C34: a single captured entry, a space at index 0, with a stale
mark at index 1.  The start index becomes 1 and equals the end index, so the
second and third loop run their body once, at index 1, inside the array; the
branch returns the letter E, the decode of the stale mark. -/
theorem sk_branch_safe_witness :
    (lone_space_regs.paddle_key_mode = 0 ∧ MarksNonzero lone_space_regs.cw_timing_buf) ∧
    (sk_branch_ck lone_space_regs).map (fun r => r.1) = some 69 ∧
    ∃ c st', sk_branch_ck lone_space_regs = some (c, st') ∧
      get_cw_asc lone_space_regs = some (c, st') := by
  have hm : MarksNonzero lone_space_regs.cw_timing_buf := by
    unfold MarksNonzero
    decide
  exact ⟨⟨rfl, hm⟩, by decide, sk_branch_safe lone_space_regs rfl hm⟩

/-! ## Theorems: the index invariant -/

theorem reader_view_eq {s t : State} (h : reader_view t = reader_view s) :
    t.cw_tail = s.cw_tail ∧ t.cwt_head = s.cwt_head ∧ t.cwt_tail = s.cwt_tail ∧
    t.cw_text_buf = s.cw_text_buf ∧ t.cwelem_idx = s.cwelem_idx ∧
    t.cw_timing_buf = s.cw_timing_buf := by
  simp only [reader_view, Prod.mk.injEq] at h
  exact h

/-- No stage of the paddle decoder, and no stage of the straight-key decoder
other than the edge capture, writes the element tail, the text buffer or the
timing buffer. -/
theorem stage_reader_view (SINE : Nat → Int) (hw : PortB) :
    (∀ t : State, reader_view (debounce_tick t) = reader_view t) ∧
    (∀ t : State, reader_view (status_handshake t) = reader_view t) ∧
    (∀ t : State, reader_view (key_timer_tick t) = reader_view t) ∧
    (∀ t : State, reader_view (sk_tick SINE t) = reader_view t) ∧
    (∀ t : State, reader_view (sk_initial t) = reader_view t) ∧
    (∀ t : State, reader_view (tone_timer_tick t) = reader_view t) ∧
    (∀ t : State, reader_view (pdl_initial t) = reader_view t) ∧
    (∀ t : State, reader_view (pdl_tone SINE hw t) = reader_view t) ∧
    (∀ t : State, reader_view (pdl_space hw t) = reader_view t) := by
  have k4 : ∀ t : State, reader_view (pdl_silence t) = reader_view t := by
    intro t
    have a1 : ∀ u : State, reader_view (pdl_word_space u) = reader_view u := by
      intro u
      simp only [pdl_word_space, cw_push, reader_view, apply_ite State.cw_tail,
        apply_ite State.cwt_head, apply_ite State.cwt_tail, apply_ite State.cw_text_buf,
        apply_ite State.cwelem_idx, apply_ite State.cw_timing_buf, ite_self]
    have a2 : ∀ u : State, reader_view (pdl_letter_space u) = reader_view u := by
      intro u
      simp only [pdl_letter_space, cw_push, reader_view, apply_ite State.cw_tail,
        apply_ite State.cwt_head, apply_ite State.cwt_tail, apply_ite State.cw_text_buf,
        apply_ite State.cwelem_idx, apply_ite State.cw_timing_buf, ite_self]
    rw [pdl_silence]
    dsimp only
    split_ifs
    · rw [a2, a1]; rfl
    · rw [a1]; rfl
    · rw [a2]; rfl
    · rfl
  have k5 : ∀ t : State, reader_view (pdl_start t) = reader_view t := by
    intro t
    rw [pdl_start]
    split_ifs
    · simp only [pdl_start_opposite, reader_view, apply_ite State.cw_tail,
        apply_ite State.cwt_head, apply_ite State.cwt_tail, apply_ite State.cw_text_buf,
        apply_ite State.cwelem_idx, apply_ite State.cw_timing_buf, ite_self]
    · rfl
    · rfl
    · exact k4 t
  refine ⟨?_, ?_, ?_, ?_, ?_, ?_, ?_, ?_, ?_⟩
  · intro t
    simp only [debounce_tick, reader_view, apply_ite State.cw_tail,
      apply_ite State.cwt_head, apply_ite State.cwt_tail, apply_ite State.cw_text_buf,
      apply_ite State.cwelem_idx, apply_ite State.cw_timing_buf, ite_self]
  · intro t
    simp only [status_handshake, reader_view, apply_ite State.cw_tail,
      apply_ite State.cwt_head, apply_ite State.cwt_tail, apply_ite State.cw_text_buf,
      apply_ite State.cwelem_idx, apply_ite State.cw_timing_buf, ite_self]
  · intro t; rfl
  · intro t
    simp only [sk_tick, sk_tone, sk_space, a_dds, a_rampup, reader_view, apply_ite State.cw_tail,
      apply_ite State.cwt_head, apply_ite State.cwt_tail, apply_ite State.cw_text_buf,
      apply_ite State.cwelem_idx, apply_ite State.cw_timing_buf, ite_self]
  · intro t
    simp only [sk_initial, reader_view, apply_ite State.cw_tail,
      apply_ite State.cwt_head, apply_ite State.cwt_tail, apply_ite State.cw_text_buf,
      apply_ite State.cwelem_idx, apply_ite State.cw_timing_buf, ite_self]
  · intro t
    simp only [tone_timer_tick, reader_view, apply_ite State.cw_tail,
      apply_ite State.cwt_head, apply_ite State.cwt_tail, apply_ite State.cw_text_buf,
      apply_ite State.cwelem_idx, apply_ite State.cw_timing_buf, ite_self]
  · intro t
    simp only [pdl_initial, reader_view, apply_ite State.cw_tail,
      apply_ite State.cwt_head, apply_ite State.cwt_tail, apply_ite State.cw_text_buf,
      apply_ite State.cwelem_idx, apply_ite State.cw_timing_buf, ite_self]
  · intro t
    have a1 : ∀ u : State, reader_view (pdl_latch hw u) = reader_view u := by
      intro u
      simp only [pdl_latch, reader_view, apply_ite State.cw_tail,
        apply_ite State.cwt_head, apply_ite State.cwt_tail, apply_ite State.cw_text_buf,
        apply_ite State.cwelem_idx, apply_ite State.cw_timing_buf, ite_self]
    have a2 : ∀ u : State, reader_view (pdl_expire u) = reader_view u := by
      intro u
      simp only [pdl_expire, reader_view, apply_ite State.cw_tail,
        apply_ite State.cwt_head, apply_ite State.cwt_tail, apply_ite State.cw_text_buf,
        apply_ite State.cwelem_idx, apply_ite State.cw_timing_buf, ite_self]
    have a3 : ∀ u : State, reader_view (a_rampup (a_dds SINE u)) = reader_view u := by
      intro u
      simp only [a_rampup, a_dds, reader_view, apply_ite State.cw_tail,
        apply_ite State.cwt_head, apply_ite State.cwt_tail, apply_ite State.cw_text_buf,
        apply_ite State.cwelem_idx, apply_ite State.cw_timing_buf, ite_self]
    have a4 : ∀ u : State, reader_view (pdl_decay u) = reader_view u := by
      intro u
      simp only [pdl_decay, trap_element, reader_view, apply_ite State.cw_tail,
        apply_ite State.cwt_head, apply_ite State.cwt_tail, apply_ite State.cw_text_buf,
        apply_ite State.cwelem_idx, apply_ite State.cw_timing_buf, ite_self]
    rw [pdl_tone, a4, a3, a2, a1]
  · intro t
    have a1 : ∀ u : State, reader_view (pdl_edge hw u) = reader_view u := by
      intro u
      simp only [pdl_edge, reader_view, apply_ite State.cw_tail,
        apply_ite State.cwt_head, apply_ite State.cwt_tail, apply_ite State.cw_text_buf,
        apply_ite State.cwelem_idx, apply_ite State.cw_timing_buf, ite_self]
    have a2 : ∀ u : State, reader_view (pdl_sample hw u) = reader_view u := by
      intro u
      simp only [pdl_sample, reader_view, apply_ite State.cw_tail,
        apply_ite State.cwt_head, apply_ite State.cwt_tail, apply_ite State.cw_text_buf,
        apply_ite State.cwelem_idx, apply_ite State.cw_timing_buf, ite_self]
    have a3 : ∀ u : State, reader_view (pdl_gap hw u) = reader_view u := by
      intro u
      rw [pdl_gap]
      show reader_view (pdl_start (pdl_clear_edges (pdl_sample hw u))) = _
      rw [k5]
      exact a2 u
    rw [pdl_space, pdl_gap_check]
    split_ifs
    · rw [a3, a1]
    · rw [a1]

/-- The edge capture of the straight-key decoder writes the timing buffer at
the end index only when that index is inside the array, and then advances it;
it writes no other buffer register. -/
theorem sk_edge_effect (hw : PortB) (t : State) (h : t.cwelem_idx ≤ CW_BUFF_END) :
    (sk_edge hw t).cw_tail = t.cw_tail ∧ (sk_edge hw t).cwt_head = t.cwt_head ∧
    (sk_edge hw t).cwt_tail = t.cwt_tail ∧ (sk_edge hw t).cw_text_buf = t.cw_text_buf ∧
    (sk_edge hw t).cwelem_idx ≤ CW_BUFF_END ∧
    WriteAt CW_BUFF_END t.cw_timing_buf (sk_edge hw t).cw_timing_buf := by
  have h40 : CW_BUFF_END = 40 := rfl
  refine ⟨?_, ?_, ?_, ?_, ?_⟩
  · simp only [sk_edge, apply_ite State.cw_tail, ite_self]
  · simp only [sk_edge, apply_ite State.cwt_head, ite_self]
  · simp only [sk_edge, apply_ite State.cwt_tail, ite_self]
  · simp only [sk_edge, apply_ite State.cw_text_buf, ite_self]
  · have hw1 : ∀ (u : State) (v : Nat), u.cwelem_idx ≤ CW_BUFF_END →
        (if u.cwelem_idx < CW_BUFF_END then
            { u with cw_timing_buf := wr u.cw_timing_buf u.cwelem_idx v,
                     cwelem_idx := (u.cwelem_idx + 1) % 256 }
          else u).cwelem_idx ≤ CW_BUFF_END ∧
        WriteAt CW_BUFF_END u.cw_timing_buf
          (if u.cwelem_idx < CW_BUFF_END then
            { u with cw_timing_buf := wr u.cw_timing_buf u.cwelem_idx v,
                     cwelem_idx := (u.cwelem_idx + 1) % 256 }
          else u).cw_timing_buf := by
      intro u v hu
      by_cases c : u.cwelem_idx < CW_BUFF_END
      · rw [if_pos c]
        refine ⟨?_, Or.inr ⟨_, _, c, rfl⟩⟩
        show (u.cwelem_idx + 1) % 256 ≤ CW_BUFF_END
        omega
      · rw [if_neg c]
        exact ⟨hu, Or.inl rfl⟩
    rw [sk_edge]
    by_cases c1 : t.debounce_timer = 0 ∨ t.letter_complete ≠ 0
    · rw [if_pos c1]
      by_cases c2 : inv_in hw.DATA_R NDIT ≠ t.gpiob_mem
      · rw [if_pos c2]
        by_cases c3 : inv_in hw.DATA_R NDIT ≠ 0
        · rw [if_pos c3]
          exact hw1 { t with gpiob_mem := inv_in hw.DATA_R NDIT, debounce_timer := DEBOUNCE_DLY }
            _ h
        · rw [if_neg c3]
          exact hw1 { t with gpiob_mem := inv_in hw.DATA_R NDIT, debounce_timer := DEBOUNCE_DLY }
            _ h
      · rw [if_neg c2]
        exact ⟨h, Or.inl rfl⟩
    · rw [if_neg c1]
      exact ⟨h, Or.inl rfl⟩

/-- One run of `Timer3A_ISR`, in either mode: the element tail, the text
buffer and its indices are kept; the end index of the timing buffer stays at
most `CW_BUFF_END`; the timing buffer is kept or written at one index inside
the array. -/
theorem Timer3A_ISR_reader (SINE : Nat → Int) (hw : PortB) (s : State)
    (h : s.cwelem_idx ≤ CW_BUFF_END) :
    (Timer3A_ISR SINE hw s).cw_tail = s.cw_tail ∧
    (Timer3A_ISR SINE hw s).cwt_head = s.cwt_head ∧
    (Timer3A_ISR SINE hw s).cwt_tail = s.cwt_tail ∧
    (Timer3A_ISR SINE hw s).cw_text_buf = s.cw_text_buf ∧
    (Timer3A_ISR SINE hw s).cwelem_idx ≤ CW_BUFF_END ∧
    WriteAt CW_BUFF_END s.cw_timing_buf (Timer3A_ISR SINE hw s).cw_timing_buf := by
  obtain ⟨k1, k2, k3, k4, k5, k6, k7, k8, k9⟩ := stage_reader_view SINE hw
  rw [Timer3A_ISR]
  by_cases hm : s.paddle_key_mode = 0
  · rw [if_pos hm]
    have hv : reader_view (debounce_tick (key_timer_tick (status_handshake
        (sk_tick SINE (sk_edge hw (sk_initial s)))))) = reader_view (sk_edge hw (sk_initial s)) := by
      rw [k1, k3, k2, k4]
    obtain ⟨v1, v2, v3, v4, v5, v6⟩ := reader_view_eq hv
    obtain ⟨i1, i2, i3, i4, i5, i6⟩ := reader_view_eq (k5 s)
    obtain ⟨e1, e2, e3, e4, e5, e6⟩ := sk_edge_effect hw (sk_initial s) (by rw [i5]; exact h)
    rw [v1, v2, v3, v4, v5, v6, e1, e2, e3, e4, i1, i2, i3, i4]
    rw [i6] at e6
    exact ⟨rfl, rfl, rfl, rfl, e5, e6⟩
  · rw [if_neg hm]
    have hv : reader_view (debounce_tick (status_handshake
        (pdl_tick SINE hw (pdl_initial (tone_timer_tick s))))) = reader_view s := by
      rw [k1, k2, pdl_tick]
      split_ifs
      · rw [k8, k7, k6]
      · rw [k9, k7, k6]
    obtain ⟨v1, v2, v3, v4, v5, v6⟩ := reader_view_eq hv
    rw [v1, v2, v3, v4, v5, v6]
    exact ⟨rfl, rfl, rfl, rfl, h, Or.inl rfl⟩

/-- A step of the element ring buffer from a head inside the array writes
both arrays at that head or not at all. -/
theorem ring_step_writes (s t : State) (hh : s.cw_head < CW_BUFF_END) (h : RingStep s t) :
    WriteAt CW_BUFF_END s.cw_elem_buf t.cw_elem_buf ∧
    WriteAt CW_BUFF_END s.cw_len_buf t.cw_len_buf := by
  rcases h with ⟨a1, a2, -⟩ | ⟨a1, a2, -⟩ | ⟨-, a1, a2, -⟩
  · exact ⟨Or.inl a1, Or.inl a2⟩
  · exact ⟨Or.inr ⟨_, _, hh, a1⟩, Or.inr ⟨_, _, hh, a2⟩⟩
  · exact ⟨Or.inr ⟨_, _, hh, a1⟩, Or.inr ⟨_, _, hh, a2⟩⟩

/-- A read of the text buffer moves the text tail to an index inside the array
or leaves it, and changes nothing else. -/
theorem getchar_cw_frame (s : State) (ht : s.cwt_tail < CWT_BUFF_END) :
    (getchar_cw s).2 = { s with cwt_tail := (getchar_cw s).2.cwt_tail } ∧
    (getchar_cw s).2.cwt_tail < CWT_BUFF_END := by
  have h128 : CWT_BUFF_END = 128 := rfl
  by_cases h1 : s.cwt_tail ≠ s.cwt_head
  · rw [getchar_cw, if_pos h1]
    dsimp only
    by_cases h2 : (s.cwt_tail + 1) % 256 ≥ CWT_BUFF_END
    · rw [if_pos h2]
      refine ⟨rfl, ?_⟩
      show 0 < CWT_BUFF_END
      decide
    · rw [if_neg h2]
      refine ⟨rfl, ?_⟩
      show (s.cwt_tail + 1) % 256 < CWT_BUFF_END
      omega
  · rw [getchar_cw, if_neg h1]
    exact ⟨rfl, ht⟩

/-- Every operation returns, keeps the index invariant and the ranges of the
capture registers, and writes each buffer at most at one index inside the
array. -/
theorem buf_op_step (SINE : Nat → Int) (op : BufOp) (l : PcwLocals) (s : State)
    (hi : IdxInv s) (hp : PdlInv s) :
    ∃ l' t, op.run SINE (l, s) = some (l', t) ∧ IdxInv t ∧ PdlInv t ∧ WritesInside s t := by
  obtain ⟨i1, i2, i3, i4, i5⟩ := hi
  cases op with
  | tick hw =>
    obtain ⟨r1, r2⟩ := Timer3A_ISR_ring SINE hw s hp
    obtain ⟨v1, v2, v3, v4, v5, v6⟩ := Timer3A_ISR_reader SINE hw s i5
    obtain ⟨w1, w2⟩ := ring_step_writes s _ i1 r1
    refine ⟨l, Timer3A_ISR SINE hw s, rfl, ⟨r2.2.1, ?_, ?_, ?_, v5⟩, r2, w1, w2, Or.inl v4, v6⟩
    · rw [v1]; exact i2
    · rw [v2]; exact i3
    · rw [v3]; exact i4
  | edge hw =>
    have hr : reader_view (didah_isr hw s) = reader_view s := by
      simp only [didah_isr, reader_view, apply_ite State.cw_tail,
        apply_ite State.cwt_head, apply_ite State.cwt_tail, apply_ite State.cw_text_buf,
        apply_ite State.cwelem_idx, apply_ite State.cw_timing_buf, ite_self]
    obtain ⟨v1, v2, v3, v4, v5, v6⟩ := reader_view_eq hr
    obtain ⟨u1, u2, u3, -, -, -⟩ := ring_view_eq (didah_isr_ring hw s)
    refine ⟨l, didah_isr hw s, rfl, ⟨?_, ?_, ?_, ?_, ?_⟩, pdl_inv_congr (didah_isr_ring hw s) hp,
      Or.inl u1, Or.inl u2, Or.inl v4, Or.inl v6⟩
    · rw [u3]; exact i1
    · rw [v1]; exact i2
    · rw [v2]; exact i3
    · rw [v3]; exact i4
    · rw [v5]; exact i5
  | request =>
    exact ⟨l, { s with cw_astat := CW_RS }, rfl, ⟨i1, i2, i3, i4, i5⟩, hp,
      Or.inl rfl, Or.inl rfl, Or.inl rfl, Or.inl rfl⟩
  | get_asc =>
    obtain ⟨c, x, hget, -, g1, g2, g3, -⟩ := get_cw_asc_total s
    have e1 : x.cw_head = s.cw_head := by rw [g1]
    have e2 : x.cwt_head = s.cwt_head := by rw [g1]
    have e3 : x.cwt_tail = s.cwt_tail := by rw [g1]
    have e4 : x.silence_count = s.silence_count := by rw [g1]
    have e5 : x.trap_count = s.trap_count := by rw [g1]
    have b1 : x.cw_elem_buf = s.cw_elem_buf := by rw [g1]
    have b2 : x.cw_len_buf = s.cw_len_buf := by rw [g1]
    have b3 : x.cw_text_buf = s.cw_text_buf := by rw [g1]
    have b4 : x.cw_timing_buf = s.cw_timing_buf := by rw [g1]
    refine ⟨l, x, by simp only [BufOp.run, hget], ⟨?_, ?_, ?_, ?_, ?_⟩, ?_,
      Or.inl b1, Or.inl b2, Or.inl b3, Or.inl b4⟩
    · rw [e1]; exact i1
    · rcases g3 with h | h
      · rw [h]; exact i2
      · exact h
    · rw [e2]; exact i3
    · rw [e3]; exact i4
    · rcases g2 with h | h
      · rw [h]; exact Nat.zero_le _
      · rw [h]; exact i5
    · unfold PdlInv
      rw [e1, e4, e5]
      exact hp
  | process stat =>
    obtain ⟨l', x, hrun, -, -, p3, p4, p5, p6, p7, p8, p9, p10, p11, -, pf⟩ :=
      Process_CW_effect stat l s
    have e4 : x.silence_count = s.silence_count := by rw [pf]
    have e5 : x.trap_count = s.trap_count := by rw [pf]
    refine ⟨l', x, hrun, ⟨?_, ?_, ?_, ?_, ?_⟩, ?_, Or.inl p9, Or.inl p10, ?_, Or.inl p11⟩
    · rw [p4]; exact i1
    · rcases p6 with h | h
      · rw [h]; exact i2
      · exact h
    · rcases p5 with h | h
      · rw [h]; exact i3
      · exact h
    · rw [p3]; exact i4
    · rcases p7 with h | h
      · rw [h]; exact Nat.zero_le _
      · rw [h]; exact i5
    · unfold PdlInv
      rw [p4, e4, e5]
      exact hp
    · rcases p8 with h | ⟨c, h⟩
      · exact Or.inl h
      · exact Or.inr ⟨_, c, i3, h⟩
  | getchar =>
    obtain ⟨f1, f2⟩ := getchar_cw_frame s i4
    have hx : ∃ x, (getchar_cw s).2 = x ∧ x = { s with cwt_tail := x.cwt_tail } ∧
        x.cwt_tail < CWT_BUFF_END := ⟨_, rfl, f1, f2⟩
    clear f1 f2
    obtain ⟨x, hx0, f1, f2⟩ := hx
    have e1 : x.cw_head = s.cw_head := by rw [f1]
    have e2 : x.cw_tail = s.cw_tail := by rw [f1]
    have e3 : x.cwt_head = s.cwt_head := by rw [f1]
    have e4 : x.silence_count = s.silence_count := by rw [f1]
    have e5 : x.trap_count = s.trap_count := by rw [f1]
    have e6 : x.cwelem_idx = s.cwelem_idx := by rw [f1]
    have b1 : x.cw_elem_buf = s.cw_elem_buf := by rw [f1]
    have b2 : x.cw_len_buf = s.cw_len_buf := by rw [f1]
    have b3 : x.cw_text_buf = s.cw_text_buf := by rw [f1]
    have b4 : x.cw_timing_buf = s.cw_timing_buf := by rw [f1]
    refine ⟨l, x, ?_, ⟨?_, ?_, ?_, f2, ?_⟩, ?_, Or.inl b1, Or.inl b2, Or.inl b3, Or.inl b4⟩
    · show some (l, (getchar_cw s).2) = some (l, x)
      rw [hx0]
    · rw [e1]; exact i1
    · rw [e2]; exact i2
    · rw [e3]; exact i3
    · rw [e6]; exact i5
    · unfold PdlInv
      rw [e1, e4, e5]
      exact hp

/-- A run of operations from registers that satisfy the index invariant
returns and ends in registers that satisfy it. -/
theorem buf_run_inv (SINE : Nat → Int) :
    ∀ (ops : List BufOp) (l : PcwLocals) (s : State), IdxInv s → PdlInv s →
      ∃ l' t, buf_run SINE ops (l, s) = some (l', t) ∧ IdxInv t ∧ PdlInv t := by
  intro ops
  induction ops with
  | nil => intro l s hi hp; exact ⟨l, s, rfl, hi, hp⟩
  | cons op rest ih =>
    intro l s hi hp
    obtain ⟨l1, s1, h1, h2, h3, -⟩ := buf_op_step SINE op l s hi hp
    obtain ⟨l2, s2, g1, g2, g3⟩ := ih l1 s1 h2 h3
    exact ⟨l2, s2, by simp only [buf_run, h1, g1], g2, g3⟩

/-- The registers `morse_init` leaves satisfy the index invariant: all five
indices are 0. -/
theorem morse_init_idx (pins : InitPins) (s : State) : IdxInv (morse_init pins s).2 := by
  obtain ⟨-, h2, h3, -⟩ := morse_init_regs pins s
  have h4 : (morse_init pins s).2.cwt_head = 0 := by
    simp only [morse_init, init_stw, set_ramp_rate, set_iambic_mode, timer3A_init, timer3B_init,
      apply_ite State.cwt_head, ite_self]
  have h5 : (morse_init pins s).2.cwt_tail = 0 := by
    simp only [morse_init, init_stw, set_ramp_rate, set_iambic_mode, timer3A_init, timer3B_init,
      apply_ite State.cwt_tail, ite_self]
  have h6 : (morse_init pins s).2.cwelem_idx = 0 := rfl
  unfold IdxInv
  rw [h2, h3, h4, h5, h6]
  exact ⟨by decide, by decide, by decide, by decide, by decide⟩

/-- C35: the index invariant.  From the registers `morse_init` leaves, every
sequence of operations (runs of `Timer3A_ISR` in either mode and of `didah_isr`,
the status request, calls of `get_cw_asc`, `Process_CW` and `getchar_cw`, in any
order) returns and ends in registers with `cw_head`, `cw_tail` below
`CW_BUFF_END`, `cwt_head`, `cwt_tail` below `CWT_BUFF_END` and `cwelem_idx` at most
`CW_BUFF_END`; and every operation run from there returns, keeps these bounds,
and leaves each of `cw_elem_buf`, `cw_len_buf`, `cw_text_buf` and `cw_timing_buf`
unchanged or written at one index inside the array. -/
theorem index_invariant (SINE : Nat → Int) (pins : InitPins) (s0 : State) (l0 : PcwLocals)
    (ops : List BufOp) :
    IdxInv (morse_init pins s0).2 ∧
    ∃ l s, buf_run SINE ops (l0, (morse_init pins s0).2) = some (l, s) ∧ IdxInv s ∧
      ∀ op : BufOp, ∃ l' t, op.run SINE (l, s) = some (l', t) ∧ IdxInv t ∧ WritesInside s t := by
  have h0 := morse_init_idx pins s0
  obtain ⟨l, s, h1, h2, h3⟩ := buf_run_inv SINE ops l0 _ h0 (morse_init_inv pins s0)
  refine ⟨h0, l, s, h1, h2, fun op => ?_⟩
  obtain ⟨l', t, g1, g2, -, g4⟩ := buf_op_step SINE op l s h2 h3
  exact ⟨l', t, g1, g2, g4⟩

/-! ## Theorems: the status flags over a tick, the auto-space flag included -/

theorem flags_kept_refl (a : Nat) : FlagsKept a a := fun _ h => h

theorem flags_kept_trans {a b c : Nat} (h1 : FlagsKept a b) (h2 : FlagsKept b c) :
    FlagsKept a c := fun k h => h2 k (h1 k h)

/-- Setting flags keeps the flags. -/
theorem flags_kept_or {a b : Nat} (m : Nat) (h : FlagsKept a b) : FlagsKept a (b ||| m) := by
  intro k hb
  rw [Nat.testBit_or, h k hb, Bool.true_or]

/-- A push into the element buffer keeps every status flag. -/
theorem cw_push_flags (elem len : Nat) (s : State) :
    FlagsKept s.cw_stat (cw_push elem len s).cw_stat := by
  simp only [cw_push, apply_ite State.cw_stat, ite_self]
  split_ifs <;>
    first
    | exact flags_kept_or _ (flags_kept_refl _)
    | exact flags_kept_refl _

/-- The word-space step keeps every status flag. -/
theorem pdl_word_space_flags (s : State) :
    FlagsKept s.cw_stat (pdl_word_space s).cw_stat := by
  have hp := cw_push_flags SPACE_ELEM SPACE_COUNT s
  simp only [pdl_word_space, apply_ite State.cw_stat]
  generalize cw_push SPACE_ELEM SPACE_COUNT s = q at hp ⊢
  generalize s.cw_stat = a at hp ⊢
  generalize q.cw_stat = b at hp ⊢
  split_ifs <;>
    first
    | exact flags_kept_or _ (flags_kept_or _ hp)
    | exact flags_kept_or _ hp
    | exact flags_kept_or _ (flags_kept_or _ (flags_kept_refl _))
    | exact flags_kept_or _ (flags_kept_refl _)

/-- The letter-space step keeps every status flag unless the auto-space toggle
pair is trapped. -/
theorem pdl_letter_space_flags (s : State)
    (hn : ¬ (s.trap_word = CWSTT_E ∧ s.trap_count = CWSTT_L)) :
    FlagsKept s.cw_stat (pdl_letter_space s).cw_stat := by
  have hp := cw_push_flags s.trap_word s.trap_count s
  simp only [pdl_letter_space, hn, if_false, apply_ite State.cw_stat]
  generalize cw_push s.trap_word s.trap_count s = q at hp ⊢
  generalize s.cw_stat = a at hp ⊢
  generalize q.cw_stat = b at hp ⊢
  split_ifs <;>
    first
    | exact flags_kept_or _ hp
    | exact hp
    | exact flags_kept_refl _

/-- Counting silence keeps every status flag unless the auto-space toggle pair
is trapped. -/
theorem pdl_silence_flags (s : State)
    (hn : ¬ (s.trap_word = CWSTT_E ∧ s.trap_count = CWSTT_L)) :
    FlagsKept s.cw_stat (pdl_silence s).cw_stat := by
  rw [pdl_silence]
  dsimp only
  have hw := pdl_word_space_flags
    { s with tone_timer := s.dit_time_reg, silence_count := (s.silence_count + 1) % 256 }
  obtain ⟨-, -, -, f4, f5, -⟩ := pdl_word_space_frame
    { s with tone_timer := s.dit_time_reg, silence_count := (s.silence_count + 1) % 256 }
  generalize pdl_word_space
    { s with tone_timer := s.dit_time_reg, silence_count := (s.silence_count + 1) % 256 } = w
    at hw f4 f5
  have hw2 : FlagsKept s.cw_stat w.cw_stat := hw
  have hnw : ¬ (w.trap_word = CWSTT_E ∧ w.trap_count = CWSTT_L) := by
    rw [f4, f5]; exact hn
  have hl := pdl_letter_space_flags
    { s with tone_timer := s.dit_time_reg, silence_count := (s.silence_count + 1) % 256 } hn
  split_ifs
  · exact flags_kept_trans hw2 (pdl_letter_space_flags w hnw)
  · exact hw2
  · exact hl
  · exact flags_kept_refl _

/-- A choice between two register states keeps the flags when both do. -/
theorem flags_kept_ite (c : Prop) [Decidable c] (a : Nat) (x y : State)
    (hx : FlagsKept a x.cw_stat) (hy : FlagsKept a y.cw_stat) :
    FlagsKept a (if c then x else y).cw_stat := by
  split_ifs
  · exact hx
  · exact hy

/-- Starting the next element or counting silence keeps every status flag
unless the auto-space toggle pair is trapped. -/
theorem pdl_start_flags (s : State)
    (hn : ¬ (s.trap_word = CWSTT_E ∧ s.trap_count = CWSTT_L)) :
    FlagsKept s.cw_stat (pdl_start s).cw_stat := by
  have ha := flags_kept_refl s.cw_stat
  simp only [pdl_start, pdl_start_opposite]
  exact flags_kept_ite _ _ _ _ (flags_kept_ite _ _ _ _ ha ha)
    (flags_kept_ite _ _ _ _ ha (flags_kept_ite _ _ _ _ ha (pdl_silence_flags s hn)))

/-- Tone-off processing of the paddle mode keeps every status flag unless the
auto-space toggle pair is trapped. -/
theorem pdl_space_flags (hw : PortB) (s : State)
    (hn : ¬ (s.trap_word = CWSTT_E ∧ s.trap_count = CWSTT_L)) :
    FlagsKept s.cw_stat (pdl_space hw s).cw_stat := by
  have h1 : (pdl_edge hw s).cw_stat = s.cw_stat := by
    simp only [pdl_edge, apply_ite State.cw_stat, ite_self]
  have h2 : ∀ t : State, (pdl_clear_edges (pdl_sample hw t)).cw_stat = t.cw_stat := by
    intro t
    simp only [pdl_clear_edges, pdl_sample, apply_ite State.cw_stat, ite_self]
  have hg : FlagsKept s.cw_stat (pdl_gap hw (pdl_edge hw s)).cw_stat := by
    show FlagsKept s.cw_stat (pdl_start (pdl_clear_edges (pdl_sample hw (pdl_edge hw s)))).cw_stat
    have hv : ring_view (pdl_clear_edges (pdl_sample hw (pdl_edge hw s))) = ring_view s :=
      (pdl_sample_ring hw (pdl_edge hw s)).trans (pdl_edge_ring hw s)
    have h3 := h2 (pdl_edge hw s)
    generalize pdl_clear_edges (pdl_sample hw (pdl_edge hw s)) = d at hv h3 ⊢
    obtain ⟨-, -, -, d4, d5, -⟩ := ring_view_eq hv
    have hnd : ¬ (d.trap_word = CWSTT_E ∧ d.trap_count = CWSTT_L) := by rw [d4, d5]; exact hn
    have := pdl_start_flags d hnd
    rw [h3, h1] at this
    exact this
  simp only [pdl_space, pdl_gap_check]
  exact flags_kept_ite _ _ _ _ hg (by rw [h1]; exact flags_kept_refl _)

/-- Paddle mode: the statements before the handshake keep every status flag
unless the auto-space toggle pair is trapped at the start of the tick. -/
theorem pdl_entry_flags (SINE : Nat → Int) (hw : PortB) (s : State)
    (hn : ¬ (s.trap_word = CWSTT_E ∧ s.trap_count = CWSTT_L)) :
    FlagsKept s.cw_stat (pdl_tick SINE hw (pdl_initial (tone_timer_tick s))).cw_stat := by
  have h1 : (pdl_initial (tone_timer_tick s)).cw_stat = s.cw_stat := by
    simp only [pdl_initial, tone_timer_tick, apply_ite State.cw_stat, ite_self]
  have h2 : ∀ t : State, (pdl_tone SINE hw t).cw_stat = t.cw_stat := by
    intro t
    simp only [pdl_tone, pdl_decay, trap_element, a_rampup, a_dds, pdl_expire, pdl_latch,
      apply_ite State.cw_stat, ite_self]
  have hv : ring_view (pdl_initial (tone_timer_tick s)) = ring_view s := by
    rw [pdl_initial_ring, tone_timer_tick_ring]
  generalize pdl_initial (tone_timer_tick s) = a at h1 hv ⊢
  obtain ⟨-, -, -, a4, a5, -⟩ := ring_view_eq hv
  have hna : ¬ (a.trap_word = CWSTT_E ∧ a.trap_count = CWSTT_L) := by rw [a4, a5]; exact hn
  have hsp := pdl_space_flags hw a hna
  rw [h1] at hsp
  simp only [pdl_tick]
  exact flags_kept_ite _ _ _ _ (by rw [h2, h1]; exact flags_kept_refl _) hsp

/-- C16, amended: status handshake.  In a `Timer3A_ISR` tick of either decode
mode the statements before the handshake block leave `cw_astat` as posted.  On
a tick that finds `cw_astat = CW_RS` the interrupt sets `cw_astat` to
`cw_stat | CW_GS` (the status as it stands at the handshake block), a value that
differs from `CW_RS` for every `cw_stat`, and then clears every bit of `cw_stat`
except `CW_ST`.  On a tick that finds `cw_astat` different from `CW_RS` it
leaves `cw_astat` unchanged, the handshake block changes no register, and the
tick clears no status flag other than `CW_ST`; `CW_ST` itself can be cleared
only by the paddle decoder on a tick that starts with the auto-space toggle
pair trapped (`trap_word = CWSTT_E`, `trap_count = CWSTT_L`): on every other
tick each flag that was set is still set, and in straight-key mode the status
register is unchanged. -/
theorem status_handshake_tick (SINE : Nat → Int) (hw : PortB) (s : State) :
    (handshake_entry SINE hw s).cw_astat = s.cw_astat ∧
    (s.cw_astat = CW_RS →
      (Timer3A_ISR SINE hw s).cw_astat = (handshake_entry SINE hw s).cw_stat ||| CW_GS ∧
      (Timer3A_ISR SINE hw s).cw_astat ≠ CW_RS ∧
      (Timer3A_ISR SINE hw s).cw_stat = (handshake_entry SINE hw s).cw_stat &&& CW_ST) ∧
    (s.cw_astat ≠ CW_RS →
      (Timer3A_ISR SINE hw s).cw_astat = s.cw_astat ∧
      status_handshake (handshake_entry SINE hw s) = handshake_entry SINE hw s ∧
      (Timer3A_ISR SINE hw s).cw_stat = (handshake_entry SINE hw s).cw_stat ∧
      StatKept s.cw_stat (Timer3A_ISR SINE hw s).cw_stat ∧
      (¬ (s.paddle_key_mode ≠ 0 ∧ s.trap_word = CWSTT_E ∧ s.trap_count = CWSTT_L) →
        ∀ k, s.cw_stat.testBit k = true → (Timer3A_ISR SINE hw s).cw_stat.testBit k = true) ∧
      (s.paddle_key_mode = 0 → (Timer3A_ISR SINE hw s).cw_stat = s.cw_stat)) ∧
    (∀ x : Nat, x ||| CW_GS ≠ CW_RS) := by
  obtain ⟨t1, t2⟩ := Timer3A_ISR_handshake SINE hw s
  obtain ⟨e1, e2, e3⟩ := handshake_entry_stat SINE hw s
  obtain ⟨k1, k2⟩ := status_handshake_spec (handshake_entry SINE hw s)
  refine ⟨e1, ?_, ?_, or_CW_GS_ne⟩
  · intro h
    obtain ⟨a1, a2⟩ := k1 (by rw [e1]; exact h)
    refine ⟨by rw [t1, a1], ?_, by rw [t2, a2]⟩
    rw [t1, a1]
    exact or_CW_GS_ne _
  · intro h
    have a := k2 (by rw [e1]; exact h)
    refine ⟨by rw [t1, a, e1], a, by rw [t2, a], by rw [t2, a]; exact e2, ?_, ?_⟩
    · intro hn
      rw [t2, a]
      by_cases hm : s.paddle_key_mode = 0
      · rw [e3 hm]
        exact flags_kept_refl _
      · have hn2 : ¬ (s.trap_word = CWSTT_E ∧ s.trap_count = CWSTT_L) :=
          fun hc => hn ⟨hm, hc.1, hc.2⟩
        have hf := pdl_entry_flags SINE hw s hn2
        simp only [handshake_entry, if_neg hm]
        exact hf
    · intro hm
      rw [t2, a]
      exact e3 hm

set_option maxRecDepth 100000 in
/-- Witness of C16 as amended: a letter space with the auto-space toggle trapped
and an overrun flagged.  With a request posted the reply is the overrun, the
toggle and the got-status flag, and the status register is cleared; without a
request the overrun flag stays in the status register.  At a letter space with
the letter (5, 3) trapped and no request, auto-space on, `CW_ST` stays set. -/
theorem status_handshake_tick_witness :
    (Timer3A_ISR (fun _ => 0) released_hw (toggle_regs CW_RS)).cw_astat =
      (handshake_entry (fun _ => 0) released_hw (toggle_regs CW_RS)).cw_stat ||| CW_GS ∧
    (handshake_entry (fun _ => 0) released_hw (toggle_regs CW_RS)).cw_stat = CW_OR ||| CW_STC ∧
    (Timer3A_ISR (fun _ => 0) released_hw (toggle_regs CW_RS)).cw_stat =
      (handshake_entry (fun _ => 0) released_hw (toggle_regs CW_RS)).cw_stat &&& CW_ST ∧
    (Timer3A_ISR (fun _ => 0) released_hw (toggle_regs 0)).cw_astat = 0 ∧
    (Timer3A_ISR (fun _ => 0) released_hw (toggle_regs 0)).cw_stat =
      (handshake_entry (fun _ => 0) released_hw (toggle_regs 0)).cw_stat ∧
    (letter_regs 5 3 0 0 CW_ST).cw_stat.testBit 3 = true ∧
    (Timer3A_ISR (fun _ => 0) released_hw (letter_regs 5 3 0 0 CW_ST)).cw_stat.testBit 3 = true :=
  ⟨((status_handshake_tick (fun _ => 0) released_hw (toggle_regs CW_RS)).2.1 rfl).1,
    by decide,
    ((status_handshake_tick (fun _ => 0) released_hw (toggle_regs CW_RS)).2.1 rfl).2.2,
    ((status_handshake_tick (fun _ => 0) released_hw (toggle_regs 0)).2.2.1 (by decide)).1,
    ((status_handshake_tick (fun _ => 0) released_hw (toggle_regs 0)).2.2.1 (by decide)).2.2.1,
    by decide,
    ((status_handshake_tick (fun _ => 0) released_hw (letter_regs 5 3 0 0 CW_ST)).2.2.1
      (by decide)).2.2.2.2.1 (by decide) 3 (by decide)⟩

set_option maxRecDepth 100000 in
/-- Counterexample to C16 as stated: a tick that finds no request
(`cw_astat = 0`, not `CW_RS`) at a letter space of the paddle decoder with the
auto-space toggle pair trapped.  The status register holds `CW_ST` and `CW_OR`
(0x88) before the tick and `CW_OR` and `CW_STC` (0x90) after it: the status flag
`CW_ST` is cleared, while `cw_astat` is unchanged. -/
theorem status_handshake_tick_counterexample :
    (toggle_regs 0).paddle_key_mode ≠ 0 ∧ (toggle_regs 0).cw_astat ≠ CW_RS ∧
    (toggle_regs 0).trap_word = CWSTT_E ∧ (toggle_regs 0).trap_count = CWSTT_L ∧
    (toggle_regs 0).cw_stat = 0x88 ∧ (toggle_regs 0).cw_stat &&& CW_ST ≠ 0 ∧
    (Timer3A_ISR (fun _ => 0) released_hw (toggle_regs 0)).cw_astat = (toggle_regs 0).cw_astat ∧
    (Timer3A_ISR (fun _ => 0) released_hw (toggle_regs 0)).cw_stat = 0x90 ∧
    (Timer3A_ISR (fun _ => 0) released_hw (toggle_regs 0)).cw_stat &&& CW_ST = 0 := by
  refine ⟨by decide, by decide, by decide, by decide, by decide, by decide, by decide,
    by decide, by decide⟩

/-! ## Theorems: the trap registers and the keyed elements -/

theorem key_view_eq {s t : State} (h : key_view t = key_view s) :
    t.delph1 = s.delph1 ∧ t.trap_bit = s.trap_bit ∧ t.trap_word = s.trap_word ∧
    t.trap_count = s.trap_count ∧ t.dit_time_reg = s.dit_time_reg ∧
    t.dah_time_reg = s.dah_time_reg := by
  simp only [key_view, Prod.mk.injEq] at h
  exact h

/-- The stages of a paddle-mode tick that touch neither the tone, nor the trap
registers, nor the dit and dah times. -/
theorem stage_key_view (SINE : Nat → Int) (hw : PortB) :
    (∀ t : State, key_view (debounce_tick t) = key_view t) ∧
    (∀ t : State, key_view (status_handshake t) = key_view t) ∧
    (∀ t : State, key_view (tone_timer_tick t) = key_view t) ∧
    (∀ t : State, key_view (pdl_latch hw t) = key_view t) ∧
    (∀ t : State, key_view (pdl_expire t) = key_view t) ∧
    (∀ t : State, key_view (a_rampup (a_dds SINE t)) = key_view t) ∧
    (∀ t : State, key_view (pdl_edge hw t) = key_view t) ∧
    (∀ t : State, key_view (pdl_clear_edges (pdl_sample hw t)) = key_view t) ∧
    (∀ t : State, key_view (pdl_clear_pstate t) = key_view t) ∧
    (∀ t : State, key_view (didah_isr hw t) = key_view t) := by
  refine ⟨?_, ?_, ?_, ?_, ?_, ?_, ?_, ?_, ?_, ?_⟩
  · intro t
    simp only [debounce_tick, key_view, apply_ite State.delph1, apply_ite State.trap_bit,
      apply_ite State.trap_word, apply_ite State.trap_count, apply_ite State.dit_time_reg,
      apply_ite State.dah_time_reg, ite_self]
  · intro t
    simp only [status_handshake, key_view, apply_ite State.delph1, apply_ite State.trap_bit,
      apply_ite State.trap_word, apply_ite State.trap_count, apply_ite State.dit_time_reg,
      apply_ite State.dah_time_reg, ite_self]
  · intro t
    simp only [tone_timer_tick, key_view, apply_ite State.delph1, apply_ite State.trap_bit,
      apply_ite State.trap_word, apply_ite State.trap_count, apply_ite State.dit_time_reg,
      apply_ite State.dah_time_reg, ite_self]
  · intro t
    simp only [pdl_latch, key_view, apply_ite State.delph1, apply_ite State.trap_bit,
      apply_ite State.trap_word, apply_ite State.trap_count, apply_ite State.dit_time_reg,
      apply_ite State.dah_time_reg, ite_self]
  · intro t
    simp only [pdl_expire, key_view, apply_ite State.delph1, apply_ite State.trap_bit,
      apply_ite State.trap_word, apply_ite State.trap_count, apply_ite State.dit_time_reg,
      apply_ite State.dah_time_reg, ite_self]
  · intro t
    simp only [a_rampup, a_dds, key_view, apply_ite State.delph1, apply_ite State.trap_bit,
      apply_ite State.trap_word, apply_ite State.trap_count, apply_ite State.dit_time_reg,
      apply_ite State.dah_time_reg, ite_self]
  · intro t
    simp only [pdl_edge, key_view, apply_ite State.delph1, apply_ite State.trap_bit,
      apply_ite State.trap_word, apply_ite State.trap_count, apply_ite State.dit_time_reg,
      apply_ite State.dah_time_reg, ite_self]
  · intro t
    simp only [pdl_clear_edges, pdl_sample, key_view, apply_ite State.delph1,
      apply_ite State.trap_bit, apply_ite State.trap_word, apply_ite State.trap_count,
      apply_ite State.dit_time_reg, apply_ite State.dah_time_reg, ite_self]
  · intro t; rfl
  · intro t
    simp only [didah_isr, key_view, apply_ite State.delph1, apply_ite State.trap_bit,
      apply_ite State.trap_word, apply_ite State.trap_count, apply_ite State.dit_time_reg,
      apply_ite State.dah_time_reg, ite_self]

/-- The head of a paddle-mode tick: the first-edge block starts an element whose
trap bit is the kind its timer shows; without a first edge the tone and the trap
bit are as they were.  The trap word, the count and the times are untouched. -/
theorem key_head (s : State) (hdd : s.dit_time_reg ≠ s.dah_time_reg) :
    (pdl_initial (tone_timer_tick s)).trap_word = s.trap_word ∧
    (pdl_initial (tone_timer_tick s)).trap_count = s.trap_count ∧
    (pdl_initial (tone_timer_tick s)).silence_count = s.silence_count ∧
    (pdl_initial (tone_timer_tick s)).dit_time_reg = s.dit_time_reg ∧
    (pdl_initial (tone_timer_tick s)).dah_time_reg = s.dah_time_reg ∧
    (s.initial ≠ 0 →
      (pdl_initial (tone_timer_tick s)).trap_bit = tone_kind (pdl_initial (tone_timer_tick s)) ∧
      (pdl_initial (tone_timer_tick s)).trap_bit ≤ 1) ∧
    (s.initial = 0 →
      (pdl_initial (tone_timer_tick s)).trap_bit = s.trap_bit ∧
      (pdl_initial (tone_timer_tick s)).delph1 = s.delph1) := by
  obtain ⟨-, -, k3, -⟩ := stage_key_view (fun _ => 0) ⟨0, 0⟩
  obtain ⟨v1, v2, v3, v4, v5, v6⟩ := key_view_eq (k3 s)
  have hi : (tone_timer_tick s).initial = s.initial := by
    simp only [tone_timer_tick, apply_ite State.initial, ite_self]
  have hsc : (tone_timer_tick s).silence_count = s.silence_count := by
    simp only [tone_timer_tick, apply_ite State.silence_count, ite_self]
  generalize tone_timer_tick s = x at v1 v2 v3 v4 v5 v6 hi hsc
  have hddx : x.dit_time_reg ≠ x.dah_time_reg := by rw [v5, v6]; exact hdd
  refine ⟨?_, ?_, ?_, ?_, ?_, ?_, ?_⟩
  · rw [← v3]; simp only [pdl_initial, apply_ite State.trap_word, ite_self]
  · rw [← v4]; simp only [pdl_initial, apply_ite State.trap_count, ite_self]
  · rw [← hsc]; simp only [pdl_initial, apply_ite State.silence_count, ite_self]
  · rw [← v5]; simp only [pdl_initial, apply_ite State.dit_time_reg, ite_self]
  · rw [← v6]; simp only [pdl_initial, apply_ite State.dah_time_reg, ite_self]
  · intro h
    have hx : x.initial ≠ 0 := by rw [hi]; exact h
    rw [pdl_initial, if_pos hx]
    dsimp only
    by_cases hd : x.initial &&& x.dit_port ≠ 0
    · rw [if_pos hd]
      refine ⟨?_, Nat.zero_le _⟩
      show 0 = tone_kind _
      rw [tone_kind]
      exact (if_neg hddx).symm
    · rw [if_neg hd]
      refine ⟨?_, Nat.le_refl _⟩
      show 1 = tone_kind _
      rw [tone_kind]
      exact (if_pos rfl).symm
  · intro h
    have hx : ¬ (x.initial ≠ 0) := by rw [hi]; exact fun hc => hc h
    rw [pdl_initial, if_neg hx]
    exact ⟨v2, v1⟩

/-- Decay shaping: the tone is switched off exactly in the step that traps the
element; otherwise the tone and the trap registers stay as they are. -/
theorem key_decay (r : State) :
    (pdl_decay r).trap_bit = r.trap_bit ∧ (pdl_decay r).dit_time_reg = r.dit_time_reg ∧
    (pdl_decay r).dah_time_reg = r.dah_time_reg ∧
    (((pdl_decay r).delph1 = r.delph1 ∧ (pdl_decay r).trap_word = r.trap_word ∧
        (pdl_decay r).trap_count = r.trap_count) ∨
      ((pdl_decay r).delph1 = 0 ∧
        (pdl_decay r).trap_word = (r.trap_word <<< 1) % 65536 ||| (r.trap_bit &&& 0x01) ∧
        (pdl_decay r).trap_count =
          (if r.trap_count < MAX_SPACE_COUNT then r.trap_count + 1 else r.trap_count))) := by
  refine ⟨?_, ?_, ?_, ?_⟩
  · simp only [pdl_decay, trap_element, apply_ite State.trap_bit, ite_self]
  · simp only [pdl_decay, trap_element, apply_ite State.dit_time_reg, ite_self]
  · simp only [pdl_decay, trap_element, apply_ite State.dah_time_reg, ite_self]
  · simp only [pdl_decay, trap_element, apply_ite State.delph1, apply_ite State.trap_word,
      apply_ite State.trap_count]
    split_ifs <;> first
      | exact Or.inl ⟨rfl, rfl, rfl⟩
      | exact Or.inr ⟨rfl, rfl, rfl⟩

/-- Tone-on processing: the tick either leaves the tone and the trap registers
as they are, or switches the tone off and traps the element with the trap bit
as it stands; the trap bit and the times are untouched. -/
theorem key_tone (SINE : Nat → Int) (hw : PortB) (a : State) :
    (pdl_tone SINE hw a).trap_bit = a.trap_bit ∧
    (pdl_tone SINE hw a).dit_time_reg = a.dit_time_reg ∧
    (pdl_tone SINE hw a).dah_time_reg = a.dah_time_reg ∧
    (((pdl_tone SINE hw a).delph1 = a.delph1 ∧ (pdl_tone SINE hw a).trap_word = a.trap_word ∧
        (pdl_tone SINE hw a).trap_count = a.trap_count) ∨
      ((pdl_tone SINE hw a).delph1 = 0 ∧
        (pdl_tone SINE hw a).trap_word = (a.trap_word <<< 1) % 65536 ||| (a.trap_bit &&& 0x01) ∧
        (pdl_tone SINE hw a).trap_count =
          (if a.trap_count < MAX_SPACE_COUNT then a.trap_count + 1 else a.trap_count))) := by
  obtain ⟨-, -, -, k4, k5, k6, -⟩ := stage_key_view SINE hw
  have hv : key_view (a_rampup (a_dds SINE (pdl_expire (pdl_latch hw a)))) = key_view a := by
    rw [k6, k5, k4]
  rw [pdl_tone]
  generalize a_rampup (a_dds SINE (pdl_expire (pdl_latch hw a))) = r at hv ⊢
  obtain ⟨v1, v2, v3, v4, v5, v6⟩ := key_view_eq hv
  obtain ⟨d1, d2, d3, d4⟩ := key_decay r
  rw [d1, d2, d3, v2, v5, v6]
  refine ⟨rfl, rfl, rfl, ?_⟩
  rw [v1, v2, v3, v4] at d4
  exact d4

/-- The word-space step touches neither the tone, nor the trap registers, nor
the times. -/
theorem key_word_space (y : State) : key_view (pdl_word_space y) = key_view y := by
  simp only [pdl_word_space, cw_push, key_view, apply_ite State.delph1, apply_ite State.trap_bit,
    apply_ite State.trap_word, apply_ite State.trap_count, apply_ite State.dit_time_reg,
    apply_ite State.dah_time_reg, ite_self]

/-- The letter-space step clears the trap registers and touches neither the
tone nor the times. -/
theorem key_letter_space (y : State) :
    (pdl_letter_space y).delph1 = y.delph1 ∧ (pdl_letter_space y).trap_bit = 0 ∧
    (pdl_letter_space y).trap_word = 0 ∧ (pdl_letter_space y).trap_count = 0 ∧
    (pdl_letter_space y).dit_time_reg = y.dit_time_reg ∧
    (pdl_letter_space y).dah_time_reg = y.dah_time_reg := by
  simp only [pdl_letter_space, cw_push, apply_ite State.delph1, apply_ite State.dit_time_reg,
    apply_ite State.dah_time_reg, ite_self, and_self]

/-- Counting silence: the trap registers are cleared exactly when the silence
counter reaches `LETTER_SPACE`, and are untouched otherwise; the tone and the
times are untouched. -/
theorem key_silence (x : State) (h8 : x.silence_count < 256) :
    (pdl_silence x).delph1 = x.delph1 ∧ (pdl_silence x).dit_time_reg = x.dit_time_reg ∧
    (pdl_silence x).dah_time_reg = x.dah_time_reg ∧
    (x.silence_count + 1 = LETTER_SPACE →
      (pdl_silence x).trap_word = 0 ∧ (pdl_silence x).trap_count = 0 ∧
      (pdl_silence x).trap_bit = 0 ∧ (pdl_silence x).silence_count = LETTER_SPACE) ∧
    (x.silence_count + 1 ≠ LETTER_SPACE →
      (pdl_silence x).trap_word = x.trap_word ∧ (pdl_silence x).trap_count = x.trap_count ∧
      (pdl_silence x).trap_bit = x.trap_bit ∧ (pdl_silence x).silence_count ≠ LETTER_SPACE) := by
  have hl2 : LETTER_SPACE = 2 := rfl
  refine ⟨?_, ?_, ?_, ?_, ?_⟩
  · exact (pdl_silence_count x).2.2.1
  · simp only [pdl_silence, pdl_word_space, pdl_letter_space, cw_push,
      apply_ite State.dit_time_reg, ite_self]
  · simp only [pdl_silence, pdl_word_space, pdl_letter_space, cw_push,
      apply_ite State.dah_time_reg, ite_self]
  · intro hs
    obtain ⟨l1, l2, l3, l4⟩ := pdl_silence_letter_regs x hs
    exact ⟨l1, l2, l3, l4⟩
  · intro hs
    have hsc := (pdl_silence_count x).2.1
    have hmod : (x.silence_count + 1) % 256 ≠ LETTER_SPACE := by
      rw [hl2] at hs ⊢
      omega
    have hw := key_word_space
      { x with tone_timer := x.dit_time_reg, silence_count := (x.silence_count + 1) % 256 }
    obtain ⟨-, -, -, -, -, f6, -⟩ := pdl_word_space_frame
      { x with tone_timer := x.dit_time_reg, silence_count := (x.silence_count + 1) % 256 }
    have hv : key_view (pdl_silence x) = key_view x := by
      rw [pdl_silence]
      dsimp only
      generalize pdl_word_space
        { x with tone_timer := x.dit_time_reg, silence_count := (x.silence_count + 1) % 256 } = w
        at hw f6
      have f6b : w.silence_count = (x.silence_count + 1) % 256 := f6
      by_cases hc : x.silence_count ≥ WORD_SPACE
      · rw [if_pos hc, if_neg (by rw [f6b]; exact hmod)]
        exact hw
      · rw [if_neg hc, if_neg hmod]
        rfl
    obtain ⟨-, v2, v3, v4, -, -⟩ := key_view_eq hv
    exact ⟨v3, v4, v2, by rw [hsc]; exact hmod⟩

/-- An element started with trap bit `b` and element timer `T`, where `b` is
the kind the timer shows: the outcome of the gap block. -/
theorem key_started (x u : State) (b : Nat) (hb : b ≤ 1) (h2 : u.trap_bit = b) (h3 : tone_kind u = b)
    (h4 : u.trap_word = x.trap_word) (h5 : u.trap_count = x.trap_count)
    (h6 : u.silence_count = x.silence_count) :
    u.trap_bit ≤ 1 ∧
    ((u.delph1 ≠ 0 ∧ u.trap_bit = tone_kind u ∧ u.trap_word = x.trap_word ∧
        u.trap_count = x.trap_count) ∨
      (u.delph1 = 0 ∧ u.trap_word = x.trap_word ∧ u.trap_count = x.trap_count ∧
        ¬ (x.silence_count + 1 = LETTER_SPACE ∧ u.silence_count = LETTER_SPACE)) ∨
      (u.delph1 = 0 ∧ u.trap_word = 0 ∧ u.trap_count = 0 ∧
        x.silence_count + 1 = LETTER_SPACE ∧ u.silence_count = LETTER_SPACE)) := by
  refine ⟨by rw [h2]; exact hb, ?_⟩
  by_cases ht : u.delph1 = 0
  · refine Or.inr (Or.inl ⟨ht, h4, h5, ?_⟩)
    rw [h6]
    intro hc
    omega
  · exact Or.inl ⟨ht, by rw [h2, h3], h4, h5⟩

/-- The gap block from a state with the tone off: it starts an element, whose
trap bit is the kind its timer shows, or counts silence, which clears the trap
exactly when the silence counter reaches `LETTER_SPACE`. -/
theorem key_start (x : State) (hd0 : x.delph1 = 0) (hb : x.trap_bit ≤ 1)
    (hdd : x.dit_time_reg ≠ x.dah_time_reg) (h8 : x.silence_count < 256) :
    (pdl_start x).dit_time_reg = x.dit_time_reg ∧
    (pdl_start x).dah_time_reg = x.dah_time_reg ∧
    (pdl_start x).trap_bit ≤ 1 ∧
    (((pdl_start x).delph1 ≠ 0 ∧ (pdl_start x).trap_bit = tone_kind (pdl_start x) ∧
        (pdl_start x).trap_word = x.trap_word ∧ (pdl_start x).trap_count = x.trap_count) ∨
      ((pdl_start x).delph1 = 0 ∧ (pdl_start x).trap_word = x.trap_word ∧
        (pdl_start x).trap_count = x.trap_count ∧
        ¬ (x.silence_count + 1 = LETTER_SPACE ∧ (pdl_start x).silence_count = LETTER_SPACE)) ∨
      ((pdl_start x).delph1 = 0 ∧ (pdl_start x).trap_word = 0 ∧ (pdl_start x).trap_count = 0 ∧
        x.silence_count + 1 = LETTER_SPACE ∧ (pdl_start x).silence_count = LETTER_SPACE)) := by
  have kdit : ∀ T, T = x.dit_time_reg → (if T = x.dah_time_reg then 1 else 0) = 0 := by
    intro T hT; rw [hT, if_neg hdd]
  have kdah : ∀ T, T = x.dah_time_reg → (if T = x.dah_time_reg then 1 else 0) = 1 := by
    intro T hT; rw [hT, if_pos rfl]
  rw [pdl_start]
  by_cases c1 : x.pstate = x.dit_port ||| x.dah_port
  · rw [if_pos c1, pdl_start_opposite]
    dsimp only
    rcases Nat.le_one_iff_eq_zero_or_eq_one.mp hb with h0 | h1
    · have e : (x.trap_bit ^^^ 1) % 256 = 1 := by rw [h0]; decide
      rw [e, if_pos (by decide)]
      refine ⟨rfl, rfl, ?_⟩
      exact key_started x _ 1 (Nat.le_refl _) rfl (kdah _ rfl) rfl rfl rfl
    · have e : (x.trap_bit ^^^ 1) % 256 = 0 := by rw [h1]; decide
      rw [e, if_neg (by decide)]
      refine ⟨rfl, rfl, ?_⟩
      exact key_started x _ 0 (Nat.zero_le _) rfl (kdit _ rfl) rfl rfl rfl
  · rw [if_neg c1]
    by_cases c2 : x.pstate = x.dit_port
    · rw [if_pos c2]
      refine ⟨rfl, rfl, ?_⟩
      exact key_started x _ 0 (Nat.zero_le _) rfl (kdit _ rfl) rfl rfl rfl
    · rw [if_neg c2]
      by_cases c3 : x.pstate = x.dah_port
      · rw [if_pos c3]
        refine ⟨rfl, rfl, ?_⟩
        exact key_started x _ 1 (Nat.le_refl _) rfl (kdah _ rfl) rfl rfl rfl
      · rw [if_neg c3]
        obtain ⟨s1, s2, s3, s4, s5⟩ := key_silence x h8
        refine ⟨s2, s3, ?_, ?_⟩
        · by_cases hs : x.silence_count + 1 = LETTER_SPACE
          · rw [(s4 hs).2.2.1]; exact Nat.zero_le _
          · rw [(s5 hs).2.2.1]; exact hb
        · by_cases hs : x.silence_count + 1 = LETTER_SPACE
          · obtain ⟨q1, q2, -, q4⟩ := s4 hs
            exact Or.inr (Or.inr ⟨by rw [s1, hd0], q1, q2, hs, q4⟩)
          · obtain ⟨q1, q2, -, -⟩ := s5 hs
            exact Or.inr (Or.inl ⟨by rw [s1, hd0], q1, q2, fun hc => hs hc.1⟩)

/-- Tone-off processing from a state with the tone off: the tick starts an
element, whose trap bit is the kind its timer shows, or leaves the trap as it
is, or clears it, the last exactly when the silence counter reaches
`LETTER_SPACE`. -/
theorem key_space (hw : PortB) (a : State) (hd0 : a.delph1 = 0) (hb : a.trap_bit ≤ 1)
    (hdd : a.dit_time_reg ≠ a.dah_time_reg) (h8 : a.silence_count < 256) :
    (pdl_space hw a).dit_time_reg = a.dit_time_reg ∧
    (pdl_space hw a).dah_time_reg = a.dah_time_reg ∧
    (pdl_space hw a).trap_bit ≤ 1 ∧
    (((pdl_space hw a).delph1 ≠ 0 ∧ (pdl_space hw a).trap_bit = tone_kind (pdl_space hw a) ∧
        (pdl_space hw a).trap_word = a.trap_word ∧ (pdl_space hw a).trap_count = a.trap_count) ∨
      ((pdl_space hw a).delph1 = 0 ∧ (pdl_space hw a).trap_word = a.trap_word ∧
        (pdl_space hw a).trap_count = a.trap_count ∧
        ¬ (a.silence_count + 1 = LETTER_SPACE ∧
          (pdl_space hw a).silence_count = LETTER_SPACE)) ∨
      ((pdl_space hw a).delph1 = 0 ∧ (pdl_space hw a).trap_word = 0 ∧
        (pdl_space hw a).trap_count = 0 ∧ a.silence_count + 1 = LETTER_SPACE ∧
        (pdl_space hw a).silence_count = LETTER_SPACE)) := by
  obtain ⟨-, -, -, -, -, -, k7, k8, -⟩ := stage_key_view (fun _ => 0) hw
  have he := k7 a
  have hes : (pdl_edge hw a).silence_count = a.silence_count := by
    simp only [pdl_edge, apply_ite State.silence_count, ite_self]
  rw [pdl_space, pdl_gap_check]
  generalize pdl_edge hw a = e at he hes ⊢
  obtain ⟨e1, e2, e3, e4, e5, e6⟩ := key_view_eq he
  by_cases ht : e.tone_timer = 0
  · rw [if_pos ht, pdl_gap]
    have hx := k8 e
    have hxs : (pdl_clear_edges (pdl_sample hw e)).silence_count = e.silence_count := by
      simp only [pdl_clear_edges, pdl_sample, apply_ite State.silence_count, ite_self]
    generalize pdl_clear_edges (pdl_sample hw e) = x at hx hxs ⊢
    obtain ⟨x1, x2, x3, x4, x5, x6⟩ := key_view_eq hx
    have q := key_start x (by rw [x1, e1, hd0]) (by rw [x2, e2]; exact hb)
      (by rw [x5, x6, e5, e6]; exact hdd) (by rw [hxs, hes]; exact h8)
    rw [x3, x4, x5, x6, hxs, e3, e4, e5, e6, hes] at q
    exact q
  · rw [if_neg ht]
    refine ⟨e5, e6, by rw [e2]; exact hb, Or.inr (Or.inl ⟨by rw [e1, hd0], e3, e4, ?_⟩)⟩
    rw [hes]
    intro hc
    have hl2 : LETTER_SPACE = 2 := rfl
    rw [hl2] at hc
    omega

/-- One paddle-mode run of `Timer3A_ISR` and the trap registers, with `a` the
state after the head of the tick.  With the tone on at `a`, the tick traps the
element, with the trap bit as it stands, exactly when it switches the tone off.
With the tone off at `a`, the tick traps nothing; it clears the trap registers
exactly when the silence counter reaches `LETTER_SPACE`, and an element it
starts has the trap bit of the kind its timer shows. -/
theorem key_tick (SINE : Nat → Int) (hw : PortB) (s : State) (hm : s.paddle_key_mode ≠ 0)
    (hdd : s.dit_time_reg ≠ s.dah_time_reg) (hb : s.trap_bit ≤ 1)
    (h8 : s.silence_count < 256) :
    (Timer3A_ISR SINE hw s).dit_time_reg = s.dit_time_reg ∧
    (Timer3A_ISR SINE hw s).dah_time_reg = s.dah_time_reg ∧
    (pdl_initial (tone_timer_tick s)).trap_bit ≤ 1 ∧
    ((pdl_initial (tone_timer_tick s)).delph1 ≠ 0 →
      (Timer3A_ISR SINE hw s).trap_bit = (pdl_initial (tone_timer_tick s)).trap_bit ∧
      (((Timer3A_ISR SINE hw s).delph1 = (pdl_initial (tone_timer_tick s)).delph1 ∧
          (Timer3A_ISR SINE hw s).trap_word = s.trap_word ∧
          (Timer3A_ISR SINE hw s).trap_count = s.trap_count) ∨
        ((Timer3A_ISR SINE hw s).delph1 = 0 ∧
          (Timer3A_ISR SINE hw s).trap_word =
            (s.trap_word <<< 1) % 65536 |||
              ((pdl_initial (tone_timer_tick s)).trap_bit &&& 0x01) ∧
          (Timer3A_ISR SINE hw s).trap_count =
            (if s.trap_count < MAX_SPACE_COUNT then s.trap_count + 1 else s.trap_count)))) ∧
    ((pdl_initial (tone_timer_tick s)).delph1 = 0 →
      (Timer3A_ISR SINE hw s).trap_bit ≤ 1 ∧
      (((Timer3A_ISR SINE hw s).delph1 ≠ 0 ∧
          (Timer3A_ISR SINE hw s).trap_bit = tone_kind (Timer3A_ISR SINE hw s) ∧
          (Timer3A_ISR SINE hw s).trap_word = s.trap_word ∧
          (Timer3A_ISR SINE hw s).trap_count = s.trap_count) ∨
        ((Timer3A_ISR SINE hw s).delph1 = 0 ∧ (Timer3A_ISR SINE hw s).trap_word = s.trap_word ∧
          (Timer3A_ISR SINE hw s).trap_count = s.trap_count ∧
          ¬ (s.silence_count + 1 = LETTER_SPACE ∧
            (Timer3A_ISR SINE hw s).silence_count = LETTER_SPACE)) ∨
        ((Timer3A_ISR SINE hw s).delph1 = 0 ∧ (Timer3A_ISR SINE hw s).trap_word = 0 ∧
          (Timer3A_ISR SINE hw s).trap_count = 0 ∧ s.silence_count + 1 = LETTER_SPACE ∧
          (Timer3A_ISR SINE hw s).silence_count = LETTER_SPACE))) := by
  obtain ⟨a1, a2, a3, a4, a5, a6, a7⟩ := key_head s hdd
  have hab : (pdl_initial (tone_timer_tick s)).trap_bit ≤ 1 := by
    by_cases hi : s.initial = 0
    · rw [(a7 hi).1]; exact hb
    · exact (a6 hi).2
  have ht : Timer3A_ISR SINE hw s =
      debounce_tick (status_handshake (pdl_tick SINE hw (pdl_initial (tone_timer_tick s)))) := by
    rw [Timer3A_ISR, if_neg hm]
  rw [ht]
  generalize pdl_initial (tone_timer_tick s) = a at a1 a2 a3 a4 a5 a6 a7 hab ⊢
  obtain ⟨k1, k2, -⟩ := stage_key_view SINE hw
  have htail : ∀ p : State,
      (debounce_tick (status_handshake p)).dit_time_reg = p.dit_time_reg ∧
      (debounce_tick (status_handshake p)).dah_time_reg = p.dah_time_reg ∧
      tone_kind (debounce_tick (status_handshake p)) = tone_kind p := by
    intro p
    have hv : key_view (debounce_tick (status_handshake p)) = key_view p := by rw [k1, k2]
    obtain ⟨-, -, -, -, v5, v6⟩ := key_view_eq hv
    obtain ⟨-, -, -, -, f5, -⟩ := tick_tail_frame p
    refine ⟨v5, v6, ?_⟩
    rw [tone_kind, tone_kind, f5, v6]
  have hdt : (pdl_tick SINE hw a).dit_time_reg = s.dit_time_reg ∧
      (pdl_tick SINE hw a).dah_time_reg = s.dah_time_reg := by
    rw [pdl_tick]
    by_cases hd : a.delph1 ≠ 0
    · rw [if_pos hd]
      obtain ⟨-, t2, t3, -⟩ := key_tone SINE hw a
      exact ⟨by rw [t2, a4], by rw [t3, a5]⟩
    · rw [if_neg hd]
      obtain ⟨t1, t2, -⟩ := key_space hw a (not_not.mp hd) hab (by rw [a4, a5]; exact hdd)
        (by rw [a3]; exact h8)
      exact ⟨by rw [t1, a4], by rw [t2, a5]⟩
  refine ⟨by rw [(htail _).1]; exact hdt.1, by rw [(htail _).2.1]; exact hdt.2, hab, ?_, ?_⟩
  · intro hd
    have hp : pdl_tick SINE hw a = pdl_tone SINE hw a := by rw [pdl_tick, if_pos hd]
    rw [hp]
    obtain ⟨t1, -, -, t4⟩ := key_tone SINE hw a
    obtain ⟨f1, f2, f3, -, -, f6, -⟩ := tick_tail_frame (pdl_tone SINE hw a)
    rw [f1, f2, f3, f6, ← a1, ← a2]
    exact ⟨t1, t4⟩
  · intro hd
    have hp : pdl_tick SINE hw a = pdl_space hw a := by
      rw [pdl_tick, if_neg (fun hc => hc hd)]
    rw [hp]
    obtain ⟨-, -, t3, t4⟩ := key_space hw a hd hab (by rw [a4, a5]; exact hdd)
      (by rw [a3]; exact h8)
    obtain ⟨f1, f2, f3, f4, -, f6, -⟩ := tick_tail_frame (pdl_space hw a)
    rw [f1, f2, f3, f4, f6, (htail _).2.2, ← a1, ← a2, ← a3]
    exact ⟨t3, t4⟩

theorem tone_kind_le (x : State) : tone_kind x ≤ 1 := by
  rw [tone_kind]
  split_ifs
  · exact Nat.le_refl _
  · exact Nat.zero_le _

theorem elements_value_snoc (l : List Nat) (b : Nat) :
    elements_value (l ++ [b]) = 2 * elements_value l + b := by
  simp only [elements_value, List.foldl_append, List.foldl_cons, List.foldl_nil]

/-- Trapping one more element bit into a word that holds at most fifteen. -/
theorem trap_word_snoc (l : List Nat) (b : Nat) (hl : ∀ x ∈ l, x ≤ 1) (hb : b ≤ 1)
    (hn : (l ++ [b]).length ≤ 16) :
    (elements_value l <<< 1) % 65536 ||| (b &&& 0x01) = elements_value (l ++ [b]) := by
  rw [List.length_append, List.length_singleton] at hn
  have h1 := elements_value_lt l hl
  have h2 : 2 ^ l.length ≤ 2 ^ 15 := Nat.pow_le_pow_right (by decide) (by omega)
  have h3 : (2 : Nat) ^ 15 = 32768 := by decide
  have e : elements_value l <<< 1 = 2 * elements_value l := by
    rw [Nat.shiftLeft_eq, Nat.pow_one, Nat.mul_comm]
  rw [e, Nat.mod_eq_of_lt (by omega), or_low_bit _ _ hb, elements_value_snoc]

/-- One paddle-mode run of `Timer3A_ISR` keeps the trap registers in step with
the keying log. -/
theorem key_tick_inv (SINE : Nat → Int) (hw : PortB) (s : State) (g : KeyLog)
    (h : KeyInv s g) : KeyInv (Timer3A_ISR SINE hw s) (key_log_tick SINE hw s g) := by
  obtain ⟨hm, hinv, hdd, hb, hc, hdone, hcur, hcnt, hword⟩ := h
  have h8 := hinv.1
  obtain ⟨t1, t2, hab, ton, toff⟩ := key_tick SINE hw s hm hdd hb h8
  obtain ⟨-, -, -, -, -, a6, a7⟩ := key_head s hdd
  have hinv2 := (Timer3A_ISR_ring SINE hw s hinv).2
  have hm2 : (Timer3A_ISR SINE hw s).paddle_key_mode ≠ 0 := by
    rw [Timer3A_ISR_mode]; exact hm
  have hdd2 : (Timer3A_ISR SINE hw s).dit_time_reg ≠ (Timer3A_ISR SINE hw s).dah_time_reg := by
    rw [t1, t2]; exact hdd
  have hg1 : ∃ g1 : KeyLog,
      (if s.initial ≠ 0 then { g with cur := tone_kind (pdl_initial (tone_timer_tick s)) }
        else g) = g1 ∧ g1.done = g.done ∧ g1.cur ≤ 1 ∧
      ((pdl_initial (tone_timer_tick s)).delph1 ≠ 0 →
        (pdl_initial (tone_timer_tick s)).trap_bit = g1.cur) := by
    by_cases hi : s.initial = 0
    · refine ⟨g, by rw [if_neg (not_not.mpr hi)], rfl, hc, ?_⟩
      intro hd
      rw [(a7 hi).1]
      apply hcur
      rw [← (a7 hi).2]
      exact hd
    · exact ⟨{ g with cur := tone_kind (pdl_initial (tone_timer_tick s)) }, by rw [if_pos hi],
        rfl, tone_kind_le _, fun _ => (a6 hi).1⟩
  obtain ⟨g1, e1, gd, gc, gcur⟩ := hg1
  have hl17 : MAX_SPACE_COUNT = 17 := rfl
  rw [key_log_tick, e1]
  by_cases hd : (pdl_initial (tone_timer_tick s)).delph1 ≠ 0
  · rw [if_pos hd]
    obtain ⟨b1, b2⟩ := ton hd
    rcases b2 with ⟨c1, c2, c3⟩ | ⟨c1, c2, c3⟩
    · have hne : ¬ ((Timer3A_ISR SINE hw s).delph1 = 0) := by rw [c1]; exact hd
      rw [if_neg hne]
      exact ⟨hm2, hinv2, hdd2, by rw [b1]; exact hab, gc, by rw [gd]; exact hdone,
        fun _ => by rw [b1]; exact gcur hd, by rw [c3, gd]; exact hcnt,
        by rw [c2, gd]; exact hword⟩
    · rw [if_pos c1]
      refine ⟨hm2, hinv2, hdd2, by rw [b1]; exact hab, gc, ?_, fun h0 => absurd c1 h0, ?_, ?_⟩
      · intro b hbm
        rcases List.mem_append.mp hbm with hx | hx
        · exact hdone b (by rw [← gd]; exact hx)
        · rw [List.mem_singleton.mp hx]; exact gc
      · show (Timer3A_ISR SINE hw s).trap_count = min (g1.done ++ [g1.cur]).length MAX_SPACE_COUNT
        rw [c3, hcnt, List.length_append, List.length_singleton, gd, hl17]
        split_ifs <;> omega
      · intro hl
        have hl2 : (g.done ++ [g1.cur]).length ≤ 16 := by rw [← gd]; exact hl
        have hl3 : g.done.length ≤ 16 := by
          rw [List.length_append, List.length_singleton] at hl2
          omega
        show (Timer3A_ISR SINE hw s).trap_word = elements_value (g1.done ++ [g1.cur])
        rw [c2, gcur hd, hword hl3, gd]
        exact trap_word_snoc g.done g1.cur hdone gc hl2
  · rw [if_neg hd]
    obtain ⟨b1, b2⟩ := toff (not_not.mp hd)
    rcases b2 with ⟨c1, c2, c3, c4⟩ | ⟨c1, c2, c3, c4⟩ | ⟨c1, c2, c3, c4, c5⟩
    · rw [if_pos c1]
      exact ⟨hm2, hinv2, hdd2, b1, tone_kind_le _, by rw [gd]; exact hdone, fun _ => c2,
        by rw [c4, gd]; exact hcnt, by rw [c3, gd]; exact hword⟩
    · rw [if_neg (fun hc => hc c1), if_neg c4]
      exact ⟨hm2, hinv2, hdd2, b1, gc, by rw [gd]; exact hdone, fun h0 => absurd c1 h0,
        by rw [c3, gd]; exact hcnt, by rw [c2, gd]; exact hword⟩
    · rw [if_neg (fun hc => hc c1), if_pos ⟨c4, c5⟩]
      refine ⟨hm2, hinv2, hdd2, b1, gc, ?_, fun h0 => absurd c1 h0, ?_, ?_⟩
      · intro b hbm
        exact absurd hbm (List.not_mem_nil b)
      · rw [c3]; rfl
      · intro _
        rw [c2]; rfl

/-- Every capture interrupt keeps the trap registers in step with the keying
log. -/
theorem key_event_inv (SINE : Nat → Int) (ev : IsrEvent) (s : State) (g : KeyLog)
    (h : KeyInv s g) : KeyInv (ev.run SINE s) (ev.log SINE s g) := by
  cases ev with
  | tick hw => exact key_tick_inv SINE hw s g h
  | edge hw =>
    obtain ⟨hm, hinv, hdd, hb, hc, hdone, hcur, hcnt, hword⟩ := h
    obtain ⟨-, -, -, -, -, -, -, -, -, k10⟩ := stage_key_view SINE hw
    obtain ⟨v1, v2, v3, v4, v5, v6⟩ := key_view_eq (k10 s)
    show KeyInv (didah_isr hw s) g
    exact ⟨by rw [didah_isr_mode]; exact hm, pdl_inv_congr (didah_isr_ring hw s) hinv,
      by rw [v5, v6]; exact hdd, by rw [v2]; exact hb, hc, hdone,
      fun h0 => by rw [v2]; exact hcur (by rw [← v1]; exact h0), by rw [v4]; exact hcnt,
      fun hl => by rw [v3]; exact hword hl⟩

/-- Along every sequence of capture interrupts the trap registers stay in step
with the keying log. -/
theorem key_run_inv (SINE : Nat → Int) :
    ∀ (evs : List IsrEvent) (s : State) (g : KeyLog),
      KeyInv s g → KeyInv (isr_run SINE evs s) (key_log_run SINE evs s g) := by
  intro evs
  induction evs with
  | nil => intro s g h; exact h
  | cons ev rest ih =>
    intro s g h
    exact ih _ _ (key_event_inv SINE ev s g h)

/-- After `morse_init` in paddle mode the trap registers agree with the empty
keying log. -/
theorem morse_init_key (pins : InitPins) (s0 : State)
    (hpm : (morse_init pins s0).2.paddle_key_mode ≠ 0) :
    KeyInv (morse_init pins s0).2 ⟨[], 0⟩ := by
  obtain ⟨-, -, -, r4, r5, -, r7, -⟩ := morse_init_regs pins s0
  have hdit : (morse_init pins s0).2.dit_time_reg = 600 := by
    simp only [morse_init, init_stw, set_ramp_rate, set_iambic_mode, timer3A_init,
      timer3B_init, apply_ite State.dit_time_reg, ite_self]
    rfl
  have hdah : (morse_init pins s0).2.dah_time_reg = 1800 := by
    simp only [morse_init, init_stw, set_ramp_rate, set_iambic_mode, timer3A_init,
      timer3B_init, apply_ite State.dah_time_reg, ite_self]
    rfl
  have hbit : (morse_init pins s0).2.trap_bit = 0 := by
    simp only [morse_init, init_stw, set_ramp_rate, set_iambic_mode, timer3A_init,
      timer3B_init, apply_ite State.trap_bit, ite_self]
  refine ⟨hpm, morse_init_inv pins s0, by rw [hdit, hdah]; decide, by rw [hbit]; decide,
    Nat.zero_le _, ?_, fun h0 => absurd r7 h0, by rw [r4]; rfl, fun _ => by rw [r5]; rfl⟩
  intro b hbm
  exact absurd hbm (List.not_mem_nil b)

/-- What the agreement with the keying log says of the trap registers. -/
theorem key_inv_trap (s : State) (g : KeyLog) (h : KeyInv s g) :
    TrapLogged s g := by
  obtain ⟨-, -, -, -, -, hdone, -, hcnt, hword⟩ := h
  refine ⟨hdone, hcnt, ?_⟩
  intro hl
  have hl17 : MAX_SPACE_COUNT = 17 := rfl
  refine ⟨?_, hword hl, ?_⟩
  · rw [hcnt, hl17]; omega
  · intro i hi
    rw [hword hl]
    exact elements_value_bits g.done hdone i hi

/-- C28: the paddle decoder's element counter saturates.  In every state
reachable from `morse_init` by capture interrupts `trap_count` lies between 0
and `MAX_SPACE_COUNT` = 17, and a tick changes the trap registers only by
trapping one element or by clearing them; the tick that ends the decay of an
element traps it.  After `n` ≤ 16 keyed elements from a cleared trap,
`trap_count = n` and `trap_word` holds the `n` elements with the most recent at
bit 0 (dit = 0, dah = 1); after any number of elements the count is
`min n 17`.  A letter space reached with `trap_count = 17` pushes nothing to
the element ring buffer and clears the trap.  The keyed elements are those of
the interrupt routine itself: along every sequence of `Timer3A_ISR` and
`didah_isr` runs from `morse_init` in paddle mode, the trap registers hold the
keying log of the run, which records one element for each tone burst the
routine ends, of the kind (dit = 0, dah = 1) of the element time the routine
loaded when it started the burst, and which a letter space empties; the same
holds from every state whose trap registers agree with a log. -/
theorem trap_count_saturates (SINE : Nat → Int) (pins : InitPins) (s0 : State)
    (evs : List IsrEvent) (hw : PortB) (bs : List Nat) (z s : State)
    (hbits : ∀ b ∈ bs, b ≤ 1) (hn : bs.length ≤ 16)
    (hz : z.trap_word = 0 ∧ z.trap_count = 0)
    (hg : GapTick hw s) (hports : PortsOk s) (hno : sensed hw s = 0)
    (hs : s.silence_count + 1 = LETTER_SPACE) (h17 : s.trap_count = MAX_SPACE_COUNT) :
    (0 ≤ (isr_run SINE evs (morse_init pins s0).2).trap_count ∧
      (isr_run SINE evs (morse_init pins s0).2).trap_count ≤ MAX_SPACE_COUNT) ∧
    TrapStep (isr_run SINE evs (morse_init pins s0).2)
      (Timer3A_ISR SINE hw (isr_run SINE evs (morse_init pins s0).2)) ∧
    (∀ u : State, DecayEnd u →
      (Timer3A_ISR SINE hw u).trap_word = (trap_element u).trap_word ∧
      (Timer3A_ISR SINE hw u).trap_count = (trap_element u).trap_count) ∧
    ((trap_elements bs z).trap_count = bs.length ∧
      (trap_elements bs z).trap_word = elements_value bs ∧
      ∀ i, i < bs.length →
        (trap_elements bs z).trap_word.testBit i = decide (bs.reverse.getD i 0 = 1)) ∧
    (∀ l : List Nat, (trap_elements l z).trap_count = min l.length MAX_SPACE_COUNT) ∧
    (ring_kept s (Timer3A_ISR SINE hw s) ∧ (Timer3A_ISR SINE hw s).cw_tail = s.cw_tail ∧
      (Timer3A_ISR SINE hw s).trap_word = 0 ∧ (Timer3A_ISR SINE hw s).trap_count = 0) ∧
    ((morse_init pins s0).2.paddle_key_mode ≠ 0 →
      ∀ l : List IsrEvent,
        TrapLogged (isr_run SINE l (morse_init pins s0).2)
          (key_log_run SINE l (morse_init pins s0).2 ⟨[], 0⟩)) ∧
    (∀ (q : State) (g : KeyLog), KeyInv q g →
      ∀ l : List IsrEvent,
        KeyInv (isr_run SINE l q) (key_log_run SINE l q g) ∧
        TrapLogged (isr_run SINE l q) (key_log_run SINE l q g)) := by
  have hinv := isr_run_inv SINE evs _ (morse_init_inv pins s0)
  obtain ⟨e1, e2⟩ := trap_elements_exact bs z 0 hbits hz.2 (by rw [hz.1]; decide) (by omega)
  have e3 : (trap_elements bs z).trap_word = elements_value bs := by
    rw [e2, hz.1]; rfl
  refine ⟨⟨Nat.zero_le _, hinv.2.2⟩, Timer3A_ISR_trap SINE hw _, ?_, ⟨?_, e3, ?_⟩, ?_,
    saturated_letter_tick SINE hw s hg hports hno hs h17, ?_, ?_⟩
  · intro u hu
    exact (decay_end_tick SINE hw u hu).2
  · rw [e1, Nat.zero_add]
  · intro i hi
    rw [e3]
    exact elements_value_bits bs hbits i hi
  · intro l
    rw [trap_elements_count l z (by rw [hz.2]; exact Nat.zero_le _), hz.2, Nat.zero_add]
  · intro hpm l
    exact key_inv_trap _ _ (key_run_inv SINE l _ _ (morse_init_key pins s0 hpm))
  · intro q g hk l
    exact ⟨key_run_inv SINE l q g hk, key_inv_trap _ _ (key_run_inv SINE l q g hk)⟩

set_option maxRecDepth 100000 in
/-- Witness of C28: three elements trapped from a cleared trap give the count 3
and the word 5; a letter space with the count at 17 pushes nothing; after
`morse_init` with the paddle strap open the trap registers hold the keying log;
and the tick that ends the decay of a dah keyed after a dah and a dit appends
the dah to the log (1, 0), so that the trap registers hold (1, 0, 1). -/
theorem trap_count_saturates_witness :
    ((∀ b ∈ [1, 0, 1], b ≤ 1) ∧ [1, 0, 1].length ≤ 16 ∧
      (zero_regs.trap_word = 0 ∧ zero_regs.trap_count = 0) ∧
      GapTick released_hw (letter_regs 5 17 0 0 0) ∧ PortsOk (letter_regs 5 17 0 0 0) ∧
      sensed released_hw (letter_regs 5 17 0 0 0) = 0 ∧
      (letter_regs 5 17 0 0 0).silence_count + 1 = LETTER_SPACE ∧
      (letter_regs 5 17 0 0 0).trap_count = MAX_SPACE_COUNT) ∧
    (trap_elements [1, 0, 1] zero_regs).trap_count = 3 ∧
    (trap_elements [1, 0, 1] zero_regs).trap_word = 5 ∧
    ring_kept (letter_regs 5 17 0 0 0)
      (Timer3A_ISR (fun _ => 0) released_hw (letter_regs 5 17 0 0 0)) ∧
    (Timer3A_ISR (fun _ => 0) released_hw (letter_regs 5 17 0 0 0)).trap_count = 0 ∧
    DecayEnd decay_end_regs ∧
    (Timer3A_ISR (fun _ => 0) released_hw decay_end_regs).trap_word = 5 ∧
    (Timer3A_ISR (fun _ => 0) released_hw decay_end_regs).trap_count = 3 ∧
    (morse_init paddle_pins zero_regs).2.paddle_key_mode ≠ 0 ∧
    TrapLogged (isr_run (fun _ => 0) [IsrEvent.tick released_hw] (morse_init paddle_pins zero_regs).2)
      (key_log_run (fun _ => 0) [IsrEvent.tick released_hw] (morse_init paddle_pins zero_regs).2
        ⟨[], 0⟩) ∧
    KeyInv decay_end_regs ⟨[1, 0], 1⟩ ∧
    (key_log_run (fun _ => 0) [IsrEvent.tick released_hw] decay_end_regs ⟨[1, 0], 1⟩).done =
      [1, 0, 1] ∧
    TrapLogged (isr_run (fun _ => 0) [IsrEvent.tick released_hw] decay_end_regs)
      (key_log_run (fun _ => 0) [IsrEvent.tick released_hw] decay_end_regs ⟨[1, 0], 1⟩) := by
  have hb : ∀ b ∈ [1, 0, 1], b ≤ 1 := by decide
  have hg : GapTick released_hw (letter_regs 5 17 0 0 0) :=
    ⟨show PADL_KEY ≠ 0 by decide, rfl, rfl, show 1 ≤ 1 by decide,
      Or.inl (show 1 < LETTER_SPACE by decide)⟩
  have hp : PortsOk (letter_regs 5 17 0 0 0) := Or.inl ⟨rfl, rfl⟩
  have hno : sensed released_hw (letter_regs 5 17 0 0 0) = 0 := by decide
  have hde : DecayEnd decay_end_regs :=
    ⟨show PADL_KEY ≠ 0 by decide, rfl, show TONE_600 ≠ 0 by decide, show 2 ≤ 603 by decide,
      rfl, rfl, rfl⟩
  have hpm : (morse_init paddle_pins zero_regs).2.paddle_key_mode ≠ 0 := by decide
  have hk : KeyInv decay_end_regs ⟨[1, 0], 1⟩ :=
    ⟨show PADL_KEY ≠ 0 by decide,
      ⟨show 0 < 256 by decide, show 0 < CW_BUFF_END by decide,
        show 2 ≤ MAX_SPACE_COUNT by decide⟩,
      show (600 : Nat) ≠ 1800 by decide, show 1 ≤ 1 by decide, show 1 ≤ 1 by decide,
      by decide, fun _ => rfl, by decide, fun _ => by decide⟩
  have h := trap_count_saturates (fun _ => 0) paddle_pins zero_regs
    [IsrEvent.tick released_hw] released_hw [1, 0, 1] zero_regs (letter_regs 5 17 0 0 0)
    hb (by decide) ⟨rfl, rfl⟩ hg hp hno rfl rfl
  obtain ⟨-, -, h3, ⟨h4, h5, -⟩, -, ⟨h6, -, -, h7⟩, h8, h9⟩ := h
  obtain ⟨d1, d2⟩ := h3 decay_end_regs hde
  exact ⟨⟨hb, by decide, ⟨rfl, rfl⟩, hg, hp, hno, rfl, rfl⟩, h4, h5.trans (by decide), h6, h7,
    hde, d1.trans (by decide), d2.trans (by decide), hpm, h8 hpm _, hk, by decide,
    (h9 _ _ hk _).2⟩

end Morse
